import Mathlib

/-!
# go-wdrlib: the ALTO message library (`altomsgs`) and `wdrlib`

A shallow embedding of the Go sources under `src/go`.

Conventions of the embedding

* A Go `map[K]V` is an association list `List (K × V)` read with `GoMap.get`
  and written with `GoMap.set` (replace in place, else append).  A nil map and
  an empty map are both `[]`; a nil slice and an empty slice are both `[]`.
* A byte is a `Nat`; `net.IP` and `net.IPMask` are byte lists of any length.
* The functions of Go's standard package `net` that the repository calls
  (`ParseCIDR`, `ParseIP`, `IP.To4`, `IP.Equal`, `IP.Mask`, `IP.String`,
  `IPNet.Contains`, `IPNet.String`, `IPMask.Size`, `CIDRMask`) are transcribed
  in the namespace `net`.
* Methods with a pointer receiver take the receiver and return the new one.
-/

set_option autoImplicit false

/-! ## Go maps -/

namespace GoMap

variable {κ β : Type}

/-- The Go expression `v, ok := m[k]`. -/
def get [DecidableEq κ] : List (κ × β) → κ → Option β
  | [], _ => none
  | (k', v) :: rest, k => if k' = k then some v else get rest k

/-- The Go statement `m[k] = v`. -/
def set [DecidableEq κ] : List (κ × β) → κ → β → List (κ × β)
  | [], k, v => [(k, v)]
  | (k', v') :: rest, k, v =>
    if k' = k then (k, v) :: rest else (k', v') :: set rest k v

/-- The keys visited by `for k := range m`. -/
def keys (m : List (κ × β)) : List κ := m.map Prod.fst

end GoMap

/-! ## The parts of Go's package `net` used by the repository -/

namespace net

abbrev IP := List Nat
abbrev IPMask := List Nat

/-- The Go type `net.IPNet`. -/
structure IPNet where
  IP : IP
  Mask : IPMask
deriving DecidableEq, Repr

def IPv4len : Nat := 4
def IPv6len : Nat := 16

def v4InV6Prefix : List Nat := [0, 0, 0, 0, 0, 0, 0, 0, 0, 0, 0xff, 0xff]

/-- `ip.To4()`; `none` is the nil result. -/
def To4 (ip : IP) : Option IP :=
  if ip.length = IPv4len then some ip
  else if ip.length = IPv6len ∧ ip.take 12 = v4InV6Prefix then some (ip.drop 12)
  else none

/-- `ip.Equal(x)`. -/
def IP.Equal (ip x : IP) : Bool :=
  if ip.length = x.length then decide (ip = x)
  else if ip.length = IPv4len ∧ x.length = IPv6len then
    decide (x.take 12 = v4InV6Prefix) && decide (ip = x.drop 12)
  else if ip.length = IPv6len ∧ x.length = IPv4len then
    decide (ip.take 12 = v4InV6Prefix) && decide (ip.drop 12 = x)
  else false

/-- The loop of `CIDRMask`: `l` bytes still to write, `n` one-bits left. -/
def cidrMaskBytes : Nat → Nat → List Nat
  | 0, _ => []
  | l + 1, n =>
    if n ≥ 8 then 0xff :: cidrMaskBytes l (n - 8)
    else (0xff - (0xff >>> n)) :: cidrMaskBytes l 0

/-- `net.CIDRMask(ones, bits)`; `none` is the nil result. -/
def CIDRMask (ones bits : Nat) : Option IPMask :=
  if bits ≠ 8 * IPv4len ∧ bits ≠ 8 * IPv6len then none
  else if ones > bits then none
  else some (cidrMaskBytes (bits / 8) ones)

def allFF (b : List Nat) : Bool := b.all (fun c => c == 0xff)

/-- `ip.Mask(mask)`; `none` is the nil result. -/
def IP.Mask (ip : IP) (mask : IPMask) : Option IP :=
  let mask := if mask.length = IPv6len ∧ ip.length = IPv4len ∧ allFF (mask.take 12) = true
    then mask.drop 12 else mask
  let ip := if mask.length = IPv4len ∧ ip.length = IPv6len ∧ ip.take 12 = v4InV6Prefix
    then ip.drop 12 else ip
  if ip.length ≠ mask.length then none
  else some (List.zipWith (fun a b => a &&& b) ip mask)

/-- The inner loop `for v&0x80 != 0 { n++; v <<= 1 }` of `simpleMaskLength` on a
byte `v`: the number of leading one-bits and what is left of `v`. Eight steps
empty any byte. -/
def countLeadingOnes : Nat → Nat → Nat × Nat
  | 0, v => (0, v)
  | fuel + 1, v =>
    if v &&& 0x80 ≠ 0 then
      let r := countLeadingOnes fuel ((v <<< 1) % 256)
      (r.1 + 1, r.2)
    else (0, v)

/-- `simpleMaskLength(mask)`; `none` is the result -1. -/
def simpleMaskLength : IPMask → Option Nat
  | [] => some 0
  | v :: rest =>
    if v = 0xff then (simpleMaskLength rest).map (fun n => n + 8)
    else
      let r := countLeadingOnes 8 v
      if r.2 ≠ 0 then none
      else if rest.any (fun b => b != 0) then none
      else some r.1

/-- `m.Size()`, as the pair (ones, bits). -/
def IPMask.Size (m : IPMask) : Nat × Nat :=
  match simpleMaskLength m with
  | none => (0, 0)
  | some ones => (ones, m.length * 8)

/-- `networkNumberAndMask(n)`; `none` is the result (nil, nil). -/
def networkNumberAndMask (n : IPNet) : Option (IP × IPMask) :=
  let ip? : Option IP := match To4 n.IP with
    | some ip4 => some ip4
    | none => if n.IP.length ≠ IPv6len then none else some n.IP
  match ip? with
  | none => none
  | some ip =>
    if n.Mask.length = IPv4len then
      if ip.length ≠ IPv4len then none else some (ip, n.Mask)
    else if n.Mask.length = IPv6len then
      if ip.length = IPv4len then some (ip, n.Mask.drop 12) else some (ip, n.Mask)
    else none

/-- The step `if x := ip.To4(); x != nil { ip = x }` of `Contains`. -/
def norm4 (ip : IP) : IP :=
  match To4 ip with
  | some x => x
  | none => ip

/-- `n.Contains(ip)`. When `networkNumberAndMask` gives (nil, nil) both have
length 0. -/
def IPNet.Contains (n : IPNet) (ip : net.IP) : Bool :=
  let nm := (networkNumberAndMask n).getD ([], [])
  let ip := norm4 ip
  if ip.length ≠ nm.1.length then false
  else decide (List.zipWith (fun a b => a &&& b) nm.1 nm.2
    = List.zipWith (fun a b => a &&& b) ip nm.2)

/-! ### Text: parsing and printing of addresses -/

def isDigit (c : Char) : Bool := decide ('0' ≤ c ∧ c ≤ '9')

/-- The scanning loop of `parseIPv4Fields`: `val` and `digLen` describe the
octet being read, `fields` the octets finished, `prev` the previous byte. The
result is the last `val` and the finished octets. -/
def parseIPv4Loop : List Char → Nat → Nat → List Nat → Option Char → Option (Nat × List Nat)
  | [], val, _, fields, _ => some (val, fields)
  | c :: rest, val, digLen, fields, prev =>
    if isDigit c then
      if digLen = 1 ∧ val = 0 then none
      else
        let val1 := val * 10 + (c.toNat - 48)
        if val1 > 255 then none
        else parseIPv4Loop rest val1 (digLen + 1) fields (some c)
    else if c = '.' then
      if prev = none ∨ rest = [] ∨ prev = some '.' then none
      else if fields.length = 3 then none
      else parseIPv4Loop rest 0 0 (fields ++ [val]) (some c)
    else none

/-- `parseIPv4Fields`: four decimal octets separated by dots, no leading zero. -/
def parseIPv4Fields (s : List Char) : Option (List Nat) :=
  match parseIPv4Loop s 0 0 [] none with
  | none => none
  | some (val, fields) => if fields.length < 3 then none else some (fields ++ [val])

def hexVal (c : Char) : Option Nat :=
  if '0' ≤ c ∧ c ≤ '9' then some (c.toNat - 48)
  else if 'a' ≤ c ∧ c ≤ 'f' then some (c.toNat - 97 + 10)
  else if 'A' ≤ c ∧ c ≤ 'F' then some (c.toNat - 65 + 10)
  else none

/-- The hex-group scanner inside `parseIPv6`: the value read, the number of
digits, and the rest of the text; `none` when the group is too long. -/
def scanHex : List Char → Nat → Nat → Option (Nat × Nat × List Char)
  | [], acc, off => some (acc, off, [])
  | c :: rest, acc, off =>
    match hexVal c with
    | none => some (acc, off, c :: rest)
    | some d =>
      let acc1 := acc * 16 + d
      if off > 3 then none
      else if acc1 > 0xffff then none
      else scanHex rest acc1 (off + 1)

/-- The main loop of `parseIPv6` (`for i < 16`): `ip` holds the `i` bytes
written so far, `ellipsis` the position of "::". Every round writes at least
two bytes, so eight rounds suffice. The result is the unread text, the bytes
and the ellipsis position. -/
def parseIPv6Loop : Nat → List Char → List Nat → Option Nat →
    Option (List Char × List Nat × Option Nat)
  | 0, s, ip, e => some (s, ip, e)
  | fuel + 1, s, ip, e =>
    if ip.length ≥ 16 then some (s, ip, e)
    else
      match scanHex s 0 0 with
      | none => none
      | some (acc, off, rest) =>
        if off = 0 then none
        else if rest.head? = some '.' then
          if e = none ∧ ip.length ≠ 12 then none
          else if ip.length + 4 > 16 then none
          else
            match parseIPv4Fields s with
            | none => none
            | some b4 => some ([], ip ++ b4, e)
        else
          let ip1 := ip ++ [acc / 256, acc % 256]
          match rest with
          | [] => some ([], ip1, e)
          | c :: rest1 =>
            if c ≠ ':' then none
            else
              match rest1 with
              | [] => none
              | c2 :: rest2 =>
                if c2 = ':' then
                  if e.isSome then none
                  else if rest2 = [] then some ([], ip1, some ip1.length)
                  else parseIPv6Loop fuel rest2 ip1 (some ip1.length)
                else parseIPv6Loop fuel rest1 ip1 e

/-- `parseIPv6` for a text without zone (a text with '%' is refused by every
caller in `net`): the 16 bytes of the address. -/
def parseIPv6 (s : List Char) : Option (List Nat) :=
  if s.contains '%' then none
  else
    let start : Option (List Char × Option Nat) := match s with
      | ':' :: ':' :: rest => some (rest, some 0)
      | _ => some (s, none)
    match start with
    | none => none
    | some (s1, e0) =>
      if e0 = some 0 ∧ s1 = [] then some (List.replicate 16 0)
      else
        match parseIPv6Loop 8 s1 [] e0 with
        | none => none
        | some (rest, ip, e) =>
          if rest ≠ [] then none
          else if ip.length < 16 then
            match e with
            | none => none
            | some pos =>
              some (ip.take pos ++ List.replicate (16 - ip.length) 0 ++ ip.drop pos)
          else if e.isSome then none
          else some ip

/-- `netip.ParseAddr` restricted to zone-free results: `(true, 4 bytes)` for a
dotted IPv4 text, `(false, 16 bytes)` for an IPv6 text. -/
def parseAddr (s : List Char) : Option (Bool × List Nat) :=
  match s.find? (fun c => c = '.' ∨ c = ':' ∨ c = '%') with
  | some '.' => (parseIPv4Fields s).map (fun b => (true, b))
  | some ':' => (parseIPv6 s).map (fun b => (false, b))
  | _ => none

/-- `ip.As16()` of a parsed address. -/
def as16 (a : Bool × List Nat) : IP :=
  if a.1 then v4InV6Prefix ++ a.2 else a.2

/-- `net.ParseIP(s)`: always 16 bytes; `none` is the nil result. -/
def ParseIP (s : String) : Option IP :=
  (parseAddr s.toList).map as16

/-- `dtoi(s)`: the decimal number at the start of `s` and the number of bytes
read; `none` when there is no digit or the number reaches 0xFFFFFF. -/
def dtoiLoop : List Char → Nat → Nat → Option (Nat × Nat)
  | [], n, i => if i = 0 then none else some (n, i)
  | c :: rest, n, i =>
    if isDigit c then
      let n1 := n * 10 + (c.toNat - 48)
      if n1 ≥ 0xFFFFFF then none else dtoiLoop rest n1 (i + 1)
    else if i = 0 then none else some (n, i)

def dtoi (s : List Char) : Option (Nat × Nat) := dtoiLoop s 0 0

/-- `net.ParseCIDR(s)`, the `*IPNet` result only (the repository discards the
address); `none` is the error result. -/
def ParseCIDR (s : String) : Option IPNet :=
  let cs := s.toList
  match cs.indexOf? '/' with
  | none => none
  | some i =>
    let addr := cs.take i
    let mask := cs.drop (i + 1)
    match parseAddr addr with
    | none => none
    | some a =>
      let bitLen := if a.1 then 32 else 128
      match dtoi mask with
      | none => none
      | some (n, j) =>
        if j ≠ mask.length ∨ n > bitLen then none
        else
          match CIDRMask n bitLen with
          | none => none
          | some m =>
            match IP.Mask (as16 a) m with
            | none => none
            | some nip => some ⟨nip, m⟩

def hexDigit (n : Nat) : Char := "0123456789abcdef".toList.getD n '0'

/-- `uitoa`: decimal text of a number. -/
def uitoa (n : Nat) : List Char := Nat.toDigits 10 n

/-- `hexString(b)`: two lower-case hex digits per byte. -/
def hexString (b : List Nat) : List Char :=
  b.flatMap (fun v => [hexDigit (v / 16), hexDigit (v % 16)])

/-- `appendHex`: a 16-bit group without leading zeros. -/
def appendHex (x : Nat) : List Char :=
  (if x ≥ 0x1000 then [hexDigit (x / 0x1000)] else []) ++
  (if x ≥ 0x100 then [hexDigit (x / 0x100 % 16)] else []) ++
  (if x ≥ 0x10 then [hexDigit (x / 0x10 % 16)] else []) ++
  [hexDigit (x % 16)]

/-- The eight 16-bit groups of a 16-byte address. -/
def groups : List Nat → List Nat
  | hi :: lo :: rest => (hi * 256 + lo) :: groups rest
  | _ => []

def zeroRun : List Nat → Nat
  | 0 :: rest => zeroRun rest + 1
  | _ => 0

/-- The first longest run of at least two zero groups, as (start, end). -/
def findZeros : List Nat → Nat → Option (Nat × Nat) → Option (Nat × Nat)
  | [], _, best => best
  | g :: rest, i, best =>
    let l := zeroRun (g :: rest)
    let cur := match best with
      | none => 0
      | some b => b.2 - b.1
    findZeros rest (i + 1) (if l ≥ 2 ∧ l > cur then some (i, i + l) else best)

/-- The printing loop of the IPv6 text form, from group `i` on. -/
def printGroups (g : List Nat) (z : Option (Nat × Nat)) : Nat → Nat → List Char
  | 0, _ => []
  | fuel + 1, i =>
    if i ≥ 8 then []
    else if z.map Prod.fst = some i then
      let j := (z.map Prod.snd).getD 8
      ':' :: ':' :: (if j ≥ 8 then [] else appendHex (g.getD j 0) ++ printGroups g z fuel (j + 1))
    else
      (if i > 0 then [':'] else []) ++ appendHex (g.getD i 0) ++ printGroups g z fuel (i + 1)

def dotted (p4 : List Nat) : List Char :=
  uitoa (p4.getD 0 0) ++ ['.'] ++ uitoa (p4.getD 1 0) ++ ['.'] ++
  uitoa (p4.getD 2 0) ++ ['.'] ++ uitoa (p4.getD 3 0)

/-- `ip.String()`. -/
def IP.String (ip : IP) : String :=
  if ip.length = 0 then "<nil>"
  else if ip.length ≠ IPv4len ∧ ip.length ≠ IPv6len then String.mk ('?' :: hexString ip)
  else
    match To4 ip with
    | some p4 => String.mk (dotted p4)
    | none =>
      let g := groups ip
      String.mk (printGroups g (findZeros g 0 none) 8 0)

/-- `m.String()` of a mask. -/
def IPMask.String (m : IPMask) : String :=
  if m.length = 0 then "<nil>" else String.mk (hexString m)

/-- `n.String()`. -/
def IPNet.String (n : IPNet) : String :=
  match networkNumberAndMask n with
  | none => "<nil>"
  | some (nn, m) =>
    match simpleMaskLength m with
    | none => IP.String nn ++ "/" ++ IPMask.String m
    | some l => IP.String nn ++ "/" ++ String.mk (uitoa l)

/-- A network as `ParseCIDR` builds it, with `k` one-bits in the mask: an
address of 4 or 16 bytes, the CIDR mask of the same length, host bits zero. -/
def IPNet.Canonical (n : IPNet) (k : Nat) : Prop :=
  ((n.IP.length = 4 ∧ k ≤ 32 ∧ n.Mask = cidrMaskBytes 4 k) ∨
   (n.IP.length = 16 ∧ k ≤ 128 ∧ n.Mask = cidrMaskBytes 16 k)) ∧
  List.zipWith (fun a b => a &&& b) n.IP n.Mask = n.IP

/-- The loop invariant of `parseIPv6`: at most 16 bytes, an even number of
them, and the ellipsis lies inside what is written. -/
def V6Inv (ip : List Nat) (e : Option Nat) : Prop :=
  ip.length ≤ 16 ∧ ip.length % 2 = 0 ∧ ∀ pos, e = some pos → pos ≤ ip.length

end net

/-! ## Package `altomsgs`: common types -/

namespace altomsgs

/-- The Go type `VTag` (common.go). -/
structure VTag where
  ResourceId : String
  Tag : String
deriving DecidableEq, Repr

/-- The Go type `CostType` (common.go). -/
structure CostType where
  Metric : String
  Mode : String
deriving DecidableEq, Repr

/-- The error values the package produces: `CIDRError` and `JSONTypeError`
(error_types.go), `net.InvalidAddrError`, and errors that are only a text
(`errors.New`, the errors of the JSON decoder). -/
inductive Error where
  | CIDRError (CIDR : String) (Err : String)
  | JSONTypeError (Path : String) (Err : String)
  | InvalidAddrError (msg : String)
  | other (msg : String)
deriving DecidableEq, Repr

def IPV4_ADDR_TYPE : String := "ipv4"
def IPV4_ADDR_PREFIX : String := IPV4_ADDR_TYPE ++ ":"
def IPV6_ADDR_TYPE : String := "ipv6"
def IPV6_ADDR_PREFIX : String := IPV6_ADDR_TYPE ++ ":"

/-- `AddrTypeLen` (typed-addrs.go). -/
def AddrTypeLen (addrtype : String) : Except Error Nat :=
  if addrtype = IPV4_ADDR_TYPE then .ok 4
  else if addrtype = IPV6_ADDR_TYPE then .ok 16
  else .error (.InvalidAddrError (addrtype ++ " is not valid address type"))

/-! ## networkmap.go -/

/-- The Go type `CIDRInfo`. -/
structure CIDRInfo where
  Pid : String
  Ipnet : net.IPNet
  MaskLen : Nat
deriving DecidableEq, Repr

/-- The Go type `NetworkMap`. -/
structure NetworkMap where
  vtag : VTag
  pids2cidrs : List (String × List (String × List String))
  cidrsByLen : List (Nat × List CIDRInfo)
  maskLengths : List Nat
deriving DecidableEq, Repr

/-- `NewNetworkMap()`. -/
def NewNetworkMap : NetworkMap :=
  { vtag := ⟨"", ""⟩, pids2cidrs := [], cidrsByLen := [], maskLengths := [] }

namespace NetworkMap

/-- `VTag()`. -/
def VTag (this : NetworkMap) : altomsgs.VTag := this.vtag

/-- `SetVTag(vtag)`. -/
def SetVTag (this : NetworkMap) (vtag : altomsgs.VTag) : NetworkMap :=
  { this with vtag := vtag }

/-- `recalcLensUsed()`: the keys of `cidrsByLen`, sorted in descending order
(`sort.Sort(sort.Reverse(sort.IntSlice(...)))`). -/
def recalcLensUsed (this : NetworkMap) : NetworkMap :=
  { this with
    maskLengths := List.insertionSort (fun a b => a ≥ b) (GoMap.keys this.cidrsByLen) }

/-- The loop `for _, xcidr := range cidrArr` of `AddCIDR`: the first entry the
test `cidrInfo.MaskLen == maskLen && cidrInfo.Ipnet.IP.Equal(xcidr.Ipnet.IP)`
accepts. -/
def findAssigned (cidrInfo : CIDRInfo) (maskLen : Nat) : List CIDRInfo → Option CIDRInfo
  | [] => none
  | xcidr :: rest =>
    if cidrInfo.MaskLen = maskLen ∧ net.IP.Equal cidrInfo.Ipnet.IP xcidr.Ipnet.IP = true
    then some xcidr
    else findAssigned cidrInfo maskLen rest

/-- `AddCIDR(pid, addrType, cidr)`: the new map and the error (`none` is nil). -/
def AddCIDR (this : NetworkMap) (pid addrType cidr : String) : NetworkMap × Option Error :=
  match net.ParseCIDR cidr with
  | none => (this, some (.CIDRError cidr ("invalid CIDR address: " ++ cidr)))
  | some ipnet =>
    match AddrTypeLen addrType with
    | .error err => (this, some err)
    | .ok addrTypeLen =>
      if addrTypeLen ≠ ipnet.IP.length then
        (this, some (.CIDRError cidr ("Not type " ++ addrType)))
      else
        let maskLen := (net.IPMask.Size ipnet.Mask).1
        let cidr := net.IPNet.String ipnet
        let cidrInfo : CIDRInfo := { Ipnet := ipnet, Pid := pid, MaskLen := maskLen }
        let found := GoMap.get this.cidrsByLen maskLen
        let cidrArr := found.getD []
        let recalc := found.isNone
        match findAssigned cidrInfo maskLen cidrArr with
        | some xcidr =>
          if pid ≠ xcidr.Pid then
            (this, some (.CIDRError cidr ("CIDR assigned to PID '" ++ xcidr.Pid ++ "'")))
          else (this, none)
        | none =>
          let this1 := { this with
            cidrsByLen := GoMap.set this.cidrsByLen maskLen (cidrArr ++ [cidrInfo]) }
          let this2 := if recalc then recalcLensUsed this1 else this1
          let pidv := (GoMap.get this2.pids2cidrs pid).getD []
          let this3 := if (GoMap.get this2.pids2cidrs pid).isNone
            then { this2 with pids2cidrs := GoMap.set this2.pids2cidrs pid pidv } else this2
          let cidrs := (GoMap.get pidv addrType).getD []
          if cidr ∈ cidrs then (this3, none)
          else
            ({ this3 with
                pids2cidrs := GoMap.set this3.pids2cidrs pid
                  (GoMap.set pidv addrType (cidrs ++ [cidr])) }, none)

/-- `AddCIDRs(pid, addrtype, cidrs)`. -/
def AddCIDRs (this : NetworkMap) (pid addrtype : String) :
    List String → NetworkMap × List Error
  | [] => (this, [])
  | cidr :: rest =>
    let r := AddCIDR this pid addrtype cidr
    let r2 := AddCIDRs r.1 pid addrtype rest
    (r2.1, (match r.2 with
      | some err => [err]
      | none => []) ++ r2.2)

/-- `PidAddrs(pid)`. -/
def PidAddrs (this : NetworkMap) (pid : String) : Option (List (String × List String)) :=
  GoMap.get this.pids2cidrs pid

end NetworkMap

/-- A Go `for _, x := range xs` loop whose body calls a visitor `f` and
returns false as soon as `f` does. The visitor is a closure: it reads and
writes captured variables, here the state `σ`. -/
def iterList {α σ : Type} (f : α → σ → Bool × σ) : List α → σ → Bool × σ
  | [], s => (true, s)
  | x :: rest, s =>
    let r := f x s
    if r.1 then iterList f rest r.2 else (false, r.2)

namespace NetworkMap

/-- `CIDRIter(f)`: the outer loop over `maskLengths`, the inner one over
`cidrsByLen[maskLength]`. -/
def CIDRIter {σ : Type} (this : NetworkMap) (f : CIDRInfo → σ → Bool × σ) (s : σ) : Bool × σ :=
  iterList (fun maskLength st =>
    iterList f ((GoMap.get this.cidrsByLen maskLength).getD []) st) this.maskLengths s

/-- `PidIter(f)`. -/
def PidIter {σ : Type} (this : NetworkMap) (f : String → String → String → σ → Bool × σ)
    (s : σ) : Bool × σ :=
  iterList (fun (pe : String × List (String × List String)) st =>
    iterList (fun (ae : String × List String) st1 =>
      iterList (fun cidr st2 => f pe.1 ae.1 cidr st2) ae.2 st1) pe.2 st) this.pids2cidrs s

/-- `IP2Pid(addr)`: the named results `(pid, cidr, ok)` start at their zero
values and are set by the visitor. -/
def IP2Pid (this : NetworkMap) (addr : net.IP) : String × net.IPNet × Bool :=
  (CIDRIter this (fun cidrInfo (st : String × net.IPNet × Bool) =>
    if cidrInfo.Ipnet.Contains addr = true
    then (false, (cidrInfo.Pid, cidrInfo.Ipnet, true))
    else (true, st)) ("", ⟨[], []⟩, false)).2

end NetworkMap

end altomsgs

namespace altomsgs
namespace NetworkMap

/-- The CIDRs the map stores: the members of the buckets of `cidrsByLen`. -/
def Stored (this : NetworkMap) (ci : CIDRInfo) : Prop :=
  ∃ k arr, GoMap.get this.cidrsByLen k = some arr ∧ ci ∈ arr

/-- The text `s` is listed under `pid` and `addrType` in `pids2cidrs`. -/
def InIndex (this : NetworkMap) (pid addrType s : String) : Prop :=
  ∃ pidv cidrs, GoMap.get this.pids2cidrs pid = some pidv ∧
    GoMap.get pidv addrType = some cidrs ∧ s ∈ cidrs

/-- The map after a sequence of `AddCIDR(pid, addrType, cidr)` calls, errors
ignored. -/
def addAll (this : NetworkMap) (ops : List (String × String × String)) : NetworkMap :=
  ops.foldl (fun m op => (AddCIDR m op.1 op.2.1 op.2.2).1) this

/-- What every map reachable through `AddCIDR` satisfies: `maskLengths` lists
the keys of `cidrsByLen` in descending order; a bucket holds canonical networks
of its own mask length, no two with `Equal` addresses; and each stored CIDR is
listed in `pids2cidrs` under its pid and address type. -/
structure Inv (this : NetworkMap) : Prop where
  lens : ∀ k, k ∈ this.maskLengths ↔ (GoMap.get this.cidrsByLen k).isSome = true
  sorted : this.maskLengths.Pairwise (fun a b => a ≥ b)
  bucket : ∀ k arr, GoMap.get this.cidrsByLen k = some arr →
    (∀ ci ∈ arr, ci.MaskLen = k ∧ ci.Ipnet.Canonical k) ∧
    arr.Pairwise (fun x y => net.IP.Equal y.Ipnet.IP x.Ipnet.IP = false)
  sync : ∀ ci, Stored this ci → ∃ t, AddrTypeLen t = .ok ci.Ipnet.IP.length ∧
    InIndex this ci.Pid t (net.IPNet.String ci.Ipnet)

end NetworkMap
end altomsgs

namespace altomsgs
namespace NetworkMap

/-- The number of calls `CIDRIter` makes to a visitor that always returns true
(the counting visitor of the repository's tests). -/
def countCIDRs (this : NetworkMap) : Nat :=
  (CIDRIter this (fun _ (n : Nat) => (true, n + 1)) 0).2

/-- The number of calls `PidIter` makes to a visitor that always returns true. -/
def countPidCIDRs (this : NetworkMap) : Nat :=
  (PidIter this (fun _ _ _ (n : Nat) => (true, n + 1)) 0).2

end NetworkMap
end altomsgs

/-! ## Go values and JSON

`GoValue` is a value of Go type `interface{}` as it occurs in a `JsonMap`.
The first six constructors are the dynamic types `encoding/json` produces when
it decodes into `interface{}`; the last four are the typed values the package
itself stores in a `JsonMap` before it is marshalled. A type assertion
`v.(T)` succeeds on the constructor of `T` only.

A finite floating-point number is carried as its exact rational value, and
the conversions between `float32`, `float64` and decimal text are explicit
(namespace `float`): a `Cost` is written as the shortest decimal that identifies
the float32, the decoder reads a JSON number as the nearest float64, and
`Cost(vv)` rounds a float64 to the nearest float32. The infinities, NaN and the
sign of zero are not represented. -/

/-! ## Binary floating point -/

namespace float

/-- The rational `2 ^ k`. -/
def pow2 (k : ℤ) : ℚ :=
  if 0 ≤ k then ((2 ^ k.toNat : ℕ) : ℚ) else 1 / ((2 ^ (-k).toNat : ℕ) : ℚ)

/-- The rational `10 ^ k`. -/
def pow10 (k : ℤ) : ℚ :=
  if 0 ≤ k then ((10 ^ k.toNat : ℕ) : ℚ) else 1 / ((10 ^ (-k).toNat : ℕ) : ℚ)

/-- The number of halvings that take `n` below 2: `⌊log₂ n⌋` for `n ≥ 1`. The
first argument bounds the recursion. -/
def log2Loop : ℕ → ℕ → ℕ
  | 0, _ => 0
  | fuel + 1, n => if n < 2 then 0 else log2Loop fuel (n / 2) + 1

/-- The exponent of the binade of a non-zero `q`: `2 ^ e ≤ |q| < 2 ^ (e + 1)`. -/
def ilog2 (q : ℚ) : ℤ :=
  let e : ℤ := (log2Loop q.num.natAbs q.num.natAbs : ℤ) - (log2Loop q.den q.den : ℤ)
  if pow2 e ≤ |q| then e else e - 1

/-- The exponent of the decade of a non-zero `q`: `10 ^ m ≤ |q| < 10 ^ (m + 1)`,
found among the four candidates next to the estimate from `ilog2`. -/
def ilog10 (q : ℚ) : ℤ :=
  let m0 : ℤ := (ilog2 q * 30103) / 100000
  if pow10 (m0 + 2) ≤ |q| then m0 + 2
  else if pow10 (m0 + 1) ≤ |q| then m0 + 1
  else if pow10 m0 ≤ |q| then m0
  else m0 - 1

/-- The integer nearest to `q`, the even one of the two when `q` is halfway. -/
def roundEven (q : ℚ) : ℤ :=
  let f := Rat.floor q
  let r := q - f
  if r < 1 / 2 then f
  else if 1 / 2 < r then f + 1
  else if f % 2 = 0 then f else f + 1

/-- Rounding to the nearest number with `p` significant bits, ties to even,
where the unit in the last place is at least `2 ^ emin` (the subnormal numbers).
The exponent is not bounded above: the result for a number beyond the largest
finite one of the format, which is an infinity in Go, is outside the
embedding. -/
def roundBin (p : ℕ) (emin : ℤ) (q : ℚ) : ℚ :=
  if q = 0 then 0
  else
    let u := max (ilog2 q - ((p : ℤ) - 1)) emin
    (roundEven (q / pow2 u) : ℚ) * pow2 u

/-- The conversion of a real number to `float32`. -/
def round32 (q : ℚ) : ℚ := roundBin 24 (-149) q

/-- The conversion of a real number to `float64`. -/
def round64 (q : ℚ) : ℚ := roundBin 53 (-1074) q

/-- The finite float32 with the bit pattern `b`. -/
def ofBits32 (b : ℕ) : ℚ :=
  let sign : ℚ := if b / 2 ^ 31 % 2 = 1 then -1 else 1
  let e : ℕ := b / 2 ^ 23 % 256
  let m : ℕ := b % 2 ^ 23
  if e = 0 then sign * (m : ℚ) * pow2 (-149)
  else sign * ((2 ^ 23 + m : ℕ) : ℚ) * pow2 ((e : ℤ) - 150)

/-- The decimals with `n` significant digits next to `c`, whose decade is `m`:
the one that `round` takes back to `c`; of two, the nearer to `c`, and the even
one when `c` is halfway (`strconv`: `roundShortest`). -/
def shortestAt (round : ℚ → ℚ) (c : ℚ) (m : ℤ) (n : ℕ) : Option ℚ :=
  let k : ℤ := m - ((n : ℤ) - 1)
  let t := c / pow10 k
  let lo := Rat.floor t
  let dlo := (lo : ℚ) * pow10 k
  let dhi := ((lo + 1 : ℤ) : ℚ) * pow10 k
  if round dlo = c then
    if round dhi = c then (if roundEven t = lo then some dlo else some dhi)
    else some dlo
  else if round dhi = c then some dhi
  else none

/-- The search of the least number of digits, from `n` digits on. -/
def shortestFrom (round : ℚ → ℚ) (c : ℚ) (m : ℤ) : ℕ → ℕ → ℚ
  | 0, _ => c
  | fuel + 1, n =>
    match shortestAt round c m n with
    | some d => d
    | none => shortestFrom round c m fuel (n + 1)

/-- The value of the decimal text `strconv.AppendFloat(b, f, fmt, -1, 32)`
writes for the float32 `c`: the decimal of fewest digits that converts back to
`c` (nine digits always do). -/
def shortest32 (c : ℚ) : ℚ :=
  if c = 0 then 0 else shortestFrom round32 c (ilog10 c) 9 1

end float

namespace altomsgs

/-- The Go type `Cost` (`type Cost float32`): the value of a finite float32. A
rational `c` is such a value when `float.round32 c = c` and `|c| < 2 ^ 128`. -/
abbrev Cost := ℚ

/-- The conversion `Cost(vv)` of a float64: the nearest float32, ties to even.
A float64 beyond the largest float32, which converts to an infinity in Go, is
outside the embedding. -/
def Cost.ofFloat64 (vv : ℚ) : Cost := float.round32 vv

/-- The float64 the JSON decoder reads from the text `encoding/json` writes for
the cost `c`: the encoder writes a float32 with
`strconv.AppendFloat(b, f, fmt, -1, 32)`, the decoder reads a number with
`strconv.ParseFloat(s, 64)`. -/
def Cost.jsonFloat64 (c : Cost) : ℚ := float.round64 (float.shortest32 c)

/-- The cost `FromJsonMap` stores for the JSON text of the cost `c`. -/
def Cost.readBack (c : Cost) : Cost := Cost.ofFloat64 (Cost.jsonFloat64 c)

inductive GoValue where
  /-- JSON null: the nil interface. -/
  | nil
  | bool (b : Bool)
  | float64 (x : ℚ)
  | string (s : String)
  /-- The dynamic type `[]interface{}`. -/
  | slice (xs : List GoValue)
  /-- The dynamic type `map[string]interface{}`. -/
  | map (kvs : List (String × GoValue))
  /-- The dynamic type `[]string`. -/
  | strings (xs : List String)
  /-- The dynamic type `[]map[string]interface{}`. -/
  | maps (xs : List (List (String × GoValue)))
  /-- A map with string keys whose element type is not `interface{}`:
  `map[string]string`, `map[string][]string`, `map[string]Cost` and maps of
  these. -/
  | typedMap (kvs : List (String × GoValue))
  /-- The dynamic type `altomsgs.Cost`. -/
  | cost (x : Cost)
deriving Repr

/-- The Go type `JsonMap` (`map[string]interface{}`). -/
abbrev JsonMap := List (String × GoValue)

mutual
/-- What `encoding/json` returns when it decodes, into `interface{}`, the text
it marshalled from a value: typed slices and maps come back as
`[]interface{}` and `map[string]interface{}`, a `Cost` as the float64 read
from its decimal text. -/
def GoValue.decoded : GoValue → GoValue
  | .nil => .nil
  | .bool b => .bool b
  | .float64 x => .float64 x
  | .string s => .string s
  | .slice xs => .slice (decodedList xs)
  | .map kvs => .map (decodedFields kvs)
  | .strings xs => .slice (xs.map GoValue.string)
  | .maps xs => .slice (decodedMaps xs)
  | .typedMap kvs => .map (decodedFields kvs)
  | .cost x => .float64 (Cost.jsonFloat64 x)
def decodedList : List GoValue → List GoValue
  | [] => []
  | x :: xs => x.decoded :: decodedList xs
def decodedFields : List (String × GoValue) → List (String × GoValue)
  | [] => []
  | (k, v) :: kvs => (k, v.decoded) :: decodedFields kvs
def decodedMaps : List (List (String × GoValue)) → List GoValue
  | [] => []
  | m :: ms => .map (decodedFields m) :: decodedMaps ms
end

end altomsgs

/-! ## Package `wdrlib` (util.go) -/

namespace wdrlib

open altomsgs

/-- `IfaceArrToStrs(xarr)`. The parameter `fmtG` is `fmt.Sprintf("%g", ·)`; the
case `int` cannot arise from a decoded JSON value. -/
def IfaceArrToStrs (fmtG : ℚ → String) : List GoValue → List String
  | [] => []
  | v :: rest =>
    match v with
    | .string vv => vv :: IfaceArrToStrs fmtG rest
    | .float64 vv => fmtG vv :: IfaceArrToStrs fmtG rest
    | .bool vv => (if vv then "true" else "false") :: IfaceArrToStrs fmtG rest
    | _ => IfaceArrToStrs fmtG rest

/-- `GetStringMember(m, k)`. -/
def GetStringMember (m : JsonMap) (k : String) : String :=
  match GoMap.get m k with
  | some (.string v) => v
  | _ => ""

/-- `GetStringArray(m, k, def)`: the else branch returns nil, not `def`. -/
def GetStringArray (fmtG : ℚ → String) (m : JsonMap) (k : String) (_def : List String) :
    List String :=
  match GoMap.get m k with
  | some (.slice v) => IfaceArrToStrs fmtG v
  | _ => []

/-- `GetBoolMember(m, k, def)`. -/
def GetBoolMember (m : JsonMap) (k : String) (default : Bool) : Bool :=
  match GoMap.get m k with
  | some (.bool v) => v
  | _ => default

/-- `StrListContains(list, s)`. -/
def StrListContains : List String → String → Bool
  | [], _ => false
  | elem :: rest, s => if s = elem then true else StrListContains rest s

/-- `StrListContainsAll(list, strs)`. -/
def StrListContainsAll (list : List String) : List String → Bool
  | [] => true
  | s :: rest => if !StrListContains list s then false else StrListContainsAll list rest

/-- The loop of `StrListEqual`, which compares `a[i]` with `b[i]`; `b[i]` is in
range because the lengths are equal, so the last case does not arise. -/
def strListEqualLoop : List String → List String → Bool
  | [], _ => true
  | ax :: rest, bx :: brest => if ax ≠ bx then false else strListEqualLoop rest brest
  | _ :: _, [] => false

/-- `StrListEqual(a, b)`. -/
def StrListEqual (a b : List String) : Bool :=
  if a.length ≠ b.length then false else strListEqualLoop a b

/-- `StrSetEqual(a, b)`. -/
def StrSetEqual (a b : List String) : Bool :=
  StrListContainsAll a b && StrListContainsAll b a

end wdrlib

/-! ## common.go and meta.go -/

namespace altomsgs

def MT_PREFIX : String := "application/alto-"
def MT_SUFFIX : String := "+json"
def MT_DIRECTORY : String := MT_PREFIX ++ "directory" ++ MT_SUFFIX
def MT_NETWORK_MAP : String := MT_PREFIX ++ "networkmap" ++ MT_SUFFIX
def MT_NETWORK_MAP_FILTER : String := MT_PREFIX ++ "networkmapfilter" ++ MT_SUFFIX
def MT_COST_MAP : String := MT_PREFIX ++ "costmap" ++ MT_SUFFIX
def MT_COST_MAP_FILTER : String := MT_PREFIX ++ "costmapfilter" ++ MT_SUFFIX
def MT_ENDPOINT_COST : String := MT_PREFIX ++ "endpointcost" ++ MT_SUFFIX
def MT_ENDPOINT_COST_PARAMS : String := MT_PREFIX ++ "endpointcostparams" ++ MT_SUFFIX
def MT_ENDPOINT_PROP : String := MT_PREFIX ++ "endpointprop" ++ MT_SUFFIX
def MT_ENDPOINT_PROP_PARAMS : String := MT_PREFIX ++ "endpointpropparams" ++ MT_SUFFIX
def MT_ERROR : String := MT_PREFIX ++ "error" ++ MT_SUFFIX

def FN_META : String := "meta"
def FN_COST_TYPE : String := "cost-type"
def FN_COST_METRIC : String := "cost-metric"
def FN_COST_MODE : String := "cost-mode"
def FN_VTAG : String := "vtag"
def FN_DEPENDENT_VTAGS : String := "dependent-vtags"
def FN_RESOURCE_ID : String := "resource-id"
def FN_TAG : String := "tag"
def FN_ADDRESS_TYPES : String := "address-types"
def FN_CONSTRAINTS : String := "constraints"
def FN_PIDS : String := "pids"
def FN_SRCS : String := "srcs"
def FN_DSTS : String := "dsts"
def FN_ENDPOINTS : String := "endpoints"
def FN_PROPERTIES : String := "properties"

def CT_ROUTINGCOST : String := "routingcost"
def CT_HOPCOUNT : String := "hopcount"
def CT_NUMERICAL : String := "numerical"
def CT_ORDINAL : String := "ordinal"

/-- The Go type `CostTypeDescription`. -/
structure CostTypeDescription where
  Metric : String
  Mode : String
  Description : String
deriving DecidableEq, Repr

namespace JsonMap

/-- `GetMeta(create)`: the receiver afterwards and the meta map; `none` is the
nil pointer. A write through the returned pointer is a write to the map stored
under "meta". -/
def GetMeta (this : JsonMap) (create : Bool) : JsonMap × Option JsonMap :=
  match GoMap.get this FN_META with
  | some (.map meta) => (this, some meta)
  | _ =>
    if !create then (this, none)
    else (GoMap.set this FN_META (.map []), some [])

/-- The meta map that `GetMeta(true)` hands out. -/
def metaOrNew (this : JsonMap) : JsonMap :=
  ((GetMeta this true).2).getD []

/-- `(*this.GetMeta(true))[key] = v`. -/
def setMeta (this : JsonMap) (key : String) (v : GoValue) : JsonMap :=
  GoMap.set (GetMeta this true).1 FN_META (.map (GoMap.set (metaOrNew this) key v))

/-- `SetCostType(costType)`. -/
def SetCostType (this : JsonMap) (costType : CostType) : JsonMap :=
  setMeta this FN_COST_TYPE
    (.map [(FN_COST_METRIC, .string costType.Metric), (FN_COST_MODE, .string costType.Mode)])

/-- `GetCostType()`. -/
def GetCostType (this : JsonMap) : CostType :=
  match (GetMeta this false).2 with
  | none => ⟨"", ""⟩
  | some meta =>
    match GoMap.get meta FN_COST_TYPE with
    | some (.map ct) =>
      ⟨wdrlib.GetStringMember ct FN_COST_METRIC, wdrlib.GetStringMember ct FN_COST_MODE⟩
    | _ => ⟨"", ""⟩

/-- `SetVTag(vtag)`. -/
def SetVTag (this : JsonMap) (vtag : VTag) : JsonMap :=
  setMeta this FN_VTAG
    (.map [(FN_RESOURCE_ID, .string vtag.ResourceId), (FN_TAG, .string vtag.Tag)])

/-- `GetVTag()`. -/
def GetVTag (this : JsonMap) : VTag :=
  match (GetMeta this false).2 with
  | none => ⟨"", ""⟩
  | some meta =>
    match GoMap.get meta FN_VTAG with
    | some (.map vt) =>
      ⟨wdrlib.GetStringMember vt FN_RESOURCE_ID, wdrlib.GetStringMember vt FN_TAG⟩
    | _ => ⟨"", ""⟩

/-- `AddDepVTag(vtag)`. -/
def AddDepVTag (this : JsonMap) (vtag : VTag) : JsonMap :=
  let depVTags := match GoMap.get (metaOrNew this) FN_DEPENDENT_VTAGS with
    | some (.maps xs) => xs
    | _ => []
  setMeta this FN_DEPENDENT_VTAGS
    (.maps (depVTags ++
      [[(FN_RESOURCE_ID, .string vtag.ResourceId), (FN_TAG, .string vtag.Tag)]]))

/-- The loop of `GetDepVTags` over the decoded array. -/
def vtagsOf : List GoValue → List VTag
  | [] => []
  | v :: rest =>
    match v with
    | .map vx =>
      ⟨wdrlib.GetStringMember vx FN_RESOURCE_ID, wdrlib.GetStringMember vx FN_TAG⟩
        :: vtagsOf rest
    | _ => vtagsOf rest

/-- `GetDepVTags()`. -/
def GetDepVTags (this : JsonMap) : List VTag :=
  match (GetMeta this false).2 with
  | none => []
  | some meta =>
    match GoMap.get meta FN_DEPENDENT_VTAGS with
    | some (.slice arr) => vtagsOf arr
    | _ => []

end JsonMap

end altomsgs

/-! ## The message variants -/

namespace altomsgs

/-- The map literal with "cost-metric" and "cost-mode" that the filter and
parameter messages store under "cost-type". -/
def fieldsOfCostType (ct : CostType) : GoValue :=
  .map [(FN_COST_METRIC, .string ct.Metric), (FN_COST_MODE, .string ct.Mode)]

/-! ### networkmapfilter.go -/

structure NetworkMapFilter where
  Pids : List String
  AddrTypes : List String
deriving DecidableEq, Repr

def NewNetworkMapFilter : NetworkMapFilter := ⟨[], []⟩

namespace NetworkMapFilter

def MediaType (_this : NetworkMapFilter) : String := MT_NETWORK_MAP_FILTER

def ToJsonMap (this : NetworkMapFilter) : JsonMap :=
  let jm : JsonMap := []
  let jm := if this.Pids.length > 0 then GoMap.set jm FN_PIDS (.strings this.Pids) else jm
  let jm := if this.AddrTypes.length > 0
    then GoMap.set jm FN_ADDRESS_TYPES (.strings this.AddrTypes) else jm
  jm

def FromJsonMap (fmtG : ℚ → String) (this : NetworkMapFilter) (jm : JsonMap) :
    NetworkMapFilter × List Error :=
  let this := match GoMap.get jm FN_PIDS with
    | some (.slice pids) => { this with Pids := wdrlib.IfaceArrToStrs fmtG pids }
    | _ => this
  let this := match GoMap.get jm FN_ADDRESS_TYPES with
    | some (.slice addrTypes) => { this with AddrTypes := wdrlib.IfaceArrToStrs fmtG addrTypes }
    | _ => this
  (this, [])

end NetworkMapFilter

/-! ### costmapfilter.go -/

structure CostMapFilter where
  CostType : CostType
  Srcs : List String
  Dsts : List String
  Constraints : List String
deriving DecidableEq, Repr

def NewCostMapFilter : CostMapFilter := ⟨⟨"", ""⟩, [], [], []⟩

namespace CostMapFilter

def MediaType (_this : CostMapFilter) : String := MT_COST_MAP_FILTER

def ToJsonMap (this : CostMapFilter) : JsonMap :=
  let jm : JsonMap := []
  let jm := if this.CostType.Metric ≠ "" ∨ this.CostType.Mode ≠ ""
    then GoMap.set jm FN_COST_TYPE (fieldsOfCostType this.CostType) else jm
  let pids : JsonMap := []
  let pids := if this.Srcs.length > 0 then GoMap.set pids FN_SRCS (.strings this.Srcs) else pids
  let pids := if this.Dsts.length > 0 then GoMap.set pids FN_DSTS (.strings this.Dsts) else pids
  let jm := GoMap.set jm FN_PIDS (.map pids)
  let jm := if this.Constraints.length > 0
    then GoMap.set jm FN_CONSTRAINTS (.strings this.Constraints) else jm
  jm

def FromJsonMap (fmtG : ℚ → String) (this : CostMapFilter) (jm : JsonMap) :
    CostMapFilter × List Error :=
  let this := match GoMap.get jm FN_COST_TYPE with
    | some (.map ct) => { this with
        CostType := ⟨wdrlib.GetStringMember ct FN_COST_METRIC,
          wdrlib.GetStringMember ct FN_COST_MODE⟩ }
    | _ => this
  let this := match GoMap.get jm FN_PIDS with
    | some (.map pids) => { this with
        Srcs := wdrlib.GetStringArray fmtG pids FN_SRCS [],
        Dsts := wdrlib.GetStringArray fmtG pids FN_DSTS [] }
    | _ => this
  ({ this with Constraints := wdrlib.GetStringArray fmtG jm FN_CONSTRAINTS [] }, [])

end CostMapFilter

/-! ### endpointcostparams.go -/

structure EndpointCostParams where
  CostType : CostType
  Srcs : List String
  Dsts : List String
  Constraints : List String
deriving DecidableEq, Repr

def NewEndpointCostParams : EndpointCostParams := ⟨⟨"", ""⟩, [], [], []⟩

namespace EndpointCostParams

def MediaType (_this : EndpointCostParams) : String := MT_ENDPOINT_COST_PARAMS

def ToJsonMap (this : EndpointCostParams) : JsonMap :=
  let jm : JsonMap := []
  let jm := GoMap.set jm FN_COST_TYPE (fieldsOfCostType this.CostType)
  let addrs : JsonMap := []
  let addrs := if this.Srcs.length > 0
    then GoMap.set addrs FN_SRCS (.strings this.Srcs) else addrs
  let addrs := if this.Dsts.length > 0
    then GoMap.set addrs FN_DSTS (.strings this.Dsts) else addrs
  let jm := GoMap.set jm FN_ENDPOINTS (.map addrs)
  let jm := if this.Constraints.length > 0
    then GoMap.set jm FN_CONSTRAINTS (.strings this.Constraints) else jm
  jm

def FromJsonMap (fmtG : ℚ → String) (this : EndpointCostParams) (jm : JsonMap) :
    EndpointCostParams × List Error :=
  let this := match GoMap.get jm FN_COST_TYPE with
    | some (.map ct) => { this with
        CostType := ⟨wdrlib.GetStringMember ct FN_COST_METRIC,
          wdrlib.GetStringMember ct FN_COST_MODE⟩ }
    | _ => this
  let this := match GoMap.get jm FN_ENDPOINTS with
    | some (.map addrs) => { this with
        Srcs := wdrlib.GetStringArray fmtG addrs FN_SRCS [],
        Dsts := wdrlib.GetStringArray fmtG addrs FN_DSTS [] }
    | _ => this
  ({ this with Constraints := wdrlib.GetStringArray fmtG jm FN_CONSTRAINTS [] }, [])

end EndpointCostParams

/-! ### endpointpropparams.go -/

structure EndpointPropParams where
  Properties : List String
  Endpoints : List String
deriving DecidableEq, Repr

def NewEndpointPropParams : EndpointPropParams := ⟨[], []⟩

namespace EndpointPropParams

def MediaType (_this : EndpointPropParams) : String := MT_ENDPOINT_PROP_PARAMS

def ToJsonMap (this : EndpointPropParams) : JsonMap :=
  let jm : JsonMap := []
  let jm := if this.Properties.length > 0
    then GoMap.set jm FN_PROPERTIES (.strings this.Properties) else jm
  let jm := if this.Endpoints.length > 0
    then GoMap.set jm FN_ENDPOINTS (.strings this.Endpoints) else jm
  jm

def FromJsonMap (fmtG : ℚ → String) (_this : EndpointPropParams) (jm : JsonMap) :
    EndpointPropParams × List Error :=
  ({ Properties := wdrlib.GetStringArray fmtG jm FN_PROPERTIES [],
     Endpoints := wdrlib.GetStringArray fmtG jm FN_ENDPOINTS [] }, [])

end EndpointPropParams

/-! ### error.go -/

def FN_ERROR_CODE : String := "code"
def FN_ERROR_SYNTAX_ERROR : String := "syntax-error"
def FN_ERROR_FIELD : String := "field"
def FN_ERROR_VALUE : String := "value"

structure ErrorResp where
  Code : String
  SyntaxError : String
  Field : String
  Value : String
deriving DecidableEq, Repr

def NewErrorResp (code : String) : ErrorResp := ⟨code, "", "", ""⟩

namespace ErrorResp

def MediaType (_this : ErrorResp) : String := MT_ERROR

def ToJsonMap (this : ErrorResp) : JsonMap :=
  let meta : JsonMap := []
  let meta := if this.Code ≠ "" then GoMap.set meta FN_ERROR_CODE (.string this.Code) else meta
  let meta := if this.SyntaxError ≠ ""
    then GoMap.set meta FN_ERROR_SYNTAX_ERROR (.string this.SyntaxError) else meta
  let meta := if this.Field ≠ "" then GoMap.set meta FN_ERROR_FIELD (.string this.Field) else meta
  let meta := if this.Value ≠ "" then GoMap.set meta FN_ERROR_VALUE (.string this.Value) else meta
  GoMap.set [] FN_META (.map meta)

def FromJsonMap (this : ErrorResp) (jm : JsonMap) : ErrorResp × List Error :=
  match (JsonMap.GetMeta jm false).2 with
  | none => (this, [])
  | some meta =>
    ({ Code := wdrlib.GetStringMember meta FN_ERROR_CODE,
       SyntaxError := wdrlib.GetStringMember meta FN_ERROR_SYNTAX_ERROR,
       Field := wdrlib.GetStringMember meta FN_ERROR_FIELD,
       Value := wdrlib.GetStringMember meta FN_ERROR_VALUE }, [])

end ErrorResp

/-! ### directory.go -/

def FN_COST_TYPES : String := "cost-types"
def FN_DEFAULT_ALTO_NETWORK_MAP : String := "default-alto-network-map"
def FN_DESCRIPTION : String := "description"
def FN_RESOURCES : String := "resources"
def FN_URI : String := "uri"
def FN_MEDIA_TYPE : String := "media-type"
def FN_ACCEPTS : String := "accepts"
def FN_USES : String := "uses"
def FN_CAPABILITIES : String := "capabilities"
def FN_COST_CONSTRAINTS : String := "cost-constraints"
def FN_COST_TYPE_NAMES : String := "cost-type-names"
def FN_PROP_TYPES : String := "prop-types"

structure DirResource where
  Id : String
  URI : String
  MediaType : String
  Accepts : String
  Uses : List String
  CostTypeNames : List String
  CostConstraints : Bool
  PropTypes : List String
deriving DecidableEq, Repr

structure Directory where
  CostTypes : List (String × CostTypeDescription)
  DefNetworkMapId : String
  Resources : List (String × DirResource)
deriving DecidableEq, Repr

def NewDirectory : Directory := ⟨[], "", []⟩

namespace Directory

/-- `AddResource(...)`: the directory afterwards and the new resource. -/
def AddResource (this : Directory) (id uri mediaType accepts : String)
    (uses costTypeNames propTypes : List String) (constraints : Bool) :
    Directory × DirResource :=
  let res : DirResource :=
    { Id := id, URI := uri, MediaType := mediaType, Accepts := accepts, Uses := uses,
      CostTypeNames := costTypeNames, PropTypes := propTypes, CostConstraints := constraints }
  ({ this with Resources := GoMap.set this.Resources id res }, res)

def MediaType (_this : Directory) : String := MT_DIRECTORY

/-- The body of the loop over `this.CostTypes` in `ToJsonMap`. -/
def costTypeFields (costType : CostTypeDescription) : GoValue :=
  let ct : JsonMap :=
    [(FN_COST_METRIC, .string costType.Metric), (FN_COST_MODE, .string costType.Mode)]
  .typedMap (if costType.Description ≠ ""
    then GoMap.set ct FN_DESCRIPTION (.string costType.Description) else ct)

/-- The body of the loop over `this.Resources` in `ToJsonMap`. -/
def resourceFields (resource : DirResource) : GoValue :=
  let res : JsonMap := []
  let res := GoMap.set res FN_URI (.string resource.URI)
  let res := GoMap.set res FN_MEDIA_TYPE (.string resource.MediaType)
  let res := if resource.Accepts ≠ ""
    then GoMap.set res FN_ACCEPTS (.string resource.Accepts) else res
  let res := if resource.Uses.length > 0
    then GoMap.set res FN_USES (.strings resource.Uses) else res
  let caps : JsonMap := []
  let caps := if resource.CostConstraints
    then GoMap.set caps FN_COST_CONSTRAINTS (.bool true) else caps
  let caps := if resource.CostTypeNames.length > 0
    then GoMap.set caps FN_COST_TYPE_NAMES (.strings resource.CostTypeNames) else caps
  let caps := if resource.PropTypes.length > 0
    then GoMap.set caps FN_PROP_TYPES (.strings resource.PropTypes) else caps
  let res := if caps.length > 0 then GoMap.set res FN_CAPABILITIES (.map caps) else res
  .map res

def ToJsonMap (this : Directory) : JsonMap :=
  let meta : JsonMap := []
  let meta := if this.DefNetworkMapId ≠ ""
    then GoMap.set meta FN_DEFAULT_ALTO_NETWORK_MAP (.string this.DefNetworkMapId) else meta
  let costTypes : JsonMap := this.CostTypes.foldl
    (fun acc e => GoMap.set acc e.1 (costTypeFields e.2)) []
  let meta := GoMap.set meta FN_COST_TYPES (.typedMap costTypes)
  let resMap : JsonMap := this.Resources.foldl
    (fun acc e => GoMap.set acc e.1 (resourceFields e.2)) []
  GoMap.set (GoMap.set [] FN_META (.map meta)) FN_RESOURCES (.map resMap)

/-- The loop over "cost-types" in `FromJsonMap`. -/
def readCostTypes (this : Directory) : List (String × GoValue) → Directory
  | [] => this
  | (name, ct) :: rest =>
    match ct with
    | .map costType =>
      readCostTypes { this with
        CostTypes := GoMap.set this.CostTypes name
          ⟨wdrlib.GetStringMember costType FN_COST_METRIC,
           wdrlib.GetStringMember costType FN_COST_MODE,
           wdrlib.GetStringMember costType FN_DESCRIPTION⟩ } rest
    | _ => readCostTypes this rest

/-- The resource built from one entry of "resources". -/
def readResource (fmtG : ℚ → String) (name : String) (resMap : JsonMap) : DirResource :=
  let res : DirResource :=
    { Id := name,
      URI := wdrlib.GetStringMember resMap FN_URI,
      MediaType := wdrlib.GetStringMember resMap FN_MEDIA_TYPE,
      Accepts := wdrlib.GetStringMember resMap FN_ACCEPTS,
      Uses := wdrlib.GetStringArray fmtG resMap FN_USES [],
      CostTypeNames := [], CostConstraints := false, PropTypes := [] }
  match GoMap.get resMap FN_CAPABILITIES with
  | some (.map xcaps) =>
    { res with
      CostConstraints := wdrlib.GetBoolMember xcaps FN_COST_CONSTRAINTS false,
      CostTypeNames := wdrlib.GetStringArray fmtG xcaps FN_COST_TYPE_NAMES [],
      PropTypes := wdrlib.GetStringArray fmtG xcaps FN_PROP_TYPES [] }
  | _ => res

/-- The loop over "resources" in `FromJsonMap`. -/
def readResources (fmtG : ℚ → String) (this : Directory) : List (String × GoValue) → Directory
  | [] => this
  | (name, xresMap) :: rest =>
    match xresMap with
    | .map resMap =>
      readResources fmtG { this with
        Resources := GoMap.set this.Resources name (readResource fmtG name resMap) } rest
    | _ => readResources fmtG this rest

def FromJsonMap (fmtG : ℚ → String) (this : Directory) (jm : JsonMap) :
    Directory × List Error :=
  let this := match (JsonMap.GetMeta jm false).2 with
    | none => this
    | some meta =>
      let this := { this with
        DefNetworkMapId := wdrlib.GetStringMember meta FN_DEFAULT_ALTO_NETWORK_MAP }
      match GoMap.get meta FN_COST_TYPES with
      | some (.map costTypes) => readCostTypes this costTypes
      | _ => this
  let this := match GoMap.get jm FN_RESOURCES with
    | some (.map xresources) => readResources fmtG this xresources
    | _ => this
  (this, [])

end Directory

end altomsgs

namespace altomsgs

/-! ### costmap.go -/

def FN_COST_MAP : String := "cost-map"

structure CostMap where
  costType : CostType
  depVTags : List VTag
  costs : List (String × List (String × Cost))
deriving DecidableEq, Repr

def NewCostMap : CostMap := ⟨⟨CT_ROUTINGCOST, CT_NUMERICAL⟩, [], []⟩

/-- A cost matrix (`map[string]map[string]Cost`) as a value stored in a
`JsonMap`. -/
def costsValue (costs : List (String × List (String × Cost))) : GoValue :=
  .typedMap (costs.map (fun e => (e.1, .typedMap (e.2.map (fun d => (d.1, .cost d.2))))))

namespace CostMap

def MediaType (_this : CostMap) : String := MT_COST_MAP

def CostType (this : CostMap) : altomsgs.CostType := this.costType

def SetCostType (this : CostMap) (costType : altomsgs.CostType) : CostMap :=
  { this with costType := costType }

def DepVTag (this : CostMap) : VTag :=
  match this.depVTags with
  | v :: _ => v
  | [] => ⟨"", ""⟩

def DepVTags (this : CostMap) : List VTag := this.depVTags

def AddDepVTag (this : CostMap) (vtag : VTag) : CostMap :=
  { this with depVTags := this.depVTags ++ [vtag] }

def SetCost (this : CostMap) (src dst : String) (cost : Cost) : CostMap :=
  let srcmap := (GoMap.get this.costs src).getD []
  { this with costs := GoMap.set this.costs src (GoMap.set srcmap dst cost) }

def GetCost (this : CostMap) (src dst : String) : Cost × Bool :=
  match GoMap.get this.costs src with
  | some srcmap =>
    match GoMap.get srcmap dst with
    | some cost => (cost, true)
    | none => (0, false)
  | none => (0, false)

def ToJsonMap (this : CostMap) : JsonMap :=
  let jm : JsonMap := []
  let jm := JsonMap.SetCostType jm this.costType
  let jm := this.depVTags.foldl (fun acc vtag => JsonMap.AddDepVTag acc vtag) jm
  GoMap.set jm FN_COST_MAP (costsValue this.costs)

/-- The cost map with every cost replaced by the cost that is read back from
its JSON text. -/
def readBack (this : CostMap) : CostMap :=
  { this with
    costs := this.costs.map (fun e => (e.1, e.2.map (fun d => (d.1, Cost.readBack d.2)))) }

end CostMap

/-- The inner loop of `CostMap.FromJsonMap` and `EndpointCost.FromJsonMap`
over the destinations of one source: `setCost` is the receiver's `SetCost`,
`field` the name of the matrix field. A number is stored as `Cost(vv)`. The cases
`float32` and `int` of the type switch cannot arise from a decoded JSON value. -/
def readCostRow {μ : Type} (setCost : μ → String → String → Cost → μ) (field src : String) :
    μ → List (String × GoValue) → μ × List Error
  | this, [] => (this, [])
  | this, (dst, v) :: rest =>
    match v with
    | .float64 vv =>
      readCostRow setCost field src (setCost this src dst (Cost.ofFloat64 vv)) rest
    | .nil => readCostRow setCost field src this rest
    | _ =>
      let r := readCostRow setCost field src this rest
      (r.1, Error.JSONTypeError (field ++ "." ++ src ++ "." ++ dst) "Unknown cost type" :: r.2)

/-- The outer loop over the sources of the matrix. -/
def readCostRows {μ : Type} (setCost : μ → String → String → Cost → μ) (field : String) :
    μ → List (String × GoValue) → μ × List Error
  | this, [] => (this, [])
  | this, (src, srcv) :: rest =>
    match srcv with
    | .map srccosts =>
      let r := readCostRow setCost field src this srccosts
      let r2 := readCostRows setCost field r.1 rest
      (r2.1, r.2 ++ r2.2)
    | _ => readCostRows setCost field this rest

namespace CostMap

def FromJsonMap (this : CostMap) (jm : JsonMap) : CostMap × List Error :=
  let this := SetCostType this (JsonMap.GetCostType jm)
  let this := (JsonMap.GetDepVTags jm).foldl (fun acc vtag => AddDepVTag acc vtag) this
  match GoMap.get jm FN_COST_MAP with
  | some (.map cm) => readCostRows SetCost FN_COST_MAP this cm
  | _ => (this, [])

end CostMap

/-! ### endpointcost.go -/

def FN_ENDPOINT_COST_MAP : String := "endpoint-cost-map"

structure EndpointCost where
  costType : CostType
  costs : List (String × List (String × Cost))
  normalized : Bool
deriving DecidableEq, Repr

def NewEndpointCost : EndpointCost := ⟨⟨CT_ROUTINGCOST, CT_NUMERICAL⟩, [], false⟩

namespace EndpointCost

def MediaType (_this : EndpointCost) : String := MT_ENDPOINT_COST

def CostType (this : EndpointCost) : altomsgs.CostType := this.costType

def SetCostType (this : EndpointCost) (costType : altomsgs.CostType) : EndpointCost :=
  { this with costType := costType }

def SetCost (this : EndpointCost) (src dst : String) (cost : Cost) : EndpointCost :=
  let srcmap := (GoMap.get this.costs src).getD []
  { this with costs := GoMap.set this.costs src (GoMap.set srcmap dst cost), normalized := false }

def IsNormalized (this : EndpointCost) : Bool := this.normalized

def GetCost (this : EndpointCost) (src dst : String) : Cost × Bool :=
  match GoMap.get this.costs src with
  | some srcmap =>
    match GoMap.get srcmap dst with
    | some cost => (cost, true)
    | none => (0, false)
  | none => (0, false)

def ToJsonMap (this : EndpointCost) : JsonMap :=
  let jm : JsonMap := []
  let jm := JsonMap.SetCostType jm this.costType
  GoMap.set jm FN_ENDPOINT_COST_MAP (costsValue this.costs)

def FromJsonMap (this : EndpointCost) (jm : JsonMap) : EndpointCost × List Error :=
  let this := SetCostType this (JsonMap.GetCostType jm)
  match GoMap.get jm FN_ENDPOINT_COST_MAP with
  | some (.map cm) => readCostRows SetCost FN_ENDPOINT_COST_MAP this cm
  | _ => (this, [])

end EndpointCost

/-! ### endpointprop.go -/

def FN_ENDPOINT_PROPERTIES : String := "endpoint-properties"

structure EndpointProp where
  depVTags : List VTag
  props : List (String × List (String × String))
deriving DecidableEq, Repr

def NewEndpointProp : EndpointProp := ⟨[], []⟩

namespace EndpointProp

def MediaType (_this : EndpointProp) : String := MT_ENDPOINT_PROP

def DepVTags (this : EndpointProp) : List VTag := this.depVTags

def AddDepVTag (this : EndpointProp) (vtag : VTag) : EndpointProp :=
  { this with depVTags := this.depVTags ++ [vtag] }

def SetProp (this : EndpointProp) (addr name value : String) : EndpointProp :=
  let addrmap := (GoMap.get this.props addr).getD []
  { this with props := GoMap.set this.props addr (GoMap.set addrmap name value) }

def GetProp (this : EndpointProp) (addr name : String) : String × Bool :=
  match GoMap.get this.props addr with
  | some addrmap =>
    match GoMap.get addrmap name with
    | some value => (value, true)
    | none => ("", false)
  | none => ("", false)

def ToJsonMap (this : EndpointProp) : JsonMap :=
  let jm : JsonMap := []
  let jm := this.depVTags.foldl (fun acc vtag => JsonMap.AddDepVTag acc vtag) jm
  GoMap.set jm FN_ENDPOINT_PROPERTIES
    (.typedMap (this.props.map
      (fun e => (e.1, .typedMap (e.2.map (fun d => (d.1, GoValue.string d.2)))))))

/-- The loop over the properties of one address in `FromJsonMap`. -/
def readProps (addr : String) : EndpointProp → List (String × GoValue) → EndpointProp × List Error
  | this, [] => (this, [])
  | this, (name, v) :: rest =>
    match v with
    | .string vv => readProps addr (SetProp this addr name vv) rest
    | .nil => readProps addr this rest
    | _ =>
      let r := readProps addr this rest
      (r.1, Error.JSONTypeError (FN_ENDPOINT_PROPERTIES ++ "." ++ addr ++ "." ++ name)
        "Unknown property value type" :: r.2)

/-- The loop over the addresses in `FromJsonMap`. -/
def readAddrs : EndpointProp → List (String × GoValue) → EndpointProp × List Error
  | this, [] => (this, [])
  | this, (addr, addrv) :: rest =>
    match addrv with
    | .map addrprops =>
      let r := readProps addr this addrprops
      let r2 := readAddrs r.1 rest
      (r2.1, r.2 ++ r2.2)
    | _ => readAddrs this rest

def FromJsonMap (this : EndpointProp) (jm : JsonMap) : EndpointProp × List Error :=
  let this := (JsonMap.GetDepVTags jm).foldl (fun acc vtag => AddDepVTag acc vtag) this
  match GoMap.get jm FN_ENDPOINT_PROPERTIES with
  | some (.map pm) => readAddrs this pm
  | _ => (this, [])

end EndpointProp

/-! ### networkmap.go: the JSON side -/

def FN_NETWORK_MAP : String := "network-map"

namespace NetworkMap

def MediaType (_this : NetworkMap) : String := MT_NETWORK_MAP

def ToJsonMap (this : NetworkMap) : JsonMap :=
  let jm : JsonMap := []
  let jm := JsonMap.SetVTag jm this.vtag
  GoMap.set jm FN_NETWORK_MAP
    (.typedMap (this.pids2cidrs.map
      (fun e => (e.1, .typedMap (e.2.map (fun d => (d.1, GoValue.strings d.2)))))))

/-- The loop over the CIDRs of one pid and address type in `FromJsonMap`. -/
def readCIDRs (pid addrtype : String) : NetworkMap → List GoValue → NetworkMap × List Error
  | this, [] => (this, [])
  | this, cidrv :: rest =>
    match cidrv with
    | .string cidr =>
      let r := AddCIDR this pid addrtype cidr
      let r2 := readCIDRs pid addrtype r.1 rest
      (r2.1, (match r.2 with
        | some err => [err]
        | none => []) ++ r2.2)
    | _ => readCIDRs pid addrtype this rest

/-- The loop over the address types of one pid. -/
def readAddrTypes (pid : String) : NetworkMap → List (String × GoValue) → NetworkMap × List Error
  | this, [] => (this, [])
  | this, (addrtype, addrtypev) :: rest =>
    match addrtypev with
    | .slice cidrs =>
      let r := readCIDRs pid addrtype this cidrs
      let r2 := readAddrTypes pid r.1 rest
      (r2.1, r.2 ++ r2.2)
    | _ => readAddrTypes pid this rest

/-- The loop over the pids. -/
def readPids : NetworkMap → List (String × GoValue) → NetworkMap × List Error
  | this, [] => (this, [])
  | this, (pid, pidv) :: rest =>
    match pidv with
    | .map addrtypes =>
      let r := readAddrTypes pid this addrtypes
      let r2 := readPids r.1 rest
      (r2.1, r.2 ++ r2.2)
    | _ => readPids this rest

def FromJsonMap (this : NetworkMap) (jm : JsonMap) : NetworkMap × List Error :=
  let this := SetVTag this (JsonMap.GetVTag jm)
  match GoMap.get jm FN_NETWORK_MAP with
  | some (.map nm) => readPids this nm
  | _ => (this, [])

end NetworkMap

/-! ### common.go: the message interface and the codec -/

/-- The interface `AltoMsg`: one constructor per implementing type. -/
inductive AltoMsg where
  | directory (m : Directory)
  | networkMap (m : NetworkMap)
  | networkMapFilter (m : NetworkMapFilter)
  | costMap (m : CostMap)
  | costMapFilter (m : CostMapFilter)
  | endpointCost (m : EndpointCost)
  | endpointCostParams (m : EndpointCostParams)
  | endpointProp (m : EndpointProp)
  | endpointPropParams (m : EndpointPropParams)
  | errorResp (m : ErrorResp)
deriving DecidableEq, Repr

namespace AltoMsg

def MediaType : AltoMsg → String
  | .directory m => m.MediaType
  | .networkMap m => m.MediaType
  | .networkMapFilter m => m.MediaType
  | .costMap m => m.MediaType
  | .costMapFilter m => m.MediaType
  | .endpointCost m => m.MediaType
  | .endpointCostParams m => m.MediaType
  | .endpointProp m => m.MediaType
  | .endpointPropParams m => m.MediaType
  | .errorResp m => m.MediaType

def ToJsonMap : AltoMsg → JsonMap
  | .directory m => m.ToJsonMap
  | .networkMap m => m.ToJsonMap
  | .networkMapFilter m => m.ToJsonMap
  | .costMap m => m.ToJsonMap
  | .costMapFilter m => m.ToJsonMap
  | .endpointCost m => m.ToJsonMap
  | .endpointCostParams m => m.ToJsonMap
  | .endpointProp m => m.ToJsonMap
  | .endpointPropParams m => m.ToJsonMap
  | .errorResp m => m.ToJsonMap

def FromJsonMap (fmtG : ℚ → String) (msg : AltoMsg) (jm : JsonMap) : AltoMsg × List Error :=
  match msg with
  | .directory m => let r := m.FromJsonMap fmtG jm; (.directory r.1, r.2)
  | .networkMap m => let r := m.FromJsonMap jm; (.networkMap r.1, r.2)
  | .networkMapFilter m => let r := m.FromJsonMap fmtG jm; (.networkMapFilter r.1, r.2)
  | .costMap m => let r := m.FromJsonMap jm; (.costMap r.1, r.2)
  | .costMapFilter m => let r := m.FromJsonMap fmtG jm; (.costMapFilter r.1, r.2)
  | .endpointCost m => let r := m.FromJsonMap jm; (.endpointCost r.1, r.2)
  | .endpointCostParams m => let r := m.FromJsonMap fmtG jm; (.endpointCostParams r.1, r.2)
  | .endpointProp m => let r := m.FromJsonMap jm; (.endpointProp r.1, r.2)
  | .endpointPropParams m => let r := m.FromJsonMap fmtG jm; (.endpointPropParams r.1, r.2)
  | .errorResp m => let r := m.FromJsonMap jm; (.errorResp r.1, r.2)

end AltoMsg

/-- What `json.NewDecoder(r).Decode(&v)` finds at the head of a stream: text
that is not JSON (or a read error), with the decoder's message, or one JSON
value. -/
inductive Body where
  | invalid (err : String)
  | value (v : GoValue)
deriving Repr

/-- An `io.Reader` as this package uses it: the body the JSON decoder finds
within the bytes it is allowed to read, and the number of `Decode` calls made on
the stream so far. -/
structure Reader where
  body : Body
  reads : Nat
deriving Repr

/-- The name `encoding/json` gives the kind of a JSON value in an
`UnmarshalTypeError`. -/
def GoValue.jsonKind : GoValue → String
  | .nil => "null"
  | .bool _ => "bool"
  | .float64 _ | .cost _ => "number"
  | .string _ => "string"
  | .slice _ | .strings _ | .maps _ => "array"
  | .map _ | .typedMap _ => "object"

/-- `ReadJson(msg, r)`: the message, the errors and the reader afterwards.
`Decode` into a `JsonMap` accepts an object, accepts null (the map stays nil)
and refuses any other value. -/
def ReadJson (fmtG : ℚ → String) (msg : AltoMsg) (r : Reader) :
    AltoMsg × List Error × Reader :=
  let r1 : Reader := { r with reads := r.reads + 1 }
  match r.body with
  | .invalid err => (msg, [.other err], r1)
  | .value (.map jm) => let res := msg.FromJsonMap fmtG jm; (res.1, res.2, r1)
  | .value .nil => let res := msg.FromJsonMap fmtG []; (res.1, res.2, r1)
  | .value v =>
    (msg, [.other ("json: cannot unmarshal " ++ v.jsonKind ++
      " into Go value of type altomsgs.JsonMap")], r1)

/-- `NewAltoMsg(mediaType, r, contentLen)`: the message (`none` is nil), the
errors and the reader afterwards. `contentLen` only wraps `r` in a
`LimitedReader`; the body of a `Reader` is what the decoder finds within that
limit. -/
def NewAltoMsg (fmtG : ℚ → String) (mediaType : String) (r : Reader) (_contentLen : Int) :
    Option AltoMsg × List Error × Reader :=
  let msg? : Option AltoMsg :=
    if mediaType = MT_DIRECTORY then some (.directory NewDirectory)
    else if mediaType = MT_NETWORK_MAP then some (.networkMap NewNetworkMap)
    else if mediaType = MT_NETWORK_MAP_FILTER then some (.networkMapFilter NewNetworkMapFilter)
    else if mediaType = MT_COST_MAP then some (.costMap NewCostMap)
    else if mediaType = MT_COST_MAP_FILTER then some (.costMapFilter NewCostMapFilter)
    else if mediaType = MT_ENDPOINT_COST then some (.endpointCost NewEndpointCost)
    else if mediaType = MT_ENDPOINT_COST_PARAMS
      then some (.endpointCostParams NewEndpointCostParams)
    else if mediaType = MT_ENDPOINT_PROP then some (.endpointProp NewEndpointProp)
    else if mediaType = MT_ENDPOINT_PROP_PARAMS
      then some (.endpointPropParams NewEndpointPropParams)
    else if mediaType = MT_ERROR then some (.errorResp (NewErrorResp ""))
    else none
  match msg? with
  | none => (none, [.other ("Unknown media type \"" ++ mediaType ++ "\"")], r)
  | some msg =>
    let res := ReadJson fmtG msg r
    (some res.1, res.2.1, res.2.2)

/-- `WriteJson(msg, w)` into an empty buffer: the body a decoder then finds in
the buffer. -/
def WriteJson (msg : AltoMsg) : Body :=
  .value (GoValue.decoded (.map msg.ToJsonMap))

end altomsgs

namespace altomsgs

/-- The record-style messages: the filter and parameter records, the error
response, and a directory whose two maps have distinct keys (as every Go map
has) and whose resources are stored under their own ids. -/
def AltoMsg.RecordStyle : AltoMsg → Prop
  | .networkMapFilter _ => True
  | .costMapFilter _ => True
  | .endpointCostParams _ => True
  | .endpointPropParams _ => True
  | .errorResp _ => True
  | .directory d =>
    (GoMap.keys d.CostTypes).Nodup ∧ (GoMap.keys d.Resources).Nodup ∧
    ∀ e ∈ d.Resources, e.2.Id = e.1
  | _ => False

end altomsgs

namespace altomsgs

/-- The directory of `TestDirectory` (test_directory_test.go), with one cost
type and two of its resources. -/
def sampleDirectory : Directory :=
  { CostTypes := [("num-rc", ⟨"routingcost", "numerical", "plain old routingcost"⟩)],
    DefNetworkMapId := "mynetmap",
    Resources :=
      [("mynetmap",
        { Id := "mynetmap", URI := "/mynetmap/netmap", MediaType := MT_NETWORK_MAP,
          Accepts := "", Uses := [], CostTypeNames := [], CostConstraints := false,
          PropTypes := [] }),
       ("filter-costmap",
        { Id := "filter-costmap", URI := "/mynetmap/costs/filter", MediaType := MT_COST_MAP,
          Accepts := MT_COST_MAP_FILTER, Uses := ["mynetmap"], CostTypeNames := ["num-rc"],
          CostConstraints := true, PropTypes := [] })] }

end altomsgs

namespace altomsgs

/-- A call that builds a cost map: `SetCostType`, `AddDepVTag` or `SetCost`. -/
inductive CostMapOp where
  | setCostType (costType : CostType)
  | addDepVTag (vtag : VTag)
  | setCost (src dst : String) (cost : Cost)
deriving DecidableEq, Repr

namespace CostMap

/-- One building call applied to a cost map. -/
def apply (this : CostMap) : CostMapOp → CostMap
  | .setCostType costType => this.SetCostType costType
  | .addDepVTag vtag => this.AddDepVTag vtag
  | .setCost src dst cost => this.SetCost src dst cost

/-- The cost map a sequence of building calls makes of `NewCostMap()`. -/
def build (ops : List CostMapOp) : CostMap := ops.foldl apply NewCostMap

/-- What every cost matrix built by `SetCost` satisfies: the map keys are
distinct, and no row is empty. -/
def WF (costs : List (String × List (String × Cost))) : Prop :=
  (GoMap.keys costs).Nodup ∧ ∀ e ∈ costs, e.2 ≠ [] ∧ (GoMap.keys e.2).Nodup

end CostMap

end altomsgs

namespace altomsgs

/-- The ten media types `NewAltoMsg` knows. -/
def mediaTypes : List String :=
  [MT_DIRECTORY, MT_NETWORK_MAP, MT_NETWORK_MAP_FILTER, MT_COST_MAP, MT_COST_MAP_FILTER,
   MT_ENDPOINT_COST, MT_ENDPOINT_COST_PARAMS, MT_ENDPOINT_PROP, MT_ENDPOINT_PROP_PARAMS,
   MT_ERROR]

/-- The ten messages `NewAltoMsg` constructs before it reads. -/
def newMessages : List AltoMsg :=
  [.directory NewDirectory, .networkMap NewNetworkMap, .networkMapFilter NewNetworkMapFilter,
   .costMap NewCostMap, .costMapFilter NewCostMapFilter, .endpointCost NewEndpointCost,
   .endpointCostParams NewEndpointCostParams, .endpointProp NewEndpointProp,
   .endpointPropParams NewEndpointPropParams, .errorResp (NewErrorResp "")]

end altomsgs

/-! ## The libraries behind the connection code

`net/url`, `net/http` and `strconv` are not part of the repository: what the
package calls of them is taken as parameters (`Env`). -/

namespace url

/-- The Go type `url.URL`, a value as `==` compares it. URLs with userinfo are
not modelled: `User` is nil throughout. -/
structure URL where
  Scheme : String
  Opaque : String
  Host : String
  Path : String
  RawPath : String
  OmitHost : Bool
  ForceQuery : Bool
  RawQuery : String
  Fragment : String
  RawFragment : String
deriving DecidableEq, Repr

end url

namespace altomsgs

set_option linter.dupNamespace false in
/-- The method `Error()` of an error value. -/
def Error.Error : Error → String
  | .CIDRError CIDR Err => "Invalid CIDR '" ++ CIDR ++ "': " ++ Err
  | .JSONTypeError Path Err => "Wrong type '" ++ Path ++ "': " ++ Err
  | .InvalidAddrError msg => msg
  | .other msg => msg

end altomsgs

namespace http

open altomsgs

def MethodGet : String := "GET"
def MethodPost : String := "POST"

/-- An `http.Request` as `SendReq` builds it: method, parsed URL, the values
added to the headers Accept and Content-Type, and the body. -/
structure Request where
  Method : String
  URL : url.URL
  Accept : List String
  ContentType : List String
  Body : Option Body
deriving Repr

/-- An `http.Response` as `SendReq` reads it: status, the headers Content-Type
and Content-Length (`Header.Get`), the body, and the time the exchange took
(`time.Since(startTime)`). -/
structure Response where
  Status : String
  StatusCode : Int
  ContentType : String
  ContentLength : String
  Body : Body
  RespTime : Nat
deriving Repr

end http

/-- The library functions the connection code calls, and the server:
`fmt.Sprintf("%g", ·)`, `url.Parse`, `(*URL).Parse`, `(*URL).String`,
`strconv.ParseInt(·, 10, 64)` (its value; the error is dropped by the caller)
and `(*http.Client).Do`. -/
structure Env where
  fmtG : ℚ → String
  Parse : String → Except altomsgs.Error url.URL
  URLParse : url.URL → String → Except altomsgs.Error url.URL
  URLString : url.URL → String
  ParseInt : String → Int
  Do : http.Request → Except altomsgs.Error http.Response

namespace http

open altomsgs

/-- `http.NewRequest(method, uri, body)` for the methods GET and POST: it fails
exactly when `url.Parse(uri)` fails, with that error. -/
def NewRequest (env : Env) (method uri : String) (body : Option Body) :
    Except Error Request :=
  match env.Parse uri with
  | .error err => .error err
  | .ok u => .ok { Method := method, URL := u, Accept := [], ContentType := [], Body := body }

end http

/-! ## common.go: lists of cost types -/

namespace altomsgs

/-- `CostType.String()`. -/
def CostType.String (this : CostType) : String :=
  "(" ++ this.Metric ++ "/" ++ this.Mode ++ ")"

/-- `CostTypeListContains(list, ct)`. -/
def CostTypeListContains : List CostType → CostType → Bool
  | [], _ => false
  | elem :: rest, ct => if ct = elem then true else CostTypeListContains rest ct

/-- `CostTypeListContainsAll(list, cts)`. -/
def CostTypeListContainsAll (list : List CostType) : List CostType → Bool
  | [] => true
  | ct :: rest =>
    if !CostTypeListContains list ct then false else CostTypeListContainsAll list rest

/-- The loop of `CostTypeListEqual`, which compares `a[i]` with `b[i]`; `b[i]`
is in range because the lengths are equal, so the last case does not arise. -/
def costTypeListEqualLoop : List CostType → List CostType → Bool
  | [], _ => true
  | ax :: rest, bx :: brest => if ax ≠ bx then false else costTypeListEqualLoop rest brest
  | _ :: _, [] => false

/-- `CostTypeListEqual(a, b)`. -/
def CostTypeListEqual (a b : List CostType) : Bool :=
  if a.length ≠ b.length then false else costTypeListEqualLoop a b

/-- `CostTypeSetEqual(a, b)`. -/
def CostTypeSetEqual (a b : List CostType) : Bool :=
  CostTypeListContainsAll a b && CostTypeListContainsAll b a

/-- The embedded `CostType` of a `CostTypeDescription`. -/
def CostTypeDescription.CostType (this : CostTypeDescription) : altomsgs.CostType :=
  ⟨this.Metric, this.Mode⟩

end altomsgs

/-! ## resourceset.go -/

namespace altomsgs

/-- The Go type `Resource`. `URI` is never nil. -/
structure Resource where
  Id : String
  URI : url.URL
  MediaType : String
  Accepts : String
  Uses : List String
  CostTypes : List CostType
  CostConstraints : Bool
  PropTypes : List String
deriving DecidableEq, Repr

/-- The Go type `ResourceSet`; `Resources` holds the pointed-to resources. -/
structure ResourceSet where
  URI : String
  Resources : List (String × Resource)
  DefNetworkMapId : String
deriving DecidableEq, Repr

/-- `NewResourceSet()`. -/
def NewResourceSet : ResourceSet := ⟨"", [], ""⟩

/-- The loop of `NewResource` over `dirRes.CostTypeNames`; `costTypes` is the
slice built so far. -/
def lookupCostTypes (id : String) (costTypeDefns : List (String × CostTypeDescription)) :
    List String → List CostType → Except Error (List CostType)
  | [], costTypes => .ok costTypes
  | name :: rest, costTypes =>
    match GoMap.get costTypeDefns name with
    | none =>
      .error (.other ("Resource \"" ++ id ++ "\": No cost type \"" ++ name ++ "\" in IRD"))
    | some ct => lookupCostTypes id costTypeDefns rest (costTypes ++ [ct.CostType])

/-- `NewResource(dirURI, dirRes, costTypeDefns)`: the resource, or the error
(Go returns a nil resource with it). `costTypeDefns = none` is the nil map. -/
def NewResource (env : Env) (dirURI : url.URL) (dirRes : DirResource)
    (costTypeDefns : Option (List (String × CostTypeDescription))) : Except Error Resource :=
  match env.URLParse dirURI dirRes.URI with
  | .error err => .error err
  | .ok uri =>
    let costTypes : Except Error (List CostType) :=
      if dirRes.CostTypeNames.length > 0 then
        match costTypeDefns with
        | none =>
          .error (.other ("Resource \"" ++ dirRes.Id ++ "\": No cost type names in IRD"))
        | some defns => lookupCostTypes dirRes.Id defns dirRes.CostTypeNames []
      else .ok []
    match costTypes with
    | .error err => .error err
    | .ok costTypes =>
      .ok { Id := dirRes.Id, URI := uri, MediaType := dirRes.MediaType,
            Accepts := dirRes.Accepts, Uses := dirRes.Uses, CostTypes := costTypes,
            CostConstraints := dirRes.CostConstraints, PropTypes := dirRes.PropTypes }

/-- `Resource.Equal(other)`; `other = none` is the nil pointer. -/
def Resource.Equal (this : Resource) (other : Option Resource) : Bool :=
  match other with
  | none => false
  | some other =>
    decide (this.Id ≠ other.Id) ||
    decide (this.URI ≠ other.URI) ||
    decide (this.MediaType ≠ other.MediaType) ||
    decide (this.Accepts ≠ other.Accepts) ||
    !wdrlib.StrSetEqual this.Uses other.Uses ||
    !CostTypeSetEqual this.CostTypes other.CostTypes ||
    decide (this.CostConstraints ≠ other.CostConstraints) ||
    !wdrlib.StrSetEqual this.PropTypes other.PropTypes

namespace ResourceSet

/-- One turn of the loop of `AddResources` over `dir.Resources`: the set and
`errs` afterwards. A `Directory` made by `NewDirectory` has a non-nil
`CostTypes` map. -/
def addResource (env : Env) (dir : Directory) (dirURI : url.URL)
    (st : ResourceSet × List Error) (dirRes : DirResource) : ResourceSet × List Error :=
  match NewResource env dirURI dirRes (some dir.CostTypes) with
  | .error err => (st.1, st.2 ++ [err])
  | .ok newRes =>
    match GoMap.get st.1.Resources dirRes.Id with
    | none => ({ st.1 with Resources := GoMap.set st.1.Resources dirRes.Id newRes }, st.2)
    | some curRes =>
      if !newRes.Equal (some curRes) then
        (st.1, st.2 ++ [Error.other ("Duplicate resource id \"" ++ dirRes.Id ++ "\"")])
      else st

/-- `AddResources(dir, dirURI)`: the set afterwards and the errors returned. -/
def AddResources (env : Env) (this : ResourceSet) (dir : Directory) (dirURI : url.URL) :
    ResourceSet × List Error :=
  let this :=
    if this.DefNetworkMapId = "" ∧ dir.DefNetworkMapId ≠ "" then
      { this with DefNetworkMapId := dir.DefNetworkMapId }
    else this
  (dir.Resources.map Prod.snd).foldl (addResource env dir dirURI) (this, [])

/-- The search loop of the `Find...` methods: the first resource, in the
order the range over `Resources` takes, that passes `test`. -/
def findFirst (test : Resource → Bool) : List (String × Resource) → Option Resource
  | [] => none
  | (_, res) :: rest => if test res then some res else findFirst test rest

/-- `FindFilteredNetworkMap(netmap)`. -/
def FindFilteredNetworkMap (this : ResourceSet) (netmap : String) : Option Resource :=
  findFirst (fun res =>
    decide (res.MediaType = MT_NETWORK_MAP) &&
    decide (res.Accepts = MT_NETWORK_MAP_FILTER) &&
    wdrlib.StrListContains res.Uses netmap) this.Resources

/-- `FindCostMap(netmap, costType)`. -/
def FindCostMap (this : ResourceSet) (netmap : String) (costType : CostType) :
    Option Resource :=
  findFirst (fun res =>
    decide (res.MediaType = MT_COST_MAP) &&
    decide (res.Accepts = "") &&
    wdrlib.StrListContains res.Uses netmap &&
    CostTypeListContains res.CostTypes costType) this.Resources

/-- `FindFilteredCostMap(netmap, costType, needConstraints)`. -/
def FindFilteredCostMap (this : ResourceSet) (netmap : String) (costType : CostType)
    (needConstraints : Bool) : Option Resource :=
  findFirst (fun res =>
    decide (res.MediaType = MT_COST_MAP) &&
    decide (res.Accepts = MT_COST_MAP_FILTER) &&
    wdrlib.StrListContains res.Uses netmap &&
    CostTypeListContains res.CostTypes costType &&
    (!needConstraints || res.CostConstraints)) this.Resources

/-- `FindEndpointCost(costType, needConstraints)`. -/
def FindEndpointCost (this : ResourceSet) (costType : CostType) (needConstraints : Bool) :
    Option Resource :=
  findFirst (fun res =>
    decide (res.MediaType = MT_ENDPOINT_COST) &&
    decide (res.Accepts = MT_ENDPOINT_COST_PARAMS) &&
    CostTypeListContains res.CostTypes costType &&
    (!needConstraints || res.CostConstraints)) this.Resources

/-- `FindEndpointProp(propTypes)`. -/
def FindEndpointProp (this : ResourceSet) (propTypes : List String) : Option Resource :=
  findFirst (fun res =>
    decide (res.MediaType = MT_ENDPOINT_PROP) &&
    decide (res.Accepts = MT_ENDPOINT_PROP_PARAMS) &&
    wdrlib.StrListContainsAll res.PropTypes propTypes) this.Resources

end ResourceSet

end altomsgs

/-! ## altoconn.go -/

namespace altomsgs

def CONTENT_TYPE_HDR : String := "Content-Type"
def CONTENT_LENGTH_HDR : String := "Content-Length"
def ACCEPT_HDR : String := "Accept"

/-- The Go type `AltoConn`. `ResourceSet = none` is the nil pointer; `client`
tells whether `client` and `transport` are set; `ErrHandler` tells whether a
handler is installed, and `handled` lists the arguments of the calls it has
received, in order. -/
structure AltoConn where
  HaveResources : Bool
  ResourceSet : Option altomsgs.ResourceSet
  NetworkMapId : String
  ErrHandler : Bool
  handled : List (List Error)
  Proxy : Option url.URL
  client : Bool
deriving DecidableEq, Repr

/-- The Go type `ServerResp`. -/
structure ServerResp where
  OkResp : Option AltoMsg
  ErrorResp : Option altomsgs.ErrorResp
  Errors : List Error
  URI : String
  Request : Option AltoMsg
  HaveResponse : Bool
  ContentType : String
  ContentLength : Int
  Status : String
  StatusCode : Int
  RespTime : Nat
deriving DecidableEq, Repr

end altomsgs

namespace wdrlib

open altomsgs

/-- `AppendErrors(cur, add)`. -/
def AppendErrors (cur add : List Error) : List Error := cur ++ add

end wdrlib

namespace altomsgs

/-- `strconv.Itoa`. -/
def Itoa (n : Int) : String :=
  if n < 0 then "-" ++ String.mk (Nat.toDigits 10 n.natAbs)
  else String.mk (Nat.toDigits 10 n.toNat)

/-- `ToJsonBytes(msg)`: the body a decoder finds in the bytes. `json.Marshal`
has no error for the maps `ToJsonMap` returns: it fails on a cost that is an
infinity or NaN only, and a `Cost` here is finite. -/
def ToJsonBytes (msg : AltoMsg) : Except Error Body := .ok (WriteJson msg)

namespace AltoConn

/-- `NewAltoConn()` before its call of `setClient`: the zero value. -/
def zero : AltoConn :=
  { HaveResources := false, ResourceSet := none, NetworkMapId := "", ErrHandler := false,
    handled := [], Proxy := none, client := false }

/-- `setClient()`. -/
def setClient (this : AltoConn) : AltoConn :=
  let this := if this.client = false then { this with client := true } else this
  match this.ResourceSet with
  | none => { this with ResourceSet := some NewResourceSet }
  | some _ => this

/-- The error `callErrHandler` makes of one element of `errs` (`none` is a nil
element). -/
def xerr (descr method uri : String) (err : Option Error) : Error :=
  let msg := match err with
    | some err => " err=\"" ++ err.Error ++ "\""
    | none => ""
  .other (descr ++ ": method=" ++ method ++ " uri=\"" ++ uri ++ "\"" ++ msg)

/-- The loop of `callErrHandler` over `errs`. -/
def callErrHandlerLoop (descr method uri : String) :
    AltoConn → List Error → List (Option Error) → AltoConn × List Error
  | this, prevErrs, [] => (this, prevErrs)
  | this, prevErrs, err :: rest =>
    let x := xerr descr method uri err
    let this := if this.ErrHandler then { this with handled := this.handled ++ [[x]] } else this
    callErrHandlerLoop descr method uri this (prevErrs ++ [x]) rest

/-- `callErrHandler(prevErrs, descr, method, uri, errs)`. -/
def callErrHandler (this : AltoConn) (prevErrs : List Error) (descr method uri : String)
    (errs : List (Option Error)) : AltoConn × List Error :=
  let errs := if errs.length = 0 then [none] else errs
  callErrHandlerLoop descr method uri this prevErrs errs

end AltoConn

/-- `NewAltoConn()`. -/
def NewAltoConn : AltoConn := AltoConn.zero.setClient

namespace AltoConn

/-- The header part of `SendReq`: the Accept values of the caller, then
`MT_ERROR` if it is not among them, and the Content-Type of a POST. -/
def addHeaders (httpReq : http.Request) (accept : List String) (sendContentType : String) :
    http.Request :=
  let httpReq := { httpReq with Accept := httpReq.Accept ++ accept }
  let httpReq := if !wdrlib.StrListContains accept MT_ERROR
    then { httpReq with Accept := httpReq.Accept ++ [MT_ERROR] } else httpReq
  if sendContentType ≠ ""
    then { httpReq with ContentType := httpReq.ContentType ++ [sendContentType] } else httpReq

/-- The part of `SendReq` after `client.Do` has returned `httpResp`. -/
def readResponse (env : Env) (this : AltoConn) (serverResp : ServerResp) (method uri : String)
    (httpResp : http.Response) : AltoConn × ServerResp :=
  let serverResp := { serverResp with
    RespTime := httpResp.RespTime, HaveResponse := true, Status := httpResp.Status,
    StatusCode := httpResp.StatusCode, ContentType := httpResp.ContentType,
    ContentLength := env.ParseInt httpResp.ContentLength }
  let badStatus : Bool :=
    !(decide (httpResp.StatusCode ≥ 200) && decide (httpResp.StatusCode ≤ 299))
  let r := if badStatus then
      this.callErrHandler serverResp.Errors
        ("Server returned HTTP status code " ++ Itoa serverResp.StatusCode) method uri []
    else (this, serverResp.Errors)
  let this := r.1
  let serverResp := { serverResp with Errors := r.2 }
  if badStatus ∧ serverResp.ContentType ≠ MT_ERROR then (this, serverResp)
  else if serverResp.ContentType = "" then
    let r := this.callErrHandler serverResp.Errors ("No " ++ CONTENT_TYPE_HDR ++ " in response")
      method uri []
    (r.1, { serverResp with Errors := r.2 })
  else
    let res := NewAltoMsg env.fmtG serverResp.ContentType ⟨httpResp.Body, 0⟩ (-1)
    if res.2.1.length > 0 then
      let r := this.callErrHandler serverResp.Errors "Cannot decode server response"
        method uri []
      (r.1, { serverResp with Errors := r.2 })
    else
      match res.1 with
      | some (.errorResp vv) =>
        let r := this.callErrHandler serverResp.Errors
          ("Server returned error response, code=" ++ vv.Code) method uri []
        (r.1, { serverResp with ErrorResp := some vv, Errors := r.2 })
      | vv => (this, { serverResp with OkResp := vv })

/-- `SendReq(uri, accept, req)`: the connection afterwards and the response
record. `req = none` is nil. -/
def SendReq (env : Env) (this : AltoConn) (uri : String) (accept : List String)
    (req : Option AltoMsg) : AltoConn × ServerResp :=
  let this := this.setClient
  let serverResp : ServerResp :=
    { OkResp := none, ErrorResp := none, Errors := [], URI := uri, Request := req,
      HaveResponse := false, ContentType := "", ContentLength := 0, Status := "",
      StatusCode := 0, RespTime := 0 }
  let method := match req with
    | none => http.MethodGet
    | some _ => http.MethodPost
  let sendContentType := match req with
    | none => ""
    | some req => req.MediaType
  let json : Except Error (Option Body) := match req with
    | none => .ok none
    | some req => (ToJsonBytes req).map some
  match json with
  | .error err =>
    let r := this.callErrHandler serverResp.Errors
      ("Error creating JSON for " ++ sendContentType) method uri [some err]
    (r.1, { serverResp with Errors := r.2 })
  | .ok sendData =>
  match http.NewRequest env method uri sendData with
  | .error err =>
    let r := this.callErrHandler serverResp.Errors "Error in http.NewRequest" method uri
      [some err]
    (r.1, { serverResp with Errors := r.2 })
  | .ok httpReq =>
  match env.Do (addHeaders httpReq accept sendContentType) with
  | .error err =>
    let r := this.callErrHandler serverResp.Errors "Error in http.client.Do()" method uri
      [some err]
    (r.1, { serverResp with Errors := r.2 })
  | .ok httpResp => this.readResponse env serverResp method uri httpResp

/-- `wrongRespType(serverResp, expected, method, uri)`; `serverResp.OkResp` is
not nil when it is called. -/
def wrongRespType (this : AltoConn) (serverResp : ServerResp)
    (expected method uri : String) : AltoConn × ServerResp :=
  let actual := match serverResp.OkResp with
    | some m => m.MediaType
    | none => ""
  let r := this.callErrHandler serverResp.Errors
    ("Incorrect response type: expected=" ++ expected ++ " actual=" ++ actual) method uri []
  (r.1, { serverResp with Errors := r.2, OkResp := none })

/-- `GetIRD(uri)`. -/
def GetIRD (env : Env) (this : AltoConn) (uri : String) :
    AltoConn × Option Directory × ServerResp :=
  let this := this.setClient
  let r := this.SendReq env uri [MT_DIRECTORY] none
  match r.2.OkResp with
  | none => (r.1, none, r.2)
  | some (.directory vv) => (r.1, some vv, r.2)
  | some _ =>
    let w := r.1.wrongRespType r.2 MT_DIRECTORY http.MethodGet uri
    (w.1, none, w.2)

end AltoConn

end altomsgs

namespace altomsgs

/-- What `addDirResources` reads and writes: the connection, `*pSecDirIds`,
`prevErrs` and `*pTotRespTime`. -/
structure DirLoad where
  conn : AltoConn
  secDirIds : List String
  prevErrs : List Error
  totRespTime : Nat
deriving DecidableEq, Repr

namespace AltoConn

/-- The loop of `addDirResources` over `dir.Resources`; `recurse uri st` is the
recursive call `this.addDirResources(uri, pSecDirIds, prevErrs, pTotRespTime)`.
No result (`none`) when a recursive call has none, or on a nil `ResourceSet`. -/
def secDirLoop (env : Env) (recurse : String → DirLoad → Option DirLoad) :
    List (String × DirResource) → DirLoad → Option DirLoad
  | [], st => some st
  | (dirId, dirRes) :: rest, st =>
    if dirRes.MediaType = MT_DIRECTORY ∧ wdrlib.StrListContains st.secDirIds dirId = false then
      match st.conn.ResourceSet with
      | none => none
      | some rs =>
        match GoMap.get rs.Resources dirId with
        | some res =>
          match recurse (env.URLString res.URI)
              { st with secDirIds := st.secDirIds ++ [dirId] } with
          | none => none
          | some st => secDirLoop env recurse rest st
        | none => secDirLoop env recurse rest st
    else secDirLoop env recurse rest st

/-- The body of `addDirResources(uri, pSecDirIds, prevErrs, pTotRespTime)`;
`recurse` is the recursive call. `none` stands for the nil dereference in
`AddResources(dir, URI)` with a nil `URI`, which needs a directory fetched from
a `uri` that does not parse, and for a recursive call without a result. -/
def addDirStep (env : Env) (recurse : String → DirLoad → Option DirLoad) (uri : String)
    (st : DirLoad) : Option DirLoad :=
  let URI := env.Parse uri
  let r := match URI with
    | .error err =>
      st.conn.callErrHandler st.prevErrs "Invalid URI for IRD" http.MethodGet uri [some err]
    | .ok _ => (st.conn, st.prevErrs)
  let g := r.1.GetIRD env uri
  let conn := g.1
  let prevErrs := wdrlib.AppendErrors r.2 g.2.2.Errors
  let totRespTime := st.totRespTime + g.2.2.RespTime
  match g.2.1 with
  | none => some { conn := conn, secDirIds := st.secDirIds, prevErrs := prevErrs,
                   totRespTime := totRespTime }
  | some dir =>
    match URI, conn.ResourceSet with
    | .ok URI, some rs =>
      let a := rs.AddResources env dir URI
      let conn := { conn with ResourceSet := some a.1 }
      let r := if a.2.length > 0 then
          conn.callErrHandler prevErrs "Error in IRD resource" http.MethodGet uri [none]
        else (conn, prevErrs)
      secDirLoop env recurse dir.Resources
        { conn := r.1, secDirIds := st.secDirIds, prevErrs := r.2,
          totRespTime := totRespTime }
    | _, _ => none

/-- `addDirResources(uri, pSecDirIds, prevErrs, pTotRespTime)`. The first
argument bounds the depth of the recursion: `none` when it is used up. -/
def addDirResources (env : Env) : Nat → String → DirLoad → Option DirLoad
  | 0, _, _ => none
  | fuel + 1, uri, st => addDirStep env (addDirResources env fuel) uri st

/-- `LoadRootDir(uri)`: the connection afterwards, the total response time and
the errors; `none` when the recursion of `addDirResources` has no result within
the bound. -/
def LoadRootDir (env : Env) (fuel : Nat) (this : AltoConn) (uri : String) :
    Option (AltoConn × Nat × List Error) :=
  let this := this.setClient
  let this := match this.ResourceSet with
    | none => { this with ResourceSet := some { NewResourceSet with URI := uri } }
    | some _ => this
  match addDirResources env fuel uri
      { conn := this, secDirIds := [], prevErrs := [], totRespTime := 0 } with
  | none => none
  | some st =>
    match st.conn.ResourceSet with
    | none => none
    | some rs =>
      some ({ st.conn with NetworkMapId := rs.DefNetworkMapId,
                           HaveResources := decide (rs.Resources.length > 0) },
            st.totRespTime, st.prevErrs)

end AltoConn

end altomsgs

/-! ## An environment for the examples -/

namespace url

open altomsgs

/-- The text before the first "://" and the text after it, when there is one. -/
def splitScheme : List Char → List Char → Option (List Char × List Char)
  | _, [] => none
  | acc, ':' :: '/' :: '/' :: rest => some (acc, rest)
  | acc, c :: rest => splitScheme (acc ++ [c]) rest

/-- The text up to the last '/' of a path, that '/' included. -/
def dirOf (p : List Char) : List Char :=
  (p.reverse.dropWhile (fun c => c ≠ '/')).reverse

/-- The zero `URL`. -/
def URL.zero : URL := ⟨"", "", "", "", "", false, false, "", "", ""⟩

/-- `url.Parse` on the references the examples use: `scheme://host/path`, an
absolute path, or a relative path, with no userinfo, port, query, fragment,
escape or dot segment. A reference that starts with a colon has no scheme:
"missing protocol scheme". -/
def exampleParse (s : String) : Except Error URL :=
  match s.toList with
  | ':' :: _ => .error (.other ("parse \"" ++ s ++ "\": missing protocol scheme"))
  | cs =>
    match splitScheme [] cs with
    | some (scheme, rest) =>
      .ok { URL.zero with
        Scheme := String.mk scheme,
        Host := String.mk (rest.takeWhile (fun c => c ≠ '/')),
        Path := String.mk (rest.dropWhile (fun c => c ≠ '/')) }
    | none => .ok { URL.zero with Path := s }

/-- `(*URL).Parse` on the same references: an absolute reference stands for
itself, the empty reference for the base, an absolute path replaces the path of
the base, a relative path is appended to the directory of the base path, and
the path that results starts with a slash. -/
def exampleURLParse (base : URL) (ref : String) : Except Error URL :=
  match exampleParse ref with
  | .error err => .error err
  | .ok r =>
    if r.Scheme ≠ "" then .ok r
    else
      match r.Path.toList with
      | [] => .ok base
      | '/' :: _ => .ok { base with Path := r.Path }
      | rel =>
        match dirOf base.Path.toList ++ rel with
        | '/' :: full => .ok { base with Path := String.mk ('/' :: full) }
        | full => .ok { base with Path := String.mk ('/' :: full) }

/-- `(*URL).String` on these URLs. -/
def exampleString (u : URL) : String :=
  if u.Scheme ≠ "" then u.Scheme ++ "://" ++ u.Host ++ u.Path else u.Path

end url

namespace altomsgs

/-- An environment for the examples: the URL functions above, and a server
given by a table from URL texts to responses; a URL outside the table has no
server behind it. -/
def exampleEnv (server : List (String × http.Response)) : Env :=
  { fmtG := fun _ => "",
    Parse := url.exampleParse,
    URLParse := url.exampleURLParse,
    URLString := url.exampleString,
    ParseInt := fun _ => 0,
    Do := fun req =>
      match GoMap.get server (url.exampleString req.URL) with
      | some resp => .ok resp
      | none => .error (.other "dial tcp: connection refused") }

/-- The response of a server that answers with the directory `dir`. -/
def dirResponse (dir : Directory) : http.Response :=
  { Status := "200 OK", StatusCode := 200, ContentType := MT_DIRECTORY, ContentLength := "",
    Body := WriteJson (.directory dir), RespTime := 1 }

end altomsgs

/-! ## What decoding reads of a JSON object -/

namespace altomsgs

/-- A JSON value that is neither an object nor an array. -/
def GoValue.Scalar : GoValue → Prop
  | .nil | .bool _ | .float64 _ | .string _ => True
  | _ => False

/-- The well-typed cost points of a decoded cost matrix, in the order of the
matrix: the source's value is an object and the cost is a number `x`, stored as
`Cost(x)`. -/
def costPoints (cm : List (String × GoValue)) : List (String × String × Cost) :=
  cm.flatMap (fun e =>
    match e.2 with
    | .map row => row.filterMap (fun d =>
        match d.2 with
        | .float64 x => some (e.1, d.1, Cost.ofFloat64 x)
        | _ => none)
    | _ => [])

/-- One `JSONTypeError` for each cost of a decoded cost matrix that is neither
a number nor null, in the order of the matrix. -/
def costTypeErrors (field : String) (cm : List (String × GoValue)) : List Error :=
  cm.flatMap (fun e =>
    match e.2 with
    | .map row => row.filterMap (fun d =>
        match d.2 with
        | .float64 _ => none
        | .nil => none
        | _ => some (Error.JSONTypeError (field ++ "." ++ e.1 ++ "." ++ d.1)
            "Unknown cost type"))
    | _ => [])

/-- The well-typed property values of a decoded "endpoint-properties" object. -/
def propPoints (pm : List (String × GoValue)) : List (String × String × String) :=
  pm.flatMap (fun e =>
    match e.2 with
    | .map props => props.filterMap (fun d =>
        match d.2 with
        | .string x => some (e.1, d.1, x)
        | _ => none)
    | _ => [])

/-- One `JSONTypeError` for each property value that is neither a string nor
null. -/
def propTypeErrors (pm : List (String × GoValue)) : List Error :=
  pm.flatMap (fun e =>
    match e.2 with
    | .map props => props.filterMap (fun d =>
        match d.2 with
        | .string _ => none
        | .nil => none
        | _ => some (Error.JSONTypeError
            (FN_ENDPOINT_PROPERTIES ++ "." ++ e.1 ++ "." ++ d.1) "Unknown property value type"))
    | _ => [])

/-- The well-typed CIDR texts of a decoded "network-map" object, with their
pid and address type: the pid's value is an object, the address type's value
an array and the element a string. -/
def cidrTexts (nm : List (String × GoValue)) : List (String × String × String) :=
  nm.flatMap (fun e =>
    match e.2 with
    | .map addrtypes => addrtypes.flatMap (fun t =>
        match t.2 with
        | .slice cidrs => cidrs.filterMap (fun c =>
            match c with
            | .string s => some (e.1, t.1, s)
            | _ => none)
        | _ => [])
    | _ => [])

/-- The errors of a sequence of `AddCIDR(pid, addrType, cidr)` calls, in
order. -/
def NetworkMap.addAllErrors : NetworkMap → List (String × String × String) → List Error
  | _, [] => []
  | this, op :: rest =>
    (match (this.AddCIDR op.1 op.2.1 op.2.2).2 with
      | some err => [err]
      | none => []) ++ addAllErrors (this.AddCIDR op.1 op.2.1 op.2.2).1 rest

end altomsgs

namespace GoMap

variable {κ β : Type}

/-- The map without the key `k` (Go's `delete(m, k)`). -/
def erase [DecidableEq κ] (m : List (κ × β)) (k : κ) : List (κ × β) :=
  m.filter (fun e => decide (e.1 ≠ k))

end GoMap

namespace altomsgs

/-- A JSON object whose "cost-map" is a string and whose "network-map" holds a
text that is not a CIDR. -/
def sampleBadJson : JsonMap :=
  [("cost-map", .string "x"),
   ("network-map", .map [("PID1", .map [("ipv4", .slice [.string "x"])])])]

end altomsgs

namespace altomsgs

namespace ResourceSet

/-- The resource `NewResource` makes of a directory resource, when it makes
one. -/
def resolved (env : Env) (dir : Directory) (dirURI : url.URL) (dirRes : DirResource) :
    Option Resource :=
  match NewResource env dirURI dirRes (some dir.CostTypes) with
  | .ok newRes => some newRes
  | .error _ => none

/-- The errors one directory resource adds to the result of `AddResources`
when `cur` is what `Resources` holds under its id: its resolution error, or the
duplicate-id error that follows `!newRes.Equal(curRes)`. -/
def errorsOf (env : Env) (dir : Directory) (dirURI : url.URL) (cur : Option Resource)
    (dirRes : DirResource) : List Error :=
  match NewResource env dirURI dirRes (some dir.CostTypes) with
  | .error err => [err]
  | .ok newRes =>
    match cur with
    | none => []
    | some curRes =>
      if !newRes.Equal (some curRes) then
        [Error.other ("Duplicate resource id \"" ++ dirRes.Id ++ "\"")]
      else []

end ResourceSet

end altomsgs

namespace altomsgs

/-- The URL of the directory in the examples, "http://alto.example.com/directory"
as `url.Parse` returns it. -/
def sampleDirURI : url.URL :=
  { url.URL.zero with Scheme := "http", Host := "alto.example.com", Path := "/directory" }

/-- A network map resource with the id "mynetmap" of `sampleDirectory`, at
another URI. -/
def otherNetmapResource : DirResource :=
  { Id := "mynetmap", URI := "/other/netmap", MediaType := MT_NETWORK_MAP,
    Accepts := "", Uses := [], CostTypeNames := [], CostConstraints := false,
    PropTypes := [] }

/-- A directory that lists only that resource. -/
def otherDirectory : Directory :=
  { CostTypes := [], DefNetworkMapId := "othermap",
    Resources := [("mynetmap", otherNetmapResource)] }

end altomsgs

namespace altomsgs

/-- A cost map resource that names the cost type "num-hop". -/
def badCostmapResource : DirResource :=
  { Id := "bad-costmap", URI := "/costs", MediaType := MT_COST_MAP,
    Accepts := "", Uses := ["mynetmap"], CostTypeNames := ["num-rc", "num-hop"],
    CostConstraints := false, PropTypes := [] }

/-- A directory with a resolvable resource under the id "mynetmap", a cost map
that names a cost type the directory does not define, and a cost map that
resolves. -/
def mixedDirectory : Directory :=
  { CostTypes := [("num-rc", ⟨"routingcost", "numerical", ""⟩)], DefNetworkMapId := "",
    Resources :=
      [("mynetmap", otherNetmapResource),
       ("bad-costmap", badCostmapResource),
       ("costmap",
        { Id := "costmap", URI := "costs/rc", MediaType := MT_COST_MAP,
          Accepts := "", Uses := ["mynetmap"], CostTypeNames := ["num-rc"],
          CostConstraints := false, PropTypes := [] })] }

end altomsgs

namespace altomsgs

/-- The set after a sequence of `AddResources(dir, dirURI)` calls. -/
def ResourceSet.addDirs (env : Env) (this : ResourceSet) (dirs : List (Directory × url.URL)) :
    ResourceSet :=
  dirs.foldl (fun rs d => (rs.AddResources env d.1 d.2).1) this

end altomsgs

namespace altomsgs

/-- A directory at http://alto.example.com/a that lists a network map and the
directory B. -/
def dirA : Directory :=
  { CostTypes := [], DefNetworkMapId := "netmap-a",
    Resources :=
      [("netmap-a",
        { Id := "netmap-a", URI := "/a/netmap", MediaType := MT_NETWORK_MAP,
          Accepts := "", Uses := [], CostTypeNames := [], CostConstraints := false,
          PropTypes := [] }),
       ("dir-b",
        { Id := "dir-b", URI := "/b", MediaType := MT_DIRECTORY,
          Accepts := "", Uses := [], CostTypeNames := [], CostConstraints := false,
          PropTypes := [] })] }

/-- A directory at http://alto.example.com/b that lists a network map and the
directory A. -/
def dirB : Directory :=
  { CostTypes := [], DefNetworkMapId := "netmap-b",
    Resources :=
      [("netmap-b",
        { Id := "netmap-b", URI := "/b/netmap", MediaType := MT_NETWORK_MAP,
          Accepts := "", Uses := [], CostTypeNames := [], CostConstraints := false,
          PropTypes := [] }),
       ("dir-a",
        { Id := "dir-a", URI := "/a", MediaType := MT_DIRECTORY,
          Accepts := "", Uses := [], CostTypeNames := [], CostConstraints := false,
          PropTypes := [] })] }

/-- A directory with two resources that do not resolve: a URI that starts with
a colon, and an undefined cost type name. -/
def brokenDirectory : Directory :=
  { CostTypes := [], DefNetworkMapId := "",
    Resources :=
      [("netmap",
        { Id := "netmap", URI := ":netmap", MediaType := MT_NETWORK_MAP,
          Accepts := "", Uses := [], CostTypeNames := [], CostConstraints := false,
          PropTypes := [] }),
       ("costmap",
        { Id := "costmap", URI := "/costs", MediaType := MT_COST_MAP,
          Accepts := "", Uses := ["netmap"], CostTypeNames := ["num-rc"],
          CostConstraints := false, PropTypes := [] })] }

/-- A server with the two directories that list each other, the directory
`sampleDirectory`, `mixedDirectory`, one of whose resources does not resolve,
and `brokenDirectory`. -/
def exampleServer : List (String × http.Response) :=
  [("http://alto.example.com/a", dirResponse dirA),
   ("http://alto.example.com/b", dirResponse dirB),
   ("http://alto.example.com/directory", dirResponse sampleDirectory),
   ("http://alto.example.com/mixed", dirResponse mixedDirectory),
   ("http://alto.example.com/broken", dirResponse brokenDirectory)]

end altomsgs

/-! ## What a directory load leaves behind -/

namespace altomsgs

namespace AltoConn

/-- The connection after `ErrHandler` has been offered each of `errs`, one call
for each. -/
def offer (this : AltoConn) (errs : List Error) : AltoConn :=
  if this.ErrHandler then { this with handled := this.handled ++ errs.map (fun x => [x]) }
  else this

/-- The directory that `GetIRD(uri)` returns (`none` is nil); it does not
depend on the connection. -/
def fetch (env : Env) (uri : String) : Option Directory := (zero.GetIRD env uri).2.1

/-- The entries of `ResourceSet.Resources`, none for a nil `ResourceSet`. -/
def resources (this : AltoConn) : List (String × Resource) :=
  match this.ResourceSet with
  | some rs => rs.Resources
  | none => []

end AltoConn

/-- The resource ids that the directories of a list use as keys. -/
def dirIds (dirs : List Directory) : List String :=
  dirs.flatMap (fun d => GoMap.keys d.Resources)

/-- The directory `d`, fetched from a URI that parses to `U`, has been merged:
each of its resources that resolves has its id as a key of `resources`, and
each of those that is a directory has its id in `secDirIds`. -/
def DirDone (env : Env) (resources : List (String × Resource)) (secDirIds : List String)
    (d : Directory) (U : url.URL) : Prop :=
  ∀ e ∈ d.Resources, (ResourceSet.resolved env d U e.2).isSome = true →
    (GoMap.get resources e.1).isSome = true ∧
    (e.2.MediaType = MT_DIRECTORY → e.1 ∈ secDirIds)

/-- The directory behind `uri`, if the fetch yields one, has been merged. -/
def UriDone (env : Env) (resources : List (String × Resource)) (secDirIds : List String)
    (uri : String) : Prop :=
  ∀ d U, AltoConn.fetch env uri = some d → env.Parse uri = .ok U →
    DirDone env resources secDirIds d U

/-- The secondary directory with resource id `id` has been merged: `id` is a
key of `resources`, and the directory behind the URI stored for it has been
merged. -/
def IdDone (env : Env) (resources : List (String × Resource)) (secDirIds : List String)
    (id : String) : Prop :=
  ∃ res, GoMap.get resources id = some res ∧
    UriDone env resources secDirIds (env.URLString res.URI)

end altomsgs

namespace altomsgs

/-- What holds of every directory that `FromJsonMap` fills, starting from
`NewDirectory()`: the ids are distinct (they are the keys of a map) and each
resource carries the key it is stored under as its `Id`. -/
def Directory.Decoded (d : Directory) : Prop :=
  (GoMap.keys d.Resources).Nodup ∧ ∀ e ∈ d.Resources, e.2.Id = e.1

end altomsgs

namespace altomsgs

/-- `ResourceSet.URI`, "" for a nil `ResourceSet`. -/
def AltoConn.rsURI (this : AltoConn) : String :=
  match this.ResourceSet with
  | some rs => rs.URI
  | none => ""

/-- The number of the ids of `ids` that are not yet in `secDirIds`: what bounds
the depth of the recursion of `addDirResources`. -/
def pending (ids secDirIds : List String) : Nat :=
  ids.countP (fun i => decide (i ∉ secDirIds))

namespace DirLoad

/-- What `addDirResources` relies on: the keys of `Resources` are distinct,
`*pSecDirIds` has no duplicates and lies within `ids`. -/
def Pre (ids : List String) (st : DirLoad) : Prop :=
  (GoMap.keys st.conn.resources).Nodup ∧ st.secDirIds.Nodup ∧ ∀ id ∈ st.secDirIds, id ∈ ids

/-- The state `st2` extends `st1`: `*pSecDirIds` has grown, every entry of
`Resources` is still there, and `ResourceSet.URI` is the same. -/
def Le (st1 st2 : DirLoad) : Prop :=
  (∀ id ∈ st1.secDirIds, id ∈ st2.secDirIds) ∧
  (∀ id r, GoMap.get st1.conn.resources id = some r →
    GoMap.get st2.conn.resources id = some r) ∧
  st2.conn.rsURI = st1.conn.rsURI ∧
  st2.conn.ErrHandler = st1.conn.ErrHandler

/-- What a call `addDirResources(uri, ...)` that starts in `st` and returns in
`st2` has achieved. -/
def Post (env : Env) (ids : List String) (uri : String) (st st2 : DirLoad) : Prop :=
  Pre ids st2 ∧ st2.conn.ResourceSet.isSome = true ∧ Le st st2 ∧
  UriDone env st2.conn.resources st2.secDirIds uri ∧
  ∀ id ∈ st2.secDirIds, id ∉ st.secDirIds → IdDone env st2.conn.resources st2.secDirIds id

end DirLoad

end altomsgs

/-! ## resourceset.go: the default network map -/

namespace altomsgs
namespace ResourceSet

/-- The loop of `FindDefNetworkMap` over `this.Resources`: `netmap` is the
variable of that name; the result `none` with the flag true is the early
`return nil` at a second NetworkMap. -/
def defNetworkMapLoop : List (String × Resource) → Option Resource → Option Resource
  | [], netmap => netmap
  | (_, res) :: rest, netmap =>
    if res.MediaType = MT_NETWORK_MAP ∧ res.Accepts = "" then
      if netmap.isSome then none
      else defNetworkMapLoop rest (some res)
    else defNetworkMapLoop rest netmap

/-- `FindDefNetworkMap()`. -/
def FindDefNetworkMap (this : ResourceSet) : Option Resource :=
  match GoMap.get this.Resources this.DefNetworkMapId with
  | some netmap => some netmap
  | none => defNetworkMapLoop this.Resources none

/-- `FindNetworkMaps()`. -/
def FindNetworkMaps (this : ResourceSet) : List Resource :=
  (this.Resources.filter
    (fun e => decide (e.2.MediaType = MT_NETWORK_MAP ∧ e.2.Accepts = ""))).map Prod.snd

end ResourceSet
end altomsgs

/-! ## Package `strings` -/

namespace strings

/-- `strings.HasPrefix(s, prefix)`. -/
def HasPrefix (s pre : String) : Bool := pre.toList.isPrefixOf s.toList

/-- `strings.TrimPrefix(s, prefix)`. -/
def TrimPrefix (s pre : String) : String :=
  if HasPrefix s pre then String.mk (s.toList.drop pre.length) else s

end strings

namespace net

/-- `ip.To16()`; `none` is the nil result. -/
def To16 (ip : IP) : Option IP :=
  if ip.length = IPv4len then some (v4InV6Prefix ++ ip)
  else if ip.length = IPv6len then some ip
  else none

/-- `net.AddrError`. -/
structure AddrError where
  Err : String
  Addr : String
deriving DecidableEq, Repr

end net

/-! ## typed-addrs.go -/

namespace altomsgs

/-- `CheckTypedAddr(inAddr)`: the named results `(outAddr, err)`. -/
def CheckTypedAddr (inAddr : String) : String × Option Error :=
  let s4 := strings.TrimPrefix inAddr IPV4_ADDR_PREFIX
  if s4 ≠ inAddr then
    match net.ParseIP s4 with
    | none => ("", some (.InvalidAddrError (inAddr ++ " is not a valid address")))
    | some ip => (IPV4_ADDR_PREFIX ++ net.IP.String ip, none)
  else
    let s6 := strings.TrimPrefix inAddr IPV6_ADDR_PREFIX
    if s6 ≠ inAddr then
      match net.ParseIP s6 with
      | none => ("", some (.InvalidAddrError (inAddr ++ " is not a valid address")))
      | some ip => (IPV6_ADDR_PREFIX ++ net.IP.String ip, none)
    else ("", some (.InvalidAddrError (inAddr ++ " is not a typed address")))

/-- `CheckTypedAddrs(inAddrs)`: the loop, with the results so far. -/
def checkTypedAddrsLoop : List String → List String → List Error → List String × List Error
  | [], outAddrs, errs => (outAddrs, errs)
  | inAddr :: rest, outAddrs, errs =>
    match CheckTypedAddr inAddr with
    | (_, some err) => checkTypedAddrsLoop rest outAddrs (errs ++ [err])
    | (outAddr, none) => checkTypedAddrsLoop rest (outAddrs ++ [outAddr]) errs

/-- `CheckTypedAddrs(inAddrs)`. -/
def CheckTypedAddrs (inAddrs : List String) : List String × List Error :=
  checkTypedAddrsLoop inAddrs [] []

/-- `ParseTypedAddr(addr)`: the results `(ip, err)`; the nil address is the
empty list. -/
def ParseTypedAddr (addr : String) : net.IP × Option net.AddrError :=
  let sel : String × Bool × Bool :=
    if strings.HasPrefix addr IPV4_ADDR_PREFIX then
      (String.mk (addr.toList.drop IPV4_ADDR_PREFIX.length), true, false)
    else if strings.HasPrefix addr IPV6_ADDR_PREFIX then
      (String.mk (addr.toList.drop IPV6_ADDR_PREFIX.length), false, true)
    else (addr, false, false)
  let untypedAddr := sel.1
  let isIpv4 := sel.2.1
  let isIpv6 := sel.2.2
  match net.ParseIP untypedAddr with
  | none => ([], some ⟨"Invalid IP address", addr⟩)
  | some ip =>
    if isIpv4 then
      match net.To4 ip with
      | none => ([], some ⟨"Invalid ipv4 address", addr⟩)
      | some ip4 => (ip4, none)
    else if isIpv6 then
      match net.To16 ip with
      | none => ([], some ⟨"Invalid ipv6 address", addr⟩)
      | some ip16 => (ip16, none)
    else (ip, none)

/-! ## endpointcost.go: `Normalize` -/

namespace EndpointCost

/-- The inner loop of `Normalize` over the destinations of one source:
`nsrccosts` is the new row, `errs` the errors so far. -/
def normalizeDsts : List (String × Cost) → List (String × Cost) → List Error →
    List (String × Cost) × List Error
  | [], nsrccosts, errs => (nsrccosts, errs)
  | (dst, cost) :: rest, nsrccosts, errs =>
    match CheckTypedAddr dst with
    | (_, some err) => normalizeDsts rest nsrccosts (errs ++ [err])
    | (ndst, none) => normalizeDsts rest (GoMap.set nsrccosts ndst cost) errs

/-- The outer loop of `Normalize` over the sources: `ncosts` is the new
matrix. The row is stored under `nsrc` whether or not `ncosts` has that key
already. -/
def normalizeSrcs : List (String × List (String × Cost)) →
    List (String × List (String × Cost)) → List Error →
    List (String × List (String × Cost)) × List Error
  | [], ncosts, errs => (ncosts, errs)
  | (src, srccosts) :: rest, ncosts, errs =>
    match CheckTypedAddr src with
    | (_, some err) => normalizeSrcs rest ncosts (errs ++ [err])
    | (nsrc, none) =>
      let r := normalizeDsts srccosts [] errs
      normalizeSrcs rest (GoMap.set ncosts nsrc r.1) r.2

/-- `Normalize()`: the receiver afterwards and the errors returned. -/
def Normalize (this : EndpointCost) : EndpointCost × List Error :=
  if this.normalized = false then
    let r := normalizeSrcs this.costs [] []
    ({ this with normalized := true, costs := r.1 }, r.2)
  else (this, [])

/-- `CostIter(f)`. -/
def CostIter {σ : Type} (this : EndpointCost) (f : String → String → Cost → σ → Bool × σ)
    (s : σ) : Bool × σ :=
  iterList (fun (e : String × List (String × Cost)) st =>
    iterList (fun (d : String × Cost) st1 => f e.1 d.1 d.2 st1) e.2 st) this.costs s

/-- `SrcIter(f)`. -/
def SrcIter {σ : Type} (this : EndpointCost)
    (f : String → List (String × Cost) → σ → Bool × σ) (s : σ) : Bool × σ :=
  iterList (fun (e : String × List (String × Cost)) st => f e.1 e.2 st) this.costs s

end EndpointCost

/-- A call that changes an endpoint cost map: `SetCostType`, `SetCost`,
`Normalize` or `FromJsonMap`. -/
inductive EndpointCostOp where
  | setCostType (costType : CostType)
  | setCost (src dst : String) (cost : Cost)
  | normalize
  | fromJsonMap (jm : JsonMap)

namespace EndpointCost

/-- One building call applied to an endpoint cost map. -/
def apply (this : EndpointCost) : EndpointCostOp → EndpointCost
  | .setCostType costType => this.SetCostType costType
  | .setCost src dst cost => this.SetCost src dst cost
  | .normalize => this.Normalize.1
  | .fromJsonMap jm => (this.FromJsonMap jm).1

/-- The endpoint cost map a sequence of calls makes of `NewEndpointCost()`. -/
def build (ops : List EndpointCostOp) : EndpointCost := ops.foldl apply NewEndpointCost

end EndpointCost

/-! ## costmap.go: the iterators -/

namespace CostMap

/-- `CostIter(f)`: the outer loop over the sources, the inner one over the
destinations of a source. -/
def CostIter {σ : Type} (this : CostMap) (f : String → String → Cost → σ → Bool × σ)
    (s : σ) : Bool × σ :=
  iterList (fun (e : String × List (String × Cost)) st =>
    iterList (fun (d : String × Cost) st1 => f e.1 d.1 d.2 st1) e.2 st) this.costs s

/-- `SrcIter(f)`. -/
def SrcIter {σ : Type} (this : CostMap)
    (f : String → List (String × Cost) → σ → Bool × σ) (s : σ) : Bool × σ :=
  iterList (fun (e : String × List (String × Cost)) st => f e.1 e.2 st) this.costs s

/-- The cost points of a matrix in the order of iteration. -/
def points (costs : List (String × List (String × Cost))) : List (String × String × Cost) :=
  costs.flatMap (fun e => e.2.map (fun d => (e.1, d.1, d.2)))

end CostMap

end altomsgs

namespace altomsgs

/-- A visitor that records its calls: it behaves as `f` on the state, and
appends the argument and the answer of `f` to a log kept beside the state. -/
def logCalls {α σ : Type} (f : α → σ → Bool × σ) (x : α) (st : σ × List (α × Bool)) :
    Bool × (σ × List (α × Bool)) :=
  ((f x st.1).1, ((f x st.1).2, st.2 ++ [(x, (f x st.1).1)]))

end altomsgs

namespace net

/-- The bytes of a list of 16-bit groups, high byte first. -/
def groupBytes (g : List Nat) : List Nat := g.flatMap (fun x => [x / 256, x % 256])

/-- The groups in hexadecimal without leading zeros, separated by colons. -/
def joinHex : List Nat → List Char
  | [] => []
  | [x] => appendHex x
  | x :: y :: rest => appendHex x ++ ':' :: joinHex (y :: rest)

end net

namespace altomsgs

/-- An endpoint cost map with the two sources "ipv6:A::" and "ipv6:a::", two
texts of one address, set in this order. -/
def spelledTwice : EndpointCost :=
  (NewEndpointCost.SetCost "ipv6:A::" "ipv4:1.2.3.4" 1).SetCost "ipv6:a::" "ipv4:5.6.7.8" 2

/-- The same entries set in the other order. -/
def spelledTwiceSwapped : EndpointCost :=
  (NewEndpointCost.SetCost "ipv6:a::" "ipv4:5.6.7.8" 2).SetCost "ipv6:A::" "ipv4:1.2.3.4" 1

/-- The same entries set with the canonical text of the source. -/
def spelledOnce : EndpointCost :=
  (NewEndpointCost.SetCost "ipv6:a::" "ipv4:1.2.3.4" 1).SetCost "ipv6:a::" "ipv4:5.6.7.8" 2

end altomsgs

namespace altomsgs

/-- A call that changes a network map: `AddCIDR`, `AddCIDRs` or
`FromJsonMap`. -/
inductive NetworkMapOp where
  | addCIDR (pid addrType cidr : String)
  | addCIDRs (pid addrtype : String) (cidrs : List String)
  | fromJsonMap (jm : JsonMap)

namespace NetworkMap

/-- One such call applied to a network map, its errors ignored. -/
def apply (this : NetworkMap) : NetworkMapOp → NetworkMap
  | .addCIDR pid addrType cidr => (this.AddCIDR pid addrType cidr).1
  | .addCIDRs pid addrtype cidrs => (this.AddCIDRs pid addrtype cidrs).1
  | .fromJsonMap jm => (this.FromJsonMap jm).1

/-- The network map a sequence of calls makes of `NewNetworkMap()`. -/
def run (ops : List NetworkMapOp) : NetworkMap := ops.foldl apply NewNetworkMap

/-- The pairs `(pid, cidr)` that `PidIter` hands to its visitor, in order. -/
def pidPairs (this : NetworkMap) : List (String × String) :=
  this.pids2cidrs.flatMap (fun pe => pe.2.flatMap (fun ae => ae.2.map (fun cidr => (pe.1, cidr))))

/-- The pairs `(Pid, Ipnet.String())` of the entries that `CIDRIter` hands to
its visitor, in order. -/
def cidrPairs (this : NetworkMap) : List (String × String) :=
  (this.maskLengths.flatMap (fun k => (GoMap.get this.cidrsByLen k).getD [])).map
    (fun ci => (ci.Pid, net.IPNet.String ci.Ipnet))

end NetworkMap

/-- The reply of a server that refuses a request with an ALTO error
message. -/
def errorResponse (status : String) (code : Int) : http.Response :=
  { Status := status, StatusCode := code, ContentType := MT_ERROR, ContentLength := "",
    Body := WriteJson (.errorResp (NewErrorResp "E_SYNTAX")), RespTime := 1 }

/-- A server that answers two URLs with an ALTO error message, under the
status 400 and under the status 200. -/
def errorServer : List (String × http.Response) :=
  [("http://alto.example.com/costmap", errorResponse "400 Bad Request" 400),
   ("http://alto.example.com/costmap2", errorResponse "200 OK" 200)]

end altomsgs

namespace altomsgs
namespace AltoConn

/-- The error `SendReq` records for the status of a response before it looks
at the Content-Type: none for a status from 200 to 299. -/
def statusErrors (method uri : String) (resp : http.Response) : List Error :=
  if 200 ≤ resp.StatusCode ∧ resp.StatusCode ≤ 299 then []
  else [xerr ("Server returned HTTP status code " ++ Itoa resp.StatusCode) method uri none]

end AltoConn
end altomsgs

namespace altomsgs

namespace EndpointCost

/-- Every source key and every destination key of a matrix is a fixed point
of `CheckTypedAddr`. -/
def KeysFixed (costs : List (String × List (String × Cost))) : Prop :=
  ∀ src row, (src, row) ∈ costs →
    CheckTypedAddr src = (src, none) ∧ ∀ dst c, (dst, c) ∈ row → CheckTypedAddr dst = (dst, none)

/-- The invariant of the flag: a normalized map has only fixed points as
keys. -/
def FlagInv (e : EndpointCost) : Prop := e.normalized = true → KeysFixed e.costs

end EndpointCost

namespace NetworkMap

/-- The invariant of the list of mask lengths: `maskLengths` is the sorted list
of the keys of `cidrsByLen`, the keys are distinct (it is a Go map), and a
bucket is not empty and holds entries of its own mask length. -/
def LensInv (this : NetworkMap) : Prop :=
  this.maskLengths = List.insertionSort (fun a b => a ≥ b) (GoMap.keys this.cidrsByLen) ∧
  (GoMap.keys this.cidrsByLen).Nodup ∧
  ∀ e ∈ this.cidrsByLen, e.2 ≠ [] ∧ ∀ ci ∈ e.2, ci.MaskLen = e.1

end NetworkMap
end altomsgs

/-! # Theorems -/

namespace net

theorem cidrMaskBytes_length (l n : Nat) : (cidrMaskBytes l n).length = l := by
  induction l generalizing n with
  | zero => rfl
  | succ l ih => unfold cidrMaskBytes; split <;> simp [ih]

theorem parseIPv4Loop_length (s : List Char) : ∀ (val digLen : Nat) (fields : List Nat)
    (prev : Option Char) (r : Nat × List Nat),
    parseIPv4Loop s val digLen fields prev = some r → fields.length ≤ 3 → r.2.length ≤ 3 := by
  induction s with
  | nil =>
    intro val digLen fields prev r h hl
    simp only [parseIPv4Loop, Option.some.injEq] at h
    subst h; exact hl
  | cons c rest ih =>
    intro val digLen fields prev r h hl
    rw [parseIPv4Loop] at h
    split at h
    · split at h
      · exact absurd h (by simp)
      · simp only at h
        split at h
        · exact absurd h (by simp)
        · exact ih _ _ _ _ _ h hl
    · split at h
      · split at h
        · exact absurd h (by simp)
        · split at h
          · exact absurd h (by simp)
          · refine ih _ _ _ _ _ h ?_
            simp only [List.length_append, List.length_singleton]
            omega
      · exact absurd h (by simp)

theorem parseIPv4Fields_length (s : List Char) (b : List Nat)
    (h : parseIPv4Fields s = some b) : b.length = 4 := by
  unfold parseIPv4Fields at h
  split at h
  · exact absurd h (by simp)
  · rename_i val fields heq
    have hle := parseIPv4Loop_length s 0 0 [] none (val, fields) heq (by simp)
    split at h
    · exact absurd h (by simp)
    · simp only [Option.some.injEq] at h
      subst h
      simp only [List.length_append, List.length_singleton]
      simp only at hle
      omega

end net

namespace net

theorem parseIPv6Loop_inv (fuel : Nat) : ∀ (s : List Char) (ip : List Nat) (e : Option Nat)
    (r : List Char × List Nat × Option Nat),
    parseIPv6Loop fuel s ip e = some r → V6Inv ip e → V6Inv r.2.1 r.2.2 := by
  induction fuel with
  | zero =>
    intro s ip e r h hinv
    simp only [parseIPv6Loop, Option.some.injEq] at h
    subst h; exact hinv
  | succ fuel ih =>
    intro s ip e r h hinv
    obtain ⟨h16, hev, hpos⟩ := hinv
    rw [parseIPv6Loop] at h
    split at h
    · simp only [Option.some.injEq] at h
      subst h; exact ⟨h16, hev, hpos⟩
    · rename_i hlt
      have hstep : V6Inv (ip ++ [0, 0]) e ∧ ∀ a b : Nat, (ip ++ [a, b]).length = ip.length + 2 := by
        refine ⟨⟨?_, ?_, ?_⟩, ?_⟩
        · simp only [List.length_append, List.length_cons, List.length_nil]; omega
        · simp only [List.length_append, List.length_cons, List.length_nil]; omega
        · intro pos hp
          have := hpos pos hp
          simp only [List.length_append, List.length_cons, List.length_nil]; omega
        · intro a b; simp
      have hlen2 : ∀ a b : Nat, (ip ++ [a, b]).length = ip.length + 2 := hstep.2
      split at h
      · exact absurd h (by simp)
      · rename_i acc off rest hscan
        split at h
        · exact absurd h (by simp)
        · split at h
          · split at h
            · exact absurd h (by simp)
            · split at h
              · exact absurd h (by simp)
              · rename_i hroom
                split at h
                · exact absurd h (by simp)
                · rename_i b4 hb4
                  simp only [Option.some.injEq] at h
                  subst h
                  have hb := parseIPv4Fields_length _ _ hb4
                  refine ⟨?_, ?_, ?_⟩
                  · simp only [List.length_append, hb]; omega
                  · simp only [List.length_append, hb]; omega
                  · intro pos hp
                    have := hpos pos hp
                    simp only [List.length_append, hb]; omega
          · have hI : V6Inv (ip ++ [acc / 256, acc % 256]) e := by
              refine ⟨?_, ?_, ?_⟩
              · rw [hlen2]; omega
              · rw [hlen2]; omega
              · intro pos hp
                have := hpos pos hp
                rw [hlen2]; omega
            have hI2 : V6Inv (ip ++ [acc / 256, acc % 256])
                (some (ip ++ [acc / 256, acc % 256]).length) := by
              refine ⟨hI.1, hI.2.1, ?_⟩
              intro pos hp
              simp only [Option.some.injEq] at hp
              omega
            simp only at h
            split at h
            · simp only [Option.some.injEq] at h
              subst h; exact hI
            · split at h
              · exact absurd h (by simp)
              · split at h
                · exact absurd h (by simp)
                · split at h
                  · split at h
                    · exact absurd h (by simp)
                    · split at h
                      · simp only [Option.some.injEq] at h
                        subst h; exact hI2
                      · exact ih _ _ _ _ h hI2
                  · exact ih _ _ _ _ h hI

theorem parseIPv6_length (s : List Char) (b : List Nat) (h : parseIPv6 s = some b) :
    b.length = 16 := by
  unfold parseIPv6 at h
  split at h
  · exact absurd h (by simp)
  · simp only at h
    split at h
    · exact absurd h (by simp)
    · rename_i s1 e0 hstart
      split at h
      · simp only [Option.some.injEq] at h
        subst h; simp
      · have he0 : V6Inv [] e0 := by
          refine ⟨by simp, by simp, ?_⟩
          intro pos hp
          split at hstart
          · simp only [Option.some.injEq, Prod.mk.injEq] at hstart
            rw [← hstart.2] at hp
            simp only [Option.some.injEq] at hp
            omega
          · simp only [Option.some.injEq, Prod.mk.injEq] at hstart
            rw [← hstart.2] at hp
            exact absurd hp (by simp)
        split at h
        · exact absurd h (by simp)
        · rename_i rest ip e hloop
          have hinv := parseIPv6Loop_inv 8 s1 [] e0 (rest, ip, e) hloop he0
          obtain ⟨h16, -, hpos⟩ := hinv
          simp only at h16 hpos
          split at h
          · exact absurd h (by simp)
          · split at h
            · split at h
              · exact absurd h (by simp)
              · rename_i pos
                simp only [Option.some.injEq] at h
                subst h
                have := hpos pos rfl
                simp only [List.length_append, List.length_take, List.length_replicate,
                  List.length_drop]
                omega
            · split at h
              · exact absurd h (by simp)
              · simp only [Option.some.injEq] at h
                subst h
                omega

theorem parseAddr_length (s : List Char) (a : Bool × List Nat) (h : parseAddr s = some a) :
    (a.1 = true ∧ a.2.length = 4) ∨ (a.1 = false ∧ a.2.length = 16) := by
  unfold parseAddr at h
  split at h
  · simp only [Option.map_eq_some'] at h
    obtain ⟨b, hb, rfl⟩ := h
    exact Or.inl ⟨rfl, parseIPv4Fields_length _ _ hb⟩
  · simp only [Option.map_eq_some'] at h
    obtain ⟨b, hb, rfl⟩ := h
    exact Or.inr ⟨rfl, parseIPv6_length _ _ hb⟩
  · exact absurd h (by simp)

end net

namespace net

theorem zipWith_and_idem (ip m : List Nat) :
    List.zipWith (fun a b => a &&& b) (List.zipWith (fun a b => a &&& b) ip m) m
      = List.zipWith (fun a b => a &&& b) ip m := by
  induction ip generalizing m with
  | nil => simp
  | cons a ip ih =>
    cases m with
    | nil => simp
    | cons b m =>
      simp only [List.zipWith_cons_cons, List.cons.injEq]
      exact ⟨by rw [Nat.land_assoc, Nat.and_self], ih m⟩

theorem simpleMaskLength_cidr4 : ∀ n, n < 33 → simpleMaskLength (cidrMaskBytes 4 n) = some n := by
  decide

theorem simpleMaskLength_cidr16 :
    ∀ n, n < 129 → simpleMaskLength (cidrMaskBytes 16 n) = some n := by
  decide

theorem cidrMask16_byte10 : ∀ n, n < 33 → (cidrMaskBytes 16 n)[10]? = some 0 := by
  decide

theorem CIDRMask_eq (k bits : Nat) (m : IPMask)
    (h : CIDRMask k bits = some m) : m = cidrMaskBytes (bits / 8) k ∧ k ≤ bits := by
  simp only [CIDRMask, IPv4len, IPv6len] at h
  split at h
  · exact absurd h (by simp)
  · split at h
    · exact absurd h (by simp)
    · rename_i hk
      simp only [Option.some.injEq] at h
      exact ⟨h.symm, by omega⟩

theorem IP_Mask_v4 (b m : List Nat) (hb : b.length = 4) (hm : m.length = 4) :
    IP.Mask (v4InV6Prefix ++ b) m = some (List.zipWith (fun a b => a &&& b) b m) := by
  simp [IP.Mask, hb, hm, IPv4len, IPv6len, v4InV6Prefix]

theorem IP_Mask_v6 (b m : List Nat) (hb : b.length = 16) (hm : m.length = 16) :
    IP.Mask b m = some (List.zipWith (fun a b => a &&& b) b m) := by
  simp [IP.Mask, hb, hm, IPv4len, IPv6len]

theorem ParseCIDR_tail (bits : Nat) (hb : bits = 32 ∨ bits = 128) (x : IP) (mask : List Char)
    (r : Option (Nat × Nat)) (n : IPNet)
    (hx : (bits = 32 ∧ ∃ b, x = v4InV6Prefix ++ b ∧ b.length = 4) ∨ (bits = 128 ∧ x.length = 16))
    (h : (match r with
      | none => none
      | some (n, j) =>
        if j ≠ mask.length ∨ n > bits then none
        else
          match CIDRMask n bits with
          | none => none
          | some m =>
            match IP.Mask x m with
            | none => none
            | some nip => some (⟨nip, m⟩ : IPNet)) = some n) :
    n.Canonical (IPMask.Size n.Mask).1 := by
  cases r with
  | none => exact absurd h (by simp)
  | some kj =>
    obtain ⟨k, j⟩ := kj
    simp only at h
    split at h
    · exact absurd h (by simp)
    · cases hm : CIDRMask k bits with
      | none => rw [hm] at h; exact absurd h (by simp)
      | some m =>
        rw [hm] at h
        simp only at h
        obtain ⟨hm', hkb⟩ := CIDRMask_eq k bits m hm
        cases hnip : IP.Mask x m with
        | none => rw [hnip] at h; exact absurd h (by simp)
        | some nip =>
          rw [hnip] at h
          simp only [Option.some.injEq] at h
          subst h
          rcases hx with ⟨hbits, b, rfl, hl⟩ | ⟨hbits, hl⟩
          · subst hbits
            simp only [Nat.reduceDiv] at hm'
            subst hm'
            rw [IP_Mask_v4 _ _ hl (cidrMaskBytes_length 4 k)] at hnip
            simp only [Option.some.injEq] at hnip
            subst hnip
            have hsz : (IPMask.Size (cidrMaskBytes 4 k)).1 = k := by
              simp only [IPMask.Size, simpleMaskLength_cidr4 k (by omega)]
            simp only [hsz]
            refine ⟨Or.inl ⟨?_, hkb, rfl⟩, zipWith_and_idem _ _⟩
            simp [hl, cidrMaskBytes_length]
          · subst hbits
            simp only [Nat.reduceDiv] at hm'
            subst hm'
            rw [IP_Mask_v6 _ _ hl (cidrMaskBytes_length 16 k)] at hnip
            simp only [Option.some.injEq] at hnip
            subst hnip
            have hsz : (IPMask.Size (cidrMaskBytes 16 k)).1 = k := by
              simp only [IPMask.Size, simpleMaskLength_cidr16 k (by omega)]
            simp only [hsz]
            refine ⟨Or.inr ⟨?_, hkb, rfl⟩, zipWith_and_idem _ _⟩
            simp [hl, cidrMaskBytes_length]

theorem ParseCIDR_canonical (s : String) (n : IPNet) (h : ParseCIDR s = some n) :
    n.Canonical (IPMask.Size n.Mask).1 := by
  unfold ParseCIDR at h
  simp only at h
  cases hidx : List.indexOf? '/' s.toList with
  | none => rw [hidx] at h; exact absurd h (by simp)
  | some i =>
    rw [hidx] at h
    simp only at h
    cases ha : parseAddr (List.take i s.toList) with
    | none => rw [ha] at h; exact absurd h (by simp)
    | some a =>
      rw [ha] at h
      simp only at h
      rcases parseAddr_length _ _ ha with ⟨h1, hl⟩ | ⟨h1, hl⟩
      · simp only [h1, if_true, as16] at h
        exact ParseCIDR_tail 32 (Or.inl rfl) _ _ _ n (Or.inl ⟨rfl, a.2, rfl, hl⟩) h
      · simp only [h1, Bool.false_eq_true, if_false, as16] at h
        exact ParseCIDR_tail 128 (Or.inr rfl) _ _ _ n (Or.inr ⟨rfl, hl⟩) h

end net

namespace net

theorem canonical_not_mapped (n : IPNet) (k : Nat) (h : n.Canonical k) (hk : k ≤ 32)
    (hl : n.IP.length = 16) : n.IP.take 12 ≠ v4InV6Prefix := by
  intro hp
  obtain ⟨hcase, hmasked⟩ := h
  have hm : n.Mask = cidrMaskBytes 16 k := by
    rcases hcase with ⟨h4, -, -⟩ | ⟨-, -, hm⟩
    · omega
    · exact hm
  have h10 : (n.IP.take 12)[10]? = some 255 := by rw [hp]; rfl
  rw [List.getElem?_take] at h10
  simp only [show (10 : Nat) < 12 by omega, if_true] at h10
  have h10' : (List.zipWith (fun a b => a &&& b) n.IP n.Mask)[10]? = some 255 := by
    rw [hmasked]; exact h10
  rw [List.getElem?_zipWith, h10, hm, cidrMask16_byte10 k (by omega)] at h10'
  simp at h10'

theorem norm4_of_length4 (ip : IP) (h : ip.length = 4) : norm4 ip = ip := by
  simp [norm4, To4, IPv4len, h]

theorem norm4_of_mapped (ip : IP) (h : ip.length = 16) (hp : ip.take 12 = v4InV6Prefix) :
    norm4 ip = ip.drop 12 := by
  simp [norm4, To4, IPv4len, IPv6len, h, hp]

theorem norm4_of_unmapped (ip : IP) (h : ip.length ≠ 4) (hp : ip.take 12 ≠ v4InV6Prefix) :
    norm4 ip = ip := by
  simp [norm4, To4, IPv4len, h, hp]

/-- The mask `Contains` and `String` use for a canonical network. -/
theorem nnm_canonical (n : IPNet) (k : Nat) (h : n.Canonical k) :
    networkNumberAndMask n = some (norm4 n.IP,
      if n.IP.length = 16 ∧ n.IP.take 12 = v4InV6Prefix then n.Mask.drop 12 else n.Mask) := by
  obtain ⟨hcase, -⟩ := h
  rcases hcase with ⟨h4, -, hm⟩ | ⟨h16, -, hm⟩
  · have hml : n.Mask.length = 4 := by rw [hm, cidrMaskBytes_length]
    simp [networkNumberAndMask, norm4, To4, IPv4len, IPv6len, h4, hml]
  · have hml : n.Mask.length = 16 := by rw [hm, cidrMaskBytes_length]
    by_cases hp : n.IP.take 12 = v4InV6Prefix
    · simp [networkNumberAndMask, norm4, To4, IPv4len, IPv6len, h16, hml, hp]
    · simp [networkNumberAndMask, norm4, To4, IPv4len, IPv6len, h16, hml, hp]

theorem masked_canonical (n : IPNet) (k : Nat) (h : n.Canonical k) :
    List.zipWith (fun a b => a &&& b) (norm4 n.IP)
      (if n.IP.length = 16 ∧ n.IP.take 12 = v4InV6Prefix then n.Mask.drop 12 else n.Mask)
      = norm4 n.IP := by
  obtain ⟨hcase, hmasked⟩ := h
  by_cases hp : n.IP.length = 16 ∧ n.IP.take 12 = v4InV6Prefix
  · rw [if_pos hp, norm4_of_mapped _ hp.1 hp.2, ← List.drop_zipWith, hmasked]
  · rw [if_neg hp]
    rcases hcase with ⟨h4, -, -⟩ | ⟨h16, -, -⟩
    · rw [norm4_of_length4 _ h4, hmasked]
    · rw [norm4_of_unmapped _ (by omega) (fun hp' => hp ⟨h16, hp'⟩), hmasked]

theorem contains_canonical (n : IPNet) (k : Nat) (a : IP) (h : n.Canonical k) :
    n.Contains a = true ↔
      (norm4 a).length = (norm4 n.IP).length ∧
      norm4 n.IP = List.zipWith (fun a b => a &&& b) (norm4 a)
        (if n.IP.length = 16 ∧ n.IP.take 12 = v4InV6Prefix then n.Mask.drop 12 else n.Mask) := by
  unfold IPNet.Contains
  rw [nnm_canonical n k h]
  simp only [Option.getD_some, masked_canonical n k h]
  split
  · rename_i hne
    simp only [Bool.false_eq_true, false_iff, not_and]
    intro he; exact absurd he hne
  · rename_i heq
    simp only [ne_eq, not_not] at heq
    simp [heq]

theorem canonical_ext (n1 n2 : IPNet) (k : Nat) (h1 : n1.Canonical k) (h2 : n2.Canonical k)
    (hip : n1.IP = n2.IP) : n1 = n2 := by
  have hm : n1.Mask = n2.Mask := by
    rcases h1.1 with ⟨a4, -, am⟩ | ⟨a16, -, am⟩ <;> rcases h2.1 with ⟨b4, -, bm⟩ | ⟨b16, -, bm⟩
    · rw [am, bm]
    · rw [hip] at a4; omega
    · rw [hip] at a16; omega
    · rw [am, bm]
  cases n1; cases n2
  simp only at hip hm
  rw [hip, hm]

theorem canonical_eq_of_Equal (n1 n2 : IPNet) (k : Nat) (h1 : n1.Canonical k)
    (h2 : n2.Canonical k) (he : IP.Equal n1.IP n2.IP = true) : n1 = n2 := by
  apply canonical_ext n1 n2 k h1 h2
  unfold IP.Equal at he
  split at he
  · simpa using he
  · rename_i hne
    split at he
    · rename_i hl
      simp only [IPv4len, IPv6len] at hl
      have hk : k ≤ 32 := by
        rcases h1.1 with ⟨-, hk, -⟩ | ⟨a16, -, -⟩
        · exact hk
        · omega
      simp only [Bool.and_eq_true, decide_eq_true_eq] at he
      exact absurd he.1 (canonical_not_mapped n2 k h2 hk hl.2)
    · split at he
      · rename_i hl
        simp only [IPv4len, IPv6len] at hl
        have hk : k ≤ 32 := by
          rcases h2.1 with ⟨-, hk, -⟩ | ⟨a16, -, -⟩
          · exact hk
          · omega
        simp only [Bool.and_eq_true, decide_eq_true_eq] at he
        exact absurd he.1 (canonical_not_mapped n1 k h1 hk hl.1)
      · exact absurd he (by simp)

theorem IP_Equal_refl (ip : IP) : IP.Equal ip ip = true := by
  simp [IP.Equal]

theorem canonical_contains_unique (n1 n2 : IPNet) (k : Nat) (a : IP) (h1 : n1.Canonical k)
    (h2 : n2.Canonical k) (c1 : n1.Contains a = true) (c2 : n2.Contains a = true) :
    n1 = n2 := by
  apply canonical_ext n1 n2 k h1 h2
  obtain ⟨l1, e1⟩ := (contains_canonical n1 k a h1).1 c1
  obtain ⟨l2, e2⟩ := (contains_canonical n2 k a h2).1 c2
  rcases h1.1 with ⟨a4, ak, am⟩ | ⟨a16, ak, am⟩ <;> rcases h2.1 with ⟨b4, bk, bm⟩ | ⟨b16, bk, bm⟩
  · rw [norm4_of_length4 _ a4] at e1
    rw [norm4_of_length4 _ b4] at e2
    have c1' : ¬ (n1.IP.length = 16 ∧ n1.IP.take 12 = v4InV6Prefix) := by omega
    have c2' : ¬ (n2.IP.length = 16 ∧ n2.IP.take 12 = v4InV6Prefix) := by omega
    rw [if_neg c1', am] at e1
    rw [if_neg c2', bm] at e2
    rw [e1, e2]
  · have hp := canonical_not_mapped n2 k h2 ak b16
    rw [norm4_of_length4 _ a4] at l1
    rw [norm4_of_unmapped _ (by omega) hp] at l2
    omega
  · have hp := canonical_not_mapped n1 k h1 bk a16
    rw [norm4_of_length4 _ b4] at l2
    rw [norm4_of_unmapped _ (by omega) hp] at l1
    omega
  · by_cases p1 : n1.IP.take 12 = v4InV6Prefix <;> by_cases p2 : n2.IP.take 12 = v4InV6Prefix
    · rw [norm4_of_mapped _ a16 p1, if_pos ⟨a16, p1⟩, am] at e1
      rw [norm4_of_mapped _ b16 p2, if_pos ⟨b16, p2⟩, bm] at e2
      rw [← List.take_append_drop 12 n1.IP, ← List.take_append_drop 12 n2.IP, p1, p2, e1, e2]
    · rw [norm4_of_mapped _ a16 p1] at l1
      rw [norm4_of_unmapped _ (by omega) p2] at l2
      simp only [List.length_drop] at l1
      omega
    · rw [norm4_of_mapped _ b16 p2] at l2
      rw [norm4_of_unmapped _ (by omega) p1] at l1
      simp only [List.length_drop] at l2
      omega
    · rw [norm4_of_unmapped _ (by omega) p1, if_neg (fun hh => p1 hh.2), am] at e1
      rw [norm4_of_unmapped _ (by omega) p2, if_neg (fun hh => p2 hh.2), bm] at e2
      rw [e1, e2]

end net

namespace GoMap
variable {κ β : Type} [DecidableEq κ]

theorem get_set_self (m : List (κ × β)) (k : κ) (v : β) : get (set m k v) k = some v := by
  induction m with
  | nil => simp [set, get]
  | cons p rest ih =>
    obtain ⟨k', v'⟩ := p
    by_cases h : k' = k
    · simp [set, get, h]
    · simp [set, get, h, ih]

theorem get_set_ne (m : List (κ × β)) (k k' : κ) (v : β) (h : k ≠ k') :
    get (set m k v) k' = get m k' := by
  induction m with
  | nil => simp [set, get, h]
  | cons p rest ih =>
    obtain ⟨k1, v1⟩ := p
    by_cases h1 : k1 = k
    · subst h1
      simp [set, get, h]
    · by_cases h2 : k1 = k'
      · subst h2
        simp [set, get, h1]
      · simp [set, get, h1, h2, ih]

theorem mem_keys_iff (m : List (κ × β)) (k : κ) : k ∈ keys m ↔ (get m k).isSome = true := by
  induction m with
  | nil => simp [keys, get]
  | cons p rest ih =>
    obtain ⟨k1, v1⟩ := p
    by_cases h1 : k1 = k
    · simp [keys, get, h1]
    · have : k ≠ k1 := fun h => h1 h.symm
      simp only [keys, List.map_cons, List.mem_cons, this, false_or, get, h1, if_false]
      exact ih

end GoMap

namespace altomsgs
namespace NetworkMap

theorem findAssigned_none (ci : CIDRInfo) (k : Nat) (arr : List CIDRInfo) (hk : ci.MaskLen = k)
    (h : findAssigned ci k arr = none) :
    ∀ x ∈ arr, net.IP.Equal ci.Ipnet.IP x.Ipnet.IP = false := by
  induction arr with
  | nil => simp
  | cons y rest ih =>
    rw [findAssigned] at h
    split at h
    · exact absurd h (by simp)
    · rename_i hn
      intro x hx
      rcases List.mem_cons.1 hx with rfl | hx
      · simpa [hk] using hn
      · exact ih h x hx

theorem findAssigned_some (ci x : CIDRInfo) (k : Nat) (arr : List CIDRInfo)
    (h : findAssigned ci k arr = some x) :
    x ∈ arr ∧ ci.MaskLen = k ∧ net.IP.Equal ci.Ipnet.IP x.Ipnet.IP = true := by
  induction arr with
  | nil => exact absurd h (by simp [findAssigned])
  | cons y rest ih =>
    rw [findAssigned] at h
    split at h
    · rename_i hy
      simp only [Option.some.injEq] at h
      subst h
      exact ⟨List.mem_cons_self _ _, hy.1, hy.2⟩
    · obtain ⟨h1, h2⟩ := ih h
      exact ⟨List.mem_cons_of_mem _ h1, h2⟩

theorem findAssigned_append_self (ci : CIDRInfo) (k : Nat) (arr : List CIDRInfo)
    (hk : ci.MaskLen = k) (h : findAssigned ci k arr = none) :
    findAssigned ci k (arr ++ [ci]) = some ci := by
  induction arr with
  | nil => simp [findAssigned, hk, net.IP_Equal_refl]
  | cons y rest ih =>
    rw [findAssigned] at h
    split at h
    · exact absurd h (by simp)
    · rename_i hn
      simp only [List.cons_append, findAssigned, hn, if_false]
      exact ih h

theorem AddCIDR_parse_error (m : NetworkMap) (pid t c : String) (h : net.ParseCIDR c = none) :
    AddCIDR m pid t c = (m, some (.CIDRError c ("invalid CIDR address: " ++ c))) := by
  simp [AddCIDR, h]

theorem AddCIDR_type_error (m : NetworkMap) (pid t c : String) (n : net.IPNet) (e : Error)
    (h : net.ParseCIDR c = some n) (ht : AddrTypeLen t = .error e) :
    AddCIDR m pid t c = (m, some e) := by
  simp [AddCIDR, h, ht]

theorem AddCIDR_mismatch (m : NetworkMap) (pid t c : String) (n : net.IPNet) (l : Nat)
    (h : net.ParseCIDR c = some n) (ht : AddrTypeLen t = .ok l) (hl : l ≠ n.IP.length) :
    AddCIDR m pid t c = (m, some (.CIDRError c ("Not type " ++ t))) := by
  simp [AddCIDR, h, ht, hl]

theorem AddCIDR_found (m : NetworkMap) (pid t c : String) (n : net.IPNet) (x : CIDRInfo)
    (h : net.ParseCIDR c = some n) (ht : AddrTypeLen t = .ok n.IP.length)
    (hf : findAssigned ⟨pid, n, (net.IPMask.Size n.Mask).1⟩ (net.IPMask.Size n.Mask).1
      ((GoMap.get m.cidrsByLen (net.IPMask.Size n.Mask).1).getD []) = some x) :
    AddCIDR m pid t c = (m, if pid ≠ x.Pid then
      some (.CIDRError (net.IPNet.String n) ("CIDR assigned to PID '" ++ x.Pid ++ "'"))
      else none) := by
  simp only [AddCIDR, h, ht, hf]
  by_cases hp : pid = x.Pid <;> simp [hp]

/-- The update `AddCIDR` makes to `pids2cidrs` keeps every listed text and
lists the new one. -/
theorem index_update (pc : List (String × List (String × List String))) (pid t s : String) :
    let pidv := (GoMap.get pc pid).getD []
    let pc1 := if (GoMap.get pc pid).isNone = true then GoMap.set pc pid pidv else pc
    let cidrs := (GoMap.get pidv t).getD []
    let pc2 := if s ∈ cidrs then pc1 else GoMap.set pc1 pid (GoMap.set pidv t (cidrs ++ [s]))
    (∀ p t' s', (∃ pv cs, GoMap.get pc p = some pv ∧ GoMap.get pv t' = some cs ∧ s' ∈ cs) →
      ∃ pv cs, GoMap.get pc2 p = some pv ∧ GoMap.get pv t' = some cs ∧ s' ∈ cs) ∧
    ∃ pv cs, GoMap.get pc2 pid = some pv ∧ GoMap.get pv t = some cs ∧ s ∈ cs := by
  intro pidv pc1 cidrs pc2
  have h1 : GoMap.get pc1 pid = some pidv := by
    show GoMap.get (if (GoMap.get pc pid).isNone = true then GoMap.set pc pid pidv else pc) pid
      = some pidv
    cases hp : GoMap.get pc pid with
    | none => simp [GoMap.get_set_self]
    | some v => simp [pidv, hp]
  have h1' : ∀ p, p ≠ pid → GoMap.get pc1 p = GoMap.get pc p := by
    intro p hne
    show GoMap.get (if (GoMap.get pc pid).isNone = true then GoMap.set pc pid pidv else pc) p = _
    split
    · exact GoMap.get_set_ne _ _ _ _ (fun h => hne h.symm)
    · rfl
  have hold : ∀ pv, GoMap.get pc pid = some pv → pv = pidv := by
    intro pv hpv; simp [pidv, hpv]
  by_cases hmem : s ∈ cidrs
  · have e2 : pc2 = pc1 := if_pos hmem
    rw [e2]
    constructor
    · rintro p t' s' ⟨pv, cs, hpv, hcs, hs⟩
      by_cases hp : p = pid
      · subst hp
        exact ⟨pidv, cs, h1, by rw [← hold pv hpv]; exact hcs, hs⟩
      · exact ⟨pv, cs, by rw [h1' p hp]; exact hpv, hcs, hs⟩
    · cases hc : GoMap.get pidv t with
      | none => simp [cidrs, hc] at hmem
      | some cs => exact ⟨pidv, cs, h1, hc, by simpa [cidrs, hc] using hmem⟩
  · have e2 : pc2 = GoMap.set pc1 pid (GoMap.set pidv t (cidrs ++ [s])) := if_neg hmem
    rw [e2]
    constructor
    · rintro p t' s' ⟨pv, cs, hpv, hcs, hs⟩
      by_cases hp : p = pid
      · subst hp
        have := hold pv hpv
        subst this
        by_cases htt : t' = t
        · subst htt
          refine ⟨_, cidrs ++ [s], GoMap.get_set_self _ _ _, GoMap.get_set_self _ _ _, ?_⟩
          have : cidrs = cs := by simp [cidrs, hcs]
          rw [this]; simp [hs]
        · refine ⟨_, cs, GoMap.get_set_self _ _ _, ?_, hs⟩
          rw [GoMap.get_set_ne _ _ _ _ (fun h => htt h.symm)]; exact hcs
      · refine ⟨pv, cs, ?_, hcs, hs⟩
        rw [GoMap.get_set_ne _ _ _ _ (fun h => hp h.symm), h1' p hp]; exact hpv
    · exact ⟨_, cidrs ++ [s], GoMap.get_set_self _ _ _, GoMap.get_set_self _ _ _, by simp⟩

theorem AddCIDR_new (m : NetworkMap) (pid t c : String) (n : net.IPNet)
    (h : net.ParseCIDR c = some n) (ht : AddrTypeLen t = .ok n.IP.length)
    (hf : findAssigned ⟨pid, n, (net.IPMask.Size n.Mask).1⟩ (net.IPMask.Size n.Mask).1
      ((GoMap.get m.cidrsByLen (net.IPMask.Size n.Mask).1).getD []) = none) :
    (AddCIDR m pid t c).2 = none ∧
    (AddCIDR m pid t c).1.vtag = m.vtag ∧
    (AddCIDR m pid t c).1.cidrsByLen = GoMap.set m.cidrsByLen (net.IPMask.Size n.Mask).1
      ((GoMap.get m.cidrsByLen (net.IPMask.Size n.Mask).1).getD [] ++
        [⟨pid, n, (net.IPMask.Size n.Mask).1⟩]) ∧
    (AddCIDR m pid t c).1.maskLengths =
      (if (GoMap.get m.cidrsByLen (net.IPMask.Size n.Mask).1).isNone = true then
        List.insertionSort (fun a b => a ≥ b) (GoMap.keys (AddCIDR m pid t c).1.cidrsByLen)
       else m.maskLengths) ∧
    (∀ p t' s, InIndex m p t' s → InIndex (AddCIDR m pid t c).1 p t' s) ∧
    InIndex (AddCIDR m pid t c).1 pid t (net.IPNet.String n) := by
  generalize hk : (net.IPMask.Size n.Mask).1 = k at *
  have hidx := index_update m.pids2cidrs pid t (net.IPNet.String n)
  simp only at hidx
  unfold InIndex
  cases hg : GoMap.get m.cidrsByLen k <;>
  simp only [hg, Option.getD_none, Option.getD_some] at hf <;>
  cases hp : GoMap.get m.pids2cidrs pid <;>
  simp only [hp, Option.isNone_none, Option.isNone_some, Option.getD_none, Option.getD_some,
    if_true, Bool.false_eq_true, if_false] at hidx <;>
  simp only [AddCIDR, h, ht, hk, hf, hg, hp, recalcLensUsed, ne_eq, not_true_eq_false, if_false,
    Option.isNone_none, Option.isNone_some, Option.getD_none, Option.getD_some, if_true,
    Bool.false_eq_true] <;>
  split <;> rename_i hmem <;>
  simp only [hmem, if_true, if_false] at hidx <;>
  exact ⟨rfl, rfl, rfl, rfl, hidx.1, hidx.2⟩

end NetworkMap
end altomsgs

namespace altomsgs
namespace NetworkMap

theorem Inv_new : Inv NewNetworkMap := by
  refine ⟨?_, ?_, ?_, ?_⟩
  · intro k; simp [NewNetworkMap, GoMap.get]
  · simp [NewNetworkMap]
  · intro k arr h; simp [NewNetworkMap, GoMap.get] at h
  · rintro ci ⟨k, arr, h, -⟩; simp [NewNetworkMap, GoMap.get] at h

theorem Inv_AddCIDR (m : NetworkMap) (hinv : Inv m) (pid t c : String) :
    Inv (AddCIDR m pid t c).1 := by
  cases hpc : net.ParseCIDR c with
  | none => rw [AddCIDR_parse_error m pid t c hpc]; exact hinv
  | some n =>
    cases hat : AddrTypeLen t with
    | error e => rw [AddCIDR_type_error m pid t c n e hpc hat]; exact hinv
    | ok l =>
      by_cases hl : l = n.IP.length
      swap
      · rw [AddCIDR_mismatch m pid t c n l hpc hat hl]; exact hinv
      subst hl
      cases hf : findAssigned ⟨pid, n, (net.IPMask.Size n.Mask).1⟩ (net.IPMask.Size n.Mask).1
        ((GoMap.get m.cidrsByLen (net.IPMask.Size n.Mask).1).getD []) with
      | some x => rw [AddCIDR_found m pid t c n x hpc hat hf]; exact hinv
      | none =>
        obtain ⟨-, -, hcb, hml, hmono, hnew⟩ := AddCIDR_new m pid t c n hpc hat hf
        have hcan := net.ParseCIDR_canonical c n hpc
        have hne := findAssigned_none _ _ _ rfl hf
        generalize (AddCIDR m pid t c).1 = m' at *
        generalize (net.IPMask.Size n.Mask).1 = k at *
        have hget : ∀ k', GoMap.get m'.cidrsByLen k' =
            if k = k' then some ((GoMap.get m.cidrsByLen k).getD [] ++ [⟨pid, n, k⟩])
            else GoMap.get m.cidrsByLen k' := by
          intro k'
          rw [hcb]
          split
          · rename_i h; subst h; exact GoMap.get_set_self _ _ _
          · rename_i h; exact GoMap.get_set_ne _ _ _ _ h
        have hsome : ∀ k', (GoMap.get m'.cidrsByLen k').isSome = true ↔
            (k' = k ∨ (GoMap.get m.cidrsByLen k').isSome = true) := by
          intro k'
          rw [hget k']
          by_cases h : k = k'
          · simp [h]
          · have : ¬ k' = k := fun e => h e.symm
            simp [h, this]
        refine ⟨?_, ?_, ?_, ?_⟩
        · intro k'
          rw [hml]
          split
          · rw [List.mem_insertionSort, GoMap.mem_keys_iff]
          · rename_i hnn
            rw [hinv.lens k', hsome k']
            constructor
            · exact Or.inr
            · rintro (rfl | h)
              · rw [Option.isSome_iff_ne_none]; simpa using hnn
              · exact h
        · rw [hml]
          split
          · exact List.sorted_insertionSort _ _
          · exact hinv.sorted
        · intro k' arr' h'
          rw [hget k'] at h'
          split at h'
          · rename_i hkk
            subst hkk
            simp only [Option.some.injEq] at h'
            subst h'
            cases hg : GoMap.get m.cidrsByLen k with
            | none =>
              simp only [Option.getD_none, List.nil_append, List.mem_singleton, forall_eq,
                List.pairwise_singleton, and_true]
              exact ⟨trivial, hcan⟩
            | some arr =>
              obtain ⟨hb1, hb2⟩ := hinv.bucket k arr hg
              simp only [hg, Option.getD_some] at hne ⊢
              constructor
              · intro ci hci
                rcases List.mem_append.1 hci with h | h
                · exact hb1 ci h
                · simp only [List.mem_singleton] at h
                  subst h
                  exact ⟨rfl, hcan⟩
              · rw [List.pairwise_append]
                refine ⟨hb2, List.pairwise_singleton _ _, ?_⟩
                intro x hx y hy
                simp only [List.mem_singleton] at hy
                subst hy
                exact hne x hx
          · exact hinv.bucket k' arr' h'
        · rintro ci ⟨k', arr', h', hci⟩
          rw [hget k'] at h'
          have hold : Stored m ci → ∃ t, AddrTypeLen t = .ok ci.Ipnet.IP.length ∧
              InIndex m' ci.Pid t (net.IPNet.String ci.Ipnet) := by
            intro hs
            obtain ⟨t1, ht1, hi1⟩ := hinv.sync ci hs
            exact ⟨t1, ht1, hmono _ _ _ hi1⟩
          split at h'
          · simp only [Option.some.injEq] at h'
            subst h'
            rcases List.mem_append.1 hci with h | h
            · cases hg : GoMap.get m.cidrsByLen k with
              | none => simp [hg] at h
              | some arr =>
                simp only [hg, Option.getD_some] at h
                exact hold ⟨k, arr, hg, h⟩
            · simp only [List.mem_singleton] at h
              subst h
              exact ⟨t, hat, hnew⟩
          · exact hold ⟨k', arr', h', hci⟩

theorem Inv_addAll (m : NetworkMap) (hinv : Inv m) (ops : List (String × String × String)) :
    Inv (addAll m ops) := by
  induction ops generalizing m with
  | nil => exact hinv
  | cons op rest ih =>
    simp only [addAll, List.foldl_cons]
    exact ih _ (Inv_AddCIDR m hinv _ _ _)

end NetworkMap

theorem iterList_append {α σ : Type} (f : α → σ → Bool × σ) (l1 l2 : List α) (s : σ) :
    iterList f (l1 ++ l2) s =
      if (iterList f l1 s).1 = true then iterList f l2 (iterList f l1 s).2
      else iterList f l1 s := by
  induction l1 generalizing s with
  | nil => simp [iterList]
  | cons x rest ih =>
    simp only [List.cons_append, iterList]
    split
    · exact ih _
    · simp

theorem iterList_flatMap {α γ σ : Type} (f : α → σ → Bool × σ) (g : γ → List α) (l : List γ)
    (s : σ) :
    iterList (fun c st => iterList f (g c) st) l s = iterList f (l.flatMap g) s := by
  induction l generalizing s with
  | nil => simp [iterList]
  | cons c rest ih =>
    simp only [iterList, List.flatMap_cons, iterList_append]
    split
    · exact ih _
    · rename_i h
      simp only [Bool.not_eq_true] at h
      apply Prod.ext
      · simp [h]
      · rfl

theorem iterList_find {α τ : Type} (p : α → Bool) (g : α → τ) (l : List α) (s : τ) :
    iterList (fun x (st : τ) => if p x = true then (false, g x) else (true, st)) l s =
      match l.find? p with
      | some x => (false, g x)
      | none => (true, s) := by
  induction l with
  | nil => simp [iterList]
  | cons x rest ih =>
    by_cases hp : p x = true
    · simp [iterList, hp]
    · simp only [Bool.not_eq_true] at hp
      simp [iterList, hp, ih]

namespace NetworkMap

theorem IP2Pid_eq_find (m : NetworkMap) (a : net.IP) :
    IP2Pid m a =
      match (m.maskLengths.flatMap (fun k => (GoMap.get m.cidrsByLen k).getD [])).find?
          (fun ci => ci.Ipnet.Contains a) with
      | some ci => (ci.Pid, ci.Ipnet, true)
      | none => ("", ⟨[], []⟩, false) := by
  unfold IP2Pid CIDRIter
  rw [iterList_flatMap]
  have hfind := iterList_find (fun (ci : CIDRInfo) => ci.Ipnet.Contains a)
    (fun ci => (ci.Pid, ci.Ipnet, true))
    (m.maskLengths.flatMap (fun k => (GoMap.get m.cidrsByLen k).getD []))
    ("", (⟨[], []⟩ : net.IPNet), false)
  simp only at hfind
  rw [hfind]
  split <;> rename_i h <;> simp [h]

theorem mem_flat (m : NetworkMap) (hinv : Inv m) (ci : CIDRInfo) :
    ci ∈ m.maskLengths.flatMap (fun k => (GoMap.get m.cidrsByLen k).getD []) ↔ Stored m ci := by
  simp only [List.mem_flatMap, Stored]
  constructor
  · rintro ⟨k, hk, hci⟩
    cases hg : GoMap.get m.cidrsByLen k with
    | none => simp [hg] at hci
    | some arr => exact ⟨k, arr, hg, by simpa [hg] using hci⟩
  · rintro ⟨k, arr, hg, hci⟩
    exact ⟨k, (hinv.lens k).2 (by simp [hg]), by simpa [hg] using hci⟩

theorem flat_sorted (m : NetworkMap) (hinv : Inv m) :
    (m.maskLengths.flatMap (fun k => (GoMap.get m.cidrsByLen k).getD [])).Pairwise
      (fun x y => x.MaskLen ≥ y.MaskLen) := by
  have hb : ∀ k, ∀ ci ∈ (GoMap.get m.cidrsByLen k).getD [], ci.MaskLen = k := by
    intro k ci hci
    cases hg : GoMap.get m.cidrsByLen k with
    | none => simp [hg] at hci
    | some arr => exact ((hinv.bucket k arr hg).1 ci (by simpa [hg] using hci)).1
  rw [List.pairwise_flatMap]
  constructor
  · intro k _
    apply List.pairwise_of_forall_mem_list
    intro x hx y hy
    rw [hb k x hx, hb k y hy]
  · refine hinv.sorted.imp ?_
    intro k1 k2 hge x hx y hy
    rw [hb k1 x hx, hb k2 y hy]
    exact hge

end NetworkMap
end altomsgs

namespace altomsgs
namespace NetworkMap

theorem pairwise_mem_cases {α : Type} {R : α → α → Prop} {l : List α} (h : l.Pairwise R)
    (x y : α) (hx : x ∈ l) (hy : y ∈ l) : x = y ∨ R x y ∨ R y x := by
  induction h with
  | nil => simp at hx
  | cons hhead _ ih =>
    rcases List.mem_cons.1 hx with rfl | hx' <;> rcases List.mem_cons.1 hy with rfl | hy'
    · exact Or.inl rfl
    · exact Or.inr (Or.inl (hhead _ hy'))
    · exact Or.inr (Or.inr (hhead _ hx'))
    · exact ih hx' hy'

theorem Size_canonical (n : net.IPNet) (k : Nat) (h : n.Canonical k) :
    (net.IPMask.Size n.Mask).1 = k := by
  rcases h.1 with ⟨-, hk, hm⟩ | ⟨-, hk, hm⟩
  · rw [hm]; simp only [net.IPMask.Size, net.simpleMaskLength_cidr4 k (by omega)]
  · rw [hm]; simp only [net.IPMask.Size, net.simpleMaskLength_cidr16 k (by omega)]

/-- Two stored CIDRs of one mask length that contain the same address are the
same entry. -/
theorem stored_unique (m : NetworkMap) (hinv : Inv m) (ci cj : CIDRInfo) (a : net.IP)
    (hi : Stored m ci) (hj : Stored m cj) (ca : ci.Ipnet.Contains a = true)
    (cb : cj.Ipnet.Contains a = true) (hlen : cj.MaskLen = ci.MaskLen) : cj = ci := by
  obtain ⟨ki, arri, hgi, hmi⟩ := hi
  obtain ⟨kj, arrj, hgj, hmj⟩ := hj
  obtain ⟨hbi, hpw⟩ := hinv.bucket ki arri hgi
  obtain ⟨hbj, -⟩ := hinv.bucket kj arrj hgj
  have hk : kj = ki := by rw [← (hbi ci hmi).1, ← (hbj cj hmj).1]; exact hlen
  subst hk
  rw [hgi] at hgj
  simp only [Option.some.injEq] at hgj
  subst hgj
  have hnet : cj.Ipnet = ci.Ipnet :=
    net.canonical_contains_unique _ _ kj a (hbj cj hmj).2 (hbi ci hmi).2 cb ca
  rcases pairwise_mem_cases hpw cj ci hmj hmi with h | h | h
  · exact h
  · rw [hnet, net.IP_Equal_refl] at h; exact absurd h (by simp)
  · rw [hnet, net.IP_Equal_refl] at h; exact absurd h (by simp)

/-- What `IP2Pid` returns on a map that satisfies the invariant. -/
theorem IP2Pid_spec (m : NetworkMap) (hinv : Inv m) (a : net.IP) :
    ((IP2Pid m a).2.2 = true ↔ ∃ ci, Stored m ci ∧ ci.Ipnet.Contains a = true) ∧
    ((IP2Pid m a).2.2 = true →
      ∃ ci, Stored m ci ∧ ci.Ipnet.Contains a = true ∧
        IP2Pid m a = (ci.Pid, ci.Ipnet, true) ∧
        ci.MaskLen = (net.IPMask.Size ci.Ipnet.Mask).1 ∧
        (∀ cj, Stored m cj → cj.Ipnet.Contains a = true → cj.MaskLen ≤ ci.MaskLen) ∧
        (∀ cj, Stored m cj → cj.Ipnet.Contains a = true → cj.MaskLen = ci.MaskLen → cj = ci)) ∧
    ((IP2Pid m a).2.2 = false → IP2Pid m a = ("", ⟨[], []⟩, false)) := by
  have hfind := IP2Pid_eq_find m a
  refine ⟨?_, ?_, ?_⟩
  · rw [hfind]
    constructor
    · intro h
      split at h
      · rename_i ci hci
        have := List.find?_some hci
        exact ⟨ci, (mem_flat m hinv ci).1 (List.mem_of_find?_eq_some hci), this⟩
      · exact absurd h (by simp)
    · rintro ⟨ci, hs, hc⟩
      split
      · rfl
      · rename_i hnone
        rw [List.find?_eq_none] at hnone
        exact absurd hc (hnone ci ((mem_flat m hinv ci).2 hs))
  · intro h
    rw [hfind] at h ⊢
    split at h
    swap
    · exact absurd h (by simp)
    rename_i ci hci
    have hsorted := flat_sorted m hinv
    obtain ⟨hc, as, bs, hdecomp, hbefore⟩ := List.find?_eq_some.1 hci
    have hst : Stored m ci := (mem_flat m hinv ci).1 (List.mem_of_find?_eq_some hci)
    have hge : ∀ cj, Stored m cj → cj.Ipnet.Contains a = true →
        cj.MaskLen ≤ ci.MaskLen := by
      intro cj hsj hcj
      have hmem := (mem_flat m hinv cj).2 hsj
      rw [hdecomp] at hmem hsorted
      rcases List.mem_append.1 hmem with h1 | h1
      · have := hbefore cj h1
        simp [hcj] at this
      · rcases List.mem_cons.1 h1 with rfl | h2
        · exact Nat.le_refl _
        · have hp := (List.pairwise_append.1 hsorted).2.1
          exact List.rel_of_pairwise_cons hp h2
    refine ⟨ci, hst, hc, rfl, ?_, hge, ?_⟩
    · obtain ⟨k, arr, hg, hm⟩ := hst
      obtain ⟨hk, hcan⟩ := (hinv.bucket k arr hg).1 ci hm
      rw [hk, Size_canonical _ _ hcan]
    · intro cj hsj hcj hlen
      exact stored_unique m hinv ci cj a hst hsj hc hcj hlen
  · intro h
    rw [hfind] at h ⊢
    split at h
    · exact absurd h (by simp)
    · rfl

end NetworkMap
end altomsgs
namespace wdrlib
open altomsgs

@[simp] theorem IfaceArrToStrs_cons_string (fmtG : ℚ → String) (x : String)
    (rest : List GoValue) :
    IfaceArrToStrs fmtG (GoValue.string x :: rest) = x :: IfaceArrToStrs fmtG rest := by
  simp [IfaceArrToStrs]

@[simp] theorem IfaceArrToStrs_strings (fmtG : ℚ → String) (xs : List String) :
    IfaceArrToStrs fmtG (xs.map GoValue.string) = xs := by
  induction xs with
  | nil => rfl
  | cons x rest ih => simp [ih]

end wdrlib

namespace altomsgs

theorem NetworkMapFilter_round_trip (fmtG : ℚ → String) (m : NetworkMapFilter) :
    NetworkMapFilter.FromJsonMap fmtG NewNetworkMapFilter (decodedFields m.ToJsonMap)
      = (m, []) := by
  obtain ⟨pids, addrTypes⟩ := m
  cases pids <;> cases addrTypes <;>
  simp [NetworkMapFilter.ToJsonMap, NetworkMapFilter.FromJsonMap, NewNetworkMapFilter,
    GoMap.set, GoMap.get, decodedFields, GoValue.decoded, FN_PIDS, FN_ADDRESS_TYPES]

theorem CostMapFilter_round_trip (fmtG : ℚ → String) (m : CostMapFilter) :
    CostMapFilter.FromJsonMap fmtG NewCostMapFilter (decodedFields m.ToJsonMap) = (m, []) := by
  obtain ⟨⟨metric, mode⟩, srcs, dsts, cons⟩ := m
  by_cases hct : metric ≠ "" ∨ mode ≠ "" <;>
  cases srcs <;> cases dsts <;> cases cons <;>
  simp [CostMapFilter.ToJsonMap, CostMapFilter.FromJsonMap, NewCostMapFilter, hct, GoMap.set,
    GoMap.get, decodedFields, GoValue.decoded, fieldsOfCostType, wdrlib.GetStringMember,
    wdrlib.GetStringArray, FN_COST_TYPE, FN_PIDS, FN_SRCS, FN_DSTS, FN_CONSTRAINTS,
    FN_COST_METRIC, FN_COST_MODE]
  all_goals
    simp only [ne_eq, not_or, not_not] at hct
    simp [hct.1, hct.2]

theorem EndpointCostParams_round_trip (fmtG : ℚ → String) (m : EndpointCostParams) :
    EndpointCostParams.FromJsonMap fmtG NewEndpointCostParams (decodedFields m.ToJsonMap)
      = (m, []) := by
  obtain ⟨⟨metric, mode⟩, srcs, dsts, cons⟩ := m
  cases srcs <;> cases dsts <;> cases cons <;>
  simp [EndpointCostParams.ToJsonMap, EndpointCostParams.FromJsonMap, NewEndpointCostParams,
    GoMap.set, GoMap.get, decodedFields, GoValue.decoded, fieldsOfCostType,
    wdrlib.GetStringMember, wdrlib.GetStringArray, FN_COST_TYPE, FN_ENDPOINTS, FN_SRCS, FN_DSTS,
    FN_CONSTRAINTS, FN_COST_METRIC, FN_COST_MODE]

theorem EndpointPropParams_round_trip (fmtG : ℚ → String) (m : EndpointPropParams) :
    EndpointPropParams.FromJsonMap fmtG NewEndpointPropParams (decodedFields m.ToJsonMap)
      = (m, []) := by
  obtain ⟨props, endpoints⟩ := m
  cases props <;> cases endpoints <;>
  simp [EndpointPropParams.ToJsonMap, EndpointPropParams.FromJsonMap, NewEndpointPropParams,
    GoMap.set, GoMap.get, decodedFields, GoValue.decoded, wdrlib.GetStringArray,
    FN_PROPERTIES, FN_ENDPOINTS]

theorem ErrorResp_round_trip (m : ErrorResp) :
    ErrorResp.FromJsonMap (NewErrorResp "") (decodedFields m.ToJsonMap) = (m, []) := by
  obtain ⟨code, syn, field, value⟩ := m
  by_cases h1 : code = "" <;> by_cases h2 : syn = "" <;> by_cases h3 : field = "" <;>
  by_cases h4 : value = "" <;>
  simp [ErrorResp.ToJsonMap, ErrorResp.FromJsonMap, NewErrorResp, JsonMap.GetMeta,
    GoMap.set, GoMap.get, decodedFields, GoValue.decoded, wdrlib.GetStringMember,
    FN_META, FN_ERROR_CODE, FN_ERROR_SYNTAX_ERROR, FN_ERROR_FIELD, FN_ERROR_VALUE,
    h1, h2, h3, h4]

end altomsgs
namespace GoMap
variable {κ β : Type} [DecidableEq κ]

theorem set_of_not_mem (m : List (κ × β)) (k : κ) (v : β) (h : k ∉ keys m) :
    set m k v = m ++ [(k, v)] := by
  induction m with
  | nil => rfl
  | cons p rest ih =>
    obtain ⟨k', v'⟩ := p
    simp only [keys, List.map_cons, List.mem_cons, not_or] at h
    have hne : ¬ k' = k := fun e => h.1 e.symm
    simp only [set, hne, if_false, List.cons_append, List.cons.injEq, true_and]
    exact ih h.2

omit [DecidableEq κ] in
theorem keys_append (a b : List (κ × β)) : keys (a ++ b) = keys a ++ keys b := by
  simp [keys]

theorem foldl_set_nodup {γ : Type} (f : γ → β) (l : List (κ × γ)) :
    ∀ acc : List (κ × β), (keys l).Nodup → (∀ k ∈ keys l, k ∉ keys acc) →
      l.foldl (fun acc e => set acc e.1 (f e.2)) acc = acc ++ l.map (fun e => (e.1, f e.2)) := by
  induction l with
  | nil => intro acc _ _; simp
  | cons e rest ih =>
    intro acc hnd hdis
    simp only [keys, List.map_cons, List.nodup_cons] at hnd
    simp only [List.foldl_cons, List.map_cons]
    rw [set_of_not_mem acc e.1 (f e.2) (hdis e.1 (by simp [keys]))]
    rw [ih _ hnd.2]
    · simp
    · intro k hk
      rw [keys_append]
      simp only [List.mem_append, not_or]
      refine ⟨hdis k (by simp only [keys, List.map_cons, List.mem_cons]; exact Or.inr hk), ?_⟩
      simp only [keys, List.map_cons, List.map_nil, List.mem_singleton]
      rintro rfl
      exact hnd.1 hk

end GoMap

namespace altomsgs

theorem decoded_map (kvs : List (String × GoValue)) :
    (GoValue.map kvs).decoded = .map (decodedFields kvs) := by
  simp only [GoValue.decoded]

theorem decoded_typedMap (kvs : List (String × GoValue)) :
    (GoValue.typedMap kvs).decoded = .map (decodedFields kvs) := by
  simp only [GoValue.decoded]

theorem decoded_string (s : String) : (GoValue.string s).decoded = .string s := by
  simp only [GoValue.decoded]

theorem decodedFields_map {γ : Type} (g : γ → GoValue) (l : List (String × γ)) :
    decodedFields (l.map (fun e => (e.1, g e.2))) = l.map (fun e => (e.1, (g e.2).decoded)) := by
  induction l with
  | nil => rfl
  | cons e rest ih => simp [decodedFields, ih]

theorem readCostTypes_step (this : Directory) (name : String) (ct : CostTypeDescription)
    (rest : List (String × GoValue)) :
    Directory.readCostTypes this ((name, (Directory.costTypeFields ct).decoded) :: rest)
      = Directory.readCostTypes
          { this with CostTypes := GoMap.set this.CostTypes name ct } rest := by
  obtain ⟨metric, mode, descr⟩ := ct
  by_cases h : descr = "" <;>
  simp [Directory.readCostTypes, Directory.costTypeFields, decodedFields, GoValue.decoded,
    wdrlib.GetStringMember, GoMap.get, GoMap.set, FN_COST_METRIC, FN_COST_MODE,
    FN_DESCRIPTION, h]

theorem readCostTypes_round_trip (l : List (String × CostTypeDescription)) :
    ∀ this : Directory, (GoMap.keys l).Nodup → (∀ k ∈ GoMap.keys l, k ∉ GoMap.keys this.CostTypes) →
      Directory.readCostTypes this
          (l.map (fun e => (e.1, (Directory.costTypeFields e.2).decoded)))
        = { this with CostTypes := this.CostTypes ++ l } := by
  induction l with
  | nil => intro this _ _; simp [Directory.readCostTypes]
  | cons e rest ih =>
    intro this hnd hdis
    obtain ⟨name, ct⟩ := e
    simp only [GoMap.keys, List.map_cons, List.nodup_cons] at hnd
    simp only [List.map_cons, readCostTypes_step]
    rw [GoMap.set_of_not_mem _ _ _ (hdis name (by simp [GoMap.keys]))]
    rw [ih _ hnd.2]
    · simp
    · intro k hk
      simp only [GoMap.keys_append, List.mem_append, not_or]
      refine ⟨hdis k (by simp only [GoMap.keys, List.map_cons, List.mem_cons]; exact Or.inr hk),
        ?_⟩
      simp only [GoMap.keys, List.map_cons, List.map_nil, List.mem_singleton]
      rintro rfl
      exact hnd.1 hk

theorem readResources_step (fmtG : ℚ → String) (this : Directory) (r : DirResource)
    (rest : List (String × GoValue)) :
    Directory.readResources fmtG this ((r.Id, (Directory.resourceFields r).decoded) :: rest)
      = Directory.readResources fmtG
          { this with Resources := GoMap.set this.Resources r.Id r } rest := by
  obtain ⟨id, uri, mt, accepts, uses, ctn, cc, pt⟩ := r
  by_cases h1 : accepts = "" <;> cases uses <;> cases ctn <;> cases cc <;> cases pt <;>
  simp [Directory.readResources, Directory.resourceFields, Directory.readResource,
    decodedFields, GoValue.decoded, wdrlib.GetStringMember,
    wdrlib.GetStringArray, wdrlib.GetBoolMember, GoMap.get, GoMap.set, FN_URI, FN_MEDIA_TYPE,
    FN_ACCEPTS, FN_USES, FN_CAPABILITIES, FN_COST_CONSTRAINTS, FN_COST_TYPE_NAMES,
    FN_PROP_TYPES, h1]

theorem readResources_round_trip (fmtG : ℚ → String) (l : List (String × DirResource)) :
    ∀ this : Directory, (GoMap.keys l).Nodup → (∀ k ∈ GoMap.keys l, k ∉ GoMap.keys this.Resources) →
      (∀ e ∈ l, e.2.Id = e.1) →
      Directory.readResources fmtG this
          (l.map (fun e => (e.1, (Directory.resourceFields e.2).decoded)))
        = { this with Resources := this.Resources ++ l } := by
  induction l with
  | nil => intro this _ _ _; simp [Directory.readResources]
  | cons e rest ih =>
    intro this hnd hdis hid
    obtain ⟨name, r⟩ := e
    simp only [GoMap.keys, List.map_cons, List.nodup_cons] at hnd
    have hname : r.Id = name := hid (name, r) (List.mem_cons_self _ _)
    subst hname
    simp only [List.map_cons, readResources_step]
    rw [GoMap.set_of_not_mem _ _ _ (hdis r.Id (by simp [GoMap.keys]))]
    rw [ih _ hnd.2]
    · simp
    · intro k hk
      simp only [GoMap.keys_append, List.mem_append, not_or]
      refine ⟨hdis k (by simp only [GoMap.keys, List.map_cons, List.mem_cons]; exact Or.inr hk),
        ?_⟩
      simp only [GoMap.keys, List.map_cons, List.map_nil, List.mem_singleton]
      rintro rfl
      exact hnd.1 hk
    · intro e he
      exact hid e (List.mem_cons_of_mem _ he)

theorem Directory_round_trip (fmtG : ℚ → String) (d : Directory)
    (h1 : (GoMap.keys d.CostTypes).Nodup) (h2 : (GoMap.keys d.Resources).Nodup)
    (h3 : ∀ e ∈ d.Resources, e.2.Id = e.1) :
    Directory.FromJsonMap fmtG NewDirectory (decodedFields d.ToJsonMap) = (d, []) := by
  obtain ⟨cts, defId, ress⟩ := d
  simp only at h1 h2 h3
  have hct := GoMap.foldl_set_nodup Directory.costTypeFields cts [] h1 (by simp [GoMap.keys])
  have hres := GoMap.foldl_set_nodup Directory.resourceFields ress [] h2 (by simp [GoMap.keys])
  have rct := readCostTypes_round_trip cts ⟨[], defId, []⟩ h1 (by simp [GoMap.keys])
  have rres := readResources_round_trip fmtG ress ⟨cts, defId, []⟩ h2
    (by simp [GoMap.keys]) h3
  simp only [List.nil_append] at hct hres rct rres
  by_cases hd : defId = ""
  · subst hd
    simp [Directory.ToJsonMap, Directory.FromJsonMap, NewDirectory, JsonMap.GetMeta, hct, hres,
      GoMap.set, GoMap.get, decodedFields, decoded_map, decoded_typedMap, decoded_string,
      decodedFields_map, wdrlib.GetStringMember, FN_META, FN_RESOURCES, FN_COST_TYPES,
      FN_DEFAULT_ALTO_NETWORK_MAP, rct, rres]
  · simp [Directory.ToJsonMap, Directory.FromJsonMap, NewDirectory, JsonMap.GetMeta, hct, hres,
      GoMap.set, GoMap.get, decodedFields, decoded_map, decoded_typedMap, decoded_string,
      decodedFields_map, wdrlib.GetStringMember, FN_META, FN_RESOURCES, FN_COST_TYPES,
      FN_DEFAULT_ALTO_NETWORK_MAP, rct, rres, hd]

end altomsgs
namespace GoMap
variable {κ β : Type} [DecidableEq κ]

theorem get_of_not_mem (m : List (κ × β)) (k : κ) (h : k ∉ keys m) : get m k = none := by
  cases hg : get m k with
  | none => rfl
  | some v =>
    have := (mem_keys_iff m k).2 (by simp [hg])
    exact absurd this h

theorem keys_set (m : List (κ × β)) (k : κ) (v : β) :
    keys (set m k v) = if k ∈ keys m then keys m else keys m ++ [k] := by
  induction m with
  | nil => simp [set, keys]
  | cons p rest ih =>
    obtain ⟨k', v'⟩ := p
    by_cases h : k' = k
    · subst h; simp [set, keys]
    · have hne : ¬ k = k' := fun e => h e.symm
      simp only [set, h, if_false, keys, List.map_cons, List.mem_cons, hne, false_or]
      simp only [keys] at ih
      rw [ih]
      split <;> simp

theorem nodup_keys_set (m : List (κ × β)) (k : κ) (v : β) (h : (keys m).Nodup) :
    (keys (set m k v)).Nodup := by
  rw [keys_set]
  split
  · exact h
  · rename_i hk
    rw [List.nodup_append]
    refine ⟨h, List.nodup_singleton k, ?_⟩
    intro a ha hb
    simp only [List.mem_singleton] at hb
    subst hb
    exact hk ha

theorem mem_set (m : List (κ × β)) (k : κ) (v : β) (e : κ × β) (h : e ∈ set m k v) :
    e = (k, v) ∨ e ∈ m := by
  induction m with
  | nil => simp [set] at h; exact Or.inl h
  | cons p rest ih =>
    obtain ⟨k', v'⟩ := p
    by_cases hk : k' = k
    · simp only [set, hk, if_true, List.mem_cons] at h
      rcases h with h | h
      · exact Or.inl h
      · exact Or.inr (List.mem_cons_of_mem _ h)
    · simp only [set, hk, if_false, List.mem_cons] at h
      rcases h with h | h
      · exact Or.inr (by rw [h]; exact List.mem_cons_self _ _)
      · rcases ih h with h' | h'
        · exact Or.inl h'
        · exact Or.inr (List.mem_cons_of_mem _ h')

theorem get_append_new (m : List (κ × β)) (k : κ) (v : β) (h : k ∉ keys m) :
    get (m ++ [(k, v)]) k = some v := by
  rw [← set_of_not_mem m k v h]
  exact get_set_self m k v

theorem set_append_same (m : List (κ × β)) (k : κ) (v v' : β) (h : k ∉ keys m) :
    set (m ++ [(k, v)]) k v' = m ++ [(k, v')] := by
  induction m with
  | nil => simp [set]
  | cons p rest ih =>
    obtain ⟨k', w⟩ := p
    simp only [keys, List.map_cons, List.mem_cons, not_or] at h
    have hne : ¬ k' = k := fun e => h.1 e.symm
    simp only [List.cons_append, set, hne, if_false, List.cons.injEq, true_and]
    exact ih h.2

theorem get_mem (m : List (κ × β)) (k : κ) (v : β) (h : get m k = some v) : (k, v) ∈ m := by
  induction m with
  | nil => simp [get] at h
  | cons p rest ih =>
    obtain ⟨k', w⟩ := p
    by_cases hk : k' = k
    · simp only [get, hk, if_true, Option.some.injEq] at h
      rw [hk, h]; exact List.mem_cons_self _ _
    · simp only [get, hk, if_false] at h
      exact List.mem_cons_of_mem _ (ih h)

end GoMap

namespace altomsgs

theorem CostMap.WF_SetCost (m : CostMap) (src dst : String) (cost : Cost) (h : WF m.costs) :
    WF (m.SetCost src dst cost).costs := by
  obtain ⟨hnd, hrows⟩ := h
  refine ⟨GoMap.nodup_keys_set _ _ _ hnd, ?_⟩
  intro e he
  rcases GoMap.mem_set _ _ _ e he with h | h
  · subst h
    simp only
    constructor
    · intro hnil
      have := GoMap.get_set_self ((GoMap.get m.costs src).getD []) dst cost
      rw [hnil] at this
      simp [GoMap.get] at this
    · apply GoMap.nodup_keys_set
      cases hg : GoMap.get m.costs src with
      | none => simp [GoMap.keys]
      | some row => exact (hrows _ (GoMap.get_mem _ _ _ hg)).2
  · exact hrows e h

theorem CostMap.WF_build (ops : List CostMapOp) : WF (CostMap.build ops).costs := by
  have : ∀ (m : CostMap), WF m.costs → WF (ops.foldl CostMap.apply m).costs := by
    induction ops with
    | nil => intro m h; exact h
    | cons op rest ih =>
      intro m h
      simp only [List.foldl_cons]
      apply ih
      cases op with
      | setCostType ct => exact h
      | addDepVTag v => exact h
      | setCost s d c => exact CostMap.WF_SetCost m s d c h
  exact this NewCostMap ⟨by simp [NewCostMap, GoMap.keys], by simp [NewCostMap]⟩

theorem readCostRow_tail (field src : String) (ct : CostType) (dv : List VTag)
    (C : List (String × List (String × Cost))) (hsrc : src ∉ GoMap.keys C)
    (rest : List (String × Cost)) :
    ∀ acc : List (String × Cost), (GoMap.keys rest).Nodup →
      (∀ k ∈ GoMap.keys rest, k ∉ GoMap.keys acc) →
      readCostRow CostMap.SetCost field src ⟨ct, dv, C ++ [(src, acc)]⟩
          (rest.map (fun d => (d.1, GoValue.float64 (Cost.jsonFloat64 d.2))))
        = (⟨ct, dv, C ++ [(src, acc ++ rest.map (fun d => (d.1, Cost.readBack d.2)))]⟩,
          []) := by
  induction rest with
  | nil => intro acc _ _; simp [readCostRow]
  | cons d rest ih =>
    intro acc hnd hdis
    obtain ⟨dst, c⟩ := d
    simp only [GoMap.keys, List.map_cons, List.nodup_cons] at hnd
    have hd : dst ∉ GoMap.keys acc := hdis dst (by simp [GoMap.keys])
    simp only [List.map_cons, readCostRow, CostMap.SetCost, GoMap.get_append_new C src acc hsrc,
      Option.getD_some, GoMap.set_append_same C src acc _ hsrc,
      GoMap.set_of_not_mem acc dst (Cost.ofFloat64 (Cost.jsonFloat64 c)) hd]
    rw [ih (acc ++ [(dst, Cost.ofFloat64 (Cost.jsonFloat64 c))]) hnd.2]
    · simp [Cost.readBack]
    · intro k hk
      simp only [GoMap.keys_append, List.mem_append, not_or]
      refine ⟨hdis k (by simp only [GoMap.keys, List.map_cons, List.mem_cons]; exact Or.inr hk),
        ?_⟩
      simp only [GoMap.keys, List.map_cons, List.map_nil, List.mem_singleton]
      rintro rfl
      exact hnd.1 hk

theorem readCostRow_round_trip (field src : String) (ct : CostType) (dv : List VTag)
    (C : List (String × List (String × Cost))) (hsrc : src ∉ GoMap.keys C)
    (row : List (String × Cost)) (hne : row ≠ []) (hnd : (GoMap.keys row).Nodup) :
    readCostRow CostMap.SetCost field src ⟨ct, dv, C⟩
        (row.map (fun d => (d.1, GoValue.float64 (Cost.jsonFloat64 d.2))))
      = (⟨ct, dv, C ++ [(src, row.map (fun d => (d.1, Cost.readBack d.2)))]⟩, []) := by
  cases row with
  | nil => exact absurd rfl hne
  | cons d rest =>
    obtain ⟨dst, c⟩ := d
    simp only [GoMap.keys, List.map_cons, List.nodup_cons] at hnd
    simp only [List.map_cons, readCostRow, CostMap.SetCost, GoMap.get_of_not_mem C src hsrc,
      Option.getD_none, GoMap.set_of_not_mem C src _ hsrc, GoMap.set]
    rw [readCostRow_tail field src ct dv C hsrc rest
      [(dst, Cost.ofFloat64 (Cost.jsonFloat64 c))] hnd.2]
    · simp [Cost.readBack]
    · intro k hk
      simp only [GoMap.keys, List.map_cons, List.map_nil, List.mem_singleton]
      rintro rfl
      exact hnd.1 hk

theorem readCostRows_round_trip (field : String) (ct : CostType) (dv : List VTag)
    (l : List (String × List (String × Cost))) :
    ∀ C : List (String × List (String × Cost)), (GoMap.keys l).Nodup →
      (∀ k ∈ GoMap.keys l, k ∉ GoMap.keys C) →
      (∀ e ∈ l, e.2 ≠ [] ∧ (GoMap.keys e.2).Nodup) →
      readCostRows CostMap.SetCost field ⟨ct, dv, C⟩
          (l.map (fun e => (e.1, GoValue.map (e.2.map
            (fun d => (d.1, GoValue.float64 (Cost.jsonFloat64 d.2)))))))
        = (⟨ct, dv, C ++ l.map (fun e => (e.1, e.2.map (fun d => (d.1, Cost.readBack d.2))))⟩,
          []) := by
  induction l with
  | nil => intro C _ _ _; simp [readCostRows]
  | cons e rest ih =>
    intro C hnd hdis hrows
    obtain ⟨src, row⟩ := e
    simp only [GoMap.keys, List.map_cons, List.nodup_cons] at hnd
    have hsrc : src ∉ GoMap.keys C := hdis src (by simp [GoMap.keys])
    have hrow := hrows (src, row) (List.mem_cons_self _ _)
    simp only [List.map_cons, readCostRows,
      readCostRow_round_trip field src ct dv C hsrc row hrow.1 hrow.2]
    rw [ih (C ++ [(src, row.map (fun d => (d.1, Cost.readBack d.2)))]) hnd.2]
    · simp
    · intro k hk
      simp only [GoMap.keys_append, List.mem_append, not_or]
      refine ⟨hdis k (by simp only [GoMap.keys, List.map_cons, List.mem_cons]; exact Or.inr hk),
        ?_⟩
      simp only [GoMap.keys, List.map_cons, List.map_nil, List.mem_singleton]
      rintro rfl
      exact hnd.1 hk
    · intro e he
      exact hrows e (List.mem_cons_of_mem _ he)

end altomsgs
namespace GoMap
variable {κ β : Type} [DecidableEq κ]

theorem set_set (m : List (κ × β)) (k : κ) (v v' : β) : set (set m k v) k v' = set m k v' := by
  induction m with
  | nil => simp [set]
  | cons p rest ih =>
    obtain ⟨k', w⟩ := p
    by_cases h : k' = k
    · simp [set, h]
    · simp [set, h, ih]

end GoMap

namespace altomsgs

theorem decoded_cost (x : Cost) :
    (GoValue.cost x).decoded = .float64 (Cost.jsonFloat64 x) := by
  simp only [GoValue.decoded]

theorem decoded_maps (xs : List (List (String × GoValue))) :
    (GoValue.maps xs).decoded = .slice (decodedMaps xs) := by
  simp only [GoValue.decoded]

theorem decoded_strings (xs : List String) :
    (GoValue.strings xs).decoded = .slice (xs.map GoValue.string) := by
  simp only [GoValue.decoded]

theorem decoded_costsValue (costs : List (String × List (String × Cost))) :
    (costsValue costs).decoded =
      .map (costs.map
        (fun e => (e.1, GoValue.map (e.2.map
          (fun d => (d.1, GoValue.float64 (Cost.jsonFloat64 d.2))))))) := by
  simp only [costsValue, decoded_typedMap,
    decodedFields_map (fun (row : List (String × Cost)) =>
      GoValue.typedMap (row.map (fun d => (d.1, GoValue.cost d.2))))]
  congr 1
  apply List.map_congr_left
  intro e _
  simp only [decoded_typedMap, decodedFields_map (fun (x : Cost) => GoValue.cost x), decoded_cost]

/-- The entry `AddDepVTag` appends for a vtag. -/
theorem vtagsOf_decodedMaps (vs : List VTag) :
    JsonMap.vtagsOf (decodedMaps (vs.map (fun v =>
      [(FN_RESOURCE_ID, GoValue.string v.ResourceId), (FN_TAG, GoValue.string v.Tag)]))) = vs := by
  induction vs with
  | nil => rfl
  | cons v rest ih =>
    simp [decodedMaps, decodedFields, decoded_string, JsonMap.vtagsOf, wdrlib.GetStringMember,
      GoMap.get, FN_RESOURCE_ID, FN_TAG, ih]
    simpa [FN_RESOURCE_ID, FN_TAG] using ih

theorem AddDepVTag_fold (M : JsonMap) (vs : List VTag) :
    ∀ xs : List (List (String × GoValue)),
      vs.foldl (fun acc vtag => JsonMap.AddDepVTag acc vtag)
          [(FN_META, .map (GoMap.set M FN_DEPENDENT_VTAGS (.maps xs)))]
        = [(FN_META, .map (GoMap.set M FN_DEPENDENT_VTAGS (.maps (xs ++ vs.map (fun v =>
            [(FN_RESOURCE_ID, GoValue.string v.ResourceId), (FN_TAG, GoValue.string v.Tag)])))))] := by
  induction vs with
  | nil => intro xs; simp
  | cons v rest ih =>
    intro xs
    simp only [List.foldl_cons, List.map_cons]
    have hstep : JsonMap.AddDepVTag
        [(FN_META, .map (GoMap.set M FN_DEPENDENT_VTAGS (.maps xs)))] v
        = [(FN_META, .map (GoMap.set M FN_DEPENDENT_VTAGS (.maps (xs ++
            [[(FN_RESOURCE_ID, GoValue.string v.ResourceId), (FN_TAG, GoValue.string v.Tag)]]))))] := by
      simp [JsonMap.AddDepVTag, JsonMap.setMeta, JsonMap.metaOrNew, JsonMap.GetMeta, GoMap.get,
        GoMap.set, GoMap.get_set_self, GoMap.set_set]
    rw [hstep, ih]
    simp

theorem AddDepVTag_fold_first (M : JsonMap) (h : GoMap.get M FN_DEPENDENT_VTAGS = none)
    (v : VTag) (vs : List VTag) :
    (v :: vs).foldl (fun acc vtag => JsonMap.AddDepVTag acc vtag) [(FN_META, .map M)]
      = [(FN_META, .map (GoMap.set M FN_DEPENDENT_VTAGS (.maps ((v :: vs).map (fun v =>
          [(FN_RESOURCE_ID, GoValue.string v.ResourceId), (FN_TAG, GoValue.string v.Tag)])))))] := by
  simp only [List.foldl_cons, List.map_cons]
  have hstep : JsonMap.AddDepVTag [(FN_META, .map M)] v
      = [(FN_META, .map (GoMap.set M FN_DEPENDENT_VTAGS (.maps
          [[(FN_RESOURCE_ID, GoValue.string v.ResourceId), (FN_TAG, GoValue.string v.Tag)]])))] := by
    simp [JsonMap.AddDepVTag, JsonMap.setMeta, JsonMap.metaOrNew, JsonMap.GetMeta, GoMap.get,
      GoMap.set, h]
  rw [hstep, AddDepVTag_fold]
  simp

theorem CostMap.AddDepVTag_foldl (vs : List VTag) :
    ∀ m : CostMap, vs.foldl (fun acc vtag => CostMap.AddDepVTag acc vtag) m
      = { m with depVTags := m.depVTags ++ vs } := by
  induction vs with
  | nil => intro m; simp
  | cons v rest ih =>
    intro m
    simp only [List.foldl_cons]
    rw [ih]
    simp [CostMap.AddDepVTag]

theorem CostMap_round_trip (m : CostMap) (h : CostMap.WF m.costs) :
    CostMap.FromJsonMap NewCostMap (decodedFields m.ToJsonMap) = (m.readBack, []) := by
  obtain ⟨⟨metric, mode⟩, dv, costs⟩ := m
  obtain ⟨hnd, hrows⟩ := h
  simp only at hnd hrows
  generalize hct : (⟨metric, mode⟩ : CostType) = ct
  have hm1 : ct.Metric = metric := by rw [← hct]
  have hm2 : ct.Mode = mode := by rw [← hct]
  have hrt := readCostRows_round_trip FN_COST_MAP ct dv costs [] hnd (by simp [GoMap.keys]) hrows
  simp only [List.nil_append] at hrt
  cases dv with
  | nil =>
    simp [CostMap.ToJsonMap, CostMap.FromJsonMap, NewCostMap, JsonMap.SetCostType,
      JsonMap.setMeta, JsonMap.metaOrNew, JsonMap.GetMeta, JsonMap.GetCostType,
      JsonMap.GetDepVTags, CostMap.SetCostType, GoMap.set, GoMap.get, decodedFields,
      decoded_map, decoded_string, decoded_costsValue, wdrlib.GetStringMember, FN_META,
      FN_COST_TYPE, FN_COST_MAP, FN_COST_METRIC, FN_COST_MODE, FN_DEPENDENT_VTAGS,
      CostMap.readBack]
    simpa [FN_COST_MAP] using hrt
  | cons v vs =>
    have hfold := AddDepVTag_fold_first
      [(FN_COST_TYPE, .map [(FN_COST_METRIC, .string ct.Metric), (FN_COST_MODE, .string ct.Mode)])]
      (by simp [GoMap.get, FN_COST_TYPE, FN_DEPENDENT_VTAGS]) v vs
    have hvt := vtagsOf_decodedMaps (v :: vs)
    have hjm : JsonMap.SetCostType [] ct = [(FN_META, .map
        [(FN_COST_TYPE, .map [(FN_COST_METRIC, .string ct.Metric),
          (FN_COST_MODE, .string ct.Mode)])])] := by
      simp [JsonMap.SetCostType, JsonMap.setMeta, JsonMap.metaOrNew, JsonMap.GetMeta, GoMap.get,
        GoMap.set]
    simp only [CostMap.ToJsonMap, hjm, hfold]
    simp [CostMap.FromJsonMap, NewCostMap, JsonMap.GetMeta, JsonMap.GetCostType,
      JsonMap.GetDepVTags, CostMap.SetCostType, GoMap.set, GoMap.get, decodedFields,
      decoded_map, decoded_string, decoded_maps, decoded_costsValue, wdrlib.GetStringMember,
      FN_META, FN_COST_TYPE, FN_COST_MAP, FN_COST_METRIC, FN_COST_MODE, FN_DEPENDENT_VTAGS,
      CostMap.AddDepVTag_foldl, CostMap.readBack]
    simp only [List.map_cons] at hvt
    rw [hvt]
    simpa [FN_COST_MAP] using hrt

end altomsgs
namespace altomsgs

/-- C1. Longest-prefix lookup. For the map built from `NewNetworkMap()` by any
sequence of `AddCIDR` calls and any address `a`: `IP2Pid(a)` reports ok exactly
when a stored CIDR contains `a`; then it returns the pid and network of a stored
CIDR that contains `a`, whose mask length is the greatest among the stored CIDRs
containing `a` (so a default route, of mask length 0, is returned only when
nothing longer contains `a`), and that CIDR is the only one of its length
containing `a`; when nothing contains `a` the results are the zero values. On
Default -> 0.0.0.0/0, P1 -> 10.0.0.0/24, P2 -> 10.0.1.0/24 the lookups of
10.0.0.5 and 10.0.2.5 give (P1, 10.0.0.0/24) and (Default, 0.0.0.0/0). -/
theorem C1_IP2Pid_longest_prefix (ops : List (String × String × String)) (a : net.IP) :
    ((NetworkMap.IP2Pid (NetworkMap.addAll NewNetworkMap ops) a).2.2 = true ↔
      ∃ ci, NetworkMap.Stored (NetworkMap.addAll NewNetworkMap ops) ci ∧
        ci.Ipnet.Contains a = true) ∧
    ((NetworkMap.IP2Pid (NetworkMap.addAll NewNetworkMap ops) a).2.2 = true →
      ∃ ci, NetworkMap.Stored (NetworkMap.addAll NewNetworkMap ops) ci ∧
        ci.Ipnet.Contains a = true ∧
        NetworkMap.IP2Pid (NetworkMap.addAll NewNetworkMap ops) a = (ci.Pid, ci.Ipnet, true) ∧
        ci.MaskLen = (net.IPMask.Size ci.Ipnet.Mask).1 ∧
        (∀ cj, NetworkMap.Stored (NetworkMap.addAll NewNetworkMap ops) cj →
          cj.Ipnet.Contains a = true → cj.MaskLen ≤ ci.MaskLen) ∧
        (∀ cj, NetworkMap.Stored (NetworkMap.addAll NewNetworkMap ops) cj →
          cj.Ipnet.Contains a = true → cj.MaskLen = ci.MaskLen → cj = ci)) ∧
    ((NetworkMap.IP2Pid (NetworkMap.addAll NewNetworkMap ops) a).2.2 = false →
      NetworkMap.IP2Pid (NetworkMap.addAll NewNetworkMap ops) a = ("", ⟨[], []⟩, false)) ∧
    (net.ParseIP "10.0.0.5").map (NetworkMap.IP2Pid (NetworkMap.addAll NewNetworkMap
      [("Default", "ipv4", "0.0.0.0/0"), ("P1", "ipv4", "10.0.0.0/24"),
       ("P2", "ipv4", "10.0.1.0/24")]))
      = some ("P1", ⟨[10, 0, 0, 0], [255, 255, 255, 0]⟩, true) ∧
    (net.ParseIP "10.0.2.5").map (NetworkMap.IP2Pid (NetworkMap.addAll NewNetworkMap
      [("Default", "ipv4", "0.0.0.0/0"), ("P1", "ipv4", "10.0.0.0/24"),
       ("P2", "ipv4", "10.0.1.0/24")]))
      = some ("Default", ⟨[0, 0, 0, 0], [0, 0, 0, 0]⟩, true) ∧
    net.IPNet.String ⟨[10, 0, 0, 0], [255, 255, 255, 0]⟩ = "10.0.0.0/24" ∧
    net.IPNet.String ⟨[0, 0, 0, 0], [0, 0, 0, 0]⟩ = "0.0.0.0/0" := by
  obtain ⟨h1, h2, h3⟩ := NetworkMap.IP2Pid_spec (NetworkMap.addAll NewNetworkMap ops)
    (NetworkMap.Inv_addAll NewNetworkMap NetworkMap.Inv_new ops) a
  exact ⟨h1, h2, h3, by decide, by decide, by decide, by decide⟩

end altomsgs
namespace altomsgs

theorem AddrTypeLen_inj (t1 t2 : String) (l : Nat) (h1 : AddrTypeLen t1 = .ok l)
    (h2 : AddrTypeLen t2 = .ok l) : t1 = t2 := by
  unfold AddrTypeLen at h1 h2
  split at h1
  · rename_i e1
    simp only [Except.ok.injEq] at h1
    subst h1
    split at h2
    · rename_i e2; rw [e1, e2]
    · split at h2
      · simp at h2
      · simp at h2
  · split at h1
    · rename_i e1
      simp only [Except.ok.injEq] at h1
      subst h1
      split at h2
      · simp at h2
      · split at h2
        · rename_i e2; rw [e1, e2]
        · simp at h2
    · simp at h1

namespace NetworkMap

/-- In a reachable map, looking for a network that is stored finds its entry. -/
theorem findAssigned_stored (m : NetworkMap) (hinv : Inv m) (p q : String) (n : net.IPNet)
    (hs : Stored m ⟨p, n, (net.IPMask.Size n.Mask).1⟩) :
    findAssigned ⟨q, n, (net.IPMask.Size n.Mask).1⟩ (net.IPMask.Size n.Mask).1
      ((GoMap.get m.cidrsByLen (net.IPMask.Size n.Mask).1).getD [])
      = some ⟨p, n, (net.IPMask.Size n.Mask).1⟩ := by
  generalize (net.IPMask.Size n.Mask).1 = k at *
  obtain ⟨k', arr, hg, hm⟩ := hs
  obtain ⟨hb, hpw⟩ := hinv.bucket k' arr hg
  have hk : k = k' := (hb _ hm).1
  subst hk
  simp only [hg, Option.getD_some]
  cases hf : findAssigned ⟨q, n, k⟩ k arr with
  | none =>
    have := findAssigned_none _ _ _ rfl hf _ hm
    simp only [net.IP_Equal_refl] at this
    exact absurd this (by simp)
  | some x =>
    obtain ⟨hx, -, he⟩ := findAssigned_some _ _ _ _ hf
    simp only at he
    have hnet : n = x.Ipnet := net.canonical_eq_of_Equal n x.Ipnet k (hb _ hm).2 (hb x hx).2 he
    rcases pairwise_mem_cases hpw x ⟨p, n, k⟩ hx hm with h | h | h
    · rw [h]
    · simp only [hnet, net.IP_Equal_refl] at h
      exact absurd h (by simp)
    · simp only [hnet, net.IP_Equal_refl] at h
      exact absurd h (by simp)

end NetworkMap

/-- C2, as the code has it. In a map built by `AddCIDR` calls in which the
network of `c` is assigned to `p`, `AddCIDR(q, addrType, c)` with `q != p`
returns a non-nil error, which is a `CIDRError` whenever `addrType` is "ipv4" or
"ipv6" and the error of `AddrTypeLen` for any other `addrType`, and returns the
map unchanged, so that `IP2Pid` answers every address as before; an address of
the network that no stored CIDR of greater mask length contains is mapped to
`p`. -/
theorem C2_AddCIDR_other_pid_rejected (ops : List (String × String × String))
    (p q addrType c : String) (n : net.IPNet)
    (hc : net.ParseCIDR c = some n)
    (hs : NetworkMap.Stored (NetworkMap.addAll NewNetworkMap ops)
      ⟨p, n, (net.IPMask.Size n.Mask).1⟩)
    (hq : q ≠ p) :
    (∃ err, NetworkMap.AddCIDR (NetworkMap.addAll NewNetworkMap ops) q addrType c
        = (NetworkMap.addAll NewNetworkMap ops, some err) ∧
      ((addrType = "ipv4" ∨ addrType = "ipv6") → ∃ s e, err = Error.CIDRError s e)) ∧
    (∀ a, NetworkMap.IP2Pid
        (NetworkMap.AddCIDR (NetworkMap.addAll NewNetworkMap ops) q addrType c).1 a
      = NetworkMap.IP2Pid (NetworkMap.addAll NewNetworkMap ops) a) ∧
    (∀ a, n.Contains a = true →
      (∀ cj, NetworkMap.Stored (NetworkMap.addAll NewNetworkMap ops) cj →
        cj.Ipnet.Contains a = true → cj.MaskLen ≤ (net.IPMask.Size n.Mask).1) →
      NetworkMap.IP2Pid
        (NetworkMap.AddCIDR (NetworkMap.addAll NewNetworkMap ops) q addrType c).1 a
      = (p, n, true)) ∧
    (∀ e, AddrTypeLen addrType = .error e →
      NetworkMap.AddCIDR (NetworkMap.addAll NewNetworkMap ops) q addrType c
        = (NetworkMap.addAll NewNetworkMap ops, some e)) := by
  have hinv := NetworkMap.Inv_addAll NewNetworkMap NetworkMap.Inv_new ops
  generalize NetworkMap.addAll NewNetworkMap ops = m at *
  have hres : ∃ err, NetworkMap.AddCIDR m q addrType c = (m, some err) ∧
      ((addrType = "ipv4" ∨ addrType = "ipv6") → ∃ s e, err = Error.CIDRError s e) := by
    cases hat : AddrTypeLen addrType with
    | error e =>
      refine ⟨e, NetworkMap.AddCIDR_type_error m q addrType c n e hc hat, ?_⟩
      rintro (rfl | rfl) <;> simp [AddrTypeLen, IPV4_ADDR_TYPE, IPV6_ADDR_TYPE] at hat
    | ok l =>
      by_cases hl : l = n.IP.length
      swap
      · exact ⟨_, NetworkMap.AddCIDR_mismatch m q addrType c n l hc hat hl, fun _ => ⟨_, _, rfl⟩⟩
      subst hl
      have hf := NetworkMap.findAssigned_stored m hinv p q n hs
      refine ⟨Error.CIDRError (net.IPNet.String n) ("CIDR assigned to PID '" ++ p ++ "'"),
        ?_, fun _ => ⟨_, _, rfl⟩⟩
      rw [NetworkMap.AddCIDR_found m q addrType c n _ hc hat hf]
      simp only [ne_eq, hq, not_false_eq_true, if_true]
  obtain ⟨err, hadd, herr⟩ := hres
  refine ⟨⟨err, hadd, herr⟩, ?_, ?_, ?_⟩
  · intro a; rw [hadd]
  · intro a hca hmax
    rw [hadd]
    obtain ⟨hok, hbest, -⟩ := NetworkMap.IP2Pid_spec m hinv a
    have hok' := hok.2 ⟨_, hs, hca⟩
    obtain ⟨ci, hsi, hci, hr, -, hge, huniq⟩ := hbest hok'
    have hle := hmax ci hsi hci
    have hge' := hge _ hs hca
    simp only at hge'
    have := huniq _ hs hca (Nat.le_antisymm hge' hle)
    rw [hr, ← this]
  · intro e hat
    exact NetworkMap.AddCIDR_type_error m q addrType c n e hc hat

end altomsgs
namespace altomsgs

/-- C2, counterexample to the last clause as stated. With P -> 10.0.0.0/8 and
R -> 10.0.0.0/24 stored, `AddCIDR("Q", "ipv4", "10.0.0.0/8")` is refused and the
map is unchanged, yet the address 10.0.0.5 of 10.0.0.0/8 is mapped to R, not to
P: a more specific CIDR holds it. And with an address type that is neither
"ipv4" nor "ipv6" the error returned is the one of `AddrTypeLen`, not a
`CIDRError`. -/
theorem C2_counterexample :
    net.ParseCIDR "10.0.0.0/8" = some ⟨[10, 0, 0, 0], [255, 0, 0, 0]⟩ ∧
    NetworkMap.Stored (NetworkMap.addAll NewNetworkMap
      [("P", "ipv4", "10.0.0.0/8"), ("R", "ipv4", "10.0.0.0/24")])
      ⟨"P", ⟨[10, 0, 0, 0], [255, 0, 0, 0]⟩, 8⟩ ∧
    (NetworkMap.AddCIDR (NetworkMap.addAll NewNetworkMap
      [("P", "ipv4", "10.0.0.0/8"), ("R", "ipv4", "10.0.0.0/24")]) "Q" "ipv4" "10.0.0.0/8").1
      = NetworkMap.addAll NewNetworkMap
        [("P", "ipv4", "10.0.0.0/8"), ("R", "ipv4", "10.0.0.0/24")] ∧
    net.IPNet.Contains ⟨[10, 0, 0, 0], [255, 0, 0, 0]⟩ [10, 0, 0, 5] = true ∧
    NetworkMap.IP2Pid (NetworkMap.AddCIDR (NetworkMap.addAll NewNetworkMap
      [("P", "ipv4", "10.0.0.0/8"), ("R", "ipv4", "10.0.0.0/24")]) "Q" "ipv4" "10.0.0.0/8").1
      [10, 0, 0, 5] = ("R", ⟨[10, 0, 0, 0], [255, 255, 255, 0]⟩, true) ∧
    ¬ (∀ a, net.IPNet.Contains ⟨[10, 0, 0, 0], [255, 0, 0, 0]⟩ a = true →
      (NetworkMap.IP2Pid (NetworkMap.AddCIDR (NetworkMap.addAll NewNetworkMap
        [("P", "ipv4", "10.0.0.0/8"), ("R", "ipv4", "10.0.0.0/24")])
        "Q" "ipv4" "10.0.0.0/8").1 a).1 = "P") ∧
    (NetworkMap.AddCIDR (NetworkMap.addAll NewNetworkMap
      [("P", "ipv4", "10.0.0.0/8"), ("R", "ipv4", "10.0.0.0/24")]) "Q" "ipv5" "10.0.0.0/8").2
      = some (Error.InvalidAddrError "ipv5 is not valid address type") := by
  refine ⟨by decide, ⟨8, [⟨"P", ⟨[10, 0, 0, 0], [255, 0, 0, 0]⟩, 8⟩], by decide, by decide⟩,
    by decide, by decide, by decide, ?_, by decide⟩
  intro h
  exact absurd (h [10, 0, 0, 5] (by decide)) (by decide)

/-- C2, the amended statement at a concrete input: P holds 10.0.0.0/8 and Q asks
for "10.0.0.5/8", the same network. -/
theorem C2_witness :
    (net.ParseCIDR "10.0.0.5/8" = some ⟨[10, 0, 0, 0], [255, 0, 0, 0]⟩ ∧ "Q" ≠ "P") ∧
    ((∃ err, NetworkMap.AddCIDR (NetworkMap.addAll NewNetworkMap [("P", "ipv4", "10.0.0.0/8")])
        "Q" "ipv4" "10.0.0.5/8"
        = (NetworkMap.addAll NewNetworkMap [("P", "ipv4", "10.0.0.0/8")], some err) ∧
      (("ipv4" = "ipv4" ∨ "ipv4" = "ipv6") → ∃ s e, err = Error.CIDRError s e)) ∧
    (∀ a, NetworkMap.IP2Pid
        (NetworkMap.AddCIDR (NetworkMap.addAll NewNetworkMap [("P", "ipv4", "10.0.0.0/8")])
          "Q" "ipv4" "10.0.0.5/8").1 a
      = NetworkMap.IP2Pid (NetworkMap.addAll NewNetworkMap [("P", "ipv4", "10.0.0.0/8")]) a) ∧
    (∀ a, net.IPNet.Contains ⟨[10, 0, 0, 0], [255, 0, 0, 0]⟩ a = true →
      (∀ cj, NetworkMap.Stored (NetworkMap.addAll NewNetworkMap [("P", "ipv4", "10.0.0.0/8")]) cj →
        cj.Ipnet.Contains a = true →
        cj.MaskLen ≤ (net.IPMask.Size (⟨[10, 0, 0, 0], [255, 0, 0, 0]⟩ : net.IPNet).Mask).1) →
      NetworkMap.IP2Pid
        (NetworkMap.AddCIDR (NetworkMap.addAll NewNetworkMap [("P", "ipv4", "10.0.0.0/8")])
          "Q" "ipv4" "10.0.0.5/8").1 a
      = ("P", ⟨[10, 0, 0, 0], [255, 0, 0, 0]⟩, true)) ∧
    (∀ e, AddrTypeLen "ipv4" = .error e →
      NetworkMap.AddCIDR (NetworkMap.addAll NewNetworkMap [("P", "ipv4", "10.0.0.0/8")])
        "Q" "ipv4" "10.0.0.5/8"
        = (NetworkMap.addAll NewNetworkMap [("P", "ipv4", "10.0.0.0/8")], some e))) :=
  ⟨⟨by decide, by decide⟩,
    C2_AddCIDR_other_pid_rejected [("P", "ipv4", "10.0.0.0/8")] "P" "Q" "ipv4" "10.0.0.5/8"
      ⟨[10, 0, 0, 0], [255, 0, 0, 0]⟩ (by decide)
      ⟨8, [⟨"P", ⟨[10, 0, 0, 0], [255, 0, 0, 0]⟩, 8⟩], by decide, by decide⟩ (by decide)⟩

/-- C3. `AddCIDR` is idempotent for the same pid. On any map, if
`AddCIDR(pid, addrType, cidr)` returned nil, the same call on the resulting map
returns nil and the map it returns is that same map: `vtag`, `pids2cidrs`,
`cidrsByLen` and `maskLengths` are unchanged, and so are the numbers of CIDRs
`CIDRIter` and `PidIter` visit. -/
theorem C3_AddCIDR_idempotent (m : NetworkMap) (pid addrType cidr : String)
    (h : (NetworkMap.AddCIDR m pid addrType cidr).2 = none) :
    NetworkMap.AddCIDR (NetworkMap.AddCIDR m pid addrType cidr).1 pid addrType cidr
      = ((NetworkMap.AddCIDR m pid addrType cidr).1, none) ∧
    NetworkMap.countCIDRs
        (NetworkMap.AddCIDR (NetworkMap.AddCIDR m pid addrType cidr).1 pid addrType cidr).1
      = NetworkMap.countCIDRs (NetworkMap.AddCIDR m pid addrType cidr).1 ∧
    NetworkMap.countPidCIDRs
        (NetworkMap.AddCIDR (NetworkMap.AddCIDR m pid addrType cidr).1 pid addrType cidr).1
      = NetworkMap.countPidCIDRs (NetworkMap.AddCIDR m pid addrType cidr).1 := by
  have key : NetworkMap.AddCIDR (NetworkMap.AddCIDR m pid addrType cidr).1 pid addrType cidr
      = ((NetworkMap.AddCIDR m pid addrType cidr).1, none) := by
    cases hpc : net.ParseCIDR cidr with
    | none => rw [NetworkMap.AddCIDR_parse_error m pid addrType cidr hpc] at h; simp at h
    | some n =>
      cases hat : AddrTypeLen addrType with
      | error e => rw [NetworkMap.AddCIDR_type_error m pid addrType cidr n e hpc hat] at h; simp at h
      | ok l =>
        by_cases hl : l = n.IP.length
        swap
        · rw [NetworkMap.AddCIDR_mismatch m pid addrType cidr n l hpc hat hl] at h; simp at h
        subst hl
        cases hf : NetworkMap.findAssigned ⟨pid, n, (net.IPMask.Size n.Mask).1⟩
          (net.IPMask.Size n.Mask).1
          ((GoMap.get m.cidrsByLen (net.IPMask.Size n.Mask).1).getD []) with
        | some x =>
          have e1 := NetworkMap.AddCIDR_found m pid addrType cidr n x hpc hat hf
          rw [e1] at h
          by_cases hp : pid = x.Pid
          · have e2 : NetworkMap.AddCIDR m pid addrType cidr = (m, none) := by
              rw [e1]; simp [hp]
            rw [e2]; simp only; rw [e2]
          · simp [hp] at h
        | none =>
          obtain ⟨-, -, hcb, -, -, -⟩ := NetworkMap.AddCIDR_new m pid addrType cidr n hpc hat hf
          have hf2 : NetworkMap.findAssigned ⟨pid, n, (net.IPMask.Size n.Mask).1⟩
              (net.IPMask.Size n.Mask).1
              ((GoMap.get (NetworkMap.AddCIDR m pid addrType cidr).1.cidrsByLen
                (net.IPMask.Size n.Mask).1).getD [])
              = some ⟨pid, n, (net.IPMask.Size n.Mask).1⟩ := by
            rw [hcb, GoMap.get_set_self]
            exact NetworkMap.findAssigned_append_self _ _ _ rfl hf
          rw [NetworkMap.AddCIDR_found _ pid addrType cidr n _ hpc hat hf2]
          simp
  rw [key]
  exact ⟨rfl, rfl, rfl⟩

/-- C3 at a concrete input: 10.0.0.0/24 is added to P1 twice. -/
theorem C3_witness :
    (NetworkMap.AddCIDR NewNetworkMap "P1" "ipv4" "10.0.0.0/24").2 = none ∧
    (NetworkMap.AddCIDR (NetworkMap.AddCIDR NewNetworkMap "P1" "ipv4" "10.0.0.0/24").1
        "P1" "ipv4" "10.0.0.0/24"
      = ((NetworkMap.AddCIDR NewNetworkMap "P1" "ipv4" "10.0.0.0/24").1, none) ∧
    NetworkMap.countCIDRs
        (NetworkMap.AddCIDR (NetworkMap.AddCIDR NewNetworkMap "P1" "ipv4" "10.0.0.0/24").1
          "P1" "ipv4" "10.0.0.0/24").1
      = NetworkMap.countCIDRs (NetworkMap.AddCIDR NewNetworkMap "P1" "ipv4" "10.0.0.0/24").1 ∧
    NetworkMap.countPidCIDRs
        (NetworkMap.AddCIDR (NetworkMap.AddCIDR NewNetworkMap "P1" "ipv4" "10.0.0.0/24").1
          "P1" "ipv4" "10.0.0.0/24").1
      = NetworkMap.countPidCIDRs (NetworkMap.AddCIDR NewNetworkMap "P1" "ipv4" "10.0.0.0/24").1) :=
  ⟨by decide, C3_AddCIDR_idempotent NewNetworkMap "P1" "ipv4" "10.0.0.0/24" (by decide)⟩

end altomsgs
namespace altomsgs

/-- C4. `AddCIDR` returns a non-nil error and the unchanged map when the text
does not parse, or when `addrType` is neither "ipv4" nor "ipv6", or when the
parsed network has 4 bytes and is declared "ipv6", or has 16 bytes and is
declared "ipv4". `AddrTypeLen` gives 4 for "ipv4", 16 for "ipv6" and an error
for every other string. -/
theorem C4_AddCIDR_invalid_input (m : NetworkMap) (pid addrType cidr : String)
    (h : net.ParseCIDR cidr = none ∨ (addrType ≠ "ipv4" ∧ addrType ≠ "ipv6") ∨
      ∃ n, net.ParseCIDR cidr = some n ∧
        ((n.IP.length = 4 ∧ addrType = "ipv6") ∨ (n.IP.length = 16 ∧ addrType = "ipv4"))) :
    (∃ err, NetworkMap.AddCIDR m pid addrType cidr = (m, some err)) ∧
    AddrTypeLen "ipv4" = .ok 4 ∧ AddrTypeLen "ipv6" = .ok 16 ∧
    (∀ s, s ≠ "ipv4" → s ≠ "ipv6" → ∃ e, AddrTypeLen s = .error e) := by
  have hother : ∀ s, s ≠ "ipv4" → s ≠ "ipv6" → ∃ e, AddrTypeLen s = .error e := by
    intro s h4 h6
    exact ⟨.InvalidAddrError (s ++ " is not valid address type"),
      by simp [AddrTypeLen, IPV4_ADDR_TYPE, IPV6_ADDR_TYPE, h4, h6]⟩
  refine ⟨?_, by rfl, by rfl, hother⟩
  cases hpc : net.ParseCIDR cidr with
  | none => exact ⟨_, NetworkMap.AddCIDR_parse_error m pid addrType cidr hpc⟩
  | some n =>
    rcases h with h | ⟨h4, h6⟩ | ⟨n', hn', hmis⟩
    · rw [hpc] at h; exact absurd h (by simp)
    · obtain ⟨e, he⟩ := hother addrType h4 h6
      exact ⟨e, NetworkMap.AddCIDR_type_error m pid addrType cidr n e hpc he⟩
    · rw [hpc] at hn'
      simp only [Option.some.injEq] at hn'
      subst hn'
      rcases hmis with ⟨hl, rfl⟩ | ⟨hl, rfl⟩
      · exact ⟨_, NetworkMap.AddCIDR_mismatch m pid "ipv6" cidr n 16 hpc (by rfl)
          (by omega)⟩
      · exact ⟨_, NetworkMap.AddCIDR_mismatch m pid "ipv4" cidr n 4 hpc (by rfl)
          (by omega)⟩

/-- C4 at concrete inputs: a text without mask, an unknown address type, and an
IPv4 CIDR declared "ipv6". -/
theorem C4_witness :
    ((net.ParseCIDR "10.0.0.0" = none ∧
      ∃ err, NetworkMap.AddCIDR NewNetworkMap "P" "ipv4" "10.0.0.0" = (NewNetworkMap, some err)) ∧
     (("ipv5" ≠ "ipv4" ∧ "ipv5" ≠ "ipv6") ∧
      ∃ err, NetworkMap.AddCIDR NewNetworkMap "P" "ipv5" "10.0.0.0/8"
        = (NewNetworkMap, some err)) ∧
     (net.ParseCIDR "10.0.0.0/8" = some ⟨[10, 0, 0, 0], [255, 0, 0, 0]⟩ ∧
      ∃ err, NetworkMap.AddCIDR NewNetworkMap "P" "ipv6" "10.0.0.0/8"
        = (NewNetworkMap, some err))) :=
  ⟨⟨by decide, (C4_AddCIDR_invalid_input NewNetworkMap "P" "ipv4" "10.0.0.0"
      (Or.inl (by decide))).1⟩,
   ⟨by decide, (C4_AddCIDR_invalid_input NewNetworkMap "P" "ipv5" "10.0.0.0/8"
      (Or.inr (Or.inl (by decide)))).1⟩,
   ⟨by decide, (C4_AddCIDR_invalid_input NewNetworkMap "P" "ipv6" "10.0.0.0/8"
      (Or.inr (Or.inr ⟨⟨[10, 0, 0, 0], [255, 0, 0, 0]⟩, by decide,
        Or.inl ⟨by decide, rfl⟩⟩))).1⟩⟩

namespace NetworkMap

theorem findAssigned_pid (p q : String) (n : net.IPNet) (k l : Nat) (arr : List CIDRInfo) :
    findAssigned ⟨q, n, k⟩ l arr = findAssigned ⟨p, n, k⟩ l arr := by
  induction arr with
  | nil => rfl
  | cons x rest ih => simp only [findAssigned, ih]

/-- A successful `AddCIDR` leaves the network in its bucket under `pid`. -/
theorem AddCIDR_success (m : NetworkMap) (pid t c : String)
    (h : (AddCIDR m pid t c).2 = none) :
    ∃ n x, net.ParseCIDR c = some n ∧ AddrTypeLen t = .ok n.IP.length ∧
      findAssigned ⟨pid, n, (net.IPMask.Size n.Mask).1⟩ (net.IPMask.Size n.Mask).1
        ((GoMap.get (AddCIDR m pid t c).1.cidrsByLen (net.IPMask.Size n.Mask).1).getD [])
        = some x ∧ x.Pid = pid ∧
      ((AddCIDR m pid t c).1 = m ∨
        (x = ⟨pid, n, (net.IPMask.Size n.Mask).1⟩ ∧
          InIndex (AddCIDR m pid t c).1 pid t (net.IPNet.String n))) := by
  cases hpc : net.ParseCIDR c with
  | none => rw [AddCIDR_parse_error m pid t c hpc] at h; simp at h
  | some n =>
    cases hat : AddrTypeLen t with
    | error e => rw [AddCIDR_type_error m pid t c n e hpc hat] at h; simp at h
    | ok l =>
      by_cases hl : l = n.IP.length
      swap
      · rw [AddCIDR_mismatch m pid t c n l hpc hat hl] at h; simp at h
      subst hl
      cases hf : findAssigned ⟨pid, n, (net.IPMask.Size n.Mask).1⟩ (net.IPMask.Size n.Mask).1
        ((GoMap.get m.cidrsByLen (net.IPMask.Size n.Mask).1).getD []) with
      | some x =>
        have e1 := AddCIDR_found m pid t c n x hpc hat hf
        rw [e1] at h
        by_cases hp : pid = x.Pid
        · have e2 : AddCIDR m pid t c = (m, none) := by rw [e1]; simp [hp]
          refine ⟨n, x, rfl, rfl, ?_, hp.symm, Or.inl ?_⟩
          · rw [e2]; exact hf
          · rw [e2]
        · simp [hp] at h
      | none =>
        obtain ⟨-, -, hcb, -, -, hidx⟩ := AddCIDR_new m pid t c n hpc hat hf
        refine ⟨n, ⟨pid, n, (net.IPMask.Size n.Mask).1⟩, rfl, rfl, ?_, rfl, Or.inr ⟨rfl, hidx⟩⟩
        rw [hcb, GoMap.get_set_self]
        exact findAssigned_append_self _ _ _ rfl hf

end NetworkMap

/-- C5. `AddCIDR` canonicalizes its argument. In a map built by `AddCIDR`
calls, after `AddCIDR(pid, t, c)` returned nil the text `c` parses to a network
`n` whose host bits are zero (`n` is canonical), and `PidAddrs(pid)[t]` lists
`n.String()`; any text `c2` that parses to the same network is treated as the
same CIDR: adding it to `pid` returns nil and the same map, adding it to another
pid returns a `CIDRError` and the same map. After adding "10.0.0.5/24" to P the
list of P is ["10.0.0.0/24"]. -/
theorem C5_AddCIDR_canonical (ops : List (String × String × String)) (pid t c : String)
    (h : (NetworkMap.AddCIDR (NetworkMap.addAll NewNetworkMap ops) pid t c).2 = none) :
    (∃ n, net.ParseCIDR c = some n ∧ n.Canonical (net.IPMask.Size n.Mask).1 ∧
      NetworkMap.InIndex (NetworkMap.AddCIDR (NetworkMap.addAll NewNetworkMap ops) pid t c).1
        pid t (net.IPNet.String n) ∧
      ∀ c2, net.ParseCIDR c2 = some n →
        NetworkMap.AddCIDR (NetworkMap.AddCIDR (NetworkMap.addAll NewNetworkMap ops) pid t c).1
            pid t c2
          = ((NetworkMap.AddCIDR (NetworkMap.addAll NewNetworkMap ops) pid t c).1, none) ∧
        ∀ q, q ≠ pid → ∃ s e,
          NetworkMap.AddCIDR (NetworkMap.AddCIDR (NetworkMap.addAll NewNetworkMap ops) pid t c).1
              q t c2
            = ((NetworkMap.AddCIDR (NetworkMap.addAll NewNetworkMap ops) pid t c).1,
                some (Error.CIDRError s e))) ∧
    NetworkMap.PidAddrs (NetworkMap.AddCIDR NewNetworkMap "P" "ipv4" "10.0.0.5/24").1 "P"
      = some [("ipv4", ["10.0.0.0/24"])] := by
  refine ⟨?_, by decide⟩
  have hinv := NetworkMap.Inv_addAll NewNetworkMap NetworkMap.Inv_new ops
  generalize NetworkMap.addAll NewNetworkMap ops = m at *
  obtain ⟨n, x, hpc, hat, hf, hxp, hcase⟩ := NetworkMap.AddCIDR_success m pid t c h
  have hcan := net.ParseCIDR_canonical c n hpc
  refine ⟨n, hpc, hcan, ?_, ?_⟩
  · rcases hcase with hm | ⟨-, hidx⟩
    · rw [hm] at hf ⊢
      obtain ⟨hx, -, he⟩ := NetworkMap.findAssigned_some _ _ _ _ hf
      simp only at he
      cases hg : GoMap.get m.cidrsByLen (net.IPMask.Size n.Mask).1 with
      | none => simp [hg] at hx
      | some arr =>
        simp only [hg, Option.getD_some] at hx
        have hxc := ((hinv.bucket _ arr hg).1 x hx).2
        have hnet : n = x.Ipnet := net.canonical_eq_of_Equal n x.Ipnet _ hcan hxc he
        obtain ⟨t', ht', hi⟩ := hinv.sync x ⟨_, arr, hg, hx⟩
        rw [← hnet] at ht' hi
        rw [hxp] at hi
        rw [AddrTypeLen_inj t t' _ hat ht']
        exact hi
    · exact hidx
  · intro c2 hc2
    constructor
    · rw [NetworkMap.AddCIDR_found _ pid t c2 n x hc2 hat hf]
      simp [hxp]
    · intro q hq
      have hfq := hf
      rw [← NetworkMap.findAssigned_pid pid q] at hfq
      refine ⟨net.IPNet.String n, "CIDR assigned to PID '" ++ pid ++ "'", ?_⟩
      rw [NetworkMap.AddCIDR_found _ q t c2 n x hc2 hat hfq]
      simp only [hxp, ne_eq, hq, not_false_eq_true, if_true]

/-- C5 at a concrete input: "10.0.0.5/24" is added to P in the empty map. -/
theorem C5_witness :
    (NetworkMap.AddCIDR (NetworkMap.addAll NewNetworkMap []) "P" "ipv4" "10.0.0.5/24").2 = none ∧
    ∃ n, net.ParseCIDR "10.0.0.5/24" = some n ∧ n.Canonical (net.IPMask.Size n.Mask).1 ∧
      NetworkMap.InIndex
        (NetworkMap.AddCIDR (NetworkMap.addAll NewNetworkMap []) "P" "ipv4" "10.0.0.5/24").1
        "P" "ipv4" (net.IPNet.String n) ∧
      ∀ c2, net.ParseCIDR c2 = some n →
        NetworkMap.AddCIDR
            (NetworkMap.AddCIDR (NetworkMap.addAll NewNetworkMap []) "P" "ipv4" "10.0.0.5/24").1
            "P" "ipv4" c2
          = ((NetworkMap.AddCIDR (NetworkMap.addAll NewNetworkMap []) "P" "ipv4"
              "10.0.0.5/24").1, none) ∧
        ∀ q, q ≠ "P" → ∃ s e,
          NetworkMap.AddCIDR
              (NetworkMap.AddCIDR (NetworkMap.addAll NewNetworkMap []) "P" "ipv4"
                "10.0.0.5/24").1 q "ipv4" c2
            = ((NetworkMap.AddCIDR (NetworkMap.addAll NewNetworkMap []) "P" "ipv4"
                "10.0.0.5/24").1, some (Error.CIDRError s e)) :=
  ⟨by decide, (C5_AddCIDR_canonical [] "P" "ipv4" "10.0.0.5/24" (by decide)).1⟩

end altomsgs
namespace altomsgs

theorem MT_DIRECTORY_eq : MT_DIRECTORY = "application/alto-directory+json" := by decide
theorem MT_NETWORK_MAP_eq : MT_NETWORK_MAP = "application/alto-networkmap+json" := by decide
theorem MT_NETWORK_MAP_FILTER_eq :
    MT_NETWORK_MAP_FILTER = "application/alto-networkmapfilter+json" := by decide
theorem MT_COST_MAP_eq : MT_COST_MAP = "application/alto-costmap+json" := by decide
theorem MT_COST_MAP_FILTER_eq :
    MT_COST_MAP_FILTER = "application/alto-costmapfilter+json" := by decide
theorem MT_ENDPOINT_COST_eq : MT_ENDPOINT_COST = "application/alto-endpointcost+json" := by
  decide
theorem MT_ENDPOINT_COST_PARAMS_eq :
    MT_ENDPOINT_COST_PARAMS = "application/alto-endpointcostparams+json" := by decide
theorem MT_ENDPOINT_PROP_eq : MT_ENDPOINT_PROP = "application/alto-endpointprop+json" := by
  decide
theorem MT_ENDPOINT_PROP_PARAMS_eq :
    MT_ENDPOINT_PROP_PARAMS = "application/alto-endpointpropparams+json" := by decide
theorem MT_ERROR_eq : MT_ERROR = "application/alto-error+json" := by decide

/-- `NewAltoMsg` on the media type of a message reads the body into a new
message of the same type. -/
theorem NewAltoMsg_of_MediaType (fmtG : ℚ → String) (m : AltoMsg) (r : Reader) (cl : Int) :
    NewAltoMsg fmtG m.MediaType r cl =
      let new : AltoMsg := match m with
        | .directory _ => .directory NewDirectory
        | .networkMap _ => .networkMap NewNetworkMap
        | .networkMapFilter _ => .networkMapFilter NewNetworkMapFilter
        | .costMap _ => .costMap NewCostMap
        | .costMapFilter _ => .costMapFilter NewCostMapFilter
        | .endpointCost _ => .endpointCost NewEndpointCost
        | .endpointCostParams _ => .endpointCostParams NewEndpointCostParams
        | .endpointProp _ => .endpointProp NewEndpointProp
        | .endpointPropParams _ => .endpointPropParams NewEndpointPropParams
        | .errorResp _ => .errorResp (NewErrorResp "")
      (some (ReadJson fmtG new r).1, (ReadJson fmtG new r).2.1, (ReadJson fmtG new r).2.2) := by
  cases m <;>
  simp [NewAltoMsg, AltoMsg.MediaType, Directory.MediaType, NetworkMap.MediaType,
    NetworkMapFilter.MediaType, CostMap.MediaType, CostMapFilter.MediaType,
    EndpointCost.MediaType, EndpointCostParams.MediaType, EndpointProp.MediaType,
    EndpointPropParams.MediaType, ErrorResp.MediaType, MT_DIRECTORY_eq, MT_NETWORK_MAP_eq,
    MT_NETWORK_MAP_FILTER_eq, MT_COST_MAP_eq, MT_COST_MAP_FILTER_eq, MT_ENDPOINT_COST_eq,
    MT_ENDPOINT_COST_PARAMS_eq, MT_ENDPOINT_PROP_eq, MT_ENDPOINT_PROP_PARAMS_eq, MT_ERROR_eq]

theorem ReadJson_WriteJson (fmtG : ℚ → String) (new m : AltoMsg) (reads : Nat) :
    ReadJson fmtG new ⟨WriteJson m, reads⟩ =
      ((new.FromJsonMap fmtG (decodedFields m.ToJsonMap)).1,
       (new.FromJsonMap fmtG (decodedFields m.ToJsonMap)).2, ⟨WriteJson m, reads + 1⟩) := by
  simp [ReadJson, WriteJson, decoded_map]

/-- C6. Round trip of the record-style messages. For every NetworkMapFilter,
CostMapFilter, EndpointCostParams, EndpointPropParams and ErrorResp, and every
Directory whose maps have distinct keys and whose resources are stored under
their own ids, `NewAltoMsg` on the message's media type and on the JSON
`WriteJson` wrote returns no errors and a message of the same type equal to the
original in every field (nil and empty lists are one value here), after one read
of the stream. -/
theorem C6_record_round_trip (fmtG : ℚ → String) (m : AltoMsg) (h : m.RecordStyle)
    (reads : Nat) (contentLen : Int) :
    NewAltoMsg fmtG m.MediaType ⟨WriteJson m, reads⟩ contentLen
      = (some m, [], ⟨WriteJson m, reads + 1⟩) := by
  simp only [NewAltoMsg_of_MediaType, ReadJson_WriteJson]
  cases m with
  | directory d =>
    obtain ⟨h1, h2, h3⟩ := h
    simp [AltoMsg.FromJsonMap, AltoMsg.ToJsonMap, Directory_round_trip fmtG d h1 h2 h3]
  | networkMapFilter x =>
    simp [AltoMsg.FromJsonMap, AltoMsg.ToJsonMap, NetworkMapFilter_round_trip]
  | costMapFilter x =>
    simp [AltoMsg.FromJsonMap, AltoMsg.ToJsonMap, CostMapFilter_round_trip]
  | endpointCostParams x =>
    simp [AltoMsg.FromJsonMap, AltoMsg.ToJsonMap, EndpointCostParams_round_trip]
  | endpointPropParams x =>
    simp [AltoMsg.FromJsonMap, AltoMsg.ToJsonMap, EndpointPropParams_round_trip]
  | errorResp x =>
    simp [AltoMsg.FromJsonMap, AltoMsg.ToJsonMap, ErrorResp_round_trip]
  | networkMap x => exact absurd h (by simp [AltoMsg.RecordStyle])
  | costMap x => exact absurd h (by simp [AltoMsg.RecordStyle])
  | endpointCost x => exact absurd h (by simp [AltoMsg.RecordStyle])
  | endpointProp x => exact absurd h (by simp [AltoMsg.RecordStyle])

/-- C6 at a concrete input: a directory with one cost type and two resources. -/
theorem C6_witness :
    AltoMsg.RecordStyle (.directory sampleDirectory) ∧
    NewAltoMsg (fun _ => "") (AltoMsg.directory sampleDirectory).MediaType
        ⟨WriteJson (.directory sampleDirectory), 0⟩ 0
      = (some (.directory sampleDirectory), [], ⟨WriteJson (.directory sampleDirectory), 0 + 1⟩) :=
  ⟨(by decide : (GoMap.keys sampleDirectory.CostTypes).Nodup ∧
      (GoMap.keys sampleDirectory.Resources).Nodup ∧
      ∀ e ∈ sampleDirectory.Resources, e.2.Id = e.1),
   C6_record_round_trip (fun _ => "") (.directory sampleDirectory)
    (by decide : (GoMap.keys sampleDirectory.CostTypes).Nodup ∧
      (GoMap.keys sampleDirectory.Resources).Nodup ∧
      ∀ e ∈ sampleDirectory.Resources, e.2.Id = e.1) 0 0⟩

end altomsgs
namespace altomsgs

end altomsgs

namespace float

/-- A decimal that `shortestAt` returns converts back to `c`. -/
theorem shortestAt_valid (round : ℚ → ℚ) (c : ℚ) (m : ℤ) (n : ℕ) (d : ℚ)
    (h : shortestAt round c m n = some d) : round d = c := by
  unfold shortestAt at h
  simp only at h
  split at h
  · rename_i hlo
    split at h
    · rename_i hhi
      split at h
      · simp only [Option.some.injEq] at h
        rw [← h]; exact hlo
      · simp only [Option.some.injEq] at h
        rw [← h]; exact hhi
    · simp only [Option.some.injEq] at h
      rw [← h]; exact hlo
  · split at h
    · rename_i hhi
      simp only [Option.some.injEq] at h
      rw [← h]; exact hhi
    · cases h

/-- The decimal that the search returns for a number of the format converts
back to it. -/
theorem shortestFrom_valid (round : ℚ → ℚ) (c : ℚ) (m : ℤ) (hc : round c = c) :
    ∀ (fuel n : ℕ), round (shortestFrom round c m fuel n) = c := by
  intro fuel
  induction fuel with
  | zero => intro n; exact hc
  | succ fuel ih =>
    intro n
    rw [shortestFrom]
    cases h : shortestAt round c m n with
    | some d => exact shortestAt_valid round c m n d h
    | none => exact ih (n + 1)

/-- The decimal text of a float32 identifies it: it converts back to the
float32 (`strconv.ParseFloat(s, 32)` returns `f`). -/
theorem shortest32_valid (c : ℚ) (hc : round32 c = c) : round32 (shortest32 c) = c := by
  unfold shortest32
  split
  · rename_i h0
    rw [h0] at hc ⊢
    exact hc
  · exact shortestFrom_valid round32 c _ hc 9 1

theorem floor_eq (q : ℚ) : Rat.floor q = ⌊q⌋ := rfl

theorem pow2_nonpos (u : ℤ) (h : u ≤ 0) : pow2 u = 1 / ((2 ^ (-u).toNat : ℕ) : ℚ) := by
  unfold pow2
  by_cases h0 : 0 ≤ u
  · have hu : u = 0 := le_antisymm h h0
    subst hu
    simp
  · rw [if_neg h0]

theorem pow10_nonneg (k : ℤ) (h : 0 ≤ k) : pow10 k = ((10 ^ k.toNat : ℕ) : ℚ) := by
  unfold pow10
  rw [if_pos h]

theorem log2Loop_le : ∀ (fuel k n : ℕ), n < 2 ^ (k + 1) → log2Loop fuel n ≤ k := by
  intro fuel
  induction fuel with
  | zero => intro k n _; exact Nat.zero_le _
  | succ fuel ih =>
    intro k n hn
    rw [log2Loop]
    split
    · exact Nat.zero_le _
    · rename_i h2
      cases k with
      | zero => simp at hn; omega
      | succ k =>
        have : n / 2 < 2 ^ (k + 1) := by
          rw [Nat.div_lt_iff_lt_mul (by norm_num)]
          rw [pow_succ] at hn
          exact hn
        have := ih k (n / 2) this
        omega

theorem ilog2_natCast_le (n k : ℕ) (h : n < 2 ^ (k + 1)) : ilog2 (n : ℚ) ≤ k := by
  unfold ilog2
  simp only [Rat.num_natCast, Int.natAbs_ofNat, Rat.den_natCast]
  have h1 : log2Loop 1 1 = 0 := rfl
  rw [h1]
  have h2 := log2Loop_le n k n h
  split <;> simp <;> omega

theorem ilog2_natCast_nonneg (n : ℕ) (h : 1 ≤ n) : 0 ≤ ilog2 (n : ℚ) := by
  unfold ilog2
  simp only [Rat.num_natCast, Int.natAbs_ofNat, Rat.den_natCast]
  have h1 : log2Loop 1 1 = 0 := rfl
  rw [h1]
  simp only [Nat.cast_zero, sub_zero]
  split
  · exact Int.natCast_nonneg _
  · rename_i hlt
    cases he : log2Loop n n with
    | zero =>
      exfalso
      apply hlt
      rw [he]
      have : pow2 ((0 : ℕ) : ℤ) = 1 := by simp [pow2]
      rw [this, abs_of_nonneg (by positivity)]
      exact_mod_cast h
    | succ e => simp

theorem roundEven_intCast (z : ℤ) : roundEven (z : ℚ) = z := by
  unfold roundEven
  simp only [floor_eq, Int.floor_intCast, sub_self]
  norm_num

/-- A natural number below `2 ^ p` is a number of the format with `p` bits. -/
theorem roundBin_natCast (p : ℕ) (emin : ℤ) (N : ℕ) (hp : 1 ≤ p) (hN : N < 2 ^ p)
    (hemin : emin ≤ 0) : roundBin p emin (N : ℚ) = N := by
  unfold roundBin
  by_cases h0 : (N : ℚ) = 0
  · rw [if_pos h0, h0]
  · rw [if_neg h0]
    simp only
    have hk : N < 2 ^ ((p - 1) + 1) := by
      rw [Nat.sub_add_cancel hp]; exact hN
    have hl := ilog2_natCast_le N (p - 1) hk
    have hu : max (ilog2 (N : ℚ) - ((p : ℤ) - 1)) emin ≤ 0 := by
      apply max_le _ hemin
      have : ((p - 1 : ℕ) : ℤ) = (p : ℤ) - 1 := by omega
      omega
    rw [pow2_nonpos _ hu]
    generalize (-(max (ilog2 (N : ℚ) - ((p : ℤ) - 1)) emin)).toNat = a
    have hq : (N : ℚ) / (1 / ((2 ^ a : ℕ) : ℚ)) = (((N * 2 ^ a : ℕ) : ℤ) : ℚ) := by
      push_cast
      field_simp
    rw [hq, roundEven_intCast]
    push_cast
    field_simp

theorem round32_natCast (N : ℕ) (h : N < 2 ^ 24) : round32 (N : ℚ) = N :=
  roundBin_natCast 24 (-149) N (by norm_num) h (by norm_num)

theorem round64_natCast (N : ℕ) (h : N < 2 ^ 53) : round64 (N : ℚ) = N :=
  roundBin_natCast 53 (-1074) N (by norm_num) h (by norm_num)

theorem ilog10_natCast_bounds (n : ℕ) (h1 : 1 ≤ n) (h2 : n < 2 ^ 24) :
    0 ≤ ilog10 (n : ℚ) ∧ ilog10 (n : ℚ) ≤ 8 := by
  have hlo := ilog2_natCast_nonneg n h1
  have hhi := ilog2_natCast_le n 23 h2
  unfold ilog10
  simp only
  generalize ilog2 (n : ℚ) = x at hlo hhi
  have hm0 : 0 ≤ x * 30103 / 100000 := by omega
  have hm1 : x * 30103 / 100000 ≤ 6 := by omega
  split
  · omega
  · split
    · omega
    · split
      · omega
      · rename_i hno
        by_cases hz : x * 30103 / 100000 = 0
        · exfalso
          apply hno
          rw [hz]
          have : pow10 0 = 1 := by simp [pow10]
          rw [this, abs_of_nonneg (by positivity)]
          exact_mod_cast h1
        · omega

/-- The two decimals `shortestAt` tries for a natural number, on a grid of
whole numbers. -/
theorem candidates_natCast (n K : ℕ) :
    ((Rat.floor ((n : ℚ) / ((10 ^ K : ℕ) : ℚ)) : ℤ) : ℚ) * ((10 ^ K : ℕ) : ℚ) =
      ((n / 10 ^ K * 10 ^ K : ℕ) : ℚ) ∧
    ((Rat.floor ((n : ℚ) / ((10 ^ K : ℕ) : ℚ)) + 1 : ℤ) : ℚ) * ((10 ^ K : ℕ) : ℚ) =
      (((n / 10 ^ K + 1) * 10 ^ K : ℕ) : ℚ) := by
  have hf : Rat.floor ((n : ℚ) / ((10 ^ K : ℕ) : ℚ)) = ((n / 10 ^ K : ℕ) : ℤ) := by
    rw [floor_eq]
    exact_mod_cast Rat.floor_natCast_div_natCast n (10 ^ K)
  rw [hf]
  constructor <;> norm_cast

theorem shortestAt_natCast (n : ℕ) (m : ℤ) (j : ℕ) (hn : n < 2 ^ 24)
    (hjm : (j : ℤ) ≤ m + 1) (hm : m - ((j : ℤ) - 1) ≤ 8) :
    (∀ d, shortestAt round32 (n : ℚ) m j = some d → ∃ N : ℕ, d = (N : ℚ) ∧ N < 2 ^ 53) ∧
    ((j : ℤ) = m + 1 → shortestAt round32 (n : ℚ) m j ≠ none) := by
  have hk : 0 ≤ m - ((j : ℤ) - 1) := by omega
  have hK : (m - ((j : ℤ) - 1)).toNat ≤ 8 := by omega
  have hK0 : (j : ℤ) = m + 1 → (m - ((j : ℤ) - 1)).toNat = 0 := by intro h; omega
  unfold shortestAt
  simp only
  rw [pow10_nonneg _ hk]
  generalize (m - ((j : ℤ) - 1)).toNat = K at hK hK0
  obtain ⟨h1, h2⟩ := candidates_natCast n K
  rw [h1, h2]
  have hp : 10 ^ K ≤ 10 ^ 8 := Nat.pow_le_pow_right (by norm_num) hK
  have hb1 : n / 10 ^ K * 10 ^ K < 2 ^ 53 := by
    have := Nat.div_mul_le_self n (10 ^ K)
    have h53 : (2 : ℕ) ^ 24 < 2 ^ 53 := by norm_num
    omega
  have hb2 : (n / 10 ^ K + 1) * 10 ^ K < 2 ^ 53 := by
    have := Nat.div_mul_le_self n (10 ^ K)
    have h53 : (2 : ℕ) ^ 24 + 10 ^ 8 < 2 ^ 53 := by norm_num
    rw [Nat.add_mul, Nat.one_mul]
    omega
  constructor
  · intro d hd
    split at hd
    · split at hd
      · split at hd
        · exact ⟨_, (Option.some.inj hd).symm, hb1⟩
        · exact ⟨_, (Option.some.inj hd).symm, hb2⟩
      · exact ⟨_, (Option.some.inj hd).symm, hb1⟩
    · split at hd
      · exact ⟨_, (Option.some.inj hd).symm, hb2⟩
      · cases hd
  · intro hj
    have hK' := hK0 hj
    subst hK'
    have hlo : round32 ((n / 10 ^ 0 * 10 ^ 0 : ℕ) : ℚ) = (n : ℚ) := by
      simp only [pow_zero, Nat.div_one, Nat.mul_one]
      exact round32_natCast n hn
    rw [if_pos hlo]
    split
    · split <;> simp
    · simp

theorem shortestFrom_natCast (n : ℕ) (m : ℤ) (hn : n < 2 ^ 24) (hm : m ≤ 8) :
    ∀ (fuel j : ℕ), 1 ≤ j → (j : ℤ) ≤ m + 1 →
      ∃ N : ℕ, shortestFrom round32 (n : ℚ) m fuel j = (N : ℚ) ∧ N < 2 ^ 53 := by
  intro fuel
  induction fuel with
  | zero =>
    intro j _ _
    exact ⟨n, rfl, lt_trans hn (by norm_num)⟩
  | succ fuel ih =>
    intro j hj1 hjm
    obtain ⟨hsome, hnone⟩ := shortestAt_natCast n m j hn hjm (by omega)
    rw [shortestFrom]
    cases h : shortestAt round32 (n : ℚ) m j with
    | some d => exact hsome d h
    | none =>
      have hne : (j : ℤ) ≠ m + 1 := fun he => hnone he h
      exact ih (j + 1) (by omega) (by push_cast; omega)

/-- The decimal written for a natural number below `2 ^ 24` is a natural number
below `2 ^ 53`. -/
theorem shortest32_natCast (n : ℕ) (hn : n < 2 ^ 24) :
    ∃ N : ℕ, shortest32 (n : ℚ) = (N : ℚ) ∧ N < 2 ^ 53 := by
  unfold shortest32
  by_cases h0 : (n : ℚ) = 0
  · rw [if_pos h0]
    exact ⟨0, by simp, by norm_num⟩
  · rw [if_neg h0]
    have h1 : 1 ≤ n := by
      rcases Nat.eq_zero_or_pos n with hz | hp
      · exact absurd (by rw [hz]; simp) h0
      · exact hp
    obtain ⟨hm0, hm8⟩ := ilog10_natCast_bounds n h1 hn
    exact shortestFrom_natCast n _ hn hm8 9 1 (le_refl 1) (by push_cast; omega)

end float

namespace GoMap
variable {κ β γ : Type} [DecidableEq κ]

theorem get_map_values (f : β → γ) (m : List (κ × β)) (k : κ) :
    get (m.map (fun e => (e.1, f e.2))) k = (get m k).map f := by
  induction m with
  | nil => rfl
  | cons p rest ih =>
    obtain ⟨k', v⟩ := p
    by_cases h : k' = k
    · simp [get, h]
    · simp [get, h, ih]

end GoMap

namespace altomsgs

theorem Cost.readBack_zero : Cost.readBack 0 = 0 := by decide!

/-- A cost whose decimal text is itself a float64 is read back as it is. -/
theorem Cost.readBack_of_exact (c : Cost) (hc : float.round32 c = c)
    (hd : float.round64 (float.shortest32 c) = float.shortest32 c) : Cost.readBack c = c := by
  unfold Cost.readBack Cost.ofFloat64 Cost.jsonFloat64
  rw [hd]
  exact float.shortest32_valid c hc

/-- A cost that is a whole number from 0 to `2 ^ 24` is read back as it is. -/
theorem Cost.readBack_natCast (n : ℕ) (hn : n ≤ 2 ^ 24) : Cost.readBack (n : ℚ) = (n : ℚ) := by
  rcases Nat.lt_or_eq_of_le hn with hlt | heq
  · obtain ⟨N, hN, hlt53⟩ := float.shortest32_natCast n hlt
    unfold Cost.readBack Cost.ofFloat64 Cost.jsonFloat64
    have h := float.shortest32_valid (n : ℚ) (float.round32_natCast n hlt)
    rw [hN] at h ⊢
    rw [float.round64_natCast N hlt53]
    exact h
  · rw [heq]
    decide!

/-- `GetCost` on the cost map read back. -/
theorem CostMap.GetCost_readBack (m : CostMap) (src dst : String) :
    m.readBack.GetCost src dst =
      (Cost.readBack (m.GetCost src dst).1, (m.GetCost src dst).2) := by
  unfold CostMap.GetCost CostMap.readBack
  simp only
  rw [GoMap.get_map_values (fun row : List (String × Cost) =>
    row.map (fun d => (d.1, Cost.readBack d.2)))]
  cases h1 : GoMap.get m.costs src with
  | none => simp [Cost.readBack_zero]
  | some row =>
    simp only [Option.map_some']
    rw [GoMap.get_map_values Cost.readBack]
    cases h2 : GoMap.get row dst with
    | none => simp [Cost.readBack_zero]
    | some c => simp

/-- What `NewAltoMsg` reads of the JSON written for a cost map. -/
theorem NewAltoMsg_costMap (fmtG : ℚ → String) (ops : List CostMapOp) (reads : Nat)
    (contentLen : Int) :
    NewAltoMsg fmtG MT_COST_MAP ⟨WriteJson (.costMap (CostMap.build ops)), reads⟩ contentLen
      = (some (.costMap (CostMap.build ops).readBack), [],
        ⟨WriteJson (.costMap (CostMap.build ops)), reads + 1⟩) := by
  have h := NewAltoMsg_of_MediaType fmtG (.costMap (CostMap.build ops))
    ⟨WriteJson (.costMap (CostMap.build ops)), reads⟩ contentLen
  simp only [AltoMsg.MediaType, CostMap.MediaType, ReadJson_WriteJson] at h
  rw [h]
  simp [AltoMsg.FromJsonMap, AltoMsg.ToJsonMap,
    CostMap_round_trip (CostMap.build ops) (CostMap.WF_build ops)]

/-- C7, counterexample: a finite cost that does not survive the round trip.
The float32 with the bits 0x15ae43fd is written as 7.038531e-26; the float64
nearest to that decimal is 0x1.5c87fbp-84, halfway between this float32 and the
next one, and `Cost(vv)` rounds it to the even one, 0x15ae43fe. The cost map
with this one cost is decoded without errors, and `GetCost("a", "b")` of the
result is 0x15ae43fe where the map written has 0x15ae43fd. -/
theorem C7_counterexample :
    float.round32 (float.ofBits32 0x15ae43fd) = float.ofBits32 0x15ae43fd ∧
    float.shortest32 (float.ofBits32 0x15ae43fd) = 7038531 * float.pow10 (-32) ∧
    Cost.jsonFloat64 (float.ofBits32 0x15ae43fd) = 22841339 * float.pow2 (-108) ∧
    Cost.ofFloat64 (22841339 * float.pow2 (-108)) = float.ofBits32 0x15ae43fe ∧
    (CostMap.build [.setCost "a" "b" (float.ofBits32 0x15ae43fd)]).GetCost "a" "b" =
      (float.ofBits32 0x15ae43fd, true) ∧
    (∃ m2 : CostMap,
      NewAltoMsg (fun _ => "") MT_COST_MAP
        ⟨WriteJson (.costMap (CostMap.build [.setCost "a" "b" (float.ofBits32 0x15ae43fd)])),
          0⟩ 0
        = (some (.costMap m2), [],
          ⟨WriteJson (.costMap (CostMap.build [.setCost "a" "b" (float.ofBits32 0x15ae43fd)])),
            0 + 1⟩) ∧
      m2.GetCost "a" "b" = (float.ofBits32 0x15ae43fe, true) ∧
      m2.GetCost "a" "b" ≠
        (CostMap.build [.setCost "a" "b" (float.ofBits32 0x15ae43fd)]).GetCost "a" "b") := by
  refine ⟨by decide!, by decide!, by decide!, by decide!, by decide!, _,
    NewAltoMsg_costMap _ _ 0 0, by decide!, by decide!⟩

/-- C7. Round trip of a cost map. For every CostMap built from `NewCostMap()`
with `SetCostType`, `AddDepVTag` and `SetCost`, `NewAltoMsg(MT_COST_MAP, ...)` on
the JSON `WriteJson` wrote returns no errors and a CostMap with the same
`CostType()`, the same `DepVTags()` in the same order, and for every pair the
same presence in `GetCost(src, dst)`; the cost of a present pair is the cost
`Cost(vv)` of the float64 `vv` read from the decimal text written for the
stored cost. That is the stored cost itself whenever the decimal text is
itself a float64, and so for every cost that is a whole number from 0 to 2^24,
as the costs of the repository's test are; the decimal text of a float32
always identifies it as a float32. -/
theorem C7_CostMap_round_trip (fmtG : ℚ → String) (ops : List CostMapOp) (reads : Nat)
    (contentLen : Int) :
    ∃ m2 : CostMap,
      NewAltoMsg fmtG MT_COST_MAP ⟨WriteJson (.costMap (CostMap.build ops)), reads⟩ contentLen
        = (some (.costMap m2), [], ⟨WriteJson (.costMap (CostMap.build ops)), reads + 1⟩) ∧
      m2.CostType = (CostMap.build ops).CostType ∧
      m2.DepVTags = (CostMap.build ops).DepVTags ∧
      (∀ src dst, m2.GetCost src dst =
        (Cost.readBack ((CostMap.build ops).GetCost src dst).1,
          ((CostMap.build ops).GetCost src dst).2)) ∧
      (∀ src dst, ((CostMap.build ops).GetCost src dst).2 = false →
        m2.GetCost src dst = (CostMap.build ops).GetCost src dst) ∧
      (∀ src dst,
        Cost.readBack ((CostMap.build ops).GetCost src dst).1 =
          ((CostMap.build ops).GetCost src dst).1 →
        m2.GetCost src dst = (CostMap.build ops).GetCost src dst) ∧
      (∀ c : Cost, float.round32 c = c → float.round32 (float.shortest32 c) = c) ∧
      (∀ c : Cost, float.round32 c = c →
        float.round64 (float.shortest32 c) = float.shortest32 c → Cost.readBack c = c) ∧
      (∀ n : ℕ, n ≤ 2 ^ 24 → Cost.readBack (n : ℚ) = (n : ℚ)) ∧
      (∀ src dst (n : ℕ), n ≤ 2 ^ 24 → ((CostMap.build ops).GetCost src dst).1 = (n : ℚ) →
        m2.GetCost src dst = (CostMap.build ops).GetCost src dst) := by
  have hsame : ∀ src dst,
      Cost.readBack ((CostMap.build ops).GetCost src dst).1 =
        ((CostMap.build ops).GetCost src dst).1 →
      (CostMap.build ops).readBack.GetCost src dst = (CostMap.build ops).GetCost src dst := by
    intro src dst heq
    rw [CostMap.GetCost_readBack, heq]
  refine ⟨(CostMap.build ops).readBack, NewAltoMsg_costMap fmtG ops reads contentLen, rfl, rfl,
    CostMap.GetCost_readBack _, ?_, hsame, float.shortest32_valid, Cost.readBack_of_exact,
    Cost.readBack_natCast, ?_⟩
  · intro src dst hno
    rw [CostMap.GetCost_readBack]
    have h0 : ((CostMap.build ops).GetCost src dst).1 = 0 := by
      unfold CostMap.GetCost at hno ⊢
      cases h1 : GoMap.get (CostMap.build ops).costs src with
      | none => rfl
      | some row =>
        rw [h1] at hno
        simp only at hno ⊢
        cases h2 : GoMap.get row dst with
        | none => rfl
        | some c =>
          rw [h2] at hno
          cases hno
    rw [h0, Cost.readBack_zero]
    exact Prod.ext h0.symm rfl
  · intro src dst n hn heq
    apply hsame
    rw [heq]
    exact Cost.readBack_natCast n hn

/-- C7, witness: a cost map with the cost type, the vtag and costs of the
repository's test is read back as it was written. -/
theorem C7_witness :
    ∃ m2 : CostMap,
      NewAltoMsg (fun _ => "") MT_COST_MAP
        ⟨WriteJson (.costMap (CostMap.build
          [.setCost "PID_1" "PID_1" 0, .setCost "PID_1" "PID_2" 1, .setCost "PID_2" "PID_1" 1,
            .setCost "PID_2" "PID_2" 0, .setCostType ⟨"routingcost", "numerical"⟩,
            .addDepVTag ⟨"myid", "12345"⟩])), 0⟩ 0
        = (some (.costMap m2), [],
          ⟨WriteJson (.costMap (CostMap.build
            [.setCost "PID_1" "PID_1" 0, .setCost "PID_1" "PID_2" 1, .setCost "PID_2" "PID_1" 1,
              .setCost "PID_2" "PID_2" 0, .setCostType ⟨"routingcost", "numerical"⟩,
              .addDepVTag ⟨"myid", "12345"⟩])), 0 + 1⟩) ∧
      m2.DepVTags = [⟨"myid", "12345"⟩] ∧
      m2.GetCost "PID_1" "PID_2" = (1, true) ∧
      m2.GetCost "PID_3" "PID_1" = (0, false) := by
  obtain ⟨m2, h1, -, h3, h4, -⟩ := C7_CostMap_round_trip (fun _ => "")
    [.setCost "PID_1" "PID_1" 0, .setCost "PID_1" "PID_2" 1, .setCost "PID_2" "PID_1" 1,
      .setCost "PID_2" "PID_2" 0, .setCostType ⟨"routingcost", "numerical"⟩,
      .addDepVTag ⟨"myid", "12345"⟩] 0 0
  refine ⟨m2, h1, ?_, ?_, ?_⟩
  · rw [h3]; decide
  · rw [h4]; decide!
  · rw [h4]; decide!

end altomsgs
namespace altomsgs

/-- C8, the code at the failing input. `AddCIDR("P", "ipv6",
"::ffff:10.0.0.0/104")` succeeds and files the text "10.0.0.0/8" under P and
"ipv6" (the canonical string of an IPv4-mapped network is its IPv4 form).
Decoding the JSON of that map reports `CIDRError{"10.0.0.0/8", "Not type
ipv6"}` and returns an empty map: P has no addresses and 10.1.2.3, which the
original map assigns to P, is not found. -/
theorem C8_round_trip_fails :
    (NetworkMap.AddCIDR NewNetworkMap "P" "ipv6" "::ffff:10.0.0.0/104").2 = none ∧
    NetworkMap.PidAddrs (NetworkMap.AddCIDR NewNetworkMap "P" "ipv6" "::ffff:10.0.0.0/104").1 "P"
      = some [("ipv6", ["10.0.0.0/8"])] ∧
    (NewAltoMsg (fun _ => "") MT_NETWORK_MAP
      ⟨WriteJson (.networkMap
        (NetworkMap.AddCIDR NewNetworkMap "P" "ipv6" "::ffff:10.0.0.0/104").1), 0⟩ 0).1
      = some (.networkMap NewNetworkMap) ∧
    (NewAltoMsg (fun _ => "") MT_NETWORK_MAP
      ⟨WriteJson (.networkMap
        (NetworkMap.AddCIDR NewNetworkMap "P" "ipv6" "::ffff:10.0.0.0/104").1), 0⟩ 0).2.1
      = [Error.CIDRError "10.0.0.0/8" "Not type ipv6"] ∧
    NetworkMap.PidAddrs NewNetworkMap "P" = none ∧
    NetworkMap.IP2Pid (NetworkMap.AddCIDR NewNetworkMap "P" "ipv6" "::ffff:10.0.0.0/104").1
      [10, 1, 2, 3]
      = ("P", ⟨[0, 0, 0, 0, 0, 0, 0, 0, 0, 0, 255, 255, 10, 0, 0, 0],
          [255, 255, 255, 255, 255, 255, 255, 255, 255, 255, 255, 255, 255, 0, 0, 0]⟩, true) ∧
    NetworkMap.IP2Pid NewNetworkMap [10, 1, 2, 3] = ("", ⟨[], []⟩, false) := by
  refine ⟨by decide, by decide, by decide, by decide, by decide, by decide, by decide⟩

theorem FromJsonMap_MediaType (fmtG : ℚ → String) (msg : AltoMsg) (jm : JsonMap) :
    (msg.FromJsonMap fmtG jm).1.MediaType = msg.MediaType := by
  cases msg <;> rfl

theorem ReadJson_MediaType (fmtG : ℚ → String) (msg : AltoMsg) (r : Reader) :
    (ReadJson fmtG msg r).1.MediaType = msg.MediaType := by
  unfold ReadJson
  split <;> simp only [FromJsonMap_MediaType]

end altomsgs
namespace altomsgs

/-- `NewAltoMsg` on a known media type: the message it constructs and reads
into. -/
theorem NewAltoMsg_known (fmtG : ℚ → String) (mediaType : String) (r : Reader) (cl : Int)
    (h : mediaType ∈ mediaTypes) :
    ∃ new ∈ newMessages, new.MediaType = mediaType ∧
      NewAltoMsg fmtG mediaType r cl
        = (some (ReadJson fmtG new r).1, (ReadJson fmtG new r).2.1, (ReadJson fmtG new r).2.2) := by
  simp only [mediaTypes, List.mem_cons, List.mem_singleton, List.not_mem_nil, or_false] at h
  rcases h with h | h | h | h | h | h | h | h | h | h <;> subst h
  · exact ⟨.directory NewDirectory, by simp [newMessages], rfl,
      NewAltoMsg_of_MediaType fmtG (.directory NewDirectory) r cl⟩
  · exact ⟨.networkMap NewNetworkMap, by simp [newMessages], rfl,
      NewAltoMsg_of_MediaType fmtG (.networkMap NewNetworkMap) r cl⟩
  · exact ⟨.networkMapFilter NewNetworkMapFilter, by simp [newMessages], rfl,
      NewAltoMsg_of_MediaType fmtG (.networkMapFilter NewNetworkMapFilter) r cl⟩
  · exact ⟨.costMap NewCostMap, by simp [newMessages], rfl,
      NewAltoMsg_of_MediaType fmtG (.costMap NewCostMap) r cl⟩
  · exact ⟨.costMapFilter NewCostMapFilter, by simp [newMessages], rfl,
      NewAltoMsg_of_MediaType fmtG (.costMapFilter NewCostMapFilter) r cl⟩
  · exact ⟨.endpointCost NewEndpointCost, by simp [newMessages], rfl,
      NewAltoMsg_of_MediaType fmtG (.endpointCost NewEndpointCost) r cl⟩
  · exact ⟨.endpointCostParams NewEndpointCostParams, by simp [newMessages], rfl,
      NewAltoMsg_of_MediaType fmtG (.endpointCostParams NewEndpointCostParams) r cl⟩
  · exact ⟨.endpointProp NewEndpointProp, by simp [newMessages], rfl,
      NewAltoMsg_of_MediaType fmtG (.endpointProp NewEndpointProp) r cl⟩
  · exact ⟨.endpointPropParams NewEndpointPropParams, by simp [newMessages], rfl,
      NewAltoMsg_of_MediaType fmtG (.endpointPropParams NewEndpointPropParams) r cl⟩
  · exact ⟨.errorResp (NewErrorResp ""), by simp [newMessages], rfl,
      NewAltoMsg_of_MediaType fmtG (.errorResp (NewErrorResp "")) r cl⟩

theorem NewAltoMsg_unknown (fmtG : ℚ → String) (mediaType : String) (r : Reader) (cl : Int)
    (h : mediaType ∉ mediaTypes) :
    NewAltoMsg fmtG mediaType r cl =
      (none, [.other ("Unknown media type \"" ++ mediaType ++ "\"")], r) := by
  simp only [mediaTypes, List.mem_cons, List.mem_singleton, List.not_mem_nil, or_false,
    not_or] at h
  obtain ⟨h1, h2, h3, h4, h5, h6, h7, h8, h9, h10⟩ := h
  simp [NewAltoMsg, h1, h2, h3, h4, h5, h6, h7, h8, h9, h10]

/-- C9. `NewAltoMsg` dispatches exactly on the ten media types, which are
pairwise distinct. On any other media type it returns a nil message and one
error, and the reader is returned as it was: nothing was read. On one of the
ten the message it returns has that media type, and the stream was read once. -/
theorem C9_NewAltoMsg_dispatch (fmtG : ℚ → String) (mediaType : String) (r : Reader)
    (contentLen : Int) :
    mediaTypes = ["application/alto-directory+json", "application/alto-networkmap+json",
      "application/alto-networkmapfilter+json", "application/alto-costmap+json",
      "application/alto-costmapfilter+json", "application/alto-endpointcost+json",
      "application/alto-endpointcostparams+json", "application/alto-endpointprop+json",
      "application/alto-endpointpropparams+json", "application/alto-error+json"] ∧
    mediaTypes.Nodup ∧
    (mediaType ∉ mediaTypes →
      (NewAltoMsg fmtG mediaType r contentLen).1 = none ∧
      (NewAltoMsg fmtG mediaType r contentLen).2.1.length = 1 ∧
      (NewAltoMsg fmtG mediaType r contentLen).2.2 = r) ∧
    (mediaType ∈ mediaTypes →
      ∃ m, (NewAltoMsg fmtG mediaType r contentLen).1 = some m ∧ m.MediaType = mediaType ∧
        (NewAltoMsg fmtG mediaType r contentLen).2.2.reads = r.reads + 1) := by
  refine ⟨by decide, by decide, ?_, ?_⟩
  · intro h
    rw [NewAltoMsg_unknown fmtG mediaType r contentLen h]
    exact ⟨rfl, rfl, rfl⟩
  · intro h
    obtain ⟨new, -, hmt, heq⟩ := NewAltoMsg_known fmtG mediaType r contentLen h
    refine ⟨(ReadJson fmtG new r).1, by rw [heq], by rw [ReadJson_MediaType, hmt], ?_⟩
    rw [heq]
    simp only [ReadJson]
    split <;> rfl

/-- C10, counterexample: on "application/alto-costmap+json" and a body that is
not JSON the message returned is not nil; it is the empty cost map that
`NewCostMap()` made. -/
theorem C10_counterexample :
    (NewAltoMsg (fun _ => "") "application/alto-costmap+json"
        ⟨.invalid "invalid character 'x' looking for beginning of value", 0⟩ 0).1
      = some (.costMap NewCostMap) ∧
    (NewAltoMsg (fun _ => "") "application/alto-costmap+json"
        ⟨.invalid "invalid character 'x' looking for beginning of value", 0⟩ 0).1 ≠ none ∧
    (NewAltoMsg (fun _ => "") "application/alto-costmap+json"
        ⟨.invalid "invalid character 'x' looking for beginning of value", 0⟩ 0).2.1
      = [.other "invalid character 'x' looking for beginning of value"] := by
  refine ⟨by decide, by decide, by decide⟩

/-- C10, as the code has it. For a supported media type and a body that is not
valid JSON, `NewAltoMsg` returns exactly one error, the decoder's, together
with a non-nil message: the new, empty message of that media type. -/
theorem C10_NewAltoMsg_invalid_json (fmtG : ℚ → String) (mediaType err : String) (reads : Nat)
    (contentLen : Int) (h : mediaType ∈ mediaTypes) :
    ∃ m ∈ newMessages, m.MediaType = mediaType ∧
      NewAltoMsg fmtG mediaType ⟨.invalid err, reads⟩ contentLen
        = (some m, [.other err], ⟨.invalid err, reads + 1⟩) := by
  obtain ⟨new, hnew, hmt, heq⟩ :=
    NewAltoMsg_known fmtG mediaType ⟨.invalid err, reads⟩ contentLen h
  exact ⟨new, hnew, hmt, by rw [heq]; rfl⟩

/-- C10 at a concrete input. -/
theorem C10_witness :
    "application/alto-costmap+json" ∈ mediaTypes ∧
    ∃ m ∈ newMessages, m.MediaType = "application/alto-costmap+json" ∧
      NewAltoMsg (fun _ => "") "application/alto-costmap+json" ⟨.invalid "unexpected EOF", 0⟩ 0
        = (some m, [.other "unexpected EOF"], ⟨.invalid "unexpected EOF", 0 + 1⟩) :=
  ⟨by decide, C10_NewAltoMsg_invalid_json (fun _ => "") "application/alto-costmap+json"
    "unexpected EOF" 0 0 (by decide)⟩

end altomsgs

namespace altomsgs

theorem readCostRow_fold {μ : Type} (setCost : μ → String → String → Cost → μ)
    (field src : String) (row : List (String × GoValue)) (this : μ) :
    readCostRow setCost field src this row =
      ((row.filterMap (fun d =>
          match d.2 with
          | .float64 x => some (src, d.1, Cost.ofFloat64 x)
          | _ => none)).foldl (fun m p => setCost m p.1 p.2.1 p.2.2) this,
       row.filterMap (fun d =>
          match d.2 with
          | .float64 _ => none
          | .nil => none
          | _ => some (Error.JSONTypeError (field ++ "." ++ src ++ "." ++ d.1)
              "Unknown cost type"))) := by
  induction row generalizing this with
  | nil => rfl
  | cons d rest ih =>
    obtain ⟨dst, v⟩ := d
    cases v <;> simp [readCostRow, ih]

theorem readCostRows_fold {μ : Type} (setCost : μ → String → String → Cost → μ)
    (field : String) (cm : List (String × GoValue)) (this : μ) :
    readCostRows setCost field this cm =
      ((costPoints cm).foldl (fun m p => setCost m p.1 p.2.1 p.2.2) this,
       costTypeErrors field cm) := by
  induction cm generalizing this with
  | nil => rfl
  | cons e rest ih =>
    obtain ⟨src, v⟩ := e
    cases v <;>
      simp [readCostRows, ih, costPoints, costTypeErrors, readCostRow_fold, List.foldl_append]

end altomsgs
namespace altomsgs

theorem readProps_fold (addr : String) (props : List (String × GoValue)) (this : EndpointProp) :
    EndpointProp.readProps addr this props =
      ((props.filterMap (fun d =>
          match d.2 with
          | .string x => some (addr, d.1, x)
          | _ => none)).foldl (fun m p => m.SetProp p.1 p.2.1 p.2.2) this,
       props.filterMap (fun d =>
          match d.2 with
          | .string _ => none
          | .nil => none
          | _ => some (Error.JSONTypeError
              (FN_ENDPOINT_PROPERTIES ++ "." ++ addr ++ "." ++ d.1)
              "Unknown property value type"))) := by
  induction props generalizing this with
  | nil => rfl
  | cons d rest ih =>
    obtain ⟨name, v⟩ := d
    cases v <;> simp [EndpointProp.readProps, ih]

theorem readAddrs_fold (pm : List (String × GoValue)) (this : EndpointProp) :
    EndpointProp.readAddrs this pm =
      ((propPoints pm).foldl (fun m p => m.SetProp p.1 p.2.1 p.2.2) this,
       propTypeErrors pm) := by
  induction pm generalizing this with
  | nil => rfl
  | cons e rest ih =>
    obtain ⟨addr, v⟩ := e
    cases v <;>
      simp [EndpointProp.readAddrs, ih, propPoints, propTypeErrors, readProps_fold,
        List.foldl_append]

theorem addAll_append (this : NetworkMap) (a b : List (String × String × String)) :
    this.addAll (a ++ b) = (this.addAll a).addAll b := by
  simp [NetworkMap.addAll, List.foldl_append]

theorem addAllErrors_append (this : NetworkMap) (a b : List (String × String × String)) :
    this.addAllErrors (a ++ b) = this.addAllErrors a ++ (this.addAll a).addAllErrors b := by
  induction a generalizing this with
  | nil => simp [NetworkMap.addAllErrors, NetworkMap.addAll]
  | cons op rest ih =>
    simp [NetworkMap.addAllErrors, NetworkMap.addAll, ih, List.append_assoc]

theorem readCIDRs_fold (pid addrtype : String) (cidrs : List GoValue) (this : NetworkMap) :
    NetworkMap.readCIDRs pid addrtype this cidrs =
      (this.addAll (cidrs.filterMap (fun c =>
          match c with
          | .string s => some (pid, addrtype, s)
          | _ => none)),
       this.addAllErrors (cidrs.filterMap (fun c =>
          match c with
          | .string s => some (pid, addrtype, s)
          | _ => none))) := by
  induction cidrs generalizing this with
  | nil => rfl
  | cons c rest ih =>
    cases c <;> simp [NetworkMap.readCIDRs, ih, NetworkMap.addAll, NetworkMap.addAllErrors]

theorem readAddrTypes_fold (pid : String) (addrtypes : List (String × GoValue))
    (this : NetworkMap) :
    NetworkMap.readAddrTypes pid this addrtypes =
      (this.addAll (addrtypes.flatMap (fun t =>
          match t.2 with
          | .slice cidrs => cidrs.filterMap (fun c =>
              match c with
              | .string s => some (pid, t.1, s)
              | _ => none)
          | _ => [])),
       this.addAllErrors (addrtypes.flatMap (fun t =>
          match t.2 with
          | .slice cidrs => cidrs.filterMap (fun c =>
              match c with
              | .string s => some (pid, t.1, s)
              | _ => none)
          | _ => []))) := by
  induction addrtypes generalizing this with
  | nil => rfl
  | cons t rest ih =>
    obtain ⟨ty, v⟩ := t
    cases v <;>
      simp [NetworkMap.readAddrTypes, ih, readCIDRs_fold, addAll_append, addAllErrors_append]


theorem readPids_fold (nm : List (String × GoValue)) (this : NetworkMap) :
    NetworkMap.readPids this nm =
      (this.addAll (cidrTexts nm), this.addAllErrors (cidrTexts nm)) := by
  induction nm generalizing this with
  | nil => rfl
  | cons e rest ih =>
    obtain ⟨pid, v⟩ := e
    cases v <;>
      simp [NetworkMap.readPids, ih, readAddrTypes_fold, cidrTexts, addAll_append,
        addAllErrors_append]


end altomsgs

theorem GoMap.get_erase {κ β : Type} [DecidableEq κ] (m : List (κ × β)) (k k' : κ) :
    GoMap.get (GoMap.erase m k) k' = if k' = k then none else GoMap.get m k' := by
  induction m with
  | nil => simp [GoMap.erase, GoMap.get]
  | cons e rest ih =>
    obtain ⟨a, b⟩ := e
    simp only [GoMap.erase] at ih ⊢
    by_cases hak : a = k
    · subst hak
      by_cases hk : k' = a
      · simp [hk] at ih ⊢
        simpa using ih
      · have hk2 : ¬ a = k' := fun h => hk h.symm
        simp [hk] at ih ⊢
        simp [GoMap.get, ih, hk2]
    · by_cases hk : k' = k
      · subst hk
        simp [List.filter_cons, hak, GoMap.get] at ih ⊢
        simp [ih]
      · simp [List.filter_cons, hak, GoMap.get, hk] at ih ⊢
        simp [ih]
namespace altomsgs

theorem get_erase_scalar (jm : JsonMap) (k : String) (v : GoValue)
    (h : GoMap.get jm k = some v) (hv : v.Scalar) (K : String) :
    GoMap.get (GoMap.erase jm k) K = GoMap.get jm K ∨
      (GoMap.get (GoMap.erase jm k) K = none ∧ ∃ w, GoMap.get jm K = some w ∧ w.Scalar) := by
  rw [GoMap.get_erase]
  by_cases hK : K = k
  · subst hK
    right
    exact ⟨by simp, v, h, hv⟩
  · left
    simp [hK]

theorem GetStringArray_erase (fmtG : ℚ → String) (jm : JsonMap) (k : String) (v : GoValue)
    (h : GoMap.get jm k = some v) (hv : v.Scalar) (K : String) (d : List String) :
    wdrlib.GetStringArray fmtG (GoMap.erase jm k) K d = wdrlib.GetStringArray fmtG jm K d := by
  rcases get_erase_scalar jm k v h hv K with h1 | ⟨h1, w, h2, hw⟩
  · simp [wdrlib.GetStringArray, h1]
  · cases w <;> simp_all [wdrlib.GetStringArray, GoValue.Scalar]

theorem GetMeta_erase (jm : JsonMap) (k : String) (v : GoValue)
    (h : GoMap.get jm k = some v) (hv : v.Scalar) :
    (JsonMap.GetMeta (GoMap.erase jm k) false).2 = (JsonMap.GetMeta jm false).2 := by
  rcases get_erase_scalar jm k v h hv FN_META with h1 | ⟨h1, w, h2, hw⟩
  · simp only [JsonMap.GetMeta, h1]
    cases hm : GoMap.get jm FN_META with
    | none => simp
    | some w => cases w <;> simp
  · cases w <;> simp_all [JsonMap.GetMeta, GoValue.Scalar]

theorem NetworkMapFilter_erase (fmtG : ℚ → String) (m : NetworkMapFilter) (jm : JsonMap)
    (k : String) (v : GoValue) (h : GoMap.get jm k = some v) (hv : v.Scalar) :
    m.FromJsonMap fmtG (GoMap.erase jm k) = m.FromJsonMap fmtG jm := by
  unfold NetworkMapFilter.FromJsonMap
  rcases get_erase_scalar jm k v h hv FN_PIDS with h1 | ⟨h1, w, h2, hw⟩ <;>
  rcases get_erase_scalar jm k v h hv FN_ADDRESS_TYPES with h3 | ⟨h3, w', h4, hw'⟩
  · simp only [h1, h3]
  · rw [h1, h3, h4]; cases w' <;> simp_all [GoValue.Scalar]
  · rw [h1, h3, h2]; cases w <;> simp_all [GoValue.Scalar]
  · rw [h1, h3, h2, h4]; cases w <;> cases w' <;> simp_all [GoValue.Scalar]

theorem GetCostType_erase (jm : JsonMap) (k : String) (v : GoValue)
    (h : GoMap.get jm k = some v) (hv : v.Scalar) :
    JsonMap.GetCostType (GoMap.erase jm k) = JsonMap.GetCostType jm := by
  simp only [JsonMap.GetCostType, GetMeta_erase jm k v h hv]

theorem GetVTag_erase (jm : JsonMap) (k : String) (v : GoValue)
    (h : GoMap.get jm k = some v) (hv : v.Scalar) :
    JsonMap.GetVTag (GoMap.erase jm k) = JsonMap.GetVTag jm := by
  simp only [JsonMap.GetVTag, GetMeta_erase jm k v h hv]

theorem GetDepVTags_erase (jm : JsonMap) (k : String) (v : GoValue)
    (h : GoMap.get jm k = some v) (hv : v.Scalar) :
    JsonMap.GetDepVTags (GoMap.erase jm k) = JsonMap.GetDepVTags jm := by
  simp only [JsonMap.GetDepVTags, GetMeta_erase jm k v h hv]

theorem CostMapFilter_erase (fmtG : ℚ → String) (m : CostMapFilter) (jm : JsonMap)
    (k : String) (v : GoValue) (h : GoMap.get jm k = some v) (hv : v.Scalar) :
    m.FromJsonMap fmtG (GoMap.erase jm k) = m.FromJsonMap fmtG jm := by
  unfold CostMapFilter.FromJsonMap
  rw [GetStringArray_erase fmtG jm k v h hv]
  rcases get_erase_scalar jm k v h hv FN_COST_TYPE with h1 | ⟨h1, w, h2, hw⟩ <;>
  rcases get_erase_scalar jm k v h hv FN_PIDS with h3 | ⟨h3, w', h4, hw'⟩
  · simp only [h1, h3]
  · rw [h1, h3, h4]; cases w' <;> simp_all [GoValue.Scalar]
  · rw [h1, h3, h2]; cases w <;> simp_all [GoValue.Scalar]
  · rw [h1, h3, h2, h4]; cases w <;> cases w' <;> simp_all [GoValue.Scalar]

theorem EndpointCostParams_erase (fmtG : ℚ → String) (m : EndpointCostParams) (jm : JsonMap)
    (k : String) (v : GoValue) (h : GoMap.get jm k = some v) (hv : v.Scalar) :
    m.FromJsonMap fmtG (GoMap.erase jm k) = m.FromJsonMap fmtG jm := by
  unfold EndpointCostParams.FromJsonMap
  rw [GetStringArray_erase fmtG jm k v h hv]
  rcases get_erase_scalar jm k v h hv FN_COST_TYPE with h1 | ⟨h1, w, h2, hw⟩ <;>
  rcases get_erase_scalar jm k v h hv FN_ENDPOINTS with h3 | ⟨h3, w', h4, hw'⟩
  · simp only [h1, h3]
  · rw [h1, h3, h4]; cases w' <;> simp_all [GoValue.Scalar]
  · rw [h1, h3, h2]; cases w <;> simp_all [GoValue.Scalar]
  · rw [h1, h3, h2, h4]; cases w <;> cases w' <;> simp_all [GoValue.Scalar]

theorem EndpointPropParams_erase (fmtG : ℚ → String) (m : EndpointPropParams) (jm : JsonMap)
    (k : String) (v : GoValue) (h : GoMap.get jm k = some v) (hv : v.Scalar) :
    m.FromJsonMap fmtG (GoMap.erase jm k) = m.FromJsonMap fmtG jm := by
  simp only [EndpointPropParams.FromJsonMap, GetStringArray_erase fmtG jm k v h hv]

theorem ErrorResp_erase (m : ErrorResp) (jm : JsonMap)
    (k : String) (v : GoValue) (h : GoMap.get jm k = some v) (hv : v.Scalar) :
    m.FromJsonMap (GoMap.erase jm k) = m.FromJsonMap jm := by
  simp only [ErrorResp.FromJsonMap, GetMeta_erase jm k v h hv]

theorem Directory_erase (fmtG : ℚ → String) (m : Directory) (jm : JsonMap)
    (k : String) (v : GoValue) (h : GoMap.get jm k = some v) (hv : v.Scalar) :
    m.FromJsonMap fmtG (GoMap.erase jm k) = m.FromJsonMap fmtG jm := by
  unfold Directory.FromJsonMap
  rw [GetMeta_erase jm k v h hv]
  rcases get_erase_scalar jm k v h hv FN_RESOURCES with h1 | ⟨h1, w, h2, hw⟩
  · simp only [h1]
  · rw [h1, h2]; cases w <;> simp_all [GoValue.Scalar]

theorem CostMap_erase (m : CostMap) (jm : JsonMap)
    (k : String) (v : GoValue) (h : GoMap.get jm k = some v) (hv : v.Scalar) :
    m.FromJsonMap (GoMap.erase jm k) = m.FromJsonMap jm := by
  unfold CostMap.FromJsonMap
  rw [GetCostType_erase jm k v h hv, GetDepVTags_erase jm k v h hv]
  rcases get_erase_scalar jm k v h hv FN_COST_MAP with h1 | ⟨h1, w, h2, hw⟩
  · simp only [h1]
  · rw [h1, h2]; cases w <;> simp_all [GoValue.Scalar]

theorem EndpointCost_erase (m : EndpointCost) (jm : JsonMap)
    (k : String) (v : GoValue) (h : GoMap.get jm k = some v) (hv : v.Scalar) :
    m.FromJsonMap (GoMap.erase jm k) = m.FromJsonMap jm := by
  unfold EndpointCost.FromJsonMap
  rw [GetCostType_erase jm k v h hv]
  rcases get_erase_scalar jm k v h hv FN_ENDPOINT_COST_MAP with h1 | ⟨h1, w, h2, hw⟩
  · simp only [h1]
  · rw [h1, h2]; cases w <;> simp_all [GoValue.Scalar]

theorem EndpointProp_erase (m : EndpointProp) (jm : JsonMap)
    (k : String) (v : GoValue) (h : GoMap.get jm k = some v) (hv : v.Scalar) :
    m.FromJsonMap (GoMap.erase jm k) = m.FromJsonMap jm := by
  unfold EndpointProp.FromJsonMap
  rw [GetDepVTags_erase jm k v h hv]
  rcases get_erase_scalar jm k v h hv FN_ENDPOINT_PROPERTIES with h1 | ⟨h1, w, h2, hw⟩
  · simp only [h1]
  · rw [h1, h2]; cases w <;> simp_all [GoValue.Scalar]

theorem NetworkMap_erase (m : NetworkMap) (jm : JsonMap)
    (k : String) (v : GoValue) (h : GoMap.get jm k = some v) (hv : v.Scalar) :
    m.FromJsonMap (GoMap.erase jm k) = m.FromJsonMap jm := by
  unfold NetworkMap.FromJsonMap
  rw [GetVTag_erase jm k v h hv]
  rcases get_erase_scalar jm k v h hv FN_NETWORK_MAP with h1 | ⟨h1, w, h2, hw⟩
  · simp only [h1]
  · rw [h1, h2]; cases w <;> simp_all [GoValue.Scalar]

/-- A top-level field that holds a scalar is read as if it were absent, by
every variant. -/
theorem FromJsonMap_erase_scalar (fmtG : ℚ → String) (msg : AltoMsg) (jm : JsonMap)
    (k : String) (v : GoValue) (h : GoMap.get jm k = some v) (hv : v.Scalar) :
    msg.FromJsonMap fmtG (GoMap.erase jm k) = msg.FromJsonMap fmtG jm := by
  cases msg <;> simp only [AltoMsg.FromJsonMap]
  · rw [Directory_erase fmtG _ jm k v h hv]
  · rw [NetworkMap_erase _ jm k v h hv]
  · rw [NetworkMapFilter_erase fmtG _ jm k v h hv]
  · rw [CostMap_erase _ jm k v h hv]
  · rw [CostMapFilter_erase fmtG _ jm k v h hv]
  · rw [EndpointCost_erase _ jm k v h hv]
  · rw [EndpointCostParams_erase fmtG _ jm k v h hv]
  · rw [EndpointProp_erase _ jm k v h hv]
  · rw [EndpointPropParams_erase fmtG _ jm k v h hv]
  · rw [ErrorResp_erase _ jm k v h hv]

end altomsgs
namespace altomsgs

theorem AddCIDR_error_kind (m : NetworkMap) (p t c : String) (e : Error)
    (h : (m.AddCIDR p t c).2 = some e) :
    (∃ a b, e = .CIDRError a b) ∨ (∃ s, e = .InvalidAddrError s) := by
  cases hp : net.ParseCIDR c with
  | none =>
    rw [NetworkMap.AddCIDR_parse_error m p t c hp] at h
    exact Or.inl ⟨_, _, (Option.some.inj h).symm⟩
  | some n =>
    cases ht : AddrTypeLen t with
    | error e' =>
      rw [NetworkMap.AddCIDR_type_error m p t c n e' hp ht] at h
      have he : e' = e := Option.some.inj h
      subst he
      unfold AddrTypeLen at ht
      split at ht
      · cases ht
      · split at ht
        · cases ht
        · exact Or.inr ⟨_, (Except.error.inj ht).symm⟩
    | ok l =>
      by_cases hl : l = n.IP.length
      · subst hl
        cases hf : NetworkMap.findAssigned ⟨p, n, (net.IPMask.Size n.Mask).1⟩
            (net.IPMask.Size n.Mask).1
            ((GoMap.get m.cidrsByLen (net.IPMask.Size n.Mask).1).getD []) with
        | none =>
          have := (NetworkMap.AddCIDR_new m p t c n hp ht hf).1
          rw [this] at h
          cases h
        | some x =>
          rw [NetworkMap.AddCIDR_found m p t c n x hp ht hf] at h
          split at h
          · exact Or.inl ⟨_, _, (Option.some.inj h).symm⟩
          · cases h
      · rw [NetworkMap.AddCIDR_mismatch m p t c n l hp ht hl] at h
        exact Or.inl ⟨_, _, (Option.some.inj h).symm⟩

theorem addAllErrors_kind (ops : List (String × String × String)) (m : NetworkMap) (e : Error)
    (h : e ∈ m.addAllErrors ops) :
    (∃ a b, e = .CIDRError a b) ∨ (∃ s, e = .InvalidAddrError s) := by
  induction ops generalizing m with
  | nil => simp [NetworkMap.addAllErrors] at h
  | cons op rest ih =>
    simp only [NetworkMap.addAllErrors, List.mem_append] at h
    rcases h with h | h
    · cases hr : (m.AddCIDR op.1 op.2.1 op.2.2).2 with
      | none => simp [hr] at h
      | some err =>
        simp [hr] at h
        subst h
        exact AddCIDR_error_kind m _ _ _ _ hr
    · exact ih _ h

theorem NetworkMap_FromJsonMap_fold (m : NetworkMap) (jm : JsonMap) :
    m.FromJsonMap jm =
      match GoMap.get jm FN_NETWORK_MAP with
      | some (.map nm) =>
        ((m.SetVTag (JsonMap.GetVTag jm)).addAll (cidrTexts nm),
         (m.SetVTag (JsonMap.GetVTag jm)).addAllErrors (cidrTexts nm))
      | _ => (m.SetVTag (JsonMap.GetVTag jm), []) := by
  unfold NetworkMap.FromJsonMap
  cases h : GoMap.get jm FN_NETWORK_MAP with
  | none => rfl
  | some v => cases v <;> simp [readPids_fold]

theorem CostMap_FromJsonMap_fold (m : CostMap) (jm : JsonMap) :
    m.FromJsonMap jm =
      match GoMap.get jm FN_COST_MAP with
      | some (.map cm) =>
        ((costPoints cm).foldl (fun acc p => acc.SetCost p.1 p.2.1 p.2.2)
          ((JsonMap.GetDepVTags jm).foldl (fun acc vtag => acc.AddDepVTag vtag)
            (m.SetCostType (JsonMap.GetCostType jm))),
         costTypeErrors FN_COST_MAP cm)
      | _ =>
        ((JsonMap.GetDepVTags jm).foldl (fun acc vtag => acc.AddDepVTag vtag)
          (m.SetCostType (JsonMap.GetCostType jm)), []) := by
  unfold CostMap.FromJsonMap
  cases h : GoMap.get jm FN_COST_MAP with
  | none => rfl
  | some v => cases v <;> simp [readCostRows_fold]

theorem EndpointCost_FromJsonMap_fold (m : EndpointCost) (jm : JsonMap) :
    m.FromJsonMap jm =
      match GoMap.get jm FN_ENDPOINT_COST_MAP with
      | some (.map cm) =>
        ((costPoints cm).foldl (fun acc p => acc.SetCost p.1 p.2.1 p.2.2)
          (m.SetCostType (JsonMap.GetCostType jm)),
         costTypeErrors FN_ENDPOINT_COST_MAP cm)
      | _ => (m.SetCostType (JsonMap.GetCostType jm), []) := by
  unfold EndpointCost.FromJsonMap
  cases h : GoMap.get jm FN_ENDPOINT_COST_MAP with
  | none => rfl
  | some v => cases v <;> simp [readCostRows_fold]

theorem EndpointProp_FromJsonMap_fold (m : EndpointProp) (jm : JsonMap) :
    m.FromJsonMap jm =
      match GoMap.get jm FN_ENDPOINT_PROPERTIES with
      | some (.map pm) =>
        ((propPoints pm).foldl (fun acc p => acc.SetProp p.1 p.2.1 p.2.2)
          ((JsonMap.GetDepVTags jm).foldl (fun acc vtag => acc.AddDepVTag vtag) m),
         propTypeErrors pm)
      | _ => ((JsonMap.GetDepVTags jm).foldl (fun acc vtag => acc.AddDepVTag vtag) m, []) := by
  unfold EndpointProp.FromJsonMap
  cases h : GoMap.get jm FN_ENDPOINT_PROPERTIES with
  | none => rfl
  | some v => cases v <;> simp [readAddrs_fold]

end altomsgs
namespace altomsgs

/-- C11 as stated fails: no type error is appended when "cost-map" is a
string, when a source's value in "cost-map" is not an object, when an element
of a network-map CIDR list is a number, or when "pids" of a filter is a string;
the error list is empty in each case (the well-typed CIDR next to the number is
still added). Only the wrongly typed cost value is reported. -/
theorem C11_counterexample :
    (CostMap.FromJsonMap NewCostMap [("cost-map", .string "x")]).2 = [] ∧
    (CostMap.FromJsonMap NewCostMap [("cost-map", .map [("PID1", .string "x")])]).2 = [] ∧
    (NetworkMap.FromJsonMap NewNetworkMap
      [("network-map", .map [("PID1", .map [("ipv4", .slice [.float64 7,
        .string "10.0.0.0/8"])])])]).2 = [] ∧
    NetworkMap.PidAddrs (NetworkMap.FromJsonMap NewNetworkMap
      [("network-map", .map [("PID1", .map [("ipv4", .slice [.float64 7,
        .string "10.0.0.0/8"])])])]).1 "PID1" = some [("ipv4", ["10.0.0.0/8"])] ∧
    (NetworkMapFilter.FromJsonMap (fun _ => "") NewNetworkMapFilter
      [("pids", .string "x")]).2 = [] ∧
    (CostMap.FromJsonMap NewCostMap
      [("cost-map", .map [("PID1", .map [("PID2", .string "x")])])]).2
      = [Error.JSONTypeError "cost-map.PID1.PID2" "Unknown cost type"] := by
  refine ⟨by decide, by decide, by decide, by decide, by decide, by decide⟩

/-- C11, amended. For every JSON object `jm`, `FromJsonMap` returns a message
and an error list (it is total) and reads every well-typed entry:
the six record-style variants never report an error; `NetworkMap` decodes to
the result of `AddCIDR` over exactly the well-typed CIDR texts, in order, and
its errors are those of `AddCIDR`, never a type error; `CostMap`,
`EndpointCost` and `EndpointProp` decode to the result of `SetCost` / `SetProp`
over exactly the well-typed entries, and report one `JSONTypeError` naming
`field.src.dst` for each cost or property value that is neither of the expected
type nor null, and for nothing else; and a top-level field that holds a scalar
where an object or array is declared is read, by every variant, as if it were
absent. -/
theorem C11_FromJsonMap_best_effort (fmtG : ℚ → String) (jm : JsonMap) :
    (∀ m : Directory, (m.FromJsonMap fmtG jm).2 = []) ∧
    (∀ m : NetworkMapFilter, (m.FromJsonMap fmtG jm).2 = []) ∧
    (∀ m : CostMapFilter, (m.FromJsonMap fmtG jm).2 = []) ∧
    (∀ m : EndpointCostParams, (m.FromJsonMap fmtG jm).2 = []) ∧
    (∀ m : EndpointPropParams, (m.FromJsonMap fmtG jm).2 = []) ∧
    (∀ m : ErrorResp, (m.FromJsonMap jm).2 = []) ∧
    (∀ m : NetworkMap, m.FromJsonMap jm =
      match GoMap.get jm FN_NETWORK_MAP with
      | some (.map nm) =>
        ((m.SetVTag (JsonMap.GetVTag jm)).addAll (cidrTexts nm),
         (m.SetVTag (JsonMap.GetVTag jm)).addAllErrors (cidrTexts nm))
      | _ => (m.SetVTag (JsonMap.GetVTag jm), [])) ∧
    (∀ (m : NetworkMap) (e : Error), e ∈ (m.FromJsonMap jm).2 →
      (∃ a b, e = .CIDRError a b) ∨ (∃ s, e = .InvalidAddrError s)) ∧
    (∀ m : CostMap, m.FromJsonMap jm =
      match GoMap.get jm FN_COST_MAP with
      | some (.map cm) =>
        ((costPoints cm).foldl (fun acc p => acc.SetCost p.1 p.2.1 p.2.2)
          ((JsonMap.GetDepVTags jm).foldl (fun acc vtag => acc.AddDepVTag vtag)
            (m.SetCostType (JsonMap.GetCostType jm))),
         costTypeErrors FN_COST_MAP cm)
      | _ =>
        ((JsonMap.GetDepVTags jm).foldl (fun acc vtag => acc.AddDepVTag vtag)
          (m.SetCostType (JsonMap.GetCostType jm)), [])) ∧
    (∀ m : EndpointCost, m.FromJsonMap jm =
      match GoMap.get jm FN_ENDPOINT_COST_MAP with
      | some (.map cm) =>
        ((costPoints cm).foldl (fun acc p => acc.SetCost p.1 p.2.1 p.2.2)
          (m.SetCostType (JsonMap.GetCostType jm)),
         costTypeErrors FN_ENDPOINT_COST_MAP cm)
      | _ => (m.SetCostType (JsonMap.GetCostType jm), [])) ∧
    (∀ m : EndpointProp, m.FromJsonMap jm =
      match GoMap.get jm FN_ENDPOINT_PROPERTIES with
      | some (.map pm) =>
        ((propPoints pm).foldl (fun acc p => acc.SetProp p.1 p.2.1 p.2.2)
          ((JsonMap.GetDepVTags jm).foldl (fun acc vtag => acc.AddDepVTag vtag) m),
         propTypeErrors pm)
      | _ => ((JsonMap.GetDepVTags jm).foldl (fun acc vtag => acc.AddDepVTag vtag) m, [])) ∧
    (∀ (msg : AltoMsg) (k : String) (v : GoValue), GoMap.get jm k = some v → v.Scalar →
      msg.FromJsonMap fmtG (GoMap.erase jm k) = msg.FromJsonMap fmtG jm) := by
  refine ⟨fun _ => rfl, fun _ => rfl, fun _ => rfl, fun _ => rfl, fun _ => rfl, ?_,
    fun m => NetworkMap_FromJsonMap_fold m jm, ?_, fun m => CostMap_FromJsonMap_fold m jm,
    fun m => EndpointCost_FromJsonMap_fold m jm, fun m => EndpointProp_FromJsonMap_fold m jm,
    fun msg k v h hv => FromJsonMap_erase_scalar fmtG msg jm k v h hv⟩
  · intro m
    unfold ErrorResp.FromJsonMap
    split <;> rfl
  · intro m e he
    rw [NetworkMap_FromJsonMap_fold] at he
    split at he
    · exact addAllErrors_kind _ _ e he
    · simp at he

/-- C11, amended, at a JSON object whose "cost-map" is a string and whose
"network-map" holds an unparsable CIDR text. -/
theorem C11_witness :
    (Error.CIDRError "x" "invalid CIDR address: x" ∈
      (NetworkMap.FromJsonMap NewNetworkMap sampleBadJson).2 ∧
     GoMap.get sampleBadJson "cost-map" = some (.string "x") ∧
     (GoValue.string "x").Scalar) ∧
    (((∃ a b, Error.CIDRError "x" "invalid CIDR address: x" = Error.CIDRError a b) ∨
      (∃ s, Error.CIDRError "x" "invalid CIDR address: x" = Error.InvalidAddrError s)) ∧
     AltoMsg.FromJsonMap (fun _ => "") (.costMap NewCostMap)
        (GoMap.erase sampleBadJson "cost-map")
      = AltoMsg.FromJsonMap (fun _ => "") (.costMap NewCostMap) sampleBadJson) :=
  ⟨⟨by decide, rfl, trivial⟩,
   (C11_FromJsonMap_best_effort (fun _ => "") sampleBadJson).2.2.2.2.2.2.2.1 NewNetworkMap _
     (by decide),
   (C11_FromJsonMap_best_effort (fun _ => "") sampleBadJson).2.2.2.2.2.2.2.2.2.2.2
     (.costMap NewCostMap) "cost-map" (.string "x") rfl trivial⟩

end altomsgs

namespace wdrlib

theorem StrListContains_iff (list : List String) (s : String) :
    StrListContains list s = true ↔ s ∈ list := by
  induction list with
  | nil => simp [StrListContains]
  | cons a rest ih =>
    by_cases h : s = a
    · simp [StrListContains, h]
    · simp [StrListContains, h, ih]

theorem StrListContainsAll_iff (list strs : List String) :
    StrListContainsAll list strs = true ↔ ∀ s ∈ strs, s ∈ list := by
  induction strs with
  | nil => simp [StrListContainsAll]
  | cons a rest ih =>
    by_cases h : StrListContains list a = true
    · have := (StrListContains_iff list a).1 h
      simp [StrListContainsAll, h, ih, this]
    · have hn : ¬ a ∈ list := fun hm => h ((StrListContains_iff list a).2 hm)
      simp [StrListContainsAll, h, hn]

theorem StrSetEqual_iff (a b : List String) :
    StrSetEqual a b = true ↔ (∀ s ∈ b, s ∈ a) ∧ (∀ s ∈ a, s ∈ b) := by
  simp [StrSetEqual, StrListContainsAll_iff]

theorem StrSetEqual_refl (a : List String) : StrSetEqual a a = true := by
  simp [StrSetEqual_iff]

end wdrlib

namespace altomsgs

theorem CostTypeListContains_iff (list : List CostType) (ct : CostType) :
    CostTypeListContains list ct = true ↔ ct ∈ list := by
  induction list with
  | nil => simp [CostTypeListContains]
  | cons a rest ih =>
    by_cases h : ct = a
    · simp [CostTypeListContains, h]
    · simp [CostTypeListContains, h, ih]

theorem CostTypeListContainsAll_iff (list cts : List CostType) :
    CostTypeListContainsAll list cts = true ↔ ∀ ct ∈ cts, ct ∈ list := by
  induction cts with
  | nil => simp [CostTypeListContainsAll]
  | cons a rest ih =>
    by_cases h : CostTypeListContains list a = true
    · have := (CostTypeListContains_iff list a).1 h
      simp [CostTypeListContainsAll, h, ih, this]
    · have hn : ¬ a ∈ list := fun hm => h ((CostTypeListContains_iff list a).2 hm)
      simp [CostTypeListContainsAll, h, hn]

theorem CostTypeSetEqual_iff (a b : List CostType) :
    CostTypeSetEqual a b = true ↔ (∀ s ∈ b, s ∈ a) ∧ (∀ s ∈ a, s ∈ b) := by
  simp [CostTypeSetEqual, CostTypeListContainsAll_iff]

theorem CostTypeSetEqual_refl (a : List CostType) : CostTypeSetEqual a a = true := by
  simp [CostTypeSetEqual_iff]

theorem Resource.Equal_self (a : Resource) : a.Equal (some a) = false := by
  simp [Resource.Equal, wdrlib.StrSetEqual_refl, CostTypeSetEqual_refl]

/-- C12, the code: `Equal` answers the opposite of what its comment says. For
all resources `a` and `b`, `a.Equal(b)` is true exactly when `a` and `b` are
NOT identical (some field differs, or `Uses`, `CostTypes` or `PropTypes` hold
different elements); so `a.Equal(a)` is false for every `a`. `a.Equal(nil)` is
false, as claimed. -/
theorem C12_Equal_inverted (a b : Resource) :
    a.Equal (some a) = false ∧
    a.Equal none = false ∧
    (a.Equal (some b) = true ↔
      ¬ (a.Id = b.Id ∧ a.URI = b.URI ∧ a.MediaType = b.MediaType ∧ a.Accepts = b.Accepts ∧
         a.CostConstraints = b.CostConstraints ∧
         ((∀ s, s ∈ a.Uses ↔ s ∈ b.Uses) ∧ (∀ ct, ct ∈ a.CostTypes ↔ ct ∈ b.CostTypes) ∧
          (∀ s, s ∈ a.PropTypes ↔ s ∈ b.PropTypes)))) := by
  refine ⟨Resource.Equal_self a, rfl, ?_⟩
  have hU : wdrlib.StrSetEqual a.Uses b.Uses = true ↔ ∀ s, s ∈ a.Uses ↔ s ∈ b.Uses := by
    rw [wdrlib.StrSetEqual_iff]
    exact ⟨fun h s => ⟨h.2 s, h.1 s⟩, fun h => ⟨fun s => (h s).2, fun s => (h s).1⟩⟩
  have hP : wdrlib.StrSetEqual a.PropTypes b.PropTypes = true ↔
      ∀ s, s ∈ a.PropTypes ↔ s ∈ b.PropTypes := by
    rw [wdrlib.StrSetEqual_iff]
    exact ⟨fun h s => ⟨h.2 s, h.1 s⟩, fun h => ⟨fun s => (h s).2, fun s => (h s).1⟩⟩
  have hC : CostTypeSetEqual a.CostTypes b.CostTypes = true ↔
      ∀ s, s ∈ a.CostTypes ↔ s ∈ b.CostTypes := by
    rw [CostTypeSetEqual_iff]
    exact ⟨fun h s => ⟨h.2 s, h.1 s⟩, fun h => ⟨fun s => (h s).2, fun s => (h s).1⟩⟩
  rw [← hU, ← hP, ← hC]
  simp only [Resource.Equal, Bool.or_eq_true, decide_eq_true_eq, Bool.not_eq_true',
    ← Bool.not_eq_true]
  tauto

end altomsgs
namespace altomsgs
namespace ResourceSet

theorem addResource_fields (env : Env) (dir : Directory) (dirURI : url.URL)
    (st : ResourceSet × List Error) (d : DirResource) :
    (addResource env dir dirURI st d).1.URI = st.1.URI ∧
    (addResource env dir dirURI st d).1.DefNetworkMapId = st.1.DefNetworkMapId := by
  unfold addResource
  split
  · exact ⟨rfl, rfl⟩
  · split
    · exact ⟨rfl, rfl⟩
    · split <;> exact ⟨rfl, rfl⟩

theorem addResource_get (env : Env) (dir : Directory) (dirURI : url.URL)
    (st : ResourceSet × List Error) (d : DirResource) (id : String) :
    GoMap.get (addResource env dir dirURI st d).1.Resources id =
      match GoMap.get st.1.Resources id with
      | some c => some c
      | none => if d.Id = id then resolved env dir dirURI d else none := by
  unfold addResource resolved
  cases hn : NewResource env dirURI d (some dir.CostTypes) with
  | error e =>
    simp only
    cases GoMap.get st.1.Resources id <;> simp
  | ok n =>
    simp only
    cases hg : GoMap.get st.1.Resources d.Id with
    | none =>
      simp only
      by_cases hid : d.Id = id
      · subst hid
        simp [GoMap.get_set_self, hg]
      · rw [GoMap.get_set_ne _ _ _ _ hid]
        cases GoMap.get st.1.Resources id <;> simp [hid]
    | some c =>
      simp only
      have : GoMap.get (if (!n.Equal (some c)) = true then
            (st.1, st.2 ++ [Error.other ("Duplicate resource id \"" ++ d.Id ++ "\"")])
          else st).1.Resources id = GoMap.get st.1.Resources id := by
        split <;> rfl
      rw [this]
      by_cases hid : d.Id = id
      · subst hid
        simp [hg]
      · cases GoMap.get st.1.Resources id <;> simp [hid]

theorem addResource_errs (env : Env) (dir : Directory) (dirURI : url.URL)
    (st : ResourceSet × List Error) (d : DirResource) :
    (addResource env dir dirURI st d).2 =
      st.2 ++ errorsOf env dir dirURI (GoMap.get st.1.Resources d.Id) d := by
  unfold addResource errorsOf
  cases hn : NewResource env dirURI d (some dir.CostTypes) with
  | error e => rfl
  | ok n =>
    simp only
    cases hg : GoMap.get st.1.Resources d.Id with
    | none => simp
    | some c =>
      simp only
      split <;> simp

theorem foldl_addResource_fields (env : Env) (dir : Directory) (dirURI : url.URL)
    (l : List DirResource) (st : ResourceSet × List Error) :
    (l.foldl (addResource env dir dirURI) st).1.URI = st.1.URI ∧
    (l.foldl (addResource env dir dirURI) st).1.DefNetworkMapId = st.1.DefNetworkMapId := by
  induction l generalizing st with
  | nil => exact ⟨rfl, rfl⟩
  | cons d rest ih =>
    simp only [List.foldl_cons]
    have h1 := ih (addResource env dir dirURI st d)
    have h2 := addResource_fields env dir dirURI st d
    exact ⟨h1.1.trans h2.1, h1.2.trans h2.2⟩

theorem foldl_addResource_get (env : Env) (dir : Directory) (dirURI : url.URL)
    (l : List DirResource) (st : ResourceSet × List Error) (id : String) :
    GoMap.get (l.foldl (addResource env dir dirURI) st).1.Resources id =
      match GoMap.get st.1.Resources id with
      | some c => some c
      | none => l.findSome? (fun d => if d.Id = id then resolved env dir dirURI d else none) := by
  induction l generalizing st with
  | nil => simp; cases GoMap.get st.1.Resources id <;> rfl
  | cons d rest ih =>
    simp only [List.foldl_cons]
    rw [ih, addResource_get]
    cases hg : GoMap.get st.1.Resources id with
    | some c => rfl
    | none =>
      simp only [List.findSome?_cons]
      by_cases hid : d.Id = id
      · simp only [hid, if_true]
        cases resolved env dir dirURI d <;> rfl
      · simp [hid]

theorem foldl_addResource_errs (env : Env) (dir : Directory) (dirURI : url.URL)
    (l : List DirResource) (st : ResourceSet × List Error)
    (hnd : (l.map (fun d => d.Id)).Nodup) :
    (l.foldl (addResource env dir dirURI) st).2 =
      st.2 ++ l.flatMap (fun d => errorsOf env dir dirURI (GoMap.get st.1.Resources d.Id) d) := by
  induction l generalizing st with
  | nil => simp
  | cons d rest ih =>
    simp only [List.map_cons, List.nodup_cons] at hnd
    simp only [List.foldl_cons, List.flatMap_cons]
    rw [ih _ hnd.2, addResource_errs, List.append_assoc]
    congr 2
    apply List.flatMap_congr
    intro x hx
    have hne : d.Id ≠ x.Id := by
      intro h
      exact hnd.1 (List.mem_map.2 ⟨x, hx, h.symm⟩)
    rw [addResource_get]
    cases hg : GoMap.get st.1.Resources x.Id <;> simp [hne]

end ResourceSet
end altomsgs
namespace altomsgs
namespace ResourceSet

theorem AddResources_URI (env : Env) (rs : ResourceSet) (dir : Directory) (dirURI : url.URL) :
    (rs.AddResources env dir dirURI).1.URI = rs.URI := by
  unfold AddResources
  rw [(foldl_addResource_fields env dir dirURI _ _).1]
  split <;> rfl

theorem AddResources_DefNetworkMapId (env : Env) (rs : ResourceSet) (dir : Directory)
    (dirURI : url.URL) :
    (rs.AddResources env dir dirURI).1.DefNetworkMapId =
      if rs.DefNetworkMapId = "" then dir.DefNetworkMapId else rs.DefNetworkMapId := by
  unfold AddResources
  rw [(foldl_addResource_fields env dir dirURI _ _).2]
  by_cases h1 : rs.DefNetworkMapId = ""
  · by_cases h2 : dir.DefNetworkMapId = ""
    · simp [h1, h2]
    · simp [h1, h2]
  · simp [h1]

theorem AddResources_get (env : Env) (rs : ResourceSet) (dir : Directory) (dirURI : url.URL)
    (id : String) :
    GoMap.get (rs.AddResources env dir dirURI).1.Resources id =
      match GoMap.get rs.Resources id with
      | some c => some c
      | none => (dir.Resources.map Prod.snd).findSome?
          (fun d => if d.Id = id then resolved env dir dirURI d else none) := by
  unfold AddResources
  rw [foldl_addResource_get]
  have hR : (if rs.DefNetworkMapId = "" ∧ dir.DefNetworkMapId ≠ "" then
      { rs with DefNetworkMapId := dir.DefNetworkMapId } else rs).Resources = rs.Resources := by
    split <;> rfl
  cases hg : GoMap.get rs.Resources id <;> simp only [hR, hg]

theorem AddResources_errs (env : Env) (rs : ResourceSet) (dir : Directory) (dirURI : url.URL)
    (hnd : (dir.Resources.map (fun e => e.2.Id)).Nodup) :
    (rs.AddResources env dir dirURI).2 =
      (dir.Resources.map Prod.snd).flatMap
        (fun d => errorsOf env dir dirURI (GoMap.get rs.Resources d.Id) d) := by
  unfold AddResources
  rw [foldl_addResource_errs _ _ _ _ _ (by simpa [List.map_map] using hnd)]
  have hR : (if rs.DefNetworkMapId = "" ∧ dir.DefNetworkMapId ≠ "" then
      { rs with DefNetworkMapId := dir.DefNetworkMapId } else rs).Resources = rs.Resources := by
    split <;> rfl
  simp only [List.nil_append, hR]

end ResourceSet

/-- C13, the code at the failing input. The directory `sampleDirectory` (two of
the resources of `TestDirectory`) is added twice to an empty set with the same base URI: the second call returns one
"Duplicate resource id" error for each resource, although each is field for
field the one already stored, and leaves the set unchanged. A directory that
lists a different resource under the stored id "mynetmap" (another URI) is
added without any error, and the stored entry stays. -/
theorem C13_duplicate_check_inverted :
    (ResourceSet.AddResources (exampleEnv []) NewResourceSet sampleDirectory sampleDirURI).2
      = [] ∧
    ResourceSet.AddResources (exampleEnv [])
        (ResourceSet.AddResources (exampleEnv []) NewResourceSet sampleDirectory sampleDirURI).1
        sampleDirectory sampleDirURI
      = ((ResourceSet.AddResources (exampleEnv []) NewResourceSet sampleDirectory
            sampleDirURI).1,
         [Error.other "Duplicate resource id \"mynetmap\"",
          Error.other "Duplicate resource id \"filter-costmap\""]) ∧
    ResourceSet.AddResources (exampleEnv [])
        (ResourceSet.AddResources (exampleEnv []) NewResourceSet sampleDirectory sampleDirURI).1
        otherDirectory sampleDirURI
      = ((ResourceSet.AddResources (exampleEnv []) NewResourceSet sampleDirectory
            sampleDirURI).1, []) ∧
    ResourceSet.resolved (exampleEnv []) otherDirectory sampleDirURI otherNetmapResource
      ≠ GoMap.get (ResourceSet.AddResources (exampleEnv []) NewResourceSet sampleDirectory
          sampleDirURI).1.Resources "mynetmap" := by
  refine ⟨by decide, by decide, by decide, by decide⟩

end altomsgs
namespace altomsgs

theorem lookupCostTypes_ok (id : String) (tbl : List (String × CostTypeDescription))
    (names : List String) (acc : List CostType)
    (h : ∀ n ∈ names, ∃ ct, GoMap.get tbl n = some ct) :
    lookupCostTypes id tbl names acc =
      .ok (acc ++ names.filterMap (fun n => (GoMap.get tbl n).map (fun ct => ct.CostType))) := by
  induction names generalizing acc with
  | nil => simp [lookupCostTypes]
  | cons n rest ih =>
    obtain ⟨ct, hct⟩ := h n (List.mem_cons_self _ _)
    simp only [lookupCostTypes, hct]
    rw [ih _ (fun m hm => h m (List.mem_cons_of_mem _ hm))]
    simp [hct]

theorem lookupCostTypes_error (id : String) (tbl : List (String × CostTypeDescription))
    (names : List String) (acc : List CostType)
    (h : ∃ n ∈ names, GoMap.get tbl n = none) :
    ∃ e, lookupCostTypes id tbl names acc = .error e := by
  induction names generalizing acc with
  | nil => simp at h
  | cons n rest ih =>
    cases hn : GoMap.get tbl n with
    | none =>
      refine ⟨.other ("Resource \"" ++ id ++ "\": No cost type \"" ++ n ++ "\" in IRD"), ?_⟩
      simp [lookupCostTypes, hn]
    | some ct =>
      simp only [lookupCostTypes, hn]
      apply ih
      obtain ⟨m, hm, hmn⟩ := h
      rcases List.mem_cons.1 hm with h1 | h1
      · subst h1; rw [hn] at hmn; cases hmn
      · exact ⟨m, h1, hmn⟩

/-- `NewResource` fails in exactly two cases: the URI does not parse against
the directory URI, or a cost type name is missing from the table. -/
theorem NewResource_error_iff (env : Env) (dirURI : url.URL) (d : DirResource)
    (tbl : List (String × CostTypeDescription)) :
    (∃ e, NewResource env dirURI d (some tbl) = .error e) ↔
      (∃ e, env.URLParse dirURI d.URI = .error e) ∨
      (∃ n ∈ d.CostTypeNames, GoMap.get tbl n = none) := by
  unfold NewResource
  cases hp : env.URLParse dirURI d.URI with
  | error e => simp
  | ok u =>
    simp only [false_or, reduceCtorEq, exists_false]
    by_cases hall : ∀ n ∈ d.CostTypeNames, ∃ ct, GoMap.get tbl n = some ct
    · have hno : ¬ ∃ n ∈ d.CostTypeNames, GoMap.get tbl n = none := by
        rintro ⟨n, hn, hg⟩
        obtain ⟨ct, hct⟩ := hall n hn
        rw [hg] at hct; cases hct
      simp only [hno, iff_false]
      rintro ⟨e, he⟩
      split at he
      · next hc =>
        split at hc
        · rw [lookupCostTypes_ok _ _ _ _ hall] at hc; cases hc
        · cases hc
      · cases he
    · have hex : ∃ n ∈ d.CostTypeNames, GoMap.get tbl n = none := by
        by_contra hcon
        apply hall
        intro n hn
        cases hg : GoMap.get tbl n with
        | none => exact absurd ⟨n, hn, hg⟩ hcon
        | some ct => exact ⟨ct, rfl⟩
      simp only [hex, iff_true]
      have hlen : d.CostTypeNames.length > 0 := by
        obtain ⟨n, hn, _⟩ := hex
        exact List.length_pos_of_mem hn
      obtain ⟨e, he⟩ := lookupCostTypes_error d.Id tbl d.CostTypeNames [] hex
      exact ⟨e, by simp [hlen, he]⟩

/-- What `NewResource` returns when it returns a resource. -/
theorem NewResource_ok (env : Env) (dirURI : url.URL) (d : DirResource)
    (tbl : List (String × CostTypeDescription)) (res : Resource)
    (h : NewResource env dirURI d (some tbl) = .ok res) :
    env.URLParse dirURI d.URI = .ok res.URI ∧
    (∀ n ∈ d.CostTypeNames, ∃ ct, GoMap.get tbl n = some ct) ∧
    res = { Id := d.Id, URI := res.URI, MediaType := d.MediaType, Accepts := d.Accepts,
            Uses := d.Uses,
            CostTypes := d.CostTypeNames.filterMap
              (fun n => (GoMap.get tbl n).map (fun ct => ct.CostType)),
            CostConstraints := d.CostConstraints, PropTypes := d.PropTypes } := by
  have hall : ∀ n ∈ d.CostTypeNames, ∃ ct, GoMap.get tbl n = some ct := by
    by_contra hcon
    have hex : ∃ n ∈ d.CostTypeNames, GoMap.get tbl n = none := by
      by_contra hcon2
      apply hcon
      intro n hn
      cases hg : GoMap.get tbl n with
      | none => exact absurd ⟨n, hn, hg⟩ hcon2
      | some ct => exact ⟨ct, rfl⟩
    obtain ⟨e, he⟩ := (NewResource_error_iff env dirURI d tbl).2 (Or.inr hex)
    rw [h] at he; cases he
  refine ⟨?_, hall, ?_⟩
  · unfold NewResource at h
    cases hp : env.URLParse dirURI d.URI with
    | error e => simp [hp] at h
    | ok u =>
      simp only [hp] at h
      split at h
      · cases h
      · cases h; rfl
  · unfold NewResource at h
    cases hp : env.URLParse dirURI d.URI with
    | error e => simp [hp] at h
    | ok u =>
      simp only [hp] at h
      by_cases hlen : d.CostTypeNames.length > 0
      · simp only [hlen, if_true, lookupCostTypes_ok _ _ _ _ hall, List.nil_append] at h
        cases h; rfl
      · simp only [hlen, if_false] at h
        have hnil : d.CostTypeNames = [] := by
          cases hd : d.CostTypeNames with
          | nil => rfl
          | cons a b => simp [hd] at hlen
        cases h
        simp [hnil]

end altomsgs
namespace altomsgs

theorem findSome_of_nodup_id {β : Type} (f : DirResource → Option β) (l : List DirResource)
    (hnd : (l.map (fun d => d.Id)).Nodup) (d : DirResource) (hd : d ∈ l) :
    l.findSome? (fun x => if x.Id = d.Id then f x else none) = f d := by
  induction l with
  | nil => cases hd
  | cons a rest ih =>
    simp only [List.map_cons, List.nodup_cons] at hnd
    simp only [List.findSome?_cons]
    rcases List.mem_cons.1 hd with h | h
    · subst h
      simp only [if_true]
      cases hf : f d with
      | some b => rfl
      | none =>
        simp only
        rw [List.findSome?_eq_none_iff]
        intro x hx
        have : x.Id ≠ d.Id := fun hxd => hnd.1 (List.mem_map.2 ⟨x, hx, hxd⟩)
        simp [this]
    · have hne : a.Id ≠ d.Id := fun had => hnd.1 (List.mem_map.2 ⟨d, h, had.symm⟩)
      simp only [hne, if_false]
      exact ih hnd.2 h

theorem findSome_of_not_mem_id {β : Type} (f : DirResource → Option β) (l : List DirResource)
    (id : String) (h : id ∉ l.map (fun d => d.Id)) :
    l.findSome? (fun x => if x.Id = id then f x else none) = none := by
  rw [List.findSome?_eq_none_iff]
  intro x hx
  have : x.Id ≠ id := fun hxd => h (List.mem_map.2 ⟨x, hx, hxd⟩)
  simp [this]

/-- What `AddResources` leaves under the id of each resource of the directory,
when the ids of the directory are pairwise distinct. -/
theorem ResourceSet.AddResources_get_of_mem (env : Env) (rs : ResourceSet) (dir : Directory)
    (dirURI : url.URL) (hnd : (dir.Resources.map (fun e => e.2.Id)).Nodup)
    (e : String × DirResource) (he : e ∈ dir.Resources) :
    GoMap.get (rs.AddResources env dir dirURI).1.Resources e.2.Id =
      match GoMap.get rs.Resources e.2.Id with
      | some cur => some cur
      | none => ResourceSet.resolved env dir dirURI e.2 := by
  rw [ResourceSet.AddResources_get]
  have hnd2 : ((dir.Resources.map Prod.snd).map (fun d => d.Id)).Nodup := by
    simpa [List.map_map] using hnd
  have hmem : e.2 ∈ dir.Resources.map Prod.snd := List.mem_map.2 ⟨e, he, rfl⟩
  rw [findSome_of_nodup_id _ _ hnd2 e.2 hmem]

theorem ResourceSet.AddResources_get_of_not_mem (env : Env) (rs : ResourceSet)
    (dir : Directory) (dirURI : url.URL) (id : String)
    (h : id ∉ dir.Resources.map (fun e => e.2.Id)) :
    GoMap.get (rs.AddResources env dir dirURI).1.Resources id = GoMap.get rs.Resources id := by
  rw [ResourceSet.AddResources_get]
  have h2 : id ∉ (dir.Resources.map Prod.snd).map (fun d => d.Id) := by
    simpa [List.map_map] using h
  rw [findSome_of_not_mem_id _ _ id h2]
  cases hg : GoMap.get rs.Resources id <;> simp only [hg]

/-- C14 as stated fails: the set already holds "mynetmap" (from the directory
`sampleDirectory`); a second directory lists "mynetmap" at /other/netmap, which
resolves, next to a cost map that names an undefined cost type. The failing
cost map is left out with one error, but "mynetmap" is not inserted with the
URI resolved against the directory URI: the stored entry stays. -/
theorem C14_counterexample :
    (ResourceSet.resolved (exampleEnv []) mixedDirectory sampleDirURI
        otherNetmapResource).map (fun r => r.URI.Path) = some "/other/netmap" ∧
    (GoMap.get (ResourceSet.AddResources (exampleEnv [])
        (ResourceSet.AddResources (exampleEnv []) NewResourceSet sampleDirectory sampleDirURI).1
        mixedDirectory sampleDirURI).1.Resources "mynetmap").map (fun r => r.URI.Path)
      = some "/mynetmap/netmap" ∧
    GoMap.get (ResourceSet.AddResources (exampleEnv [])
        (ResourceSet.AddResources (exampleEnv []) NewResourceSet sampleDirectory sampleDirURI).1
        mixedDirectory sampleDirURI).1.Resources "bad-costmap" = none ∧
    (GoMap.get (ResourceSet.AddResources (exampleEnv [])
        (ResourceSet.AddResources (exampleEnv []) NewResourceSet sampleDirectory sampleDirURI).1
        mixedDirectory sampleDirURI).1.Resources "costmap").map (fun r => r.URI.Path)
      = some "/costs/rc" ∧
    (ResourceSet.AddResources (exampleEnv [])
        (ResourceSet.AddResources (exampleEnv []) NewResourceSet sampleDirectory sampleDirURI).1
        mixedDirectory sampleDirURI).2
      = [Error.other "Resource \"bad-costmap\": No cost type \"num-hop\" in IRD"] := by
  refine ⟨by decide, by decide, by decide, by decide, by decide⟩

/-- C14, amended. In `AddResources(dir, dirURI)`, for a directory whose
resource ids are pairwise distinct: the errors returned are, resource by
resource in order, the resolution error of a resource that does not resolve
(exactly one) and the duplicate-id error of `errorsOf`; a resource whose id is
not yet a key of `Resources` is inserted as `NewResource` resolves it when it
resolves and is left out when it does not, and an id that is already a key
keeps its entry; every other key is untouched. `NewResource` fails exactly when
the URI does not parse against the directory URI or a cost type name is missing
from the table, and a resource it returns has the parsed URI and the cost types
of its names, looked up in order. -/
theorem C14_AddResources_failures_local (env : Env) (rs : ResourceSet) (dir : Directory)
    (dirURI : url.URL) (hnd : (dir.Resources.map (fun e => e.2.Id)).Nodup) :
    (rs.AddResources env dir dirURI).2 =
      (dir.Resources.map Prod.snd).flatMap
        (fun d => ResourceSet.errorsOf env dir dirURI (GoMap.get rs.Resources d.Id) d) ∧
    (∀ e ∈ dir.Resources,
      GoMap.get (rs.AddResources env dir dirURI).1.Resources e.2.Id =
        match GoMap.get rs.Resources e.2.Id with
        | some cur => some cur
        | none => ResourceSet.resolved env dir dirURI e.2) ∧
    (∀ id, id ∉ dir.Resources.map (fun e => e.2.Id) →
      GoMap.get (rs.AddResources env dir dirURI).1.Resources id = GoMap.get rs.Resources id) ∧
    (∀ d : DirResource, (∃ err, NewResource env dirURI d (some dir.CostTypes) = .error err) ↔
      (∃ err, env.URLParse dirURI d.URI = .error err) ∨
      (∃ n ∈ d.CostTypeNames, GoMap.get dir.CostTypes n = none)) ∧
    (∀ (d : DirResource) (err : Error) (cur : Option Resource),
      NewResource env dirURI d (some dir.CostTypes) = .error err →
      ResourceSet.errorsOf env dir dirURI cur d = [err] ∧
      ResourceSet.resolved env dir dirURI d = none) ∧
    (∀ (d : DirResource) (res : Resource),
      NewResource env dirURI d (some dir.CostTypes) = .ok res →
      ResourceSet.errorsOf env dir dirURI none d = [] ∧
      ResourceSet.resolved env dir dirURI d = some res ∧
      env.URLParse dirURI d.URI = .ok res.URI ∧
      res = { Id := d.Id, URI := res.URI, MediaType := d.MediaType, Accepts := d.Accepts,
              Uses := d.Uses,
              CostTypes := d.CostTypeNames.filterMap
                (fun n => (GoMap.get dir.CostTypes n).map (fun ct => ct.CostType)),
              CostConstraints := d.CostConstraints, PropTypes := d.PropTypes } ∧
      ∀ n ∈ d.CostTypeNames, ∃ ct, GoMap.get dir.CostTypes n = some ct) := by
  refine ⟨ResourceSet.AddResources_errs env rs dir dirURI hnd,
    fun e he => ResourceSet.AddResources_get_of_mem env rs dir dirURI hnd e he,
    fun id h => ResourceSet.AddResources_get_of_not_mem env rs dir dirURI id h,
    fun d => NewResource_error_iff env dirURI d dir.CostTypes, ?_, ?_⟩
  · intro d err cur h
    simp [ResourceSet.errorsOf, ResourceSet.resolved, h]
  · intro d res h
    have := NewResource_ok env dirURI d dir.CostTypes res h
    exact ⟨by simp [ResourceSet.errorsOf, h], by simp [ResourceSet.resolved, h],
      this.1, this.2.2, this.2.1⟩

/-- C14, amended, at the directory with the resources "mynetmap", "bad-costmap"
(which names the undefined cost type "num-hop") and "costmap", added to an
empty set. -/
theorem C14_witness :
    ((mixedDirectory.Resources.map (fun e => e.2.Id)).Nodup ∧
     ("bad-costmap", badCostmapResource) ∈ mixedDirectory.Resources ∧
     NewResource (exampleEnv []) sampleDirURI badCostmapResource (some mixedDirectory.CostTypes)
       = .error (.other "Resource \"bad-costmap\": No cost type \"num-hop\" in IRD")) ∧
    ((ResourceSet.AddResources (exampleEnv []) NewResourceSet mixedDirectory sampleDirURI).2 =
      (mixedDirectory.Resources.map Prod.snd).flatMap
        (fun d => ResourceSet.errorsOf (exampleEnv []) mixedDirectory sampleDirURI
          (GoMap.get NewResourceSet.Resources d.Id) d) ∧
     GoMap.get (ResourceSet.AddResources (exampleEnv []) NewResourceSet mixedDirectory
        sampleDirURI).1.Resources badCostmapResource.Id =
      (match GoMap.get NewResourceSet.Resources badCostmapResource.Id with
        | some cur => some cur
        | none => ResourceSet.resolved (exampleEnv []) mixedDirectory sampleDirURI
            badCostmapResource) ∧
     (ResourceSet.errorsOf (exampleEnv []) mixedDirectory sampleDirURI none badCostmapResource
        = [.other "Resource \"bad-costmap\": No cost type \"num-hop\" in IRD"] ∧
      ResourceSet.resolved (exampleEnv []) mixedDirectory sampleDirURI badCostmapResource
        = none)) :=
  ⟨⟨by decide, by decide, by rfl⟩,
   (C14_AddResources_failures_local (exampleEnv []) NewResourceSet mixedDirectory sampleDirURI
      (by decide)).1,
   (C14_AddResources_failures_local (exampleEnv []) NewResourceSet mixedDirectory sampleDirURI
      (by decide)).2.1 ("bad-costmap", badCostmapResource) (by decide),
   (C14_AddResources_failures_local (exampleEnv []) NewResourceSet mixedDirectory sampleDirURI
      (by decide)).2.2.2.2.1 badCostmapResource _ none (by rfl)⟩

end altomsgs
namespace altomsgs

theorem ResourceSet.addDirs_keeps (env : Env) (dirs : List (Directory × url.URL))
    (rs : ResourceSet) (h : rs.DefNetworkMapId ≠ "") :
    (rs.addDirs env dirs).DefNetworkMapId = rs.DefNetworkMapId := by
  induction dirs generalizing rs with
  | nil => rfl
  | cons d rest ih =>
    simp only [ResourceSet.addDirs, List.foldl_cons] at ih ⊢
    have h1 : (rs.AddResources env d.1 d.2).1.DefNetworkMapId = rs.DefNetworkMapId := by
      rw [ResourceSet.AddResources_DefNetworkMapId]; simp [h]
    rw [ih _ (by rw [h1]; exact h), h1]

/-- C15. After any sequence of `AddResources` calls on a set that starts with
`DefNetworkMapId == ""`, `DefNetworkMapId` is that of the first directory of
the sequence whose `DefNetworkMapId` is not empty, and "" if there is none; and
a set whose `DefNetworkMapId` is not empty keeps it through every sequence of
calls. -/
theorem C15_DefNetworkMapId_sticky (env : Env) (dirs : List (Directory × url.URL))
    (rs : ResourceSet) (h : rs.DefNetworkMapId = "") :
    (rs.addDirs env dirs).DefNetworkMapId =
      ((dirs.map (fun d => d.1.DefNetworkMapId)).find? (fun s => decide (s ≠ ""))).getD "" ∧
    (∀ (rs2 : ResourceSet) (more : List (Directory × url.URL)), rs2.DefNetworkMapId ≠ "" →
      (rs2.addDirs env more).DefNetworkMapId = rs2.DefNetworkMapId) := by
  refine ⟨?_, fun rs2 more h2 => ResourceSet.addDirs_keeps env more rs2 h2⟩
  induction dirs generalizing rs with
  | nil => simpa [ResourceSet.addDirs] using h
  | cons d rest ih =>
    have h1 : (rs.AddResources env d.1 d.2).1.DefNetworkMapId = d.1.DefNetworkMapId := by
      rw [ResourceSet.AddResources_DefNetworkMapId]; simp [h]
    by_cases hd : d.1.DefNetworkMapId = ""
    · have := ih (rs.AddResources env d.1 d.2).1 (by rw [h1]; exact hd)
      simp only [ResourceSet.addDirs, List.foldl_cons] at this ⊢
      rw [this]
      simp [List.find?_cons, hd]
    · have := ResourceSet.addDirs_keeps env rest (rs.AddResources env d.1 d.2).1
        (by rw [h1]; exact hd)
      simp only [ResourceSet.addDirs, List.foldl_cons] at this ⊢
      rw [this, h1]
      simp [List.find?_cons, hd]

/-- C15 at three directories: one without a default, then "mynetmap", then
"othermap". -/
theorem C15_witness :
    NewResourceSet.DefNetworkMapId = "" ∧
    (NewResourceSet.addDirs (exampleEnv [])
      [(mixedDirectory, sampleDirURI), (sampleDirectory, sampleDirURI),
       (otherDirectory, sampleDirURI)]).DefNetworkMapId = "mynetmap" :=
  ⟨rfl, (C15_DefNetworkMapId_sticky (exampleEnv [])
    [(mixedDirectory, sampleDirURI), (sampleDirectory, sampleDirURI),
     (otherDirectory, sampleDirURI)] NewResourceSet rfl).1.trans (by decide)⟩

end altomsgs
namespace altomsgs
namespace ResourceSet

theorem findFirst_some (test : Resource → Bool) (l : List (String × Resource)) (r : Resource)
    (h : findFirst test l = some r) : (∃ id, (id, r) ∈ l) ∧ test r = true := by
  induction l with
  | nil => simp [findFirst] at h
  | cons e rest ih =>
    obtain ⟨id, x⟩ := e
    by_cases ht : test x = true
    · simp only [findFirst, ht, if_true, Option.some.injEq] at h
      subst h
      exact ⟨⟨id, List.mem_cons_self _ _⟩, ht⟩
    · simp only [findFirst, ht] at h
      obtain ⟨⟨id', hm⟩, h2⟩ := ih h
      exact ⟨⟨id', List.mem_cons_of_mem _ hm⟩, h2⟩

theorem findFirst_isSome (test : Resource → Bool) (l : List (String × Resource)) :
    (findFirst test l).isSome = true ↔ ∃ e ∈ l, test e.2 = true := by
  induction l with
  | nil => simp [findFirst]
  | cons e rest ih =>
    obtain ⟨id, x⟩ := e
    by_cases ht : test x = true
    · simp [findFirst, ht]
    · simp [findFirst, ht, ih]

theorem findFirst_none (test : Resource → Bool) (l : List (String × Resource)) :
    findFirst test l = none ↔ ∀ e ∈ l, test e.2 = false := by
  have h := findFirst_isSome test l
  cases hf : findFirst test l with
  | none =>
    simp only [hf, Option.isSome_none, Bool.false_eq_true, false_iff, not_exists, not_and,
      Bool.not_eq_true] at h
    simpa using h
  | some r =>
    simp only [hf, Option.isSome_some, true_iff] at h
    obtain ⟨e, he, ht⟩ := h
    simp only [reduceCtorEq, false_iff, not_forall]
    exact ⟨e, he, by simp [ht]⟩

theorem costMapTest_iff (n : String) (ct : CostType) (res : Resource) :
    (decide (res.MediaType = MT_COST_MAP) && decide (res.Accepts = "") &&
      wdrlib.StrListContains res.Uses n && CostTypeListContains res.CostTypes ct) = true ↔
    res.MediaType = MT_COST_MAP ∧ res.Accepts = "" ∧ n ∈ res.Uses ∧ ct ∈ res.CostTypes := by
  simp [wdrlib.StrListContains_iff, CostTypeListContains_iff, and_assoc]

end ResourceSet

/-- C19. `FindCostMap(n, ct)` returns only a resource of the set with
`MediaType == MT_COST_MAP`, `Accepts == ""`, `n` in `Uses` and `ct` in
`CostTypes`; it returns a resource exactly when the set has such a resource and
nil exactly when it has none; and whether it returns one does not depend on the
order in which the range over `Resources` visits the entries. -/
theorem C19_FindCostMap_sound_complete (rs : ResourceSet) (n : String) (ct : CostType) :
    (∀ res, rs.FindCostMap n ct = some res →
      (∃ id, (id, res) ∈ rs.Resources) ∧
      res.MediaType = MT_COST_MAP ∧ res.Accepts = "" ∧ n ∈ res.Uses ∧ ct ∈ res.CostTypes) ∧
    ((rs.FindCostMap n ct).isSome = true ↔
      ∃ e ∈ rs.Resources,
        e.2.MediaType = MT_COST_MAP ∧ e.2.Accepts = "" ∧ n ∈ e.2.Uses ∧ ct ∈ e.2.CostTypes) ∧
    (rs.FindCostMap n ct = none ↔
      ¬ ∃ e ∈ rs.Resources,
        e.2.MediaType = MT_COST_MAP ∧ e.2.Accepts = "" ∧ n ∈ e.2.Uses ∧ ct ∈ e.2.CostTypes) ∧
    (∀ order : List (String × Resource), order.Perm rs.Resources →
      (({ rs with Resources := order } : ResourceSet).FindCostMap n ct).isSome
        = (rs.FindCostMap n ct).isSome) := by
  have hiff : ∀ l : List (String × Resource),
      (ResourceSet.findFirst (fun res =>
        decide (res.MediaType = MT_COST_MAP) && decide (res.Accepts = "") &&
        wdrlib.StrListContains res.Uses n && CostTypeListContains res.CostTypes ct) l).isSome
        = true ↔
      ∃ e ∈ l, e.2.MediaType = MT_COST_MAP ∧ e.2.Accepts = "" ∧ n ∈ e.2.Uses ∧
        ct ∈ e.2.CostTypes := by
    intro l
    rw [ResourceSet.findFirst_isSome]
    constructor
    · rintro ⟨e, he, ht⟩
      exact ⟨e, he, (ResourceSet.costMapTest_iff n ct e.2).1 ht⟩
    · rintro ⟨e, he, ht⟩
      exact ⟨e, he, (ResourceSet.costMapTest_iff n ct e.2).2 ht⟩
  refine ⟨?_, hiff rs.Resources, ?_, ?_⟩
  · intro res h
    obtain ⟨hm, ht⟩ := ResourceSet.findFirst_some _ _ _ h
    exact ⟨hm, (ResourceSet.costMapTest_iff n ct res).1 ht⟩
  · rw [← hiff rs.Resources]
    show rs.FindCostMap n ct = none ↔ ¬ (rs.FindCostMap n ct).isSome = true
    cases rs.FindCostMap n ct <;> simp
  · intro order hp
    have h1 := hiff order
    have h2 := hiff rs.Resources
    have h3 : (∃ e ∈ order, e.2.MediaType = MT_COST_MAP ∧ e.2.Accepts = "" ∧ n ∈ e.2.Uses ∧
        ct ∈ e.2.CostTypes) ↔
        ∃ e ∈ rs.Resources, e.2.MediaType = MT_COST_MAP ∧ e.2.Accepts = "" ∧ n ∈ e.2.Uses ∧
          ct ∈ e.2.CostTypes := by
      constructor
      · rintro ⟨e, he, ht⟩; exact ⟨e, hp.mem_iff.1 he, ht⟩
      · rintro ⟨e, he, ht⟩; exact ⟨e, hp.mem_iff.2 he, ht⟩
    have h4 := h1.trans (h3.trans h2.symm)
    exact Bool.eq_iff_iff.2 h4

/-- C19 at the set made of the directory with the get-mode cost map "costmap":
the search for (routingcost, numerical) on "mynetmap" returns it. -/
theorem C19_witness :
    (ResourceSet.FindCostMap
        (ResourceSet.AddResources (exampleEnv []) NewResourceSet mixedDirectory sampleDirURI).1
        "mynetmap" ⟨CT_ROUTINGCOST, CT_NUMERICAL⟩).map (fun r => r.Id) = some "costmap" ∧
    ∃ res,
      ResourceSet.FindCostMap
        (ResourceSet.AddResources (exampleEnv []) NewResourceSet mixedDirectory sampleDirURI).1
        "mynetmap" ⟨CT_ROUTINGCOST, CT_NUMERICAL⟩ = some res ∧
      res.MediaType = MT_COST_MAP ∧ res.Accepts = "" ∧ "mynetmap" ∈ res.Uses ∧
      (⟨CT_ROUTINGCOST, CT_NUMERICAL⟩ : CostType) ∈ res.CostTypes :=
  ⟨by decide,
   ((ResourceSet.AddResources (exampleEnv []) NewResourceSet mixedDirectory
        sampleDirURI).1.Resources.getLast?.map Prod.snd).getD
      ⟨"", url.URL.zero, "", "", [], [], false, []⟩,
   by decide,
   ((C19_FindCostMap_sound_complete
      (ResourceSet.AddResources (exampleEnv []) NewResourceSet mixedDirectory sampleDirURI).1
      "mynetmap" ⟨CT_ROUTINGCOST, CT_NUMERICAL⟩).1 _ (by decide)).2⟩

end altomsgs
namespace altomsgs

/-- C20 as stated fails: the directory `sampleDirectory` holds two of the
resources of `TestDirectory`, the network map "mynetmap" and the filtered cost
map "filter-costmap" (accepts
costmapfilter, uses "mynetmap", cost type name "num-rc" bound to routingcost /
numerical). After `AddResources`, `FindCostMap("mynetmap", {routingcost,
numerical})` returns nil: it tests `Accepts == ""`. -/
theorem C20_counterexample :
    ResourceSet.FindCostMap
      (ResourceSet.AddResources (exampleEnv []) NewResourceSet sampleDirectory sampleDirURI).1
      "mynetmap" ⟨CT_ROUTINGCOST, CT_NUMERICAL⟩ = none ∧
    (ResourceSet.FindFilteredCostMap
      (ResourceSet.AddResources (exampleEnv []) NewResourceSet sampleDirectory sampleDirURI).1
      "mynetmap" ⟨CT_ROUTINGCOST, CT_NUMERICAL⟩ false).map (fun r => r.Id)
      = some "filter-costmap" := by
  refine ⟨by decide, by decide⟩

namespace ResourceSet

theorem foldl_addResource_Resources (env : Env) (dir : Directory) (dirURI : url.URL)
    (l : List DirResource) (st : ResourceSet × List Error) :
    (l.foldl (addResource env dir dirURI) st).1.Resources =
      l.foldl (fun acc d =>
        match NewResource env dirURI d (some dir.CostTypes) with
        | .error _ => acc
        | .ok newRes =>
          match GoMap.get acc d.Id with
          | none => GoMap.set acc d.Id newRes
          | some _ => acc) st.1.Resources := by
  induction l generalizing st with
  | nil => rfl
  | cons d rest ih =>
    simp only [List.foldl_cons]
    rw [ih]
    congr 1
    unfold addResource
    cases NewResource env dirURI d (some dir.CostTypes) with
    | error e => rfl
    | ok n =>
      simp only
      cases GoMap.get st.1.Resources d.Id with
      | none => rfl
      | some c => simp only; split <;> rfl

/-- The entries of `Resources` after `AddResources`. -/
theorem AddResources_Resources (env : Env) (rs : ResourceSet) (dir : Directory)
    (dirURI : url.URL) :
    (rs.AddResources env dir dirURI).1.Resources =
      (dir.Resources.map Prod.snd).foldl (fun acc d =>
        match NewResource env dirURI d (some dir.CostTypes) with
        | .error _ => acc
        | .ok newRes =>
          match GoMap.get acc d.Id with
          | none => GoMap.set acc d.Id newRes
          | some _ => acc) rs.Resources := by
  unfold AddResources
  rw [foldl_addResource_Resources]
  congr 1
  split <;> rfl

end ResourceSet

theorem MT_NETWORK_MAP_ne_COST_MAP : MT_NETWORK_MAP ≠ MT_COST_MAP := by decide

theorem MT_COST_MAP_FILTER_ne_empty : MT_COST_MAP_FILTER ≠ "" := by decide

theorem hopcount_ne_routingcost :
    (⟨CT_HOPCOUNT, CT_NUMERICAL⟩ : CostType) ≠ ⟨CT_ROUTINGCOST, CT_NUMERICAL⟩ := by decide

/-- C20, amended. A new set receives, by `AddResources`, a directory that holds
one network-map resource with id `n` and one filtered-cost-map resource (media
type costmap, accepts costmapfilter) that uses `n` and declares a cost-type
name bound to {routingcost, numerical}, whose URI resolves against the
directory URI to `u`, in either order of the range over the directory. Then
`FindFilteredCostMap(n, {routingcost, numerical}, false)` returns that cost-map
resource with URI `u`, `FindFilteredCostMap(n, {hopcount, numerical}, false)`
returns nil, and `FindCostMap` returns nil for both cost types. -/
theorem C20_filtered_cost_map_query (env : Env) (dirURI u : url.URL) (n c name descr : String)
    (nm cm : DirResource) (dir : Directory)
    (hdir : dir.Resources = [(n, nm), (c, cm)] ∨ dir.Resources = [(c, cm), (n, nm)])
    (hn : nm.Id = n) (hc : cm.Id = c) (hnc : n ≠ c)
    (hnm : nm.MediaType = MT_NETWORK_MAP)
    (hcm : cm.MediaType = MT_COST_MAP) (hacc : cm.Accepts = MT_COST_MAP_FILTER)
    (huses : cm.Uses = [n]) (hnames : cm.CostTypeNames = [name])
    (hct : GoMap.get dir.CostTypes name = some ⟨CT_ROUTINGCOST, CT_NUMERICAL, descr⟩)
    (hu : env.URLParse dirURI cm.URI = .ok u) :
    (NewResourceSet.AddResources env dir dirURI).1.FindFilteredCostMap n
        ⟨CT_ROUTINGCOST, CT_NUMERICAL⟩ false
      = some { Id := c, URI := u, MediaType := MT_COST_MAP, Accepts := MT_COST_MAP_FILTER,
               Uses := [n], CostTypes := [⟨CT_ROUTINGCOST, CT_NUMERICAL⟩],
               CostConstraints := cm.CostConstraints, PropTypes := cm.PropTypes } ∧
    (NewResourceSet.AddResources env dir dirURI).1.FindFilteredCostMap n
        ⟨CT_HOPCOUNT, CT_NUMERICAL⟩ false = none ∧
    (NewResourceSet.AddResources env dir dirURI).1.FindCostMap n
        ⟨CT_ROUTINGCOST, CT_NUMERICAL⟩ = none ∧
    (NewResourceSet.AddResources env dir dirURI).1.FindCostMap n
        ⟨CT_HOPCOUNT, CT_NUMERICAL⟩ = none := by
  have hcmres : NewResource env dirURI cm (some dir.CostTypes) =
      .ok { Id := c, URI := u, MediaType := MT_COST_MAP, Accepts := MT_COST_MAP_FILTER,
            Uses := [n], CostTypes := [⟨CT_ROUTINGCOST, CT_NUMERICAL⟩],
            CostConstraints := cm.CostConstraints, PropTypes := cm.PropTypes } := by
    simp [NewResource, hu, hnames, lookupCostTypes, hct, CostTypeDescription.CostType, hc, hcm,
      hacc, huses]
  have hnmres : (∃ e, NewResource env dirURI nm (some dir.CostTypes) = .error e) ∨
      ∃ r, NewResource env dirURI nm (some dir.CostTypes) = .ok r ∧
        r.MediaType = MT_NETWORK_MAP ∧ r.Id = n := by
    cases h : NewResource env dirURI nm (some dir.CostTypes) with
    | error e => exact Or.inl ⟨e, rfl⟩
    | ok r =>
      have := (NewResource_ok env dirURI nm dir.CostTypes r h).2.2
      refine Or.inr ⟨r, rfl, ?_, ?_⟩
      · rw [this]; exact hnm
      · rw [this]; exact hn
  have hcn : c ≠ n := fun h => hnc h.symm
  have h1 := MT_NETWORK_MAP_ne_COST_MAP
  have h2 := MT_COST_MAP_FILTER_ne_empty
  have h3 := hopcount_ne_routingcost
  rcases hdir with hd | hd <;> rcases hnmres with ⟨e, he⟩ | ⟨r, hr, hrm, hrid⟩ <;>
    simp [ResourceSet.FindFilteredCostMap, ResourceSet.FindCostMap,
      ResourceSet.AddResources_Resources, hd, NewResourceSet, hcmres,
      hn, hc, GoMap.get, GoMap.set, hnc, hcn, ResourceSet.findFirst, h1, h2, h3,
      wdrlib.StrListContains, CostTypeListContains, *]

/-- C20, amended, at the directory `sampleDirectory`. -/
theorem C20_witness :
    (ResourceSet.AddResources (exampleEnv []) NewResourceSet sampleDirectory
        sampleDirURI).1.FindFilteredCostMap "mynetmap" ⟨CT_ROUTINGCOST, CT_NUMERICAL⟩ false
      = some { Id := "filter-costmap",
               URI := { url.URL.zero with Scheme := "http", Host := "alto.example.com",
                                          Path := "/mynetmap/costs/filter" },
               MediaType := MT_COST_MAP, Accepts := MT_COST_MAP_FILTER,
               Uses := ["mynetmap"], CostTypes := [⟨CT_ROUTINGCOST, CT_NUMERICAL⟩],
               CostConstraints := true, PropTypes := [] } :=
  (C20_filtered_cost_map_query (exampleEnv []) sampleDirURI
    { url.URL.zero with Scheme := "http", Host := "alto.example.com",
                        Path := "/mynetmap/costs/filter" }
    "mynetmap" "filter-costmap" "num-rc" "plain old routingcost"
    { Id := "mynetmap", URI := "/mynetmap/netmap", MediaType := MT_NETWORK_MAP,
      Accepts := "", Uses := [], CostTypeNames := [], CostConstraints := false,
      PropTypes := [] }
    { Id := "filter-costmap", URI := "/mynetmap/costs/filter", MediaType := MT_COST_MAP,
      Accepts := MT_COST_MAP_FILTER, Uses := ["mynetmap"], CostTypeNames := ["num-rc"],
      CostConstraints := true, PropTypes := [] }
    sampleDirectory (Or.inl rfl) rfl rfl (by decide) rfl rfl rfl rfl rfl rfl rfl).1

end altomsgs
namespace altomsgs
namespace AltoConn

theorem offer_nil (c : AltoConn) : c.offer [] = c := by
  unfold offer
  split
  · simp
  · rfl

theorem offer_offer (c : AltoConn) (a b : List Error) :
    (c.offer a).offer b = c.offer (a ++ b) := by
  unfold offer
  by_cases h : c.ErrHandler = true
  · simp [h, List.append_assoc]
  · simp [h]

theorem offer_ResourceSet (c : AltoConn) (a : List Error) :
    (c.offer a).ResourceSet = c.ResourceSet := by
  unfold offer; split <;> rfl

theorem offer_ErrHandler (c : AltoConn) (a : List Error) :
    (c.offer a).ErrHandler = c.ErrHandler := by
  unfold offer; split <;> rfl

theorem callErrHandlerLoop_eq (descr method uri : String) (errs : List (Option Error))
    (c : AltoConn) (prev : List Error) :
    callErrHandlerLoop descr method uri c prev errs =
      (c.offer (errs.map (xerr descr method uri)), prev ++ errs.map (xerr descr method uri)) := by
  induction errs generalizing c prev with
  | nil => simp [callErrHandlerLoop, offer_nil]
  | cons e rest ih =>
    simp only [callErrHandlerLoop, ih, List.map_cons]
    have h1 : (if c.ErrHandler = true then
        { c with handled := c.handled ++ [[xerr descr method uri e]] } else c)
        = c.offer [xerr descr method uri e] := by
      unfold offer; simp
    rw [h1, offer_offer]
    simp

theorem callErrHandler_eq (c : AltoConn) (prev : List Error) (descr method uri : String)
    (errs : List (Option Error)) :
    c.callErrHandler prev descr method uri errs =
      (c.offer ((if errs.length = 0 then [none] else errs).map (xerr descr method uri)),
       prev ++ (if errs.length = 0 then [none] else errs).map (xerr descr method uri)) := by
  unfold callErrHandler
  rw [callErrHandlerLoop_eq]

theorem setClient_ResourceSet (c : AltoConn) :
    c.setClient.ResourceSet = some (c.ResourceSet.getD NewResourceSet) := by
  unfold setClient
  cases h : c.ResourceSet <;> by_cases hc : c.client = false <;> simp [h, hc]

theorem setClient_ErrHandler (c : AltoConn) : c.setClient.ErrHandler = c.ErrHandler := by
  unfold setClient
  cases h : c.ResourceSet <;> by_cases hc : c.client = false <;> simp [h, hc]

theorem setClient_handled (c : AltoConn) : c.setClient.handled = c.handled := by
  unfold setClient
  cases h : c.ResourceSet <;> by_cases hc : c.client = false <;> simp [h, hc]

theorem setClient_idem (c : AltoConn) : c.setClient.setClient = c.setClient := by
  unfold setClient
  cases h : c.ResourceSet <;> by_cases hc : c.client = false <;> simp [h, hc]

end AltoConn
end altomsgs
namespace altomsgs
namespace AltoConn

theorem readResponse_eq (env : Env) (c : AltoConn) (sr : ServerResp) (method uri : String)
    (resp : http.Response) (hsr : sr.Errors = []) :
    c.readResponse env sr method uri resp =
      (c.offer (zero.readResponse env sr method uri resp).2.Errors,
       (zero.readResponse env sr method uri resp).2) := by
  unfold readResponse
  simp only [callErrHandler_eq, hsr, List.length_nil, if_true, List.map_cons, List.map_nil,
    List.nil_append]
  split_ifs <;> (try split) <;> simp [offer_offer, offer_nil]

theorem SendReq_eq (env : Env) (c : AltoConn) (uri : String) (accept : List String)
    (req : Option AltoMsg) :
    c.SendReq env uri accept req =
      (c.setClient.offer (zero.SendReq env uri accept req).2.Errors,
       (zero.SendReq env uri accept req).2) := by
  unfold SendReq
  simp only [callErrHandler_eq]
  split
  · simp
  · split
    · simp
    · split
      · simp
      · rw [readResponse_eq env c.setClient _ _ _ _ rfl, readResponse_eq env zero.setClient _ _ _ _ rfl]

theorem SendReq_parse_error (env : Env) (c : AltoConn) (uri : String) (accept : List String)
    (err : Error) (h : env.Parse uri = .error err) :
    (c.SendReq env uri accept none).2.OkResp = none := by
  simp [SendReq, ToJsonBytes, http.NewRequest, h, callErrHandler_eq]

theorem GetIRD_eq (env : Env) (c : AltoConn) (uri : String) :
    c.GetIRD env uri =
      (c.setClient.offer (zero.GetIRD env uri).2.2.Errors, fetch env uri,
       (zero.GetIRD env uri).2.2) := by
  simp only [fetch, GetIRD]
  rw [SendReq_eq env c.setClient, SendReq_eq env zero.setClient, setClient_idem, setClient_idem]
  cases h : (zero.SendReq env uri [MT_DIRECTORY] none).2.OkResp with
  | none => rfl
  | some m =>
    cases m <;>
      simp only [wrongRespType, callErrHandler_eq, offer_offer, List.length_nil, if_true, h]

theorem fetch_parse (env : Env) (uri : String) (d : Directory) (h : fetch env uri = some d) :
    ∃ U, env.Parse uri = .ok U := by
  cases hp : env.Parse uri with
  | ok U => exact ⟨U, rfl⟩
  | error err =>
    exfalso
    simp only [fetch, GetIRD] at h
    have := SendReq_parse_error env zero.setClient uri [MT_DIRECTORY] err hp
    simp [this] at h

end AltoConn
end altomsgs
namespace altomsgs

theorem Directory.readCostTypes_Resources (l : List (String × GoValue)) (this : Directory) :
    (Directory.readCostTypes this l).Resources = this.Resources := by
  induction l generalizing this with
  | nil => rfl
  | cons e rest ih =>
    obtain ⟨name, v⟩ := e
    cases v <;> simp [Directory.readCostTypes, ih]

theorem Directory.readResources_Decoded (fmtG : ℚ → String) (l : List (String × GoValue))
    (this : Directory) (h : this.Decoded) : (Directory.readResources fmtG this l).Decoded := by
  induction l generalizing this with
  | nil => exact h
  | cons e rest ih =>
    obtain ⟨name, v⟩ := e
    cases v
    case map resMap =>
      simp only [Directory.readResources]
      apply ih
      refine ⟨GoMap.nodup_keys_set _ _ _ h.1, ?_⟩
      intro e he
      rcases GoMap.mem_set _ _ _ _ he with h1 | h1
      · subst h1
        simp only [Directory.readResource]
        split <;> rfl
      · exact h.2 e h1
    all_goals (simp only [Directory.readResources]; exact ih this h)

theorem Directory.FromJsonMap_Decoded (fmtG : ℚ → String) (this : Directory) (jm : JsonMap)
    (h : this.Decoded) : (this.FromJsonMap fmtG jm).1.Decoded := by
  unfold Directory.FromJsonMap
  have h1 : (match (JsonMap.GetMeta jm false).2 with
      | none => this
      | some meta =>
        match GoMap.get meta FN_COST_TYPES with
        | some (.map costTypes) => Directory.readCostTypes
            { this with
              DefNetworkMapId := wdrlib.GetStringMember meta FN_DEFAULT_ALTO_NETWORK_MAP }
            costTypes
        | _ => { this with
              DefNetworkMapId := wdrlib.GetStringMember meta FN_DEFAULT_ALTO_NETWORK_MAP }).Decoded := by
    split
    · exact h
    · split
      · unfold Directory.Decoded
        rw [Directory.readCostTypes_Resources]
        exact h
      · exact h
  simp only
  split
  · exact Directory.readResources_Decoded fmtG _ _ h1
  · exact h1

theorem NewDirectory_Decoded : NewDirectory.Decoded := by
  simp [Directory.Decoded, NewDirectory, GoMap.keys]

theorem ReadJson_directory (fmtG : ℚ → String) (new : AltoMsg) (r : Reader) (d : Directory)
    (h : (ReadJson fmtG new r).1 = .directory d) (hn : new ∈ newMessages) : d.Decoded := by
  simp only [newMessages, List.mem_cons, List.mem_singleton, List.not_mem_nil, or_false] at hn
  unfold ReadJson at h
  rcases hn with hn | hn | hn | hn | hn | hn | hn | hn | hn | hn <;> subst hn
  · -- the directory
    split at h
    · cases h; exact NewDirectory_Decoded
    · simp only [AltoMsg.FromJsonMap] at h
      cases h
      exact Directory.FromJsonMap_Decoded fmtG _ _ NewDirectory_Decoded
    · simp only [AltoMsg.FromJsonMap] at h
      cases h
      exact Directory.FromJsonMap_Decoded fmtG _ _ NewDirectory_Decoded
    · cases h; exact NewDirectory_Decoded
  all_goals (split at h <;> simp [AltoMsg.FromJsonMap] at h)

theorem NewAltoMsg_directory (fmtG : ℚ → String) (mediaType : String) (r : Reader) (cl : Int)
    (d : Directory) (h : (NewAltoMsg fmtG mediaType r cl).1 = some (.directory d)) :
    d.Decoded := by
  by_cases hm : mediaType ∈ mediaTypes
  · obtain ⟨new, hnew, _, heq⟩ := NewAltoMsg_known fmtG mediaType r cl hm
    rw [heq] at h
    exact ReadJson_directory fmtG new r d (Option.some.inj h) hnew
  · rw [NewAltoMsg_unknown fmtG mediaType r cl hm] at h
    cases h

namespace AltoConn

theorem readResponse_OkResp (env : Env) (c : AltoConn) (sr : ServerResp) (method uri : String)
    (resp : http.Response) (x : AltoMsg) (hsr : sr.OkResp = none)
    (h : (c.readResponse env sr method uri resp).2.OkResp = some x) :
    (NewAltoMsg env.fmtG resp.ContentType ⟨resp.Body, 0⟩ (-1)).1 = some x := by
  unfold readResponse at h
  simp only [callErrHandler_eq] at h
  split_ifs at h <;> (try split at h) <;> simp_all

theorem SendReq_OkResp (env : Env) (c : AltoConn) (uri : String) (accept : List String)
    (req : Option AltoMsg) (x : AltoMsg)
    (h : (c.SendReq env uri accept req).2.OkResp = some x) :
    ∃ (mt : String) (r : Reader) (cl : Int), (NewAltoMsg env.fmtG mt r cl).1 = some x := by
  unfold SendReq at h
  simp only [callErrHandler_eq] at h
  split at h
  · simp at h
  · split at h
    · simp at h
    · split at h
      · simp at h
      · exact ⟨_, _, _, readResponse_OkResp env _ _ _ _ _ x rfl h⟩

theorem fetch_Decoded (env : Env) (uri : String) (d : Directory) (h : fetch env uri = some d) :
    d.Decoded := by
  simp only [fetch, GetIRD] at h
  cases hr : (zero.setClient.SendReq env uri [MT_DIRECTORY] none).2.OkResp with
  | none => simp [hr] at h
  | some m =>
    obtain ⟨mt, r, cl, hx⟩ := SendReq_OkResp env _ uri _ none m hr
    cases m <;> simp [hr] at h
    subst h
    exact NewAltoMsg_directory env.fmtG mt r cl _ hx

end AltoConn
end altomsgs
namespace altomsgs

theorem countP_lt_of_imp {α : Type} (p q : α → Bool) (l : List α)
    (himp : ∀ x ∈ l, p x = true → q x = true) (hex : ∃ x ∈ l, q x = true ∧ p x = false) :
    l.countP p < l.countP q := by
  induction l with
  | nil => obtain ⟨x, hx, _⟩ := hex; cases hx
  | cons a rest ih =>
    obtain ⟨x, hx, hq, hp⟩ := hex
    have hle : rest.countP p ≤ rest.countP q :=
      List.countP_mono_left (fun y hy => himp y (List.mem_cons_of_mem _ hy))
    rcases List.mem_cons.1 hx with h | h
    · subst h
      simp only [List.countP_cons, hq, hp, if_true, Bool.false_eq_true, if_false]
      omega
    · have := ih (fun y hy => himp y (List.mem_cons_of_mem _ hy)) ⟨x, h, hq, hp⟩
      simp only [List.countP_cons]
      by_cases hpa : p a = true
      · have hqa := himp a (List.mem_cons_self _ _) hpa
        simp [hpa, hqa]; omega
      · by_cases hqa : q a = true
        · simp [hpa, hqa]; omega
        · simp [hpa, hqa]; omega

theorem pending_mono (ids s s2 : List String) (h : ∀ i ∈ s, i ∈ s2) :
    pending ids s2 ≤ pending ids s := by
  unfold pending
  apply List.countP_mono_left
  intro x _ hx
  simp only [decide_eq_true_eq] at hx ⊢
  exact fun hs => hx (h x hs)

theorem pending_lt (ids s : List String) (i : String) (hi : i ∈ ids) (his : i ∉ s) :
    pending ids (s ++ [i]) < pending ids s := by
  unfold pending
  apply countP_lt_of_imp
  · intro x _ hx
    simp only [decide_eq_true_eq, List.mem_append, List.mem_singleton, not_or] at hx ⊢
    exact hx.1
  · exact ⟨i, hi, by simpa using his, by simp⟩

theorem pending_le_length (ids s : List String) : pending ids s ≤ ids.length :=
  List.countP_le_length _

theorem DirDone_mono (env : Env) (res res2 : List (String × Resource)) (s s2 : List String)
    (d : Directory) (U : url.URL)
    (hres : ∀ id r, GoMap.get res id = some r → GoMap.get res2 id = some r)
    (hs : ∀ i ∈ s, i ∈ s2) (h : DirDone env res s d U) : DirDone env res2 s2 d U := by
  intro e he hr
  obtain ⟨h1, h2⟩ := h e he hr
  refine ⟨?_, fun hm => hs _ (h2 hm)⟩
  cases hg : GoMap.get res e.1 with
  | none => simp [hg] at h1
  | some r => simp [hres _ _ hg]

theorem UriDone_mono (env : Env) (res res2 : List (String × Resource)) (s s2 : List String)
    (uri : String)
    (hres : ∀ id r, GoMap.get res id = some r → GoMap.get res2 id = some r)
    (hs : ∀ i ∈ s, i ∈ s2) (h : UriDone env res s uri) : UriDone env res2 s2 uri :=
  fun d U hf hp => DirDone_mono env res res2 s s2 d U hres hs (h d U hf hp)

theorem IdDone_mono (env : Env) (res res2 : List (String × Resource)) (s s2 : List String)
    (id : String)
    (hres : ∀ id r, GoMap.get res id = some r → GoMap.get res2 id = some r)
    (hs : ∀ i ∈ s, i ∈ s2) (h : IdDone env res s id) : IdDone env res2 s2 id := by
  obtain ⟨r, hr, hu⟩ := h
  exact ⟨r, hres _ _ hr, UriDone_mono env res res2 s s2 _ hres hs hu⟩

namespace DirLoad

theorem Le_refl (st : DirLoad) : Le st st := ⟨fun _ h => h, fun _ _ h => h, rfl, rfl⟩

theorem Le_trans {a b c : DirLoad} (h1 : Le a b) (h2 : Le b c) : Le a c :=
  ⟨fun i hi => h2.1 i (h1.1 i hi), fun i r hr => h2.2.1 i r (h1.2.1 i r hr),
   h2.2.2.1.trans h1.2.2.1, h2.2.2.2.trans h1.2.2.2⟩

end DirLoad

namespace AltoConn

theorem offer_resources (c : AltoConn) (a : List Error) : (c.offer a).resources = c.resources := by
  simp [resources, offer_ResourceSet]

theorem offer_rsURI (c : AltoConn) (a : List Error) : (c.offer a).rsURI = c.rsURI := by
  simp [rsURI, offer_ResourceSet]

theorem setClient_resources (c : AltoConn) : c.setClient.resources = c.resources := by
  simp only [resources, setClient_ResourceSet]
  cases c.ResourceSet <;> rfl

theorem setClient_rsURI (c : AltoConn) : c.setClient.rsURI = c.rsURI := by
  simp only [rsURI, setClient_ResourceSet]
  cases c.ResourceSet <;> rfl

end AltoConn

theorem ResourceSet.AddResources_keys_nodup (env : Env) (rs : ResourceSet) (dir : Directory)
    (dirURI : url.URL) (h : (GoMap.keys rs.Resources).Nodup) :
    (GoMap.keys (rs.AddResources env dir dirURI).1.Resources).Nodup := by
  rw [ResourceSet.AddResources_Resources]
  generalize dir.Resources.map Prod.snd = l
  generalize rs.Resources = acc at h
  induction l generalizing acc with
  | nil => exact h
  | cons d rest ih =>
    simp only [List.foldl_cons]
    apply ih
    split
    · exact h
    · split
      · exact GoMap.nodup_keys_set _ _ _ h
      · exact h

theorem ResourceSet.AddResources_keeps (env : Env) (rs : ResourceSet) (dir : Directory)
    (dirURI : url.URL) (id : String) (r : Resource) (h : GoMap.get rs.Resources id = some r) :
    GoMap.get (rs.AddResources env dir dirURI).1.Resources id = some r := by
  rw [ResourceSet.AddResources_get, h]

end altomsgs
namespace altomsgs
namespace AltoConn

theorem resources_of_some (c : AltoConn) (rs : altomsgs.ResourceSet) (h : c.ResourceSet = some rs) :
    c.resources = rs.Resources := by
  simp [resources, h]

theorem secDirLoop_spec (env : Env) (ids : List String) (fuel : Nat) (d : Directory)
    (U : url.URL)
    (hrec : ∀ uri st, DirLoad.Pre ids st → pending ids st.secDirIds < fuel →
      ∃ st2, addDirResources env fuel uri st = some st2 ∧ DirLoad.Post env ids uri st st2)
    (l : List (String × DirResource)) (hl : ∀ e ∈ l, e.1 ∈ ids)
    (st : DirLoad) (hpre : DirLoad.Pre ids st) (hsome : st.conn.ResourceSet.isSome = true)
    (hfuel : pending ids st.secDirIds ≤ fuel)
    (hres : ∀ e ∈ l, (ResourceSet.resolved env d U e.2).isSome = true →
      (GoMap.get st.conn.resources e.1).isSome = true) :
    ∃ st2, secDirLoop env (addDirResources env fuel) l st = some st2 ∧
      DirLoad.Pre ids st2 ∧ st2.conn.ResourceSet.isSome = true ∧ DirLoad.Le st st2 ∧
      (∀ e ∈ l, e.2.MediaType = MT_DIRECTORY →
        (ResourceSet.resolved env d U e.2).isSome = true → e.1 ∈ st2.secDirIds) ∧
      (∀ id ∈ st2.secDirIds, id ∉ st.secDirIds →
        IdDone env st2.conn.resources st2.secDirIds id) := by
  induction l generalizing st with
  | nil =>
    exact ⟨st, rfl, hpre, hsome, DirLoad.Le_refl st, fun e he => (by cases he),
      fun id h1 h2 => absurd h1 h2⟩
  | cons e rest ih =>
    obtain ⟨dirId, dirRes⟩ := e
    have hlrest : ∀ e ∈ rest, e.1 ∈ ids := fun e he => hl e (List.mem_cons_of_mem _ he)
    obtain ⟨rs, hrs⟩ := Option.isSome_iff_exists.1 hsome
    have hresources := resources_of_some st.conn rs hrs
    by_cases hc : dirRes.MediaType = MT_DIRECTORY ∧
        wdrlib.StrListContains st.secDirIds dirId = false
    · have hnot : dirId ∉ st.secDirIds := by
        intro hm
        have := (wdrlib.StrListContains_iff st.secDirIds dirId).2 hm
        rw [hc.2] at this; cases this
      cases hg : GoMap.get rs.Resources dirId with
      | none =>
        obtain ⟨st2, h1, h2, h3, h4, h5, h6⟩ := ih hlrest st hpre hsome hfuel
          (fun e he => hres e (List.mem_cons_of_mem _ he))
        refine ⟨st2, ?_, h2, h3, h4, ?_, h6⟩
        · simp only [secDirLoop, hc, and_self, if_true, hrs, hg]
          exact h1
        · intro e he hm hr
          rcases List.mem_cons.1 he with h | h
          · subst h
            have := hres _ (List.mem_cons_self _ _) hr
            rw [hresources] at this
            simp [hg] at this
          · exact h5 e h hm hr
      | some res =>
        have hpre1 : DirLoad.Pre ids { st with secDirIds := st.secDirIds ++ [dirId] } := by
          refine ⟨hpre.1, ?_, ?_⟩
          · rw [List.nodup_append]
            refine ⟨hpre.2.1, List.nodup_singleton _, ?_⟩
            intro a ha hb
            rw [List.mem_singleton] at hb
            subst hb
            exact hnot ha
          · intro id hid
            rcases List.mem_append.1 hid with h | h
            · exact hpre.2.2 id h
            · rw [List.mem_singleton] at h
              subst h
              exact hl _ (List.mem_cons_self _ _)
        have hlt : pending ids (st.secDirIds ++ [dirId]) < fuel :=
          lt_of_lt_of_le (pending_lt ids st.secDirIds dirId (hl _ (List.mem_cons_self _ _)) hnot)
            hfuel
        obtain ⟨st2, hr2, hp2, hs2, hle2, hu2, hid2⟩ :=
          hrec (env.URLString res.URI) { st with secDirIds := st.secDirIds ++ [dirId] } hpre1 hlt
        have hfuel2 : pending ids st2.secDirIds ≤ fuel :=
          le_trans (pending_mono ids _ _ hle2.1) (le_of_lt hlt)
        have hres2 : ∀ e ∈ rest, (ResourceSet.resolved env d U e.2).isSome = true →
            (GoMap.get st2.conn.resources e.1).isSome = true := by
          intro e he hr
          have := hres e (List.mem_cons_of_mem _ he) hr
          cases hge : GoMap.get st.conn.resources e.1 with
          | none => simp [hge] at this
          | some r => simp [hle2.2.1 _ _ hge]
        obtain ⟨st3, h1, h2, h3, h4, h5, h6⟩ := ih hlrest st2 hp2 hs2 hfuel2 hres2
        have hle01 : DirLoad.Le st { st with secDirIds := st.secDirIds ++ [dirId] } :=
          ⟨fun i hi => List.mem_append_left _ hi, fun _ _ h => h, rfl, rfl⟩
        have hle03 : DirLoad.Le st st3 := DirLoad.Le_trans hle01 (DirLoad.Le_trans hle2 h4)
        refine ⟨st3, ?_, h2, h3, hle03, ?_, ?_⟩
        · simp only [secDirLoop, hc, and_self, if_true, hrs, hg, hr2]
          exact h1
        · intro e he hm hr
          rcases List.mem_cons.1 he with h | h
          · subst h
            exact h4.1 _ (hle2.1 _ (List.mem_append_right _ (List.mem_singleton_self _)))
          · exact h5 e h hm hr
        · intro id hid hnid
          by_cases hin2 : id ∈ st2.secDirIds
          · apply IdDone_mono env st2.conn.resources st3.conn.resources st2.secDirIds
              st3.secDirIds id h4.2.1 h4.1
            by_cases hin1 : id ∈ st.secDirIds ++ [dirId]
            · rcases List.mem_append.1 hin1 with h | h
              · exact absurd h hnid
              · rw [List.mem_singleton] at h
                subst h
                refine ⟨res, hle2.2.1 _ _ ?_, hu2⟩
                show GoMap.get st.conn.resources id = some res
                rw [hresources]; exact hg
            · exact hid2 id hin2 hin1
          · exact h6 id hid hin2
    · obtain ⟨st2, h1, h2, h3, h4, h5, h6⟩ := ih hlrest st hpre hsome hfuel
        (fun e he => hres e (List.mem_cons_of_mem _ he))
      refine ⟨st2, ?_, h2, h3, h4, ?_, h6⟩
      · simp only [secDirLoop, hc, if_false]
        exact h1
      · intro e he hm hr
        rcases List.mem_cons.1 he with h | h
        · subst h
          have hcont : wdrlib.StrListContains st.secDirIds dirId = true := by
            by_contra hcon
            exact hc ⟨hm, by simpa using hcon⟩
          exact h4.1 _ ((wdrlib.StrListContains_iff _ _).1 hcont)
        · exact h5 e h hm hr

end AltoConn
end altomsgs
namespace altomsgs
namespace AltoConn

theorem offer_setClient (c : AltoConn) (a : List Error) :
    (c.offer a).setClient = c.setClient.offer a := by
  unfold offer setClient
  by_cases hE : c.ErrHandler = true <;> cases hR : c.ResourceSet <;>
    by_cases hC : c.client = false <;> simp [hE, hR, hC]

end AltoConn
end altomsgs
namespace altomsgs
namespace AltoConn

theorem addDirResources_none (env : Env) (fuel : Nat) (uri : String) (st : DirLoad)
    (hf : fetch env uri = none) :
    ∃ errs p t, addDirResources env (fuel + 1) uri st =
      some ⟨st.conn.setClient.offer errs, st.secDirIds, p, t⟩ := by
  cases hp : env.Parse uri with
  | error err =>
    simp only [addDirResources, addDirStep, hp, callErrHandler_eq]
    rw [GetIRD_eq env (st.conn.offer _) uri]
    simp only [hf, offer_setClient, offer_offer]
    exact ⟨_, _, _, rfl⟩
  | ok U =>
    simp only [addDirResources, addDirStep, hp]
    rw [GetIRD_eq env st.conn uri]
    simp only [hf]
    exact ⟨_, _, _, rfl⟩

theorem addDirResources_some (env : Env) (fuel : Nat) (uri : String) (st : DirLoad)
    (d : Directory) (U : url.URL) (hf : fetch env uri = some d) (hp : env.Parse uri = .ok U) :
    ∃ c0 p t, addDirResources env (fuel + 1) uri st =
        secDirLoop env (addDirResources env fuel) d.Resources ⟨c0, st.secDirIds, p, t⟩ ∧
      c0.ResourceSet = some
        ((st.conn.ResourceSet.getD NewResourceSet).AddResources env d U).1 ∧
      c0.ErrHandler = st.conn.ErrHandler := by
  simp only [addDirResources, addDirStep, hp]
  rw [GetIRD_eq env st.conn uri]
  simp only [hf, offer_ResourceSet, setClient_ResourceSet]
  refine ⟨_, _, _, rfl, ?_, ?_⟩
  · split <;> simp [callErrHandler_eq, offer_ResourceSet]
  · split <;> simp [callErrHandler_eq, offer_ErrHandler, setClient_ErrHandler]

end AltoConn
end altomsgs
namespace altomsgs
namespace AltoConn

theorem setClient_offer_facts (c : AltoConn) (errs : List Error) :
    (c.setClient.offer errs).resources = c.resources ∧
    (c.setClient.offer errs).rsURI = c.rsURI ∧
    (c.setClient.offer errs).ErrHandler = c.ErrHandler ∧
    (c.setClient.offer errs).ResourceSet.isSome = true := by
  refine ⟨?_, ?_, ?_, ?_⟩
  · rw [offer_resources, setClient_resources]
  · rw [offer_rsURI, setClient_rsURI]
  · rw [offer_ErrHandler, setClient_ErrHandler]
  · rw [offer_ResourceSet, setClient_ResourceSet]; rfl

/-- What a call of `addDirResources` achieves, when the resource ids of every
directory a fetch can yield lie in the finite list `ids` and the bound exceeds
the number of ids that are not yet in `*pSecDirIds`. -/
theorem addDirResources_spec (env : Env) (ids : List String)
    (hfin : ∀ uri d, fetch env uri = some d → ∀ e ∈ d.Resources, e.1 ∈ ids) :
    ∀ fuel uri st, DirLoad.Pre ids st → pending ids st.secDirIds < fuel →
      ∃ st2, addDirResources env fuel uri st = some st2 ∧ DirLoad.Post env ids uri st st2 := by
  intro fuel
  induction fuel with
  | zero => intro uri st _ h; exact absurd h (Nat.not_lt_zero _)
  | succ fuel ih =>
    intro uri st hpre hfuel
    cases hf : fetch env uri with
    | none =>
      obtain ⟨errs, p, t, heq⟩ := addDirResources_none env fuel uri st hf
      obtain ⟨h1, h2, h3, h4⟩ := setClient_offer_facts st.conn errs
      refine ⟨_, heq, ⟨?_, hpre.2.1, hpre.2.2⟩, h4, ⟨fun _ h => h, ?_, h2, h3⟩, ?_, ?_⟩
      · show (GoMap.keys (st.conn.setClient.offer errs).resources).Nodup
        rw [h1]; exact hpre.1
      · intro id r hr
        show GoMap.get (st.conn.setClient.offer errs).resources id = some r
        rw [h1]; exact hr
      · intro d U hd
        rw [hf] at hd; cases hd
      · intro id h5 h6
        exact absurd h5 h6
    | some d =>
      obtain ⟨U, hp⟩ := fetch_parse env uri d hf
      obtain ⟨c0, p, t, heq, hc0, hE⟩ := addDirResources_some env fuel uri st d U hf hp
      have hdec := fetch_Decoded env uri d hf
      have hnd : (d.Resources.map (fun e => e.2.Id)).Nodup := by
        have : d.Resources.map (fun e => e.2.Id) = GoMap.keys d.Resources := by
          unfold GoMap.keys
          apply List.map_congr_left
          intro e he
          exact hdec.2 e he
        rw [this]; exact hdec.1
      have hres0 : c0.resources =
          ((st.conn.ResourceSet.getD NewResourceSet).AddResources env d U).1.Resources :=
        resources_of_some c0 _ hc0
      have hold : (st.conn.ResourceSet.getD NewResourceSet).Resources = st.conn.resources := by
        unfold resources
        cases st.conn.ResourceSet <;> rfl
      have holdURI : (st.conn.ResourceSet.getD NewResourceSet).URI = st.conn.rsURI := by
        unfold rsURI
        cases st.conn.ResourceSet <;> rfl
      have hpre0 : DirLoad.Pre ids ⟨c0, st.secDirIds, p, t⟩ := by
        refine ⟨?_, hpre.2.1, hpre.2.2⟩
        show (GoMap.keys c0.resources).Nodup
        rw [hres0]
        apply ResourceSet.AddResources_keys_nodup
        rw [hold]; exact hpre.1
      have hle0 : DirLoad.Le st ⟨c0, st.secDirIds, p, t⟩ := by
        refine ⟨fun _ h => h, ?_, ?_, hE⟩
        · intro id r hr
          show GoMap.get c0.resources id = some r
          rw [hres0]
          apply ResourceSet.AddResources_keeps
          rw [hold]; exact hr
        · show c0.rsURI = st.conn.rsURI
          unfold rsURI
          rw [hc0]
          simp only [ResourceSet.AddResources_URI]
          exact holdURI
      have hresd : ∀ e ∈ d.Resources, (ResourceSet.resolved env d U e.2).isSome = true →
          (GoMap.get (⟨c0, st.secDirIds, p, t⟩ : DirLoad).conn.resources e.1).isSome = true := by
        intro e he hr
        show (GoMap.get c0.resources e.1).isSome = true
        rw [hres0, ← hdec.2 e he, ResourceSet.AddResources_get_of_mem env _ d U hnd e he]
        cases hg : GoMap.get (st.conn.ResourceSet.getD NewResourceSet).Resources e.2.Id with
        | some cur => rfl
        | none => exact hr
      obtain ⟨st2, hl1, hl2, hl3, hl4, hl5, hl6⟩ :=
        secDirLoop_spec env ids fuel d U ih d.Resources (hfin uri d hf) ⟨c0, st.secDirIds, p, t⟩
          hpre0 (by show c0.ResourceSet.isSome = true; rw [hc0]; rfl)
          (Nat.le_of_lt_succ hfuel) hresd
      refine ⟨st2, heq.trans hl1, hl2, hl3, DirLoad.Le_trans hle0 hl4, ?_, ?_⟩
      · intro d2 U2 hd2 hp2
        rw [hf] at hd2
        rw [hp] at hp2
        cases hd2; cases hp2
        intro e he hr
        refine ⟨?_, fun hm => hl5 e he hm hr⟩
        have := hresd e he hr
        cases hg : GoMap.get c0.resources e.1 with
        | none =>
          have h0 : GoMap.get (⟨c0, st.secDirIds, p, t⟩ : DirLoad).conn.resources e.1 = none := hg
          rw [h0] at this; cases this
        | some r =>
          have h0 : GoMap.get (⟨c0, st.secDirIds, p, t⟩ : DirLoad).conn.resources e.1 = some r := hg
          rw [hl4.2.1 _ _ h0]; rfl
      · intro id h5 h6
        exact hl6 id h5 h6

end AltoConn
end altomsgs
namespace altomsgs
namespace AltoConn

theorem secDirLoop_mono (env : Env) (rec1 rec2 : String → DirLoad → Option DirLoad)
    (h : ∀ u s r, rec1 u s = some r → rec2 u s = some r) :
    ∀ (l : List (String × DirResource)) (st r : DirLoad),
      secDirLoop env rec1 l st = some r → secDirLoop env rec2 l st = some r := by
  intro l
  induction l with
  | nil => intro st r hr; exact hr
  | cons e rest ih =>
    obtain ⟨dirId, dirRes⟩ := e
    intro st r hr
    simp only [secDirLoop] at hr ⊢
    split at hr
    · rename_i hc
      simp only [hc, and_self, if_true]
      cases hrs : st.conn.ResourceSet with
      | none => simp [hrs] at hr
      | some rs =>
        simp only [hrs] at hr ⊢
        cases hg : GoMap.get rs.Resources dirId with
        | none =>
          simp only [hg] at hr ⊢
          exact ih _ _ hr
        | some res =>
          simp only [hg] at hr ⊢
          cases h1 : rec1 (env.URLString res.URI)
              { st with secDirIds := st.secDirIds ++ [dirId] } with
          | none => simp [h1] at hr
          | some s1 =>
            simp only [h1] at hr
            simp only [h _ _ _ h1]
            exact ih _ _ hr
    · rename_i hc
      simp only [hc, if_false]
      exact ih _ _ hr

theorem addDirStep_mono (env : Env) (rec1 rec2 : String → DirLoad → Option DirLoad)
    (h : ∀ u s r, rec1 u s = some r → rec2 u s = some r) (uri : String) (st r : DirLoad)
    (hr : addDirStep env rec1 uri st = some r) : addDirStep env rec2 uri st = some r := by
  unfold addDirStep at hr ⊢
  dsimp only at hr ⊢
  split at hr
  · exact hr
  · split at hr
    · exact secDirLoop_mono env rec1 rec2 h _ _ _ hr
    · cases hr

theorem addDirResources_succ (env : Env) (fuel : Nat) (uri : String) (st r : DirLoad)
    (hr : addDirResources env fuel uri st = some r) :
    addDirResources env (fuel + 1) uri st = some r := by
  induction fuel generalizing uri st r with
  | zero => simp [addDirResources] at hr
  | succ fuel ih =>
    simp only [addDirResources] at hr ⊢
    exact addDirStep_mono env _ _ (fun u s r h => by
      have := ih u s r h
      simpa only [addDirResources] using this) uri st r hr

theorem addDirResources_le (env : Env) (fuel fuel2 : Nat) (hle : fuel ≤ fuel2) (uri : String)
    (st r : DirLoad) (hr : addDirResources env fuel uri st = some r) :
    addDirResources env fuel2 uri st = some r := by
  induction hle with
  | refl => exact hr
  | step _ ih => exact addDirResources_succ env _ uri st r ih

theorem LoadRootDir_eq (env : Env) (fuel : Nat) (c : AltoConn) (uri : String) :
    c.LoadRootDir env fuel uri =
      match addDirResources env fuel uri ⟨c.setClient, [], [], 0⟩ with
      | none => none
      | some st =>
        match st.conn.ResourceSet with
        | none => none
        | some rs =>
          some ({ st.conn with NetworkMapId := rs.DefNetworkMapId,
                               HaveResources := decide (rs.Resources.length > 0) },
                st.totRespTime, st.prevErrs) := by
  unfold LoadRootDir
  simp only [setClient_ResourceSet]

end AltoConn
end altomsgs
namespace altomsgs
namespace AltoConn

theorem SendReq_OkResp_Do (env : Env) (c : AltoConn) (uri : String) (accept : List String)
    (req : Option AltoMsg) (x : AltoMsg)
    (h : (c.SendReq env uri accept req).2.OkResp = some x) :
    ∃ httpReq resp, env.Do httpReq = .ok resp ∧
      (NewAltoMsg env.fmtG resp.ContentType ⟨resp.Body, 0⟩ (-1)).1 = some x := by
  unfold SendReq at h
  simp only [callErrHandler_eq] at h
  split at h
  · simp at h
  · split at h
    · simp at h
    · split at h
      · simp at h
      · rename_i httpResp hdo
        exact ⟨_, httpResp, hdo, readResponse_OkResp env _ _ _ _ _ x rfl h⟩

theorem fetch_Do (env : Env) (uri : String) (d : Directory) (h : fetch env uri = some d) :
    ∃ httpReq resp, env.Do httpReq = .ok resp ∧
      (NewAltoMsg env.fmtG resp.ContentType ⟨resp.Body, 0⟩ (-1)).1 = some (.directory d) := by
  simp only [fetch, GetIRD] at h
  cases hr : (zero.setClient.SendReq env uri [MT_DIRECTORY] none).2.OkResp with
  | none => simp [hr] at h
  | some m =>
    obtain ⟨q, resp, hdo, hx⟩ := SendReq_OkResp_Do env _ uri _ none m hr
    cases m <;> simp [hr] at h
    subst h
    exact ⟨q, resp, hdo, hx⟩

theorem exampleServer_decodes :
    ∀ dir ∈ [dirA, dirB, sampleDirectory, mixedDirectory, brokenDirectory],
      (NewAltoMsg (fun _ => "") (dirResponse dir).ContentType ⟨(dirResponse dir).Body, 0⟩ (-1)).1
        = some (.directory dir) := by
  decide

/-- The example server answers with one of its five directories. -/
theorem exampleServer_fetch (uri : String) (d : Directory)
    (h : fetch (exampleEnv exampleServer) uri = some d) :
    d ∈ [dirA, dirB, sampleDirectory, mixedDirectory, brokenDirectory] := by
  obtain ⟨q, resp, hdo, hx⟩ := fetch_Do _ uri d h
  have hresp : ∃ dir ∈ [dirA, dirB, sampleDirectory, mixedDirectory, brokenDirectory],
      resp = dirResponse dir := by
    simp only [exampleEnv] at hdo
    cases hg : GoMap.get exampleServer (url.exampleString q.URL) with
    | none => simp [hg] at hdo
    | some r =>
      simp only [hg, Except.ok.injEq] at hdo
      subst hdo
      have hm := GoMap.get_mem _ _ _ hg
      simp only [exampleServer, List.mem_cons, Prod.mk.injEq, List.mem_singleton,
        List.not_mem_nil, or_false] at hm
      rcases hm with hm | hm | hm | hm | hm
      · exact ⟨dirA, by simp, hm.2⟩
      · exact ⟨dirB, by simp, hm.2⟩
      · exact ⟨sampleDirectory, by simp, hm.2⟩
      · exact ⟨mixedDirectory, by simp, hm.2⟩
      · exact ⟨brokenDirectory, by simp, hm.2⟩
  obtain ⟨dir, hdir, hr⟩ := hresp
  subst hr
  have := exampleServer_decodes dir hdir
  have heq : (exampleEnv exampleServer).fmtG = fun _ => "" := rfl
  rw [heq, this] at hx
  cases hx
  exact hdir

end AltoConn
end altomsgs
namespace altomsgs

/-- C16 as stated fails: the directory behind /mixed lists three resources,
one of which ("bad-costmap") names an undefined cost type. The load terminates,
but the catalog holds only the other two: it does not contain every resource of
the directory it has reached. -/
theorem C16_counterexample :
    AltoConn.fetch (exampleEnv exampleServer) "http://alto.example.com/mixed"
      = some mixedDirectory ∧
    (GoMap.get mixedDirectory.Resources "bad-costmap").isSome = true ∧
    (NewAltoConn.LoadRootDir (exampleEnv exampleServer) 1
        "http://alto.example.com/mixed").map (fun r => GoMap.keys r.1.resources)
      = some ["mynetmap", "costmap"] ∧
    (NewAltoConn.LoadRootDir (exampleEnv exampleServer) 9
        "http://alto.example.com/mixed").map (fun r => GoMap.keys r.1.resources)
      = some ["mynetmap", "costmap"] := by
  refine ⟨by decide, by decide, by decide, by decide⟩

/-- C16, amended. The fetch is a function from the URI to a directory of the
finite list `dirs`. From a connection whose `Resources` has distinct keys,
`LoadRootDir(uri)` with its `addDirResources` terminates: for every bound `fuel`
on the depth of the recursion that exceeds the number of resource ids of `dirs`
there is a result, the same for every such bound. In it `*pSecDirIds` has no
duplicates (each secondary-directory id is recursed into at most once) and
holds only ids of `dirs`; the keys of `Resources` are distinct and the entries
the connection had are still there; the root directory has been merged
(`UriDone`): each of its resources that resolves has its id as a key of
`Resources`, and each of those that is a directory has been recursed into; and
the same holds of the directory behind the stored URI of every id recursed into
(`IdDone`). -/
theorem C16_directory_load_terminates (env : Env) (dirs : List Directory)
    (hfin : ∀ uri d, AltoConn.fetch env uri = some d → d ∈ dirs)
    (conn : AltoConn) (hkeys : (GoMap.keys conn.resources).Nodup) (uri : String) (fuel : Nat)
    (hfuel : (dirIds dirs).length < fuel) :
    ∃ st : DirLoad,
      (∀ fuel2, fuel ≤ fuel2 →
        AltoConn.addDirResources env fuel2 uri ⟨conn.setClient, [], [], 0⟩ = some st) ∧
      (∀ fuel2, fuel ≤ fuel2 →
        ∃ c, conn.LoadRootDir env fuel2 uri = some (c, st.totRespTime, st.prevErrs) ∧
          c.resources = st.conn.resources) ∧
      st.secDirIds.Nodup ∧ (∀ id ∈ st.secDirIds, id ∈ dirIds dirs) ∧
      (GoMap.keys st.conn.resources).Nodup ∧
      (∀ id r, GoMap.get conn.resources id = some r →
        GoMap.get st.conn.resources id = some r) ∧
      UriDone env st.conn.resources st.secDirIds uri ∧
      (∀ id ∈ st.secDirIds, IdDone env st.conn.resources st.secDirIds id) := by
  have hfin2 : ∀ uri d, AltoConn.fetch env uri = some d → ∀ e ∈ d.Resources,
      e.1 ∈ dirIds dirs := by
    intro u d hd e he
    unfold dirIds
    rw [List.mem_flatMap]
    exact ⟨d, hfin u d hd, List.mem_map.2 ⟨e, he, rfl⟩⟩
  have hpre : DirLoad.Pre (dirIds dirs) ⟨conn.setClient, [], [], 0⟩ := by
    refine ⟨?_, List.nodup_nil, fun id h => by cases h⟩
    show (GoMap.keys conn.setClient.resources).Nodup
    rw [AltoConn.setClient_resources]; exact hkeys
  have hpend : pending (dirIds dirs) (⟨conn.setClient, [], [], 0⟩ : DirLoad).secDirIds < fuel :=
    lt_of_le_of_lt (pending_le_length _ _) hfuel
  obtain ⟨st, hst, hp, hs, hle, hu, hid⟩ :=
    AltoConn.addDirResources_spec env (dirIds dirs) hfin2 fuel uri _ hpre hpend
  have hall : ∀ fuel2, fuel ≤ fuel2 →
      AltoConn.addDirResources env fuel2 uri ⟨conn.setClient, [], [], 0⟩ = some st :=
    fun fuel2 h2 => AltoConn.addDirResources_le env fuel fuel2 h2 uri _ st hst
  refine ⟨st, hall, ?_, hp.2.1, hp.2.2, hp.1, ?_, hu, fun id h => hid id h (by simp)⟩
  · intro fuel2 h2
    obtain ⟨rs, hrs⟩ := Option.isSome_iff_exists.1 hs
    rw [AltoConn.LoadRootDir_eq, hall fuel2 h2]
    simp only [hrs]
    exact ⟨_, rfl, by simp [AltoConn.resources, hrs]⟩
  · intro id r hr
    apply hle.2.1
    show GoMap.get conn.setClient.resources id = some r
    rw [AltoConn.setClient_resources]; exact hr

/-- C16, amended, at the server whose directories A and B list each other: the
load of A with a bound of 12 recursions has a result, with the directory ids
"dir-b" and "dir-a" recursed into once each. -/
theorem C16_witness :
    ((∀ uri d, AltoConn.fetch (exampleEnv exampleServer) uri = some d →
        d ∈ [dirA, dirB, sampleDirectory, mixedDirectory, brokenDirectory]) ∧
     (GoMap.keys NewAltoConn.resources).Nodup ∧
     (dirIds [dirA, dirB, sampleDirectory, mixedDirectory, brokenDirectory]).length < 12 ∧
     (NewAltoConn.LoadRootDir (exampleEnv exampleServer) 12
        "http://alto.example.com/a").map (fun r => GoMap.keys r.1.resources)
       = some ["netmap-a", "dir-b", "netmap-b", "dir-a"]) ∧
    ∃ st : DirLoad,
      AltoConn.addDirResources (exampleEnv exampleServer) 12 "http://alto.example.com/a"
        ⟨NewAltoConn.setClient, [], [], 0⟩ = some st ∧
      st.secDirIds.Nodup ∧
      UriDone (exampleEnv exampleServer) st.conn.resources st.secDirIds
        "http://alto.example.com/a" :=
  ⟨⟨AltoConn.exampleServer_fetch, by decide, by decide, by decide⟩,
   (C16_directory_load_terminates (exampleEnv exampleServer)
      [dirA, dirB, sampleDirectory, mixedDirectory, brokenDirectory]
      AltoConn.exampleServer_fetch NewAltoConn (by decide) "http://alto.example.com/a" 12
      (by decide)).elim
    (fun st h => ⟨st, h.1 12 (Nat.le_refl _), h.2.2.1, h.2.2.2.2.2.2.1⟩)⟩

end altomsgs
namespace altomsgs

/-- C17, the code at the failing input. `setClient()` leaves a non-nil
`ResourceSet` on every connection, so the test `this.ResourceSet == nil` that
follows it in `LoadRootDir` never holds: no new set is made and `URI` is never
assigned. On a new connection `LoadRootDir` of directory A (which lists B, which
lists A) and then `LoadRootDir` of the directory `sampleDirectory` leaves the
resources of both loads in the set, `ResourceSet.URI` empty after either load,
and `DefNetworkMapId` and `NetworkMapId` those of directory A. -/
theorem C17_LoadRootDir_keeps_old_catalog :
    (∀ c : AltoConn, c.setClient.ResourceSet.isSome = true) ∧
    (NewAltoConn.LoadRootDir (exampleEnv exampleServer) 9 "http://alto.example.com/a").map
        (fun r => (r.1.rsURI, GoMap.keys r.1.resources, r.1.NetworkMapId))
      = some ("", ["netmap-a", "dir-b", "netmap-b", "dir-a"], "netmap-a") ∧
    ((NewAltoConn.LoadRootDir (exampleEnv exampleServer) 9 "http://alto.example.com/a").bind
        (fun r => r.1.LoadRootDir (exampleEnv exampleServer) 9
          "http://alto.example.com/directory")).map
        (fun r => (r.1.rsURI, GoMap.keys r.1.resources, r.1.NetworkMapId,
          r.1.ResourceSet.map (fun rs => rs.DefNetworkMapId)))
      = some ("", ["netmap-a", "dir-b", "netmap-b", "dir-a", "mynetmap", "filter-costmap"],
          "netmap-a", some "netmap-a") ∧
    (NewAltoConn.LoadRootDir (exampleEnv exampleServer) 9
        "http://alto.example.com/directory").map
        (fun r => (r.1.rsURI, GoMap.keys r.1.resources, r.1.NetworkMapId))
      = some ("", ["mynetmap", "filter-costmap"], "mynetmap") := by
  refine ⟨fun c => ?_, by decide, by decide, by decide⟩
  rw [AltoConn.setClient_ResourceSet]; rfl

/-- C18, the code at the failing input. The directory behind /broken has two
resources that do not resolve, and `AddResources` reports both, each with its
message. `LoadRootDir` returns a single error, "Error in IRD resource", without
either message, and `ErrHandler` is offered that one error only:
`addDirResources` passes `[]error{err}`, the nil error of `url.Parse`, to
`callErrHandler` where the `errs` of `AddResources` were meant. -/
theorem C18_resource_errors_dropped :
    (ResourceSet.AddResources (exampleEnv exampleServer) NewResourceSet brokenDirectory
        { url.URL.zero with Scheme := "http", Host := "alto.example.com",
                            Path := "/broken" }).2
      = [Error.other "parse \":netmap\": missing protocol scheme",
         Error.other "Resource \"costmap\": No cost type \"num-rc\" in IRD"] ∧
    (AltoConn.LoadRootDir (exampleEnv exampleServer) 9 { NewAltoConn with ErrHandler := true }
        "http://alto.example.com/broken").map (fun r => (r.2.2, r.1.handled))
      = some
        ([Error.other "Error in IRD resource: method=GET uri=\"http://alto.example.com/broken\""],
         [[Error.other
            "Error in IRD resource: method=GET uri=\"http://alto.example.com/broken\""]]) := by
  refine ⟨by decide, by decide⟩

end altomsgs

/-! ## The default network map -/

namespace altomsgs
namespace ResourceSet

/-- The full NetworkMap entries of a list of resources. -/
theorem FindNetworkMaps_cons (u : String) (l : List (String × Resource)) (id : String)
    (res : Resource) (d : String) :
    FindNetworkMaps ⟨u, (id, res) :: l, d⟩ =
      if res.MediaType = MT_NETWORK_MAP ∧ res.Accepts = "" then
        res :: FindNetworkMaps ⟨u, l, d⟩
      else FindNetworkMaps ⟨u, l, d⟩ := by
  unfold FindNetworkMaps
  by_cases h : res.MediaType = MT_NETWORK_MAP ∧ res.Accepts = ""
  · simp [List.filter_cons, h]
  · simp [List.filter_cons, h]

/-- What the loop of `FindDefNetworkMap` returns, in terms of
`FindNetworkMaps`: with no map seen so far, the only map if there is exactly
one; with a map seen, that map if there is no further one. -/
theorem defNetworkMapLoop_eq (u d : String) (l : List (String × Resource)) :
    (defNetworkMapLoop l none =
      match FindNetworkMaps ⟨u, l, d⟩ with
      | [r] => some r
      | _ => none) ∧
    (∀ x, defNetworkMapLoop l (some x) =
      match FindNetworkMaps ⟨u, l, d⟩ with
      | [] => some x
      | _ => none) := by
  induction l with
  | nil => exact ⟨rfl, fun _ => rfl⟩
  | cons e rest ih =>
    obtain ⟨id, res⟩ := e
    rw [FindNetworkMaps_cons]
    by_cases h : res.MediaType = MT_NETWORK_MAP ∧ res.Accepts = ""
    · simp only [defNetworkMapLoop, h, and_self, if_true]
      refine ⟨?_, fun x => by simp⟩
      simp only [Option.isSome_none, Bool.false_eq_true, if_false]
      rw [ih.2 res]
      cases FindNetworkMaps ⟨u, rest, d⟩ <;> rfl
    · simp only [defNetworkMapLoop, h, if_false]
      exact ih

/-- `FindDefNetworkMap` when `DefNetworkMapId` is not the id of a resource. -/
theorem FindDefNetworkMap_fallback (rs : ResourceSet)
    (hkey : rs.DefNetworkMapId ∉ GoMap.keys rs.Resources) :
    rs.FindDefNetworkMap =
      match rs.FindNetworkMaps with
      | [r] => some r
      | _ => none := by
  unfold FindDefNetworkMap
  rw [GoMap.get_of_not_mem _ _ hkey]
  exact (defNetworkMapLoop_eq rs.URI rs.DefNetworkMapId rs.Resources).1

/-- The list `FindNetworkMaps` returns is, up to order, independent of the
order of the map. -/
theorem FindNetworkMaps_perm (rs rs2 : ResourceSet) (h : rs2.Resources.Perm rs.Resources) :
    rs2.FindNetworkMaps.Perm rs.FindNetworkMaps := by
  unfold FindNetworkMaps
  exact (h.filter _).map _

end ResourceSet

/-- C21: `FindDefNetworkMap` without an explicit default. For every
`ResourceSet` with `DefNetworkMapId == ""` and no resource keyed "": when
exactly one resource has `MediaType == MT_NETWORK_MAP` and `Accepts == ""`
(the list of `FindNetworkMaps` is `[r]`), the result is that resource; when
there is none, or more than one, the result is nil; and the result is the same
for every order of the map, so it is never an arbitrary one of several. -/
theorem C21_FindDefNetworkMap_no_default (rs : ResourceSet)
    (hdef : rs.DefNetworkMapId = "") (hkey : "" ∉ GoMap.keys rs.Resources) :
    (∀ r, rs.FindNetworkMaps = [r] → rs.FindDefNetworkMap = some r) ∧
    (rs.FindNetworkMaps = [] → rs.FindDefNetworkMap = none) ∧
    (2 ≤ rs.FindNetworkMaps.length → rs.FindDefNetworkMap = none) ∧
    (∀ rs2 : ResourceSet, rs2.DefNetworkMapId = "" → rs2.Resources.Perm rs.Resources →
      rs2.FindDefNetworkMap = rs.FindDefNetworkMap) := by
  have hk : rs.DefNetworkMapId ∉ GoMap.keys rs.Resources := by rw [hdef]; exact hkey
  have hfb := ResourceSet.FindDefNetworkMap_fallback rs hk
  refine ⟨?_, ?_, ?_, ?_⟩
  · intro r hr
    rw [hfb, hr]
  · intro hr
    rw [hfb, hr]
  · intro hlen
    rw [hfb]
    match hm : rs.FindNetworkMaps with
    | [] => rfl
    | [r] => rw [hm] at hlen; simp at hlen
    | _ :: _ :: _ => rfl
  · intro rs2 hdef2 hperm
    have hk2 : rs2.DefNetworkMapId ∉ GoMap.keys rs2.Resources := by
      rw [hdef2]
      intro hmem
      apply hkey
      unfold GoMap.keys at hmem ⊢
      exact (hperm.map Prod.fst).subset hmem
    rw [hfb, ResourceSet.FindDefNetworkMap_fallback rs2 hk2]
    have hp := ResourceSet.FindNetworkMaps_perm rs rs2 hperm
    match hm : rs.FindNetworkMaps with
    | [] =>
      rw [hm] at hp
      rw [List.perm_nil.mp hp]
    | [r] =>
      rw [hm] at hp
      rw [List.perm_singleton.mp hp]
    | a :: b :: t =>
      have hl := hp.length_eq
      rw [hm] at hl
      match hm2 : rs2.FindNetworkMaps with
      | [] => rfl
      | [r] => rw [hm2] at hl; simp at hl
      | _ :: _ :: _ => rfl

/-- C21, witness: the catalog of `sampleDirectory`, listed in either order,
has no default id and one NetworkMap, which is the result. -/
theorem C21_witness :
    let netmap : Resource :=
      { Id := "mynetmap", URI := sampleDirURI, MediaType := MT_NETWORK_MAP, Accepts := "",
        Uses := [], CostTypes := [], CostConstraints := false, PropTypes := [] }
    let costmap : Resource :=
      { Id := "costmap", URI := sampleDirURI, MediaType := MT_COST_MAP, Accepts := "",
        Uses := ["mynetmap"], CostTypes := [⟨"routingcost", "numerical"⟩],
        CostConstraints := false, PropTypes := [] }
    let rs : ResourceSet := ⟨"", [("mynetmap", netmap), ("costmap", costmap)], ""⟩
    let rs2 : ResourceSet := ⟨"", [("costmap", costmap), ("mynetmap", netmap)], ""⟩
    rs.FindNetworkMaps = [netmap] ∧ rs.FindDefNetworkMap = some netmap ∧
    rs2.FindDefNetworkMap = rs.FindDefNetworkMap := by
  intro netmap costmap rs rs2
  have h := C21_FindDefNetworkMap_no_default rs rfl (by decide)
  exact ⟨by decide, h.1 netmap (by decide),
    h.2.2.2 rs2 rfl (List.Perm.swap _ _ _)⟩

/-- C22, counterexample: the set that `AddResources` makes of the directory
`otherDirectory`, whose default id "othermap" is the id of no resource, has a
non-empty `DefNetworkMapId` that is not the id of any resource and exactly
one full NetworkMap; `FindDefNetworkMap` returns that map, not nil. -/
theorem C22_counterexample :
    let rs := (NewResourceSet.AddResources (exampleEnv exampleServer) otherDirectory
      sampleDirURI).1
    rs.DefNetworkMapId = "othermap" ∧
    rs.DefNetworkMapId ∉ GoMap.keys rs.Resources ∧
    rs.FindNetworkMaps.length = 1 ∧
    (∃ r, rs.FindDefNetworkMap = some r ∧ rs.FindNetworkMaps = [r] ∧ r.Id = "mynetmap") := by
  refine ⟨by decide, by decide, by decide, ?_⟩
  exact ⟨_, rfl, by decide, by decide⟩

/-- C22: `FindDefNetworkMap` returns the resource `DefNetworkMapId` names when
there is one, and otherwise falls back to the sole full NetworkMap, whether
`DefNetworkMapId` is empty or not: for every `ResourceSet` whose
`DefNetworkMapId` is not the id of any resource, the result is the only
resource with `MediaType == MT_NETWORK_MAP` and `Accepts == ""` when there is
exactly one, and nil when there is none or more than one. -/
theorem C22_FindDefNetworkMap_fallback (rs : ResourceSet) :
    (∀ r, GoMap.get rs.Resources rs.DefNetworkMapId = some r → rs.FindDefNetworkMap = some r) ∧
    (rs.DefNetworkMapId ∉ GoMap.keys rs.Resources →
      (∀ r, rs.FindNetworkMaps = [r] → rs.FindDefNetworkMap = some r) ∧
      (rs.FindNetworkMaps.length ≠ 1 → rs.FindDefNetworkMap = none)) := by
  refine ⟨?_, ?_⟩
  · intro r hr
    unfold ResourceSet.FindDefNetworkMap
    rw [hr]
  · intro hk
    have hfb := ResourceSet.FindDefNetworkMap_fallback rs hk
    refine ⟨?_, ?_⟩
    · intro r hr
      rw [hfb, hr]
    · intro hlen
      rw [hfb]
      match hm : rs.FindNetworkMaps with
      | [] => rfl
      | [r] => rw [hm] at hlen; simp at hlen
      | _ :: _ :: _ => rfl

/-- C22, witness: at the set of the counterexample the default id "othermap"
is dangling and the sole NetworkMap "mynetmap" is returned. -/
theorem C22_witness :
    let rs := (NewResourceSet.AddResources (exampleEnv exampleServer) otherDirectory
      sampleDirURI).1
    rs.DefNetworkMapId ∉ GoMap.keys rs.Resources ∧
    (∀ r, rs.FindNetworkMaps = [r] → rs.FindDefNetworkMap = some r) ∧
    (rs.FindDefNetworkMap.map (fun r => r.Id)) = some "mynetmap" := by
  intro rs
  exact ⟨by decide, ((C22_FindDefNetworkMap_fallback rs).2 (by decide)).1, by decide⟩

end altomsgs

/-! ## Typed addresses -/

namespace strings

theorem HasPrefix_iff (s p : String) : HasPrefix s p = true ↔ ∃ t : String, s = p ++ t := by
  unfold HasPrefix
  rw [List.isPrefixOf_iff_prefix]
  constructor
  · rintro ⟨l, hl⟩
    refine ⟨String.mk l, ?_⟩
    apply String.ext
    rw [String.data_append]
    exact hl.symm
  · rintro ⟨t, rfl⟩
    exact ⟨t.data, (String.data_append p t).symm⟩

theorem HasPrefix_append (p t : String) : HasPrefix (p ++ t) p = true :=
  (HasPrefix_iff _ _).mpr ⟨t, rfl⟩

theorem TrimPrefix_append (p t : String) : TrimPrefix (p ++ t) p = t := by
  unfold TrimPrefix
  rw [HasPrefix_append, if_pos rfl]
  apply String.ext
  show ((p ++ t).data.drop p.data.length) = t.data
  rw [String.data_append, List.drop_left]

theorem TrimPrefix_of_not (s p : String) (h : HasPrefix s p = false) : TrimPrefix s p = s := by
  unfold TrimPrefix
  rw [h]
  rfl

theorem append_ne_right (p t : String) (hp : p ≠ "") : t ≠ p ++ t := by
  intro h
  apply hp
  have hl : t.data.length = (p ++ t).data.length := by rw [← h]
  rw [String.data_append, List.length_append] at hl
  apply String.ext
  have h0 : p.data.length = 0 := by omega
  exact List.length_eq_zero.mp h0

end strings

namespace altomsgs

theorem IPV4_ADDR_PREFIX_eq : IPV4_ADDR_PREFIX = "ipv4:" := by decide

theorem IPV6_ADDR_PREFIX_eq : IPV6_ADDR_PREFIX = "ipv6:" := by decide

theorem not_HasPrefix_v6_v4 (r : String) :
    strings.HasPrefix (IPV6_ADDR_PREFIX ++ r) IPV4_ADDR_PREFIX = false := by
  rw [IPV4_ADDR_PREFIX_eq, IPV6_ADDR_PREFIX_eq]
  unfold strings.HasPrefix
  show List.isPrefixOf "ipv4:".data ("ipv6:" ++ r).data = false
  rw [String.data_append]
  show List.isPrefixOf ['i', 'p', 'v', '4', ':'] (['i', 'p', 'v', '6', ':'] ++ r.data) = false
  simp [List.isPrefixOf]

/-- `CheckTypedAddr` on a text with one of the two prefixes. -/
theorem CheckTypedAddr_typed (p r : String)
    (hp : p = IPV4_ADDR_PREFIX ∨ p = IPV6_ADDR_PREFIX) :
    CheckTypedAddr (p ++ r) =
      match net.ParseIP r with
      | none => ("", some (.InvalidAddrError (p ++ r ++ " is not a valid address")))
      | some ip => (p ++ net.IP.String ip, none) := by
  unfold CheckTypedAddr
  rcases hp with rfl | rfl
  · have h1 : strings.TrimPrefix (IPV4_ADDR_PREFIX ++ r) IPV4_ADDR_PREFIX = r :=
      strings.TrimPrefix_append _ _
    have h2 : r ≠ IPV4_ADDR_PREFIX ++ r := strings.append_ne_right _ _ (by decide)
    cases hpi : net.ParseIP r <;> simp only [h1, ne_eq, h2, not_false_eq_true, if_true, hpi]
  · have h0 : strings.TrimPrefix (IPV6_ADDR_PREFIX ++ r) IPV4_ADDR_PREFIX =
        IPV6_ADDR_PREFIX ++ r :=
      strings.TrimPrefix_of_not _ _ (not_HasPrefix_v6_v4 r)
    have h1 : strings.TrimPrefix (IPV6_ADDR_PREFIX ++ r) IPV6_ADDR_PREFIX = r :=
      strings.TrimPrefix_append _ _
    have h2 : r ≠ IPV6_ADDR_PREFIX ++ r := strings.append_ne_right _ _ (by decide)
    cases hpi : net.ParseIP r <;>
      simp only [h0, h1, ne_eq, not_true_eq_false, h2, not_false_eq_true, if_true, if_false, hpi]

/-- `CheckTypedAddr` on a text with neither prefix. -/
theorem CheckTypedAddr_untyped (x : String)
    (h4 : strings.HasPrefix x IPV4_ADDR_PREFIX = false)
    (h6 : strings.HasPrefix x IPV6_ADDR_PREFIX = false) :
    CheckTypedAddr x = ("", some (.InvalidAddrError (x ++ " is not a typed address"))) := by
  unfold CheckTypedAddr
  simp only [strings.TrimPrefix_of_not _ _ h4, strings.TrimPrefix_of_not _ _ h6, ne_eq,
    not_true_eq_false, if_false]

/-- The three cases of `CheckTypedAddr`. -/
theorem CheckTypedAddr_cases (x : String) :
    (strings.HasPrefix x IPV4_ADDR_PREFIX = false ∧
      strings.HasPrefix x IPV6_ADDR_PREFIX = false) ∨
    ∃ p r, (p = IPV4_ADDR_PREFIX ∨ p = IPV6_ADDR_PREFIX) ∧ x = p ++ r := by
  cases h4 : strings.HasPrefix x IPV4_ADDR_PREFIX with
  | true =>
    obtain ⟨t, ht⟩ := (strings.HasPrefix_iff _ _).mp h4
    exact .inr ⟨_, t, .inl rfl, ht⟩
  | false =>
    cases h6 : strings.HasPrefix x IPV6_ADDR_PREFIX with
    | true =>
      obtain ⟨t, ht⟩ := (strings.HasPrefix_iff _ _).mp h6
      exact .inr ⟨_, t, .inr rfl, ht⟩
    | false => exact .inl ⟨rfl, rfl⟩

theorem typed_ne_empty (p t : String) (hp : p = IPV4_ADDR_PREFIX ∨ p = IPV6_ADDR_PREFIX) :
    p ++ t ≠ "" := by
  intro h
  have hl : (p ++ t).data.length = 0 := by rw [h]; rfl
  rw [String.data_append, List.length_append] at hl
  have h5 : p.data.length = 5 := by
    rcases hp with rfl | rfl <;> decide
  omega

/-- C23: `CheckTypedAddr` has no test of the address family. It accepts
"ipv6:1.2.3.4" and "ipv4:a:b::" and returns them with a nil error, where the
claim has a non-nil error; `ParseTypedAddr`, which the same file documents as
failing "if the address part does not match the type prefix", rejects
"ipv4:a:b::". A text without a recognized prefix is refused, as claimed. -/
theorem C23_family_mismatch_accepted :
    CheckTypedAddr "ipv6:1.2.3.4" = ("ipv6:1.2.3.4", none) ∧
    CheckTypedAddr "ipv4:a:b::" = ("ipv4:a:b::", none) ∧
    ParseTypedAddr "ipv4:a:b::" = ([], some ⟨"Invalid ipv4 address", "ipv4:a:b::"⟩) ∧
    CheckTypedAddr "1.2.3.4" =
      ("", some (.InvalidAddrError "1.2.3.4 is not a typed address")) := by
  refine ⟨by decide, by decide, by decide, by decide⟩

/-- C24: the result of `CheckTypedAddr`. For every input the error is non-nil
iff the output is ""; the call fails when the input has neither the "ipv4:" nor
the "ipv6:" prefix, and when the remainder after the prefix does not parse as an
IP address; otherwise the output is the prefix of the input followed by the
text `ip.String()` of the parsed address. The inputs the claim names behave as
it says. -/
theorem C24_CheckTypedAddr_result (x : String) :
    ((CheckTypedAddr x).2 ≠ none ↔ (CheckTypedAddr x).1 = "") ∧
    (strings.HasPrefix x IPV4_ADDR_PREFIX = false →
      strings.HasPrefix x IPV6_ADDR_PREFIX = false →
      CheckTypedAddr x = ("", some (.InvalidAddrError (x ++ " is not a typed address")))) ∧
    (∀ p r, (p = IPV4_ADDR_PREFIX ∨ p = IPV6_ADDR_PREFIX) → x = p ++ r →
      net.ParseIP r = none →
      CheckTypedAddr x = ("", some (.InvalidAddrError (x ++ " is not a valid address")))) ∧
    (∀ p r ip, (p = IPV4_ADDR_PREFIX ∨ p = IPV6_ADDR_PREFIX) → x = p ++ r →
      net.ParseIP r = some ip →
      CheckTypedAddr x = (p ++ net.IP.String ip, none)) ∧
    (CheckTypedAddr "1.2.3.4").2 ≠ none ∧
    (CheckTypedAddr "ipv4:1.2.3").2 ≠ none ∧
    (CheckTypedAddr "ipv6:ABCDE::").2 ≠ none ∧
    CheckTypedAddr "ipv6:A:B:C::" = ("ipv6:a:b:c::", none) ∧
    CheckTypedAddr "ipv6:::0" = ("ipv6:::", none) := by
  refine ⟨?_, CheckTypedAddr_untyped x, ?_, ?_, by decide, by decide, by decide, by decide,
    by decide⟩
  · rcases CheckTypedAddr_cases x with ⟨h4, h6⟩ | ⟨p, r, hp, rfl⟩
    · rw [CheckTypedAddr_untyped x h4 h6]
      simp
    · rw [CheckTypedAddr_typed p r hp]
      cases net.ParseIP r with
      | none => simp
      | some ip =>
        have := typed_ne_empty p (net.IP.String ip) hp
        simp [this]
  · rintro p r hp rfl hnone
    rw [CheckTypedAddr_typed p r hp, hnone]
  · rintro p r ip hp rfl hsome
    rw [CheckTypedAddr_typed p r hp, hsome]

/-- C26: `ParseTypedAddr` accepts an IPv4 literal after "ipv6:". For
"ipv6:1.2.3.4" it returns the address 1.2.3.4 and a nil error, where its doc
comment and the claim have an error: the test `ip.To16() == nil` cannot fail
on an address `net.ParseIP` returned. The rest is as claimed: an IPv6
literal after "ipv4:" and a text that is no IP address are refused, and an
address without prefix is returned whatever its family. -/
theorem C26_ParseTypedAddr_ipv6_unchecked :
    ParseTypedAddr "ipv6:1.2.3.4" =
      ([0, 0, 0, 0, 0, 0, 0, 0, 0, 0, 255, 255, 1, 2, 3, 4], none) ∧
    net.IP.String (ParseTypedAddr "ipv6:1.2.3.4").1 = "1.2.3.4" ∧
    ParseTypedAddr "ipv4:a:b::" = ([], some ⟨"Invalid ipv4 address", "ipv4:a:b::"⟩) ∧
    ParseTypedAddr "ipv6:ABCDE::" = ([], some ⟨"Invalid IP address", "ipv6:ABCDE::"⟩) ∧
    ParseTypedAddr "ipv4:1.2.3" = ([], some ⟨"Invalid IP address", "ipv4:1.2.3"⟩) ∧
    ParseTypedAddr "ipv4:1.2.3.4" = ([1, 2, 3, 4], none) ∧
    ParseTypedAddr "1.2.3.4" = ([0, 0, 0, 0, 0, 0, 0, 0, 0, 0, 255, 255, 1, 2, 3, 4], none) ∧
    ParseTypedAddr "a:b::" = ([0, 10, 0, 11, 0, 0, 0, 0, 0, 0, 0, 0, 0, 0, 0, 0], none) ∧
    (∀ ip : net.IP, ip.length = 16 → net.To16 ip = some ip) := by
  refine ⟨by decide, by decide, by decide, by decide, by decide, by decide, by decide,
    by decide, ?_⟩
  intro ip h
  simp [net.To16, h, net.IPv4len, net.IPv6len]

end altomsgs

/-! ## The cost containers -/

namespace GoMap

variable {κ β : Type} [DecidableEq κ]

theorem get_of_mem_nodup (m : List (κ × β)) (k : κ) (v : β) (hnd : (keys m).Nodup)
    (h : (k, v) ∈ m) : get m k = some v := by
  induction m with
  | nil => cases h
  | cons e rest ih =>
    obtain ⟨k', v'⟩ := e
    simp only [keys, List.map_cons, List.nodup_cons] at hnd
    rcases List.mem_cons.mp h with heq | hmem
    · cases heq
      simp [get]
    · have hne : k' ≠ k := by
        rintro rfl
        exact hnd.1 (List.mem_map.mpr ⟨(k', v), hmem, rfl⟩)
      simp only [get, hne, if_false]
      exact ih hnd.2 hmem

end GoMap

namespace altomsgs

/-- C27: `EndpointCost.Normalize` is idempotent. For every EndpointCost, the
second of two calls of `Normalize()` with no `SetCost` between them returns an
empty error list and leaves the receiver (cost matrix, cost type and
normalized flag) as the first call left it; the flag is set after the first
call. -/
theorem C27_Normalize_idempotent (e : EndpointCost) :
    e.Normalize.1.Normalize = (e.Normalize.1, []) ∧
    e.Normalize.1.normalized = true ∧
    e.Normalize.1.Normalize.1.costs = e.Normalize.1.costs ∧
    e.Normalize.1.Normalize.1.costType = e.Normalize.1.costType ∧
    e.Normalize.1.Normalize.1.normalized = e.Normalize.1.normalized := by
  have hn : e.Normalize.1.normalized = true := by
    unfold EndpointCost.Normalize
    cases h : e.normalized <;> simp [h]
  have h2 : e.Normalize.1.Normalize = (e.Normalize.1, []) := by
    generalize e.Normalize.1 = e1 at hn ⊢
    unfold EndpointCost.Normalize
    simp [hn]
  exact ⟨h2, hn, by rw [h2], by rw [h2], by rw [h2]⟩

/-- C29: set and get on the cost container. For every CostMap (the zero value,
whose matrix is the nil map, included) and every src, dst and cost: after
`SetCost(src, dst, cost)`, `GetCost(src, dst)` is `(cost, true)` and `GetCost`
of every other pair is what it was; on `NewCostMap()` and on the zero value
`GetCost` is `(0, false)` for every pair. -/
theorem C29_SetCost_GetCost (m : CostMap) (src dst : String) (cost : Cost) :
    (m.SetCost src dst cost).GetCost src dst = (cost, true) ∧
    (∀ s d, (s, d) ≠ (src, dst) → (m.SetCost src dst cost).GetCost s d = m.GetCost s d) ∧
    (∀ s d, NewCostMap.GetCost s d = (0, false)) ∧
    (∀ (costType : CostType) (depVTags : List VTag) (s d : String),
      (CostMap.mk costType depVTags []).GetCost s d = (0, false)) ∧
    (∀ (costType : CostType) (depVTags : List VTag),
      ((CostMap.mk costType depVTags []).SetCost src dst cost).costs = [(src, [(dst, cost)])]) := by
  refine ⟨?_, ?_, fun _ _ => rfl, fun _ _ _ _ => rfl, fun _ _ => rfl⟩
  · simp [CostMap.GetCost, CostMap.SetCost, GoMap.get_set_self]
  · intro s d hne
    unfold CostMap.GetCost CostMap.SetCost
    simp only
    by_cases hs : src = s
    · subst hs
      have hd : dst ≠ d := by
        rintro rfl
        exact hne rfl
      rw [GoMap.get_set_self]
      simp only [GoMap.get_set_ne _ _ _ _ hd]
      cases hg : GoMap.get m.costs src with
      | none => simp [GoMap.get]
      | some row => simp
    · rw [GoMap.get_set_ne _ _ _ _ hs]

/-- What a loop with a recording visitor does: the answer and the state are
those of the plain visitor, and the calls recorded are a prefix of the list;
the whole list, each answered true, when the loop returns true, and
otherwise ending with the one call answered false. -/
theorem iterList_logCalls {α σ : Type} (f : α → σ → Bool × σ) (l : List α) :
    ∀ (s : σ) (log0 : List (α × Bool)),
      (iterList (logCalls f) l (s, log0)).1 = (iterList f l s).1 ∧
      (iterList (logCalls f) l (s, log0)).2.1 = (iterList f l s).2 ∧
      ∃ called : List (α × Bool),
        (iterList (logCalls f) l (s, log0)).2.2 = log0 ++ called ∧
        called.map Prod.fst <+: l ∧
        ((iterList f l s).1 = true →
          called.map Prod.fst = l ∧ ∀ c ∈ called, c.2 = true) ∧
        ((iterList f l s).1 = false →
          ∃ pre p, called = pre ++ [(p, false)] ∧ ∀ c ∈ pre, c.2 = true) := by
  induction l with
  | nil =>
    intro s log0
    exact ⟨rfl, rfl, [], by simp [iterList], by simp, by simp [iterList], by simp [iterList]⟩
  | cons x rest ih =>
    intro s log0
    cases hx : (f x s).1 with
    | true =>
      obtain ⟨h1, h2, called, h3, h4, h5, h6⟩ := ih (f x s).2 (log0 ++ [(x, true)])
      have e1 : iterList (logCalls f) (x :: rest) (s, log0) =
          iterList (logCalls f) rest ((f x s).2, log0 ++ [(x, true)]) := by
        simp [iterList, logCalls, hx]
      have e2 : iterList f (x :: rest) s = iterList f rest (f x s).2 := by
        simp [iterList, hx]
      rw [e1, e2]
      refine ⟨h1, h2, (x, true) :: called, by rw [h3]; simp, ?_, ?_, ?_⟩
      · simpa using h4
      · intro ht
        obtain ⟨ha, hb⟩ := h5 ht
        refine ⟨by simp [ha], ?_⟩
        intro c hc
        rcases List.mem_cons.mp hc with rfl | hc
        · rfl
        · exact hb c hc
      · intro hf
        obtain ⟨pre, p, ha, hb⟩ := h6 hf
        refine ⟨(x, true) :: pre, p, by rw [ha]; rfl, ?_⟩
        intro c hc
        rcases List.mem_cons.mp hc with rfl | hc
        · rfl
        · exact hb c hc
    | false =>
      have e1 : iterList (logCalls f) (x :: rest) (s, log0) =
          (false, ((f x s).2, log0 ++ [(x, false)])) := by
        simp [iterList, logCalls, hx]
      have e2 : iterList f (x :: rest) s = (false, (f x s).2) := by
        simp [iterList, hx]
      rw [e1, e2]
      refine ⟨rfl, rfl, [(x, false)], rfl, ?_, by simp, ?_⟩
      · simp
      · intro _
        exact ⟨[], x, rfl, by simp⟩

namespace CostMap

/-- `CostIter` is one loop over the cost points. -/
theorem CostIter_eq {σ : Type} (m : CostMap) (f : String → String → Cost → σ → Bool × σ)
    (s : σ) :
    m.CostIter f s = iterList (fun (p : String × String × Cost) st => f p.1 p.2.1 p.2.2 st)
      (points m.costs) s := by
  unfold CostIter points
  rw [← iterList_flatMap]
  congr 1
  funext e st
  induction e.2 generalizing st with
  | nil => rfl
  | cons d rest ih =>
    simp only [List.map_cons, iterList]
    split
    · exact ih _
    · rfl

/-- The cost points of a well-formed matrix are what `GetCost` finds. -/
theorem mem_points_iff (m : CostMap) (h : WF m.costs) (src dst : String) (cost : Cost) :
    (src, dst, cost) ∈ points m.costs ↔ m.GetCost src dst = (cost, true) := by
  unfold points GetCost
  simp only [List.mem_flatMap, List.mem_map, Prod.mk.injEq]
  constructor
  · rintro ⟨e, he, d, hd, h1, h2, h3⟩
    obtain ⟨k, row⟩ := e
    obtain ⟨k2, c⟩ := d
    simp only at h1 h2 h3 hd
    subst h1 h2 h3
    rw [GoMap.get_of_mem_nodup _ _ _ h.1 he]
    simp only
    rw [GoMap.get_of_mem_nodup _ _ _ (h.2 _ he).2 hd]
  · intro hg
    cases h1 : GoMap.get m.costs src with
    | none => simp [h1] at hg
    | some row =>
      rw [h1] at hg
      simp only at hg
      cases h2 : GoMap.get row dst with
      | none => simp [h2] at hg
      | some c =>
        rw [h2] at hg
        simp only [Prod.mk.injEq, and_true] at hg
        subst hg
        exact ⟨(src, row), GoMap.get_mem _ _ _ h1, (dst, c), GoMap.get_mem _ _ _ h2,
          rfl, rfl, rfl⟩

/-- No cost point of a well-formed matrix is listed twice. -/
theorem points_nodup (costs : List (String × List (String × Cost))) (h : WF costs) :
    (points costs).Nodup := by
  obtain ⟨hnd, hrows⟩ := h
  induction costs with
  | nil => simp [points]
  | cons e rest ih =>
    simp only [GoMap.keys, List.map_cons, List.nodup_cons] at hnd
    have hrest := ih hnd.2 (fun x hx => hrows x (List.mem_cons_of_mem _ hx))
    unfold points at hrest ⊢
    rw [List.flatMap_cons, List.nodup_append]
    refine ⟨?_, hrest, ?_⟩
    · have hk := (hrows e (List.mem_cons_self _ _)).2
      unfold GoMap.keys at hk
      have hinj : (e.2.map (fun d => (e.1, d.1, d.2))).map (fun p => p.2.1) =
          e.2.map Prod.fst := by
        simp [List.map_map, Function.comp_def]
      exact List.Nodup.of_map (fun p => p.2.1) (by rw [hinj]; exact hk)
    · intro p hp1 hp2
      simp only [List.mem_map] at hp1
      obtain ⟨d, _, rfl⟩ := hp1
      simp only [List.mem_flatMap, List.mem_map] at hp2
      obtain ⟨e2, he2, d2, _, heq⟩ := hp2
      simp only [Prod.mk.injEq] at heq
      apply hnd.1
      rw [← heq.1]
      exact List.mem_map.mpr ⟨e2, he2, rfl⟩

end CostMap

/-- C30: traversal with early termination. For every CostMap built by its
setters, every visitor and every state the visitor starts in, let the visitor
record its calls. The run with the recording visitor answers and leaves the
state as the run with the plain one. `CostIter` calls the visitor on stored
cost points only (those `GetCost` finds), in one pass over a list without
repetition, so on each at most once: the calls are a prefix of that list. If
every call answers true, the calls are the whole list and `CostIter` returns
true; if `CostIter` returns false, the last call is the one that answered
false, and all before it answered true. The same holds for `SrcIter` and the
list of the sources with their inner maps. -/
theorem C30_iterators_early_termination (ops : List CostMapOp) {σ : Type}
    (f : String → String → Cost → σ → Bool × σ)
    (fs : String → List (String × Cost) → σ → Bool × σ) (s : σ) :
    let m := CostMap.build ops
    let pts := CostMap.points m.costs
    let run := m.CostIter
      (fun src dst cost => logCalls (fun p => f p.1 p.2.1 p.2.2) (src, dst, cost)) (s, [])
    let runS := m.SrcIter (fun src row => logCalls (fun e => fs e.1 e.2) (src, row)) (s, [])
    ((∀ src dst cost, (src, dst, cost) ∈ pts ↔ m.GetCost src dst = (cost, true)) ∧
      pts.Nodup ∧
      run.1 = (m.CostIter f s).1 ∧ run.2.1 = (m.CostIter f s).2 ∧
      run.2.2.map Prod.fst <+: pts ∧
      ((∀ c ∈ run.2.2, c.2 = true) → run.1 = true ∧ run.2.2.map Prod.fst = pts) ∧
      (run.1 = true → run.2.2.map Prod.fst = pts ∧ ∀ c ∈ run.2.2, c.2 = true) ∧
      (run.1 = false → ∃ pre p, run.2.2 = pre ++ [(p, false)] ∧ ∀ c ∈ pre, c.2 = true)) ∧
    ((∀ src row, (src, row) ∈ m.costs ↔ GoMap.get m.costs src = some row) ∧
      (GoMap.keys m.costs).Nodup ∧
      runS.1 = (m.SrcIter fs s).1 ∧ runS.2.1 = (m.SrcIter fs s).2 ∧
      runS.2.2.map Prod.fst <+: m.costs ∧
      ((∀ c ∈ runS.2.2, c.2 = true) → runS.1 = true ∧ runS.2.2.map Prod.fst = m.costs) ∧
      (runS.1 = true → runS.2.2.map Prod.fst = m.costs ∧ ∀ c ∈ runS.2.2, c.2 = true) ∧
      (runS.1 = false → ∃ pre p, runS.2.2 = pre ++ [(p, false)] ∧ ∀ c ∈ pre, c.2 = true)) := by
  intro m pts run runS
  have hwf : CostMap.WF m.costs := CostMap.WF_build ops
  have key : ∀ {α : Type} (g : α → σ → Bool × σ) (l : List α),
      (iterList (logCalls g) l (s, [])).1 = (iterList g l s).1 ∧
      (iterList (logCalls g) l (s, [])).2.1 = (iterList g l s).2 ∧
      (iterList (logCalls g) l (s, [])).2.2.map Prod.fst <+: l ∧
      ((∀ c ∈ (iterList (logCalls g) l (s, [])).2.2, c.2 = true) →
        (iterList (logCalls g) l (s, [])).1 = true ∧
        (iterList (logCalls g) l (s, [])).2.2.map Prod.fst = l) ∧
      ((iterList (logCalls g) l (s, [])).1 = true →
        (iterList (logCalls g) l (s, [])).2.2.map Prod.fst = l ∧
        ∀ c ∈ (iterList (logCalls g) l (s, [])).2.2, c.2 = true) ∧
      ((iterList (logCalls g) l (s, [])).1 = false →
        ∃ (pre : List (α × Bool)) (p : α),
          (iterList (logCalls g) l (s, [])).2.2 = pre ++ [(p, false)] ∧
          ∀ c ∈ pre, c.2 = true) := by
    intro α g l
    obtain ⟨h1, h2, called, h3, h4, h5, h6⟩ := iterList_logCalls g l s []
    rw [List.nil_append] at h3
    rw [h1, h3]
    refine ⟨rfl, h2, h4, ?_, h5, h6⟩
    intro hall
    cases hr : (iterList g l s).1 with
    | true => exact ⟨rfl, (h5 hr).1⟩
    | false =>
      obtain ⟨pre, p, hc, _⟩ := h6 hr
      have := hall (p, false) (by rw [hc]; simp)
      cases this
  refine ⟨⟨CostMap.mem_points_iff m hwf, CostMap.points_nodup _ hwf, ?_⟩, ⟨?_, hwf.1, ?_⟩⟩
  · have hrun : run = iterList (logCalls (fun (p : String × String × Cost) => f p.1 p.2.1 p.2.2))
        pts (s, []) := CostMap.CostIter_eq m _ _
    rw [hrun, CostMap.CostIter_eq m f s]
    exact key _ _
  · intro src row
    exact ⟨GoMap.get_of_mem_nodup _ _ _ hwf.1, GoMap.get_mem _ _ _⟩
  · exact key (fun (e : String × List (String × Cost)) => fs e.1 e.2) m.costs

end altomsgs

/-! ## The text of an address parses back to the address -/

namespace net

theorem parseIPv4Loop_bound (s : List Char) : ∀ (val digLen : Nat) (fields : List Nat)
    (prev : Option Char) (r : Nat × List Nat),
    parseIPv4Loop s val digLen fields prev = some r → val ≤ 255 → (∀ b ∈ fields, b ≤ 255) →
    r.1 ≤ 255 ∧ ∀ b ∈ r.2, b ≤ 255 := by
  induction s with
  | nil =>
    intro val digLen fields prev r h hv hf
    simp only [parseIPv4Loop, Option.some.injEq] at h
    subst h; exact ⟨hv, hf⟩
  | cons c rest ih =>
    intro val digLen fields prev r h hv hf
    rw [parseIPv4Loop] at h
    split at h
    · split at h
      · exact absurd h (by simp)
      · simp only at h
        split at h
        · exact absurd h (by simp)
        · rename_i hle
          exact ih _ _ _ _ _ h (by omega) hf
    · split at h
      · split at h
        · exact absurd h (by simp)
        · split at h
          · exact absurd h (by simp)
          · refine ih _ _ _ _ _ h (by omega) ?_
            intro b hb
            rcases List.mem_append.mp hb with hb | hb
            · exact hf b hb
            · simp only [List.mem_singleton] at hb
              omega
      · exact absurd h (by simp)

theorem parseIPv4Fields_bound (s : List Char) (b : List Nat)
    (h : parseIPv4Fields s = some b) : ∀ x ∈ b, x < 256 := by
  unfold parseIPv4Fields at h
  split at h
  · exact absurd h (by simp)
  · rename_i val fields heq
    have hb := parseIPv4Loop_bound s 0 0 [] none (val, fields) heq (by omega) (by simp)
    split at h
    · exact absurd h (by simp)
    · simp only [Option.some.injEq] at h
      subst h
      intro x hx
      rcases List.mem_append.mp hx with hx | hx
      · have := hb.2 x hx
        omega
      · simp only [List.mem_singleton] at hx
        have := hb.1
        simp only at this
        omega

theorem scanHex_bound (s : List Char) : ∀ (acc off : Nat) (r : Nat × Nat × List Char),
    scanHex s acc off = some r → acc ≤ 0xffff → r.1 ≤ 0xffff := by
  induction s with
  | nil =>
    intro acc off r h ha
    simp only [scanHex, Option.some.injEq] at h
    subst h; exact ha
  | cons c rest ih =>
    intro acc off r h ha
    rw [scanHex] at h
    split at h
    · simp only [Option.some.injEq] at h
      subst h; exact ha
    · simp only at h
      split at h
      · exact absurd h (by simp)
      · split at h
        · exact absurd h (by simp)
        · exact ih _ _ _ h (by omega)

theorem parseIPv6Loop_bound (fuel : Nat) : ∀ (s : List Char) (ip : List Nat) (e : Option Nat)
    (r : List Char × List Nat × Option Nat),
    parseIPv6Loop fuel s ip e = some r → (∀ b ∈ ip, b < 256) → ∀ b ∈ r.2.1, b < 256 := by
  induction fuel with
  | zero =>
    intro s ip e r h hb
    simp only [parseIPv6Loop, Option.some.injEq] at h
    subst h; exact hb
  | succ fuel ih =>
    intro s ip e r h hb
    rw [parseIPv6Loop] at h
    split at h
    · simp only [Option.some.injEq] at h
      subst h; exact hb
    · split at h
      · exact absurd h (by simp)
      · rename_i acc off rest hscan
        have hacc := scanHex_bound s 0 0 _ hscan (by omega)
        simp only at hacc
        have hb1 : ∀ b ∈ ip ++ [acc / 256, acc % 256], b < 256 := by
          intro b hm
          rcases List.mem_append.mp hm with hm | hm
          · exact hb b hm
          · simp only [List.mem_cons, List.mem_singleton, List.not_mem_nil, or_false] at hm
            rcases hm with rfl | rfl <;> omega
        split at h
        · exact absurd h (by simp)
        · split at h
          · split at h
            · exact absurd h (by simp)
            · split at h
              · exact absurd h (by simp)
              · split at h
                · exact absurd h (by simp)
                · rename_i b4 hb4
                  simp only [Option.some.injEq] at h
                  subst h
                  intro b hm
                  rcases List.mem_append.mp hm with hm | hm
                  · exact hb b hm
                  · exact parseIPv4Fields_bound _ _ hb4 b hm
          · simp only at h
            split at h
            · simp only [Option.some.injEq] at h
              subst h; exact hb1
            · split at h
              · exact absurd h (by simp)
              · split at h
                · exact absurd h (by simp)
                · split at h
                  · split at h
                    · exact absurd h (by simp)
                    · split at h
                      · simp only [Option.some.injEq] at h
                        subst h; exact hb1
                      · exact ih _ _ _ _ h hb1
                  · exact ih _ _ _ _ h hb1

theorem parseIPv6_bound (s : List Char) (b : List Nat) (h : parseIPv6 s = some b) :
    ∀ x ∈ b, x < 256 := by
  unfold parseIPv6 at h
  split at h
  · exact absurd h (by simp)
  · simp only at h
    split at h
    · exact absurd h (by simp)
    · rename_i s1 e0 hstart
      split at h
      · simp only [Option.some.injEq] at h
        subst h
        intro x hx
        rw [List.mem_replicate] at hx
        omega
      · split at h
        · exact absurd h (by simp)
        · rename_i rest ip e hloop
          have hb := parseIPv6Loop_bound 8 s1 [] e0 (rest, ip, e) hloop (by simp)
          simp only at hb
          split at h
          · exact absurd h (by simp)
          · split at h
            · split at h
              · exact absurd h (by simp)
              · rename_i pos
                simp only [Option.some.injEq] at h
                subst h
                intro x hx
                simp only [List.mem_append, List.mem_replicate] at hx
                rcases hx with (hx | hx) | hx
                · exact hb x (List.mem_of_mem_take hx)
                · omega
                · exact hb x (List.mem_of_mem_drop hx)
            · split at h
              · exact absurd h (by simp)
              · simp only [Option.some.injEq] at h
                subst h
                exact hb

theorem ParseIP_bound (s : String) (ip : IP) (h : ParseIP s = some ip) :
    ip.length = 16 ∧ ∀ x ∈ ip, x < 256 := by
  unfold ParseIP at h
  simp only [Option.map_eq_some'] at h
  obtain ⟨a, ha, rfl⟩ := h
  have hlen := parseAddr_length _ _ ha
  unfold parseAddr at ha
  unfold as16
  split at ha
  · simp only [Option.map_eq_some'] at ha
    obtain ⟨b, hb, rfl⟩ := ha
    have h4 := parseIPv4Fields_length _ _ hb
    refine ⟨by simp [v4InV6Prefix, h4], ?_⟩
    intro x hx
    simp only [if_true, List.mem_append] at hx
    rcases hx with hx | hx
    · simp only [v4InV6Prefix, List.mem_cons, List.mem_singleton, List.not_mem_nil,
        or_false] at hx
      omega
    · exact parseIPv4Fields_bound _ _ hb x hx
  · simp only [Option.map_eq_some'] at ha
    obtain ⟨b, hb, rfl⟩ := ha
    simp only [Bool.false_eq_true, if_false]
    exact ⟨parseIPv6_length _ _ hb, parseIPv6_bound _ _ hb⟩
  · exact absurd ha (by simp)

end net

namespace net

theorem hexVal_hexDigit : ∀ d, d < 16 → hexVal (hexDigit d) = some d := by decide

theorem hexDigit_ne : ∀ d, d < 16 →
    hexDigit d ≠ ':' ∧ hexDigit d ≠ '.' ∧ hexDigit d ≠ '%' := by decide

theorem scanHex_digit (d : Nat) (hd : d < 16) (rest : List Char) (acc off : Nat)
    (hoff : off ≤ 3) (hacc : acc * 16 + d ≤ 0xffff) :
    scanHex (hexDigit d :: rest) acc off = scanHex rest (acc * 16 + d) (off + 1) := by
  rw [scanHex, hexVal_hexDigit d hd]
  simp only
  rw [if_neg (by omega), if_neg (by omega)]

theorem scanHex_stop (rest : List Char) (acc off : Nat)
    (h : rest = [] ∨ ∃ t, rest = ':' :: t) : scanHex rest acc off = some (acc, off, rest) := by
  rcases h with rfl | ⟨t, rfl⟩
  · rfl
  · rw [scanHex]
    have : hexVal ':' = none := by decide
    rw [this]

theorem appendHex_cases (x : Nat) (hx : x < 65536) :
    (x < 16 ∧ appendHex x = [hexDigit x]) ∨
    (16 ≤ x ∧ x < 256 ∧ appendHex x = [hexDigit (x / 16), hexDigit (x % 16)]) ∨
    (256 ≤ x ∧ x < 4096 ∧
      appendHex x = [hexDigit (x / 256), hexDigit (x / 16 % 16), hexDigit (x % 16)]) ∨
    (4096 ≤ x ∧ appendHex x =
      [hexDigit (x / 4096), hexDigit (x / 256 % 16), hexDigit (x / 16 % 16), hexDigit (x % 16)]) := by
  unfold appendHex
  by_cases h1 : x < 16
  · left
    refine ⟨h1, ?_⟩
    rw [if_neg (by omega), if_neg (by omega), if_neg (by omega)]
    have : x % 16 = x := by omega
    simp [this]
  · by_cases h2 : x < 256
    · right; left
      refine ⟨by omega, h2, ?_⟩
      rw [if_neg (by omega), if_neg (by omega), if_pos (by omega)]
      have : x / 16 % 16 = x / 16 := by omega
      simp [this]
    · by_cases h3 : x < 4096
      · right; right; left
        refine ⟨by omega, h3, ?_⟩
        rw [if_neg (by omega), if_pos (by omega), if_pos (by omega)]
        have : x / 256 % 16 = x / 256 := by omega
        simp [this]
      · right; right; right
        refine ⟨by omega, ?_⟩
        rw [if_pos (by omega), if_pos (by omega), if_pos (by omega)]
        simp

theorem scanHex_appendHex (x : Nat) (hx : x < 65536) (rest : List Char)
    (h : rest = [] ∨ ∃ t, rest = ':' :: t) :
    ∃ k, 0 < k ∧ scanHex (appendHex x ++ rest) 0 0 = some (x, k, rest) := by
  rcases appendHex_cases x hx with ⟨h1, he⟩ | ⟨h1, h2, he⟩ | ⟨h1, h2, he⟩ | ⟨h1, he⟩
  · refine ⟨1, by omega, ?_⟩
    rw [he, List.singleton_append, scanHex_digit _ (by omega) _ _ _ (by omega) (by omega),
      scanHex_stop _ _ _ h]
    simp
  · refine ⟨2, by omega, ?_⟩
    rw [he]
    simp only [List.cons_append, List.nil_append]
    rw [scanHex_digit _ (by omega) _ _ _ (by omega) (by omega),
      scanHex_digit _ (by omega) _ _ _ (by omega) (by omega), scanHex_stop _ _ _ h]
    simp only [Option.some.injEq, Prod.mk.injEq, and_true]
    omega
  · refine ⟨3, by omega, ?_⟩
    rw [he]
    simp only [List.cons_append, List.nil_append]
    rw [scanHex_digit _ (by omega) _ _ _ (by omega) (by omega),
      scanHex_digit _ (by omega) _ _ _ (by omega) (by omega),
      scanHex_digit _ (by omega) _ _ _ (by omega) (by omega), scanHex_stop _ _ _ h]
    simp only [Option.some.injEq, Prod.mk.injEq, and_true]
    omega
  · refine ⟨4, by omega, ?_⟩
    rw [he]
    simp only [List.cons_append, List.nil_append]
    rw [scanHex_digit _ (by omega) _ _ _ (by omega) (by omega),
      scanHex_digit _ (by omega) _ _ _ (by omega) (by omega),
      scanHex_digit _ (by omega) _ _ _ (by omega) (by omega),
      scanHex_digit _ (by omega) _ _ _ (by omega) (by omega), scanHex_stop _ _ _ h]
    simp only [Option.some.injEq, Prod.mk.injEq, and_true]
    omega

theorem appendHex_head (x : Nat) (hx : x < 65536) :
    ∃ d tl, d < 16 ∧ appendHex x = hexDigit d :: tl := by
  rcases appendHex_cases x hx with ⟨h1, he⟩ | ⟨h1, h2, he⟩ | ⟨h1, h2, he⟩ | ⟨h1, he⟩
  · exact ⟨_, _, h1, he⟩
  · exact ⟨_, _, by omega, he⟩
  · exact ⟨_, _, by omega, he⟩
  · exact ⟨_, _, by omega, he⟩

theorem appendHex_chars (x : Nat) (hx : x < 65536) :
    ∀ c ∈ appendHex x, ∃ d, d < 16 ∧ c = hexDigit d := by
  intro c hc
  rcases appendHex_cases x hx with ⟨h1, he⟩ | ⟨h1, h2, he⟩ | ⟨h1, h2, he⟩ | ⟨h1, he⟩ <;>
    rw [he] at hc <;>
    simp only [List.mem_cons, List.mem_singleton, List.not_mem_nil, or_false] at hc
  · exact ⟨_, h1, hc⟩
  · rcases hc with rfl | rfl
    · exact ⟨_, by omega, rfl⟩
    · exact ⟨_, by omega, rfl⟩
  · rcases hc with rfl | rfl | rfl
    · exact ⟨_, by omega, rfl⟩
    · exact ⟨_, by omega, rfl⟩
    · exact ⟨_, by omega, rfl⟩
  · rcases hc with rfl | rfl | rfl | rfl
    · exact ⟨_, by omega, rfl⟩
    · exact ⟨_, by omega, rfl⟩
    · exact ⟨_, by omega, rfl⟩
    · exact ⟨_, by omega, rfl⟩

theorem joinHex_head (gs : List Nat) (hne : gs ≠ []) (hg : ∀ x ∈ gs, x < 65536) :
    ∃ d tl, d < 16 ∧ joinHex gs = hexDigit d :: tl := by
  match gs, hne with
  | [x], _ =>
    obtain ⟨d, tl, hd, he⟩ := appendHex_head x (hg x (by simp))
    exact ⟨d, tl, hd, by rw [joinHex, he]⟩
  | x :: y :: rest, _ =>
    obtain ⟨d, tl, hd, he⟩ := appendHex_head x (hg x (by simp))
    exact ⟨d, tl ++ ':' :: joinHex (y :: rest), hd, by rw [joinHex, he]; rfl⟩

/-- One round of the loop of `parseIPv6` at the last group of the text. -/
theorem parseIPv6Loop_last (fuel x : Nat) (hx : x < 65536) (ip : List Nat) (e : Option Nat)
    (hip : ip.length < 16) :
    parseIPv6Loop (fuel + 1) (appendHex x) ip e = some ([], ip ++ [x / 256, x % 256], e) := by
  obtain ⟨k, hk, hscan⟩ := scanHex_appendHex x hx [] (.inl rfl)
  rw [List.append_nil] at hscan
  rw [parseIPv6Loop, if_neg (by omega), hscan]
  simp only
  rw [if_neg (by omega)]
  simp

/-- One round of the loop at a group followed by a colon and a further group. -/
theorem parseIPv6Loop_colon (fuel x : Nat) (hx : x < 65536) (ip : List Nat) (e : Option Nat)
    (hip : ip.length < 16) (d : Nat) (hd : d < 16) (tl : List Char) :
    parseIPv6Loop (fuel + 1) (appendHex x ++ ':' :: hexDigit d :: tl) ip e =
      parseIPv6Loop fuel (hexDigit d :: tl) (ip ++ [x / 256, x % 256]) e := by
  obtain ⟨k, hk, hscan⟩ := scanHex_appendHex x hx (':' :: hexDigit d :: tl) (.inr ⟨_, rfl⟩)
  rw [parseIPv6Loop, if_neg (by omega), hscan]
  simp only
  rw [if_neg (by omega)]
  have hne := (hexDigit_ne d hd).1
  simp [hne]

/-- One round of the loop at a group followed by "::". -/
theorem parseIPv6Loop_ellipsis (fuel x : Nat) (hx : x < 65536) (ip : List Nat)
    (hip : ip.length < 16) (rest2 : List Char) :
    parseIPv6Loop (fuel + 1) (appendHex x ++ ':' :: ':' :: rest2) ip none =
      if rest2 = [] then some ([], ip ++ [x / 256, x % 256], some (ip.length + 2))
      else parseIPv6Loop fuel rest2 (ip ++ [x / 256, x % 256]) (some (ip.length + 2)) := by
  obtain ⟨k, hk, hscan⟩ := scanHex_appendHex x hx (':' :: ':' :: rest2) (.inr ⟨_, rfl⟩)
  rw [parseIPv6Loop, if_neg (by omega), hscan]
  simp only
  rw [if_neg (by omega)]
  simp

theorem groupBytes_cons (x : Nat) (gs : List Nat) :
    groupBytes (x :: gs) = x / 256 :: x % 256 :: groupBytes gs := by
  simp [groupBytes]

theorem groupBytes_nil : groupBytes [] = [] := rfl

theorem groupBytes_length (gs : List Nat) : (groupBytes gs).length = 2 * gs.length := by
  induction gs with
  | nil => rfl
  | cons x rest ih => rw [groupBytes_cons]; simp [ih]; omega

theorem groupBytes_append (a b : List Nat) :
    groupBytes (a ++ b) = groupBytes a ++ groupBytes b := by
  simp [groupBytes]

/-- The loop of `parseIPv6` on groups separated by single colons. -/
theorem parseIPv6Loop_joinHex (gs : List Nat) : ∀ (fuel : Nat) (ip : List Nat) (e : Option Nat),
    gs ≠ [] → (∀ x ∈ gs, x < 65536) → gs.length ≤ fuel → ip.length + 2 * gs.length ≤ 16 →
    parseIPv6Loop fuel (joinHex gs) ip e = some ([], ip ++ groupBytes gs, e) := by
  induction gs with
  | nil => intro _ _ _ h; exact absurd rfl h
  | cons x rest ih =>
    intro fuel ip e _ hg hfuel hlen
    simp only [List.length_cons] at hfuel hlen
    obtain ⟨fuel, rfl⟩ : ∃ f, fuel = f + 1 := ⟨fuel - 1, by omega⟩
    have hx := hg x (by simp)
    cases rest with
    | nil =>
      rw [joinHex, parseIPv6Loop_last fuel x hx ip e (by omega), groupBytes_cons]
      rfl
    | cons y rest2 =>
      have hg2 : ∀ z ∈ y :: rest2, z < 65536 := fun z hz => hg z (List.mem_cons_of_mem _ hz)
      obtain ⟨d, tl, hd, he⟩ := joinHex_head (y :: rest2) (by simp) hg2
      rw [joinHex, he, parseIPv6Loop_colon fuel x hx ip e (by omega) d hd tl, ← he,
        ih fuel _ e (by simp) hg2 (by simp only [List.length_cons] at hfuel ⊢; omega)
          (by simp only [List.length_append, List.length_cons, List.length_nil] at hlen ⊢
              omega),
        groupBytes_cons x]
      simp

/-- The loop of `parseIPv6` on groups, "::", and further groups. -/
theorem parseIPv6Loop_joinHex_ellipsis (pre : List Nat) (post : List Nat) :
    ∀ (fuel : Nat) (ip : List Nat),
    pre ≠ [] → (∀ x ∈ pre, x < 65536) → (∀ x ∈ post, x < 65536) →
    pre.length + post.length ≤ fuel → ip.length + 2 * (pre.length + post.length) ≤ 16 →
    parseIPv6Loop fuel (joinHex pre ++ ':' :: ':' :: joinHex post) ip none =
      some ([], ip ++ groupBytes pre ++ groupBytes post, some (ip.length + 2 * pre.length)) := by
  induction pre with
  | nil => intro _ _ h; exact absurd rfl h
  | cons x rest ih =>
    intro fuel ip _ hg hg' hfuel hlen
    simp only [List.length_cons] at hfuel hlen
    obtain ⟨fuel, rfl⟩ : ∃ f, fuel = f + 1 := ⟨fuel - 1, by omega⟩
    have hx := hg x (by simp)
    cases rest with
    | nil =>
      rw [joinHex, parseIPv6Loop_ellipsis fuel x hx ip (by omega)]
      simp only [List.length_nil, Nat.zero_add] at hfuel hlen
      cases post with
      | nil => simp [joinHex, groupBytes]
      | cons p post2 =>
        have hne : joinHex (p :: post2) ≠ [] := by
          obtain ⟨d, tl, _, he⟩ := joinHex_head (p :: post2) (by simp) hg'
          rw [he]; simp
        rw [if_neg hne, parseIPv6Loop_joinHex (p :: post2) fuel _ _ (by simp) hg' (by omega)
          (by simp only [List.length_append, List.length_cons, List.length_nil] at hlen ⊢
              omega)]
        simp [groupBytes_cons, groupBytes_nil]
    | cons y rest2 =>
      have hg2 : ∀ z ∈ y :: rest2, z < 65536 := fun z hz => hg z (List.mem_cons_of_mem _ hz)
      obtain ⟨d, tl, hd, he⟩ := joinHex_head (y :: rest2) (by simp) hg2
      have hstep := ih fuel (ip ++ [x / 256, x % 256]) (by simp) hg2 hg'
        (by simp only [List.length_cons] at hfuel ⊢; omega)
        (by simp only [List.length_append, List.length_cons, List.length_nil] at hlen ⊢
            omega)
      rw [joinHex, List.append_assoc, List.cons_append, he, List.cons_append,
        parseIPv6Loop_colon fuel x hx ip none (by omega) d hd _, ← List.cons_append, ← he,
        hstep, groupBytes_cons x]
      simp only [List.length_append, List.length_cons, List.length_nil, List.append_assoc,
        List.cons_append, List.nil_append, Option.some.injEq, Prod.mk.injEq, true_and]
      omega

end net

namespace net

theorem printGroups_none (g : List Nat) (hg : g.length = 8) :
    printGroups g none 8 0 = joinHex g := by
  match g, hg with
  | [g0, g1, g2, g3, g4, g5, g6, g7], _ => simp [printGroups, joinHex]

theorem printGroups_some (g : List Nat) (hg : g.length = 8) (a b : Nat) (hab : a < b)
    (hb : b ≤ 8) :
    printGroups g (some (a, b)) 8 0 = joinHex (g.take a) ++ ':' :: ':' :: joinHex (g.drop b) := by
  match g, hg with
  | [g0, g1, g2, g3, g4, g5, g6, g7], _ =>
    interval_cases b <;> interval_cases a <;> simp [printGroups, joinHex]

end net

namespace net

theorem zeroRun_le (l : List Nat) : zeroRun l ≤ l.length := by
  induction l with
  | nil => simp [zeroRun]
  | cons x rest ih =>
    cases x with
    | zero => simp only [zeroRun, List.length_cons]; omega
    | succ n => simp [zeroRun]

theorem zeroRun_take (l : List Nat) : l.take (zeroRun l) = List.replicate (zeroRun l) 0 := by
  induction l with
  | nil => simp [zeroRun]
  | cons x rest ih =>
    cases x with
    | zero => simp only [zeroRun, List.take_succ_cons, ih, List.replicate_succ]
    | succ n => simp [zeroRun]

/-- What `findZeros` returns is the earlier best or a run of zero groups. -/
theorem findZeros_spec (l : List Nat) : ∀ (i : Nat) (best : Option (Nat × Nat)) (a b : Nat),
    findZeros l i best = some (a, b) →
    best = some (a, b) ∨
    ∃ k, k < l.length ∧ a = i + k ∧ b = a + zeroRun (l.drop k) ∧ 2 ≤ zeroRun (l.drop k) := by
  induction l with
  | nil =>
    intro i best a b h
    exact .inl h
  | cons g rest ih =>
    intro i best a b h
    simp only [findZeros] at h
    rcases ih _ _ a b h with h1 | ⟨k, hk, ha, hb, h2⟩
    · split at h1
      · rename_i hc
        simp only [Option.some.injEq, Prod.mk.injEq] at h1
        exact .inr ⟨0, by simp, by omega, by simp only [List.drop_zero]; omega,
          by simp only [List.drop_zero]; omega⟩
      · exact .inl h1
    · exact .inr ⟨k + 1, by simp only [List.length_cons]; omega, by omega,
        by simp only [List.drop_succ_cons]; omega, by simp only [List.drop_succ_cons]; omega⟩

/-- The groups split at the run `findZeros` returns. -/
theorem findZeros_split (g : List Nat) (a b : Nat) (h : findZeros g 0 none = some (a, b)) :
    a < b ∧ b ≤ g.length ∧
    g = g.take a ++ List.replicate (b - a) 0 ++ g.drop b := by
  rcases findZeros_spec g 0 none a b h with h1 | ⟨k, hk, ha, hb, h2⟩
  · cases h1
  · have hak : a = k := by omega
    subst hak
    have hle := zeroRun_le (g.drop a)
    rw [List.length_drop] at hle
    refine ⟨by omega, by omega, ?_⟩
    have hba : b - a = zeroRun (g.drop a) := by omega
    have hdrop : g.drop b = (g.drop a).drop (zeroRun (g.drop a)) := by
      rw [List.drop_drop]
      exact congrArg (fun n => g.drop n) (by omega)
    rw [hba, ← zeroRun_take, hdrop, List.append_assoc, List.take_append_drop,
      List.take_append_drop]

theorem groupBytes_replicate (n : Nat) :
    groupBytes (List.replicate n 0) = List.replicate (2 * n) 0 := by
  induction n with
  | zero => rfl
  | succ n ih =>
    rw [List.replicate_succ, groupBytes_cons, ih]
    have : 2 * (n + 1) = (2 * n + 1) + 1 := by omega
    rw [this, List.replicate_succ, List.replicate_succ]

theorem groupBytes_groups : ∀ (ip : List Nat), ip.length % 2 = 0 → (∀ x ∈ ip, x < 256) →
    groupBytes (groups ip) = ip
  | [], _, _ => rfl
  | [_], h, _ => by simp at h
  | hi :: lo :: rest, h, hb => by
    have hhi := hb hi (by simp)
    have hlo := hb lo (by simp)
    rw [groups, groupBytes_cons, groupBytes_groups rest
      (by simp only [List.length_cons] at h; omega)
      (fun x hx => hb x (List.mem_cons_of_mem _ (List.mem_cons_of_mem _ hx)))]
    have h1 : (hi * 256 + lo) / 256 = hi := by omega
    have h2 : (hi * 256 + lo) % 256 = lo := by omega
    rw [h1, h2]

theorem groups_length : ∀ (ip : List Nat), (groups ip).length = ip.length / 2
  | [] => rfl
  | [_] => by simp [groups]
  | hi :: lo :: rest => by
    rw [groups, List.length_cons, groups_length rest]
    simp only [List.length_cons]
    omega

theorem groups_bound : ∀ (ip : List Nat), (∀ x ∈ ip, x < 256) → ∀ y ∈ groups ip, y < 65536
  | [], _ => by simp [groups]
  | [_], _ => by simp [groups]
  | hi :: lo :: rest, hb => by
    intro y hy
    rw [groups] at hy
    rcases List.mem_cons.mp hy with rfl | hy
    · have hhi := hb hi (by simp)
      have hlo := hb lo (by simp)
      omega
    · exact groups_bound rest
        (fun x hx => hb x (List.mem_cons_of_mem _ (List.mem_cons_of_mem _ hx))) y hy

theorem joinHex_chars (gs : List Nat) (hg : ∀ x ∈ gs, x < 65536) :
    ∀ c ∈ joinHex gs, c = ':' ∨ ∃ d, d < 16 ∧ c = hexDigit d := by
  induction gs with
  | nil => intro c hc; simp [joinHex] at hc
  | cons x rest ih =>
    intro c hc
    cases rest with
    | nil =>
      rw [joinHex] at hc
      exact .inr (appendHex_chars x (hg x (by simp)) c hc)
    | cons y rest2 =>
      rw [joinHex] at hc
      rcases List.mem_append.mp hc with hc | hc
      · exact .inr (appendHex_chars x (hg x (by simp)) c hc)
      · rcases List.mem_cons.mp hc with rfl | hc
        · exact .inl rfl
        · exact ih (fun z hz => hg z (List.mem_cons_of_mem _ hz)) c hc

theorem colon_mem_joinHex (x y : Nat) (rest : List Nat) : ':' ∈ joinHex (x :: y :: rest) := by
  rw [joinHex]
  simp

theorem not_contains_percent (l : List Char)
    (hc : ∀ c ∈ l, c = ':' ∨ ∃ d, d < 16 ∧ c = hexDigit d) : l.contains '%' = false := by
  rw [Bool.eq_false_iff]
  intro hcon
  have hm : '%' ∈ l := List.mem_of_elem_eq_true hcon
  rcases hc _ hm with h | ⟨d2, hd2, h⟩
  · cases h
  · exact (hexDigit_ne d2 hd2).2.2 h.symm

/-- `parseIPv6` on a text of hex digits and colons that starts with a digit
and that the loop reads to the end: without "::" the loop has written the 16
bytes. -/
theorem parseIPv6_of_digit_full (d : Nat) (hd : d < 16) (tl : List Char)
    (hc : ∀ c ∈ tl, c = ':' ∨ ∃ d, d < 16 ∧ c = hexDigit d) (ip : List Nat)
    (hl : parseIPv6Loop 8 (hexDigit d :: tl) [] none = some ([], ip, none))
    (hlen : ip.length = 16) :
    parseIPv6 (hexDigit d :: tl) = some ip := by
  have hne := (hexDigit_ne d hd).1
  have hpc : (hexDigit d :: tl).contains '%' = false := by
    apply not_contains_percent
    intro c hm
    rcases List.mem_cons.mp hm with rfl | hm
    · exact .inr ⟨d, hd, rfl⟩
    · exact hc c hm
  unfold parseIPv6
  rw [hpc]
  simp [hne, hl, hlen]

/-- The same with "::" in the text: the bytes written are spread around the
position of the ellipsis. -/
theorem parseIPv6_of_digit_ellipsis (d : Nat) (hd : d < 16) (tl : List Char)
    (hc : ∀ c ∈ tl, c = ':' ∨ ∃ d, d < 16 ∧ c = hexDigit d) (ip : List Nat) (pos : Nat)
    (hl : parseIPv6Loop 8 (hexDigit d :: tl) [] none = some ([], ip, some pos))
    (hlen : ip.length < 16) :
    parseIPv6 (hexDigit d :: tl) =
      some (ip.take pos ++ List.replicate (16 - ip.length) 0 ++ ip.drop pos) := by
  have hne := (hexDigit_ne d hd).1
  have hpc : (hexDigit d :: tl).contains '%' = false := by
    apply not_contains_percent
    intro c hm
    rcases List.mem_cons.mp hm with rfl | hm
    · exact .inr ⟨d, hd, rfl⟩
    · exact hc c hm
  unfold parseIPv6
  rw [hpc]
  simp [hne, hl, hlen]

/-- `parseIPv6` on a text that starts with "::" and goes on with groups. -/
theorem parseIPv6_of_leading_ellipsis (rest : List Char) (hne : rest ≠ [])
    (hc : ∀ c ∈ rest, c = ':' ∨ ∃ d, d < 16 ∧ c = hexDigit d) (ip : List Nat)
    (hl : parseIPv6Loop 8 rest [] (some 0) = some ([], ip, some 0))
    (hlen : ip.length < 16) :
    parseIPv6 (':' :: ':' :: rest) = some (List.replicate (16 - ip.length) 0 ++ ip) := by
  have hpc : (':' :: ':' :: rest).contains '%' = false := by
    apply not_contains_percent
    intro c hm
    rcases List.mem_cons.mp hm with rfl | hm
    · exact .inl rfl
    · rcases List.mem_cons.mp hm with rfl | hm
      · exact .inl rfl
      · exact hc c hm
  unfold parseIPv6
  rw [hpc]
  simp [hne, hl, hlen]

end net

namespace net

theorem parseIPv6_zero : parseIPv6 [':', ':'] = some (List.replicate 16 0) := by decide

/-- The IPv6 text of eight groups parses back to their bytes; the text
consists of hex digits and colons, with at least one colon. -/
theorem parseIPv6_printGroups (g : List Nat) (hg : g.length = 8) (hb : ∀ x ∈ g, x < 65536) :
    parseIPv6 (printGroups g (findZeros g 0 none) 8 0) = some (groupBytes g) ∧
    (∀ c ∈ printGroups g (findZeros g 0 none) 8 0, c = ':' ∨ ∃ d, d < 16 ∧ c = hexDigit d) ∧
    ':' ∈ printGroups g (findZeros g 0 none) 8 0 := by
  have hgne : g ≠ [] := by
    intro h
    rw [h] at hg
    cases hg
  cases hz : findZeros g 0 none with
  | none =>
    rw [printGroups_none g hg]
    have hchars := joinHex_chars g hb
    obtain ⟨d, tl, hd, he⟩ := joinHex_head g hgne hb
    have hl := parseIPv6Loop_joinHex g 8 [] none hgne hb (by omega) (by simp [hg])
    rw [List.nil_append] at hl
    refine ⟨?_, hchars, ?_⟩
    · rw [he] at hl hchars ⊢
      exact parseIPv6_of_digit_full d hd tl
        (fun c hc => hchars c (List.mem_cons_of_mem _ hc)) _ hl
        (by rw [groupBytes_length, hg])
    · match g, hg with
      | x :: y :: rest, _ => exact colon_mem_joinHex x y rest
  | some z =>
    obtain ⟨a, b⟩ := z
    obtain ⟨hab, hb8, hsplit⟩ := findZeros_split g a b hz
    rw [hg] at hb8
    rw [printGroups_some g hg a b hab hb8]
    have hpre : ∀ x ∈ g.take a, x < 65536 := fun x hx => hb x (List.mem_of_mem_take hx)
    have hpost : ∀ x ∈ g.drop b, x < 65536 := fun x hx => hb x (List.mem_of_mem_drop hx)
    have hlpre : (g.take a).length = a := by rw [List.length_take, hg]; omega
    have hlpost : (g.drop b).length = 8 - b := by rw [List.length_drop, hg]
    have hbytes : groupBytes g =
        groupBytes (g.take a) ++ List.replicate (2 * (b - a)) 0 ++ groupBytes (g.drop b) := by
      conv_lhs => rw [hsplit]
      rw [groupBytes_append, groupBytes_append, groupBytes_replicate]
    have hchars : ∀ c ∈ joinHex (g.take a) ++ ':' :: ':' :: joinHex (g.drop b),
        c = ':' ∨ ∃ d, d < 16 ∧ c = hexDigit d := by
      intro c hc
      rcases List.mem_append.mp hc with hc | hc
      · exact joinHex_chars _ hpre c hc
      · rcases List.mem_cons.mp hc with rfl | hc
        · exact .inl rfl
        · rcases List.mem_cons.mp hc with rfl | hc
          · exact .inl rfl
          · exact joinHex_chars _ hpost c hc
    refine ⟨?_, hchars, by simp⟩
    rw [hbytes]
    by_cases ha : a = 0
    · subst ha
      simp only [List.take_zero, joinHex, List.nil_append, groupBytes_nil] at hchars ⊢
      by_cases hp : g.drop b = []
      · have hb8' : b = 8 := by
          rw [hp] at hlpost
          simp only [List.length_nil] at hlpost
          omega
        subst hb8'
        rw [hp]
        simp only [joinHex, groupBytes_nil, List.append_nil]
        exact parseIPv6_zero
      · have hl := parseIPv6Loop_joinHex (g.drop b) 8 [] (some 0) hp hpost (by omega)
          (by simp only [List.length_nil]; omega)
        rw [List.nil_append] at hl
        have hne : joinHex (g.drop b) ≠ [] := by
          obtain ⟨d, tl, _, he⟩ := joinHex_head (g.drop b) hp hpost
          rw [he]
          simp
        rw [parseIPv6_of_leading_ellipsis (joinHex (g.drop b)) hne
          (fun c hc => hchars c (List.mem_cons_of_mem _ (List.mem_cons_of_mem _ hc)))
          (groupBytes (g.drop b)) hl (by rw [groupBytes_length]; omega)]
        rw [groupBytes_length, hlpost]
        have : 16 - 2 * (8 - b) = 2 * (b - 0) := by omega
        rw [this]
    · have hp : g.take a ≠ [] := by
        intro h
        rw [h] at hlpre
        simp only [List.length_nil] at hlpre
        omega
      have hl := parseIPv6Loop_joinHex_ellipsis (g.take a) (g.drop b) 8 [] hp hpre hpost
        (by omega) (by simp only [List.length_nil]; omega)
      simp only [List.nil_append, List.length_nil, Nat.zero_add] at hl
      obtain ⟨d, tl, hd, he⟩ := joinHex_head (g.take a) hp hpre
      rw [he, List.cons_append] at hl hchars ⊢
      rw [parseIPv6_of_digit_ellipsis d hd _
        (fun c hc => hchars c (List.mem_cons_of_mem _ hc)) _ _ hl
        (by rw [List.length_append, groupBytes_length, groupBytes_length]; omega)]
      have h2 : 2 * (g.take a).length = (groupBytes (g.take a)).length := by
        rw [groupBytes_length]
      rw [h2, List.take_left, List.drop_left, List.length_append, groupBytes_length,
        groupBytes_length, hlpre, hlpost]
      have : 16 - (2 * a + 2 * (8 - b)) = 2 * (b - a) := by omega
      rw [this]

end net

namespace net

set_option maxRecDepth 100000 in
theorem uitoa_cases : ∀ n, n < 256 →
    (n < 10 ∧ uitoa n = [Nat.digitChar n]) ∨
    (10 ≤ n ∧ n < 100 ∧ uitoa n = [Nat.digitChar (n / 10), Nat.digitChar (n % 10)]) ∨
    (100 ≤ n ∧ uitoa n =
      [Nat.digitChar (n / 100), Nat.digitChar (n / 10 % 10), Nat.digitChar (n % 10)]) := by
  decide

theorem digitChar_facts : ∀ d, d < 10 →
    isDigit (Nat.digitChar d) = true ∧ (Nat.digitChar d).toNat - 48 = d ∧
    Nat.digitChar d ≠ '.' ∧ Nat.digitChar d ≠ ':' ∧ Nat.digitChar d ≠ '%' := by
  decide

theorem parseIPv4Loop_digit (d : Nat) (hd : d < 10) (rest : List Char) (val digLen : Nat)
    (fields : List Nat) (prev : Option Char) (h0 : ¬(digLen = 1 ∧ val = 0))
    (hv : val * 10 + d ≤ 255) :
    parseIPv4Loop (Nat.digitChar d :: rest) val digLen fields prev =
      parseIPv4Loop rest (val * 10 + d) (digLen + 1) fields (some (Nat.digitChar d)) := by
  obtain ⟨h1, h2, -⟩ := digitChar_facts d hd
  rw [parseIPv4Loop, if_pos h1, if_neg h0]
  simp only [h2]
  rw [if_neg (by omega)]

/-- The loop of `parseIPv4Fields` reads the decimal text of an octet. -/
theorem parseIPv4Loop_octet (n : Nat) (hn : n < 256) :
    ∃ k c, c ≠ '.' ∧ ∀ (rest : List Char) (fields : List Nat) (prev : Option Char),
      parseIPv4Loop (uitoa n ++ rest) 0 0 fields prev = parseIPv4Loop rest n k fields (some c) := by
  rcases uitoa_cases n hn with ⟨h1, he⟩ | ⟨h1, h2, he⟩ | ⟨h1, he⟩
  · refine ⟨1, Nat.digitChar n, (digitChar_facts n h1).2.2.1, ?_⟩
    intro rest fields prev
    rw [he, List.singleton_append, parseIPv4Loop_digit n h1 _ _ _ _ _ (by omega) (by omega)]
    simp
  · refine ⟨2, Nat.digitChar (n % 10), (digitChar_facts _ (by omega)).2.2.1, ?_⟩
    intro rest fields prev
    rw [he]
    simp only [List.cons_append, List.nil_append]
    rw [parseIPv4Loop_digit _ (by omega) _ _ _ _ _ (by omega) (by omega),
      parseIPv4Loop_digit _ (by omega) _ _ _ _ _ (by omega) (by omega)]
    congr 1
    omega
  · refine ⟨3, Nat.digitChar (n % 10), (digitChar_facts _ (by omega)).2.2.1, ?_⟩
    intro rest fields prev
    rw [he]
    simp only [List.cons_append, List.nil_append]
    rw [parseIPv4Loop_digit _ (by omega) _ _ _ _ _ (by omega) (by omega),
      parseIPv4Loop_digit _ (by omega) _ _ _ _ _ (by omega) (by omega),
      parseIPv4Loop_digit _ (by omega) _ _ _ _ _ (by omega) (by omega)]
    congr 1
    omega

theorem parseIPv4Loop_dot (rest : List Char) (hr : rest ≠ []) (c : Char) (hc : c ≠ '.')
    (val k : Nat) (fields : List Nat) (hf : fields.length < 3) :
    parseIPv4Loop ('.' :: rest) val k fields (some c) =
      parseIPv4Loop rest 0 0 (fields ++ [val]) (some '.') := by
  rw [parseIPv4Loop]
  have hnd : isDigit '.' = false := by decide
  rw [if_neg (by rw [hnd]; simp), if_pos rfl, if_neg (by simp [hr, hc]), if_neg (by omega)]

theorem uitoa_ne_nil (n : Nat) (hn : n < 256) (rest : List Char) : uitoa n ++ rest ≠ [] := by
  rcases uitoa_cases n hn with ⟨_, he⟩ | ⟨_, _, he⟩ | ⟨_, he⟩ <;> rw [he] <;> simp

theorem uitoa_chars (n : Nat) (hn : n < 256) :
    ∀ c ∈ uitoa n, c ≠ '.' ∧ c ≠ ':' ∧ c ≠ '%' := by
  intro c hc
  rcases uitoa_cases n hn with ⟨h1, he⟩ | ⟨h1, h2, he⟩ | ⟨h1, he⟩ <;> rw [he] at hc <;>
    simp only [List.mem_cons, List.mem_singleton, List.not_mem_nil, or_false] at hc
  · subst hc
    exact (digitChar_facts _ h1).2.2
  · rcases hc with rfl | rfl
    · exact (digitChar_facts _ (by omega)).2.2
    · exact (digitChar_facts _ (by omega)).2.2
  · rcases hc with rfl | rfl | rfl
    · exact (digitChar_facts _ (by omega)).2.2
    · exact (digitChar_facts _ (by omega)).2.2
    · exact (digitChar_facts _ (by omega)).2.2

/-- The dotted text of four octets parses back to them. -/
theorem parseAddr_dotted (a b c d : Nat) (ha : a < 256) (hb : b < 256) (hc : c < 256)
    (hd : d < 256) : parseAddr (dotted [a, b, c, d]) = some (true, [a, b, c, d]) := by
  have hfind : (dotted [a, b, c, d]).find? (fun c => c = '.' ∨ c = ':' ∨ c = '%') =
      some '.' := by
    have : ∀ (l rest : List Char), (∀ x ∈ l, x ≠ '.' ∧ x ≠ ':' ∧ x ≠ '%') →
        (l ++ '.' :: rest).find? (fun c => c = '.' ∨ c = ':' ∨ c = '%') = some '.' := by
      intro l rest hl
      induction l with
      | nil => simp
      | cons x l ih =>
        have hx := hl x (by simp)
        simp only [List.cons_append, List.find?_cons]
        simp only [hx.1, hx.2.1, hx.2.2, or_self, decide_False]
        exact ih (fun y hy => hl y (List.mem_cons_of_mem _ hy))
    unfold dotted
    simp only [List.getD_cons_zero, List.append_assoc, List.singleton_append]
    exact this _ _ (uitoa_chars a ha)
  have hfields : parseIPv4Fields (dotted [a, b, c, d]) = some [a, b, c, d] := by
    obtain ⟨ka, ca, hca, hpa⟩ := parseIPv4Loop_octet a ha
    obtain ⟨kb, cb, hcb, hpb⟩ := parseIPv4Loop_octet b hb
    obtain ⟨kc, cc, hcc, hpc⟩ := parseIPv4Loop_octet c hc
    obtain ⟨kd, cd, hcd, hpd⟩ := parseIPv4Loop_octet d hd
    have hd0 := hpd [] [a, b, c] (some '.')
    rw [List.append_nil] at hd0
    unfold parseIPv4Fields dotted
    simp only [List.getD_cons_zero, List.getD_cons_succ, List.append_assoc,
      List.singleton_append, List.cons_append, List.nil_append]
    rw [hpa, parseIPv4Loop_dot _ (uitoa_ne_nil b hb _) ca hca _ _ _ (by simp),
      hpb, parseIPv4Loop_dot _ (uitoa_ne_nil c hc _) cb hcb _ _ _ (by simp),
      hpc, parseIPv4Loop_dot _ (by rw [← List.append_nil (uitoa d)]; exact uitoa_ne_nil d hd _)
        cc hcc _ _ _ (by simp)]
    simp only [List.nil_append, List.cons_append]
    rw [hd0]
    simp [parseIPv4Loop]
  unfold parseAddr
  rw [hfind]
  simp only [hfields, Option.map_some']

/-- The IPv6 text of eight groups is read by `parseAddr` as an IPv6 address. -/
theorem parseAddr_printGroups (g : List Nat) (hg : g.length = 8) (hb : ∀ x ∈ g, x < 65536) :
    parseAddr (printGroups g (findZeros g 0 none) 8 0) = some (false, groupBytes g) := by
  obtain ⟨hp, hchars, hcolon⟩ := parseIPv6_printGroups g hg hb
  have hfind : ∀ (l : List Char), (∀ c ∈ l, c = ':' ∨ ∃ d, d < 16 ∧ c = hexDigit d) →
      ':' ∈ l → l.find? (fun c => c = '.' ∨ c = ':' ∨ c = '%') = some ':' := by
    intro l hl hm
    induction l with
    | nil => cases hm
    | cons x l ih =>
      rcases hl x (by simp) with rfl | ⟨d, hd, rfl⟩
      · simp
      · have hne := hexDigit_ne d hd
        rcases List.mem_cons.mp hm with h | h
        · exact absurd h.symm hne.1
        · simp only [List.find?_cons]
          simp only [hne.1, hne.2.1, hne.2.2, or_self, decide_False]
          exact ih (fun y hy => hl y (List.mem_cons_of_mem _ hy)) h
  unfold parseAddr
  rw [hfind _ hchars hcolon]
  simp only [hp, Option.map_some']

/-- The text `ip.String()` of an address that `net.ParseIP` returned parses
back to that address. -/
theorem ParseIP_String (s : String) (ip : IP) (h : ParseIP s = some ip) :
    ParseIP (IP.String ip) = some ip := by
  obtain ⟨hlen, hbound⟩ := ParseIP_bound s ip h
  unfold IP.String
  rw [if_neg (by omega), if_neg (by simp [hlen, IPv6len])]
  cases hto4 : To4 ip with
  | some p4 =>
    unfold To4 at hto4
    rw [if_neg (by simp [hlen, IPv4len])] at hto4
    split at hto4
    · rename_i hc
      simp only [Option.some.injEq] at hto4
      subst hto4
      have hip : ip = v4InV6Prefix ++ ip.drop 12 := by
        conv_lhs => rw [← List.take_append_drop 12 ip, hc.2]
      have hl4 : (ip.drop 12).length = 4 := by rw [List.length_drop, hlen]
      have hb4 : ∀ x ∈ ip.drop 12, x < 256 := fun x hx => hbound x (List.mem_of_mem_drop hx)
      match hp : ip.drop 12, hl4, hb4 with
      | [a, b, c, d], _, hb4 =>
        simp only
        unfold ParseIP
        show (parseAddr (dotted [a, b, c, d])).map as16 = some ip
        rw [parseAddr_dotted a b c d (hb4 a (by simp)) (hb4 b (by simp)) (hb4 c (by simp))
          (hb4 d (by simp))]
        simp only [Option.map_some', as16, if_true, Option.some.injEq]
        rw [hip, hp]
    · cases hto4
  | none =>
    simp only
    unfold ParseIP
    show (parseAddr (printGroups (groups ip) (findZeros (groups ip) 0 none) 8 0)).map as16 =
      some ip
    rw [parseAddr_printGroups (groups ip) (by rw [groups_length, hlen])
      (groups_bound ip hbound)]
    simp only [Option.map_some', as16, Bool.false_eq_true, if_false, Option.some.injEq]
    exact groupBytes_groups ip (by rw [hlen]) hbound

end net

namespace altomsgs

/-- C25: the output of `CheckTypedAddr` is a fixed point. For every input x
with `CheckTypedAddr(x) = (y, nil)`, `CheckTypedAddr(y) = (y, nil)`; and two
inputs with the same prefix whose remainders parse to the same address give
the same output, the prefix followed by the text of that address. -/
theorem C25_CheckTypedAddr_fixed_point (x y : String) (h : CheckTypedAddr x = (y, none)) :
    CheckTypedAddr y = (y, none) ∧
    ∀ (p r1 r2 : String) (ip : net.IP), (p = IPV4_ADDR_PREFIX ∨ p = IPV6_ADDR_PREFIX) →
      net.ParseIP r1 = some ip → net.ParseIP r2 = some ip →
      CheckTypedAddr (p ++ r1) = CheckTypedAddr (p ++ r2) ∧
      CheckTypedAddr (p ++ r1) = (p ++ net.IP.String ip, none) := by
  refine ⟨?_, ?_⟩
  · rcases CheckTypedAddr_cases x with ⟨h4, h6⟩ | ⟨p, r, hp, rfl⟩
    · rw [CheckTypedAddr_untyped x h4 h6] at h
      simp at h
    · rw [CheckTypedAddr_typed p r hp] at h
      cases hpi : net.ParseIP r with
      | none =>
        rw [hpi] at h
        simp at h
      | some ip =>
        rw [hpi] at h
        simp only [Prod.mk.injEq, and_true] at h
        subst h
        rw [CheckTypedAddr_typed p _ hp, net.ParseIP_String r ip hpi]
  · intro p r1 r2 ip hp h1 h2
    rw [CheckTypedAddr_typed p r1 hp, CheckTypedAddr_typed p r2 hp, h1, h2]
    exact ⟨rfl, rfl⟩

/-- C25, witness: "ipv6:A:B:C::" gives "ipv6:a:b:c::", which gives itself. -/
theorem C25_witness :
    CheckTypedAddr "ipv6:A:B:C::" = ("ipv6:a:b:c::", none) ∧
    CheckTypedAddr "ipv6:a:b:c::" = ("ipv6:a:b:c::", none) :=
  ⟨by decide, (C25_CheckTypedAddr_fixed_point "ipv6:A:B:C::" "ipv6:a:b:c::" (by decide)).1⟩

/-- C28: `Normalize` drops entries whose keys are all valid. With the
sources "ipv6:A::" and "ipv6:a::", two texts of one address that both pass
`CheckTypedAddr`, the row of the source visited first is replaced by the row
of the one visited second: the entry ("ipv6:A::", "ipv4:1.2.3.4", 1) is
stored before `Normalize()`, and afterwards
`GetCost("ipv6:a::", "ipv4:1.2.3.4")` is `(0, false)`, with an empty error
list; in the other order of the map the entry
("ipv6:a::", "ipv4:5.6.7.8", 2) is lost in the same way. `SetCost`, called
with the canonical texts, keeps both entries in one row. -/
theorem C28_Normalize_drops_valid_row :
    (CheckTypedAddr "ipv6:A::" = ("ipv6:a::", none) ∧
      CheckTypedAddr "ipv6:a::" = ("ipv6:a::", none) ∧
      CheckTypedAddr "ipv4:1.2.3.4" = ("ipv4:1.2.3.4", none) ∧
      CheckTypedAddr "ipv4:5.6.7.8" = ("ipv4:5.6.7.8", none)) ∧
    (spelledTwice.GetCost "ipv6:A::" "ipv4:1.2.3.4" = (1, true) ∧
      spelledTwice.Normalize.2 = [] ∧
      spelledTwice.Normalize.1.costs = [("ipv6:a::", [("ipv4:5.6.7.8", 2)])] ∧
      spelledTwice.Normalize.1.GetCost "ipv6:a::" "ipv4:1.2.3.4" = (0, false)) ∧
    (spelledTwiceSwapped.GetCost "ipv6:a::" "ipv4:5.6.7.8" = (2, true) ∧
      spelledTwiceSwapped.Normalize.2 = [] ∧
      spelledTwiceSwapped.Normalize.1.costs = [("ipv6:a::", [("ipv4:1.2.3.4", 1)])] ∧
      spelledTwiceSwapped.Normalize.1.GetCost "ipv6:a::" "ipv4:5.6.7.8" = (0, false)) ∧
    spelledOnce.costs = [("ipv6:a::", [("ipv4:1.2.3.4", 1), ("ipv4:5.6.7.8", 2)])] := by
  refine ⟨⟨by decide, by decide, by decide, by decide⟩, ⟨by decide, by decide, by decide,
    by decide⟩, ⟨by decide, by decide, by decide, by decide⟩, by decide⟩

end altomsgs

/-! ## Set and list equality of slices -/

namespace wdrlib

theorem strListEqualLoop_iff (a : List String) : ∀ b : List String, a.length = b.length →
    (strListEqualLoop a b = true ↔ a = b) := by
  induction a with
  | nil =>
    intro b h
    cases b with
    | nil => simp [strListEqualLoop]
    | cons _ _ => simp at h
  | cons x rest ih =>
    intro b h
    cases b with
    | nil => simp at h
    | cons y brest =>
      simp only [List.length_cons, Nat.add_right_cancel_iff] at h
      by_cases hxy : x = y
      · simp [strListEqualLoop, hxy, ih brest h]
      · simp [strListEqualLoop, hxy]

theorem StrListEqual_iff (a b : List String) : StrListEqual a b = true ↔ a = b := by
  unfold StrListEqual
  by_cases h : a.length = b.length
  · simp only [ne_eq, h, not_true_eq_false, if_false]
    exact strListEqualLoop_iff a b h
  · simp only [ne_eq, h, not_false_eq_true, if_true, Bool.false_eq_true, false_iff]
    intro hab
    exact h (by rw [hab])

end wdrlib

namespace altomsgs

theorem costTypeListEqualLoop_iff (a : List CostType) : ∀ b : List CostType,
    a.length = b.length → (costTypeListEqualLoop a b = true ↔ a = b) := by
  induction a with
  | nil =>
    intro b h
    cases b with
    | nil => simp [costTypeListEqualLoop]
    | cons _ _ => simp at h
  | cons x rest ih =>
    intro b h
    cases b with
    | nil => simp at h
    | cons y brest =>
      simp only [List.length_cons, Nat.add_right_cancel_iff] at h
      by_cases hxy : x = y
      · simp [costTypeListEqualLoop, hxy, ih brest h]
      · simp [costTypeListEqualLoop, hxy]

theorem CostTypeListEqual_iff (a b : List CostType) : CostTypeListEqual a b = true ↔ a = b := by
  unfold CostTypeListEqual
  by_cases h : a.length = b.length
  · simp only [ne_eq, h, not_true_eq_false, if_false]
    exact costTypeListEqualLoop_iff a b h
  · simp only [ne_eq, h, not_false_eq_true, if_true, Bool.false_eq_true, false_iff]
    intro hab
    exact h (by rw [hab])

/-- C34: the set-equality helpers decide set equality. For all string slices
`a` and `b` (a nil slice is the empty list), `StrSetEqual(a, b)` is true iff
every element of `a` occurs in `b` and every element of `b` occurs in `a`,
whatever the order and the multiplicity; the empty slice is equal to itself
and to no non-empty slice. The same holds for `CostTypeSetEqual`.
`StrListEqual` and `CostTypeListEqual` are true iff the slices have the same
length and equal elements at every index; list equality implies set equality,
and not conversely. -/
theorem C34_set_equality_helpers (a b : List String) (c d : List CostType) :
    (wdrlib.StrSetEqual a b = true ↔ ((∀ s ∈ a, s ∈ b) ∧ (∀ s ∈ b, s ∈ a))) ∧
    wdrlib.StrSetEqual [] [] = true ∧
    (a ≠ [] → wdrlib.StrSetEqual a [] = false ∧ wdrlib.StrSetEqual [] a = false) ∧
    (CostTypeSetEqual c d = true ↔ ((∀ s ∈ c, s ∈ d) ∧ (∀ s ∈ d, s ∈ c))) ∧
    CostTypeSetEqual [] [] = true ∧
    (c ≠ [] → CostTypeSetEqual c [] = false ∧ CostTypeSetEqual [] c = false) ∧
    (wdrlib.StrListEqual a b = true ↔
      (a.length = b.length ∧ ∀ i, i < a.length → (a)[i]? = (b)[i]?)) ∧
    (CostTypeListEqual c d = true ↔
      (c.length = d.length ∧ ∀ i, i < c.length → (c)[i]? = (d)[i]?)) ∧
    (wdrlib.StrListEqual a b = true → wdrlib.StrSetEqual a b = true) ∧
    (CostTypeListEqual c d = true → CostTypeSetEqual c d = true) ∧
    (wdrlib.StrSetEqual ["abc", "def", "deg"] ["abc", "deg", "def"] = true ∧
      wdrlib.StrListEqual ["abc", "def", "deg"] ["abc", "deg", "def"] = false ∧
      wdrlib.StrSetEqual ["abc", "abc"] ["abc"] = true ∧
      wdrlib.StrListEqual ["abc", "abc"] ["abc"] = false) ∧
    (CostTypeSetEqual [⟨"routingcost", "numerical"⟩, ⟨"hopcount", "ordinal"⟩]
        [⟨"hopcount", "ordinal"⟩, ⟨"routingcost", "numerical"⟩] = true ∧
      CostTypeListEqual [⟨"routingcost", "numerical"⟩, ⟨"hopcount", "ordinal"⟩]
        [⟨"hopcount", "ordinal"⟩, ⟨"routingcost", "numerical"⟩] = false) := by
  have hext : ∀ {α : Type} (x y : List α),
      x = y ↔ (x.length = y.length ∧ ∀ i, i < x.length → x[i]? = y[i]?) := by
    intro α x y
    constructor
    · rintro rfl
      exact ⟨rfl, fun _ _ => rfl⟩
    · rintro ⟨hl, hi⟩
      apply List.ext_getElem? 
      intro i
      by_cases h : i < x.length
      · exact hi i h
      · rw [List.getElem?_eq_none (by omega), List.getElem?_eq_none (by omega)]
  refine ⟨?_, by decide, ?_, ?_, by decide, ?_, ?_, ?_, ?_, ?_,
    ⟨by decide, by decide, by decide, by decide⟩, ⟨by decide, by decide⟩⟩
  · rw [wdrlib.StrSetEqual_iff]
    exact and_comm
  · intro ha
    obtain ⟨x, hx⟩ := List.exists_mem_of_ne_nil a ha
    constructor
    · rw [Bool.eq_false_iff]
      intro h
      have := ((wdrlib.StrSetEqual_iff a []).1 h).2 x hx
      simp at this
    · rw [Bool.eq_false_iff]
      intro h
      have := ((wdrlib.StrSetEqual_iff [] a).1 h).1 x hx
      simp at this
  · rw [CostTypeSetEqual_iff]
    exact and_comm
  · intro hc
    obtain ⟨x, hx⟩ := List.exists_mem_of_ne_nil c hc
    constructor
    · rw [Bool.eq_false_iff]
      intro h
      have := ((CostTypeSetEqual_iff c []).1 h).2 x hx
      simp at this
    · rw [Bool.eq_false_iff]
      intro h
      have := ((CostTypeSetEqual_iff [] c).1 h).1 x hx
      simp at this
  · rw [wdrlib.StrListEqual_iff]
    exact hext a b
  · rw [CostTypeListEqual_iff]
    exact hext c d
  · intro h
    rw [(wdrlib.StrListEqual_iff a b).1 h]
    exact wdrlib.StrSetEqual_refl b
  · intro h
    rw [(CostTypeListEqual_iff c d).1 h]
    exact CostTypeSetEqual_refl d

/-- C35: `GetStringArray` ignores its parameter `def`. When `m[k]` is missing
or is not an array, the code returns nil where its doc comment and the claim
have `def`: with `def = ["x"]` the result is empty for a map without the key
and for a key that holds a string. The sibling `GetBoolMember` returns its
default in that case. When `m[k]` is an array the result is the strings of its
elements, as claimed. -/
theorem C35_GetStringArray_ignores_default :
    wdrlib.GetStringArray (fun _ => "") [] "uses" ["x"] = [] ∧
    wdrlib.GetStringArray (fun _ => "") [("uses", .string "netmap")] "uses" ["x"] = [] ∧
    (∀ (fmtG : ℚ → String) (m : JsonMap) (k : String) (d1 d2 : List String),
      wdrlib.GetStringArray fmtG m k d1 = wdrlib.GetStringArray fmtG m k d2) ∧
    wdrlib.GetBoolMember [] "cost-constraints" true = true ∧
    wdrlib.GetBoolMember [("cost-constraints", .string "x")] "cost-constraints" true = true ∧
    wdrlib.GetStringArray (fun _ => "")
      [("uses", .slice [.string "netmap", .string "other"])] "uses" ["x"]
      = ["netmap", "other"] := by
  refine ⟨rfl, rfl, fun _ _ _ _ _ => rfl, rfl, rfl, rfl⟩

end altomsgs

/-! ## The meta section of a JSON message -/

namespace altomsgs
namespace JsonMap

/-- The meta map that the reads see: the value under "meta" when it is an
object. -/
theorem GetMeta_false (jm : JsonMap) :
    (GetMeta jm false).1 = jm ∧
    (∀ meta, GoMap.get jm FN_META = some (.map meta) → (GetMeta jm false).2 = some meta) ∧
    ((∀ meta, GoMap.get jm FN_META ≠ some (.map meta)) → (GetMeta jm false).2 = none) := by
  unfold GetMeta
  refine ⟨?_, ?_, ?_⟩
  · split <;> rfl
  · intro meta h
    rw [h]
  · intro h
    split
    · rename_i meta hm
      exact absurd hm (h meta)
    · rfl

theorem metaOrNew_eq (jm : JsonMap) :
    (∀ meta, GoMap.get jm FN_META = some (.map meta) → metaOrNew jm = meta) ∧
    ((∀ meta, GoMap.get jm FN_META ≠ some (.map meta)) → metaOrNew jm = []) := by
  unfold metaOrNew GetMeta
  refine ⟨?_, ?_⟩
  · intro meta h
    rw [h]
    rfl
  · intro h
    split
    · rename_i meta hm
      exact absurd hm (h meta)
    · rfl

/-- A write to the meta section: the object under "meta" afterwards is the one
that was there (a new one if there was none) with the one key set, and no
other key of the message changes. -/
theorem setMeta_spec (jm : JsonMap) (key : String) (val : GoValue) :
    GoMap.get (setMeta jm key val) FN_META = some (.map (GoMap.set (metaOrNew jm) key val)) ∧
    (∀ k, k ≠ FN_META → GoMap.get (setMeta jm key val) k = GoMap.get jm k) := by
  unfold setMeta
  refine ⟨GoMap.get_set_self _ _ _, ?_⟩
  intro k hk
  rw [GoMap.get_set_ne _ _ _ _ (Ne.symm hk)]
  unfold GetMeta
  split
  · rfl
  · simp only [Bool.not_true, Bool.false_eq_true, if_false]
    rw [GoMap.get_set_ne _ _ _ _ (Ne.symm hk)]

theorem GetVTag_of_meta (jm : JsonMap) (meta : JsonMap)
    (h : GoMap.get jm FN_META = some (.map meta)) :
    (∀ vt, GoMap.get meta FN_VTAG = some (.map vt) →
      GetVTag jm =
        ⟨wdrlib.GetStringMember vt FN_RESOURCE_ID, wdrlib.GetStringMember vt FN_TAG⟩) ∧
    ((∀ vt, GoMap.get meta FN_VTAG ≠ some (.map vt)) → GetVTag jm = ⟨"", ""⟩) := by
  unfold GetVTag
  rw [(GetMeta_false jm).2.1 meta h]
  refine ⟨?_, ?_⟩
  · intro vt hvt
    simp only [hvt]
  · intro hno
    cases hg : GoMap.get meta FN_VTAG with
    | none => simp only [hg]
    | some x =>
      cases x with
      | map vt => exact absurd hg (hno vt)
      | _ => simp only [hg]

theorem GetCostType_of_meta (jm : JsonMap) (meta : JsonMap)
    (h : GoMap.get jm FN_META = some (.map meta)) :
    (∀ ct, GoMap.get meta FN_COST_TYPE = some (.map ct) →
      GetCostType jm =
        ⟨wdrlib.GetStringMember ct FN_COST_METRIC, wdrlib.GetStringMember ct FN_COST_MODE⟩) ∧
    ((∀ ct, GoMap.get meta FN_COST_TYPE ≠ some (.map ct)) → GetCostType jm = ⟨"", ""⟩) := by
  unfold GetCostType
  rw [(GetMeta_false jm).2.1 meta h]
  refine ⟨?_, ?_⟩
  · intro ct hct
    simp only [hct]
  · intro hno
    cases hg : GoMap.get meta FN_COST_TYPE with
    | none => simp only [hg]
    | some x =>
      cases x with
      | map ct => exact absurd hg (hno ct)
      | _ => simp only [hg]

/-- The value under a key is an object or is none. -/
theorem map_cases (m : JsonMap) (k : String) :
    (∃ x, GoMap.get m k = some (.map x)) ∨ (∀ x, GoMap.get m k ≠ some (.map x)) := by
  cases h : GoMap.get m k with
  | none => exact .inr (fun _ hm => by cases hm)
  | some v =>
    cases v with
    | map kvs => exact .inl ⟨kvs, rfl⟩
    | _ => exact .inr (fun _ hm => by cases hm)

/-- `GetVTag` reads only the "vtag" field of the meta object. -/
theorem GetVTag_congr (jm1 jm2 : JsonMap) (m1 m2 : JsonMap)
    (h1 : GoMap.get jm1 FN_META = some (.map m1)) (h2 : GoMap.get jm2 FN_META = some (.map m2))
    (h : GoMap.get m1 FN_VTAG = GoMap.get m2 FN_VTAG) : GetVTag jm1 = GetVTag jm2 := by
  rcases map_cases m1 FN_VTAG with ⟨x, hx⟩ | hno
  · rw [(GetVTag_of_meta jm1 m1 h1).1 x hx, (GetVTag_of_meta jm2 m2 h2).1 x (h ▸ hx)]
  · rw [(GetVTag_of_meta jm1 m1 h1).2 hno, (GetVTag_of_meta jm2 m2 h2).2 (h ▸ hno)]

/-- `GetCostType` reads only the "cost-type" field of the meta object. -/
theorem GetCostType_congr (jm1 jm2 : JsonMap) (m1 m2 : JsonMap)
    (h1 : GoMap.get jm1 FN_META = some (.map m1)) (h2 : GoMap.get jm2 FN_META = some (.map m2))
    (h : GoMap.get m1 FN_COST_TYPE = GoMap.get m2 FN_COST_TYPE) :
    GetCostType jm1 = GetCostType jm2 := by
  rcases map_cases m1 FN_COST_TYPE with ⟨x, hx⟩ | hno
  · rw [(GetCostType_of_meta jm1 m1 h1).1 x hx, (GetCostType_of_meta jm2 m2 h2).1 x (h ▸ hx)]
  · rw [(GetCostType_of_meta jm1 m1 h1).2 hno, (GetCostType_of_meta jm2 m2 h2).2 (h ▸ hno)]

theorem GetVTag_no_meta (jm : JsonMap) (h : ∀ meta, GoMap.get jm FN_META ≠ some (.map meta)) :
    GetVTag jm = ⟨"", ""⟩ := by
  unfold GetVTag
  rw [(GetMeta_false jm).2.2 h]

theorem GetCostType_no_meta (jm : JsonMap)
    (h : ∀ meta, GoMap.get jm FN_META ≠ some (.map meta)) : GetCostType jm = ⟨"", ""⟩ := by
  unfold GetCostType
  rw [(GetMeta_false jm).2.2 h]

theorem GetDepVTags_no_meta (jm : JsonMap)
    (h : ∀ meta, GoMap.get jm FN_META ≠ some (.map meta)) : GetDepVTags jm = [] := by
  unfold GetDepVTags
  rw [(GetMeta_false jm).2.2 h]

/-- A write of another key leaves what `GetVTag` reads. -/
theorem GetVTag_setMeta_ne (jm : JsonMap) (key : String) (val : GoValue) (hk : key ≠ FN_VTAG) :
    GetVTag (setMeta jm key val) = GetVTag jm := by
  have hs := (setMeta_spec jm key val).1
  rcases map_cases jm FN_META with ⟨meta, hm⟩ | hno
  · rw [(metaOrNew_eq jm).1 meta hm] at hs
    exact GetVTag_congr _ _ _ _ hs hm (GoMap.get_set_ne _ _ _ _ hk)
  · rw [(metaOrNew_eq jm).2 hno] at hs
    rw [GetVTag_no_meta jm hno]
    apply (GetVTag_of_meta _ _ hs).2
    intro vt hvt
    rw [GoMap.get_set_ne _ _ _ _ hk] at hvt
    cases hvt

/-- A write of another key leaves what `GetCostType` reads. -/
theorem GetCostType_setMeta_ne (jm : JsonMap) (key : String) (val : GoValue)
    (hk : key ≠ FN_COST_TYPE) : GetCostType (setMeta jm key val) = GetCostType jm := by
  have hs := (setMeta_spec jm key val).1
  rcases map_cases jm FN_META with ⟨meta, hm⟩ | hno
  · rw [(metaOrNew_eq jm).1 meta hm] at hs
    exact GetCostType_congr _ _ _ _ hs hm (GoMap.get_set_ne _ _ _ _ hk)
  · rw [(metaOrNew_eq jm).2 hno] at hs
    rw [GetCostType_no_meta jm hno]
    apply (GetCostType_of_meta _ _ hs).2
    intro ct hct
    rw [GoMap.get_set_ne _ _ _ _ hk] at hct
    cases hct

end JsonMap

/-- C40: the meta accessors of a `JsonMap`. No read changes the map (so none
adds a "meta" key); on a map with no "meta" object `GetMeta(false)` is nil,
`GetCostType()` and `GetVTag()` are the zero values and `GetDepVTags()` is
empty. `SetCostType`, `SetVTag` and `AddDepVTag` leave every other key of the
message as it was; the object they leave under "meta" is a new one with the
one field when there was none, and otherwise the object that was there with
that one field set, its other fields unchanged. After `SetVTag(v)`,
`GetVTag()` is `v`; after `SetCostType(c)`, `GetCostType()` is `c`; and a write
of one of the three fields leaves the values read of the others. -/
theorem C40_meta_accessors (jm : JsonMap) (v w : VTag) (c : CostType) :
    (JsonMap.GetMeta jm false).1 = jm ∧
    ((∀ meta, GoMap.get jm FN_META ≠ some (.map meta)) →
      (JsonMap.GetMeta jm false).2 = none ∧
      JsonMap.GetCostType jm = ⟨"", ""⟩ ∧ JsonMap.GetVTag jm = ⟨"", ""⟩ ∧
      JsonMap.GetDepVTags jm = [] ∧
      (JsonMap.GetMeta (JsonMap.SetCostType jm c) false).2 =
        some [(FN_COST_TYPE,
          .map [(FN_COST_METRIC, .string c.Metric), (FN_COST_MODE, .string c.Mode)])] ∧
      (JsonMap.GetMeta (JsonMap.SetVTag jm v) false).2 =
        some [(FN_VTAG, .map [(FN_RESOURCE_ID, .string v.ResourceId), (FN_TAG, .string v.Tag)])] ∧
      (JsonMap.GetMeta (JsonMap.AddDepVTag jm w) false).2 =
        some [(FN_DEPENDENT_VTAGS,
          .maps [[(FN_RESOURCE_ID, .string w.ResourceId), (FN_TAG, .string w.Tag)]])]) ∧
    (∀ meta, GoMap.get jm FN_META = some (.map meta) →
      (∃ x, (JsonMap.GetMeta (JsonMap.SetCostType jm c) false).2 =
        some (GoMap.set meta FN_COST_TYPE x)) ∧
      (∃ x, (JsonMap.GetMeta (JsonMap.SetVTag jm v) false).2 =
        some (GoMap.set meta FN_VTAG x)) ∧
      (∃ x, (JsonMap.GetMeta (JsonMap.AddDepVTag jm w) false).2 =
        some (GoMap.set meta FN_DEPENDENT_VTAGS x)) ∧
      (∀ (k : String) (x : GoValue), k ≠ FN_COST_TYPE →
        GoMap.get (GoMap.set meta FN_COST_TYPE x) k = GoMap.get meta k) ∧
      (∀ (k : String) (x : GoValue), k ≠ FN_VTAG →
        GoMap.get (GoMap.set meta FN_VTAG x) k = GoMap.get meta k) ∧
      (∀ (k : String) (x : GoValue), k ≠ FN_DEPENDENT_VTAGS →
        GoMap.get (GoMap.set meta FN_DEPENDENT_VTAGS x) k = GoMap.get meta k)) ∧
    (∀ k, k ≠ FN_META →
      GoMap.get (JsonMap.SetCostType jm c) k = GoMap.get jm k ∧
      GoMap.get (JsonMap.SetVTag jm v) k = GoMap.get jm k ∧
      GoMap.get (JsonMap.AddDepVTag jm w) k = GoMap.get jm k) ∧
    JsonMap.GetVTag (JsonMap.SetVTag jm v) = v ∧
    JsonMap.GetCostType (JsonMap.SetCostType jm c) = c ∧
    (JsonMap.GetCostType (JsonMap.SetVTag jm v) = JsonMap.GetCostType jm ∧
      JsonMap.GetCostType (JsonMap.AddDepVTag jm w) = JsonMap.GetCostType jm ∧
      JsonMap.GetVTag (JsonMap.SetCostType jm c) = JsonMap.GetVTag jm ∧
      JsonMap.GetVTag (JsonMap.AddDepVTag jm w) = JsonMap.GetVTag jm) := by
  have hread : ∀ (j : JsonMap) (key : String) (val : GoValue),
      (JsonMap.GetMeta (JsonMap.setMeta j key val) false).2 =
        some (GoMap.set (JsonMap.metaOrNew j) key val) := fun j key val =>
    (JsonMap.GetMeta_false _).2.1 _ (JsonMap.setMeta_spec j key val).1
  refine ⟨(JsonMap.GetMeta_false jm).1, ?_, ?_, ?_, ?_, ?_, ?_⟩
  · intro hno
    have hm := (JsonMap.metaOrNew_eq jm).2 hno
    refine ⟨(JsonMap.GetMeta_false jm).2.2 hno, JsonMap.GetCostType_no_meta jm hno,
      JsonMap.GetVTag_no_meta jm hno, JsonMap.GetDepVTags_no_meta jm hno, ?_, ?_, ?_⟩
    · unfold JsonMap.SetCostType
      rw [hread, hm]
      rfl
    · unfold JsonMap.SetVTag
      rw [hread, hm]
      rfl
    · unfold JsonMap.AddDepVTag
      simp only [hread, hm]
      rfl
  · intro meta hmeta
    have hm := (JsonMap.metaOrNew_eq jm).1 meta hmeta
    refine ⟨?_, ?_, ?_, ?_, ?_, ?_⟩
    · unfold JsonMap.SetCostType
      rw [hread, hm]
      exact ⟨_, rfl⟩
    · unfold JsonMap.SetVTag
      rw [hread, hm]
      exact ⟨_, rfl⟩
    · unfold JsonMap.AddDepVTag
      simp only [hread, hm]
      exact ⟨_, rfl⟩
    · intro k x hk
      exact GoMap.get_set_ne _ _ _ _ (Ne.symm hk)
    · intro k x hk
      exact GoMap.get_set_ne _ _ _ _ (Ne.symm hk)
    · intro k x hk
      exact GoMap.get_set_ne _ _ _ _ (Ne.symm hk)
  · intro k hk
    exact ⟨(JsonMap.setMeta_spec jm _ _).2 k hk, (JsonMap.setMeta_spec jm _ _).2 k hk,
      (JsonMap.setMeta_spec jm _ _).2 k hk⟩
  · unfold JsonMap.SetVTag
    rw [(JsonMap.GetVTag_of_meta _ _ (JsonMap.setMeta_spec jm _ _).1).1 _
      (GoMap.get_set_self _ _ _)]
    simp [wdrlib.GetStringMember, GoMap.get, FN_RESOURCE_ID, FN_TAG]
  · unfold JsonMap.SetCostType
    rw [(JsonMap.GetCostType_of_meta _ _ (JsonMap.setMeta_spec jm _ _).1).1 _
      (GoMap.get_set_self _ _ _)]
    simp [wdrlib.GetStringMember, GoMap.get, FN_COST_METRIC, FN_COST_MODE]
  · refine ⟨JsonMap.GetCostType_setMeta_ne jm _ _ (by decide),
      JsonMap.GetCostType_setMeta_ne jm _ _ (by decide),
      JsonMap.GetVTag_setMeta_ne jm _ _ (by decide),
      JsonMap.GetVTag_setMeta_ne jm _ _ (by decide)⟩

end altomsgs

/-! ## Requests and the classification of replies -/

namespace altomsgs
namespace AltoConn

/-- The Accept values `addHeaders` leaves on the request. -/
theorem addHeaders_Accept (httpReq : http.Request) (accept : List String)
    (sendContentType : String) :
    (addHeaders httpReq accept sendContentType).Accept =
      httpReq.Accept ++ accept ++ (if MT_ERROR ∈ accept then [] else [MT_ERROR]) := by
  unfold addHeaders
  by_cases hm : MT_ERROR ∈ accept
  · have hc := (wdrlib.StrListContains_iff accept MT_ERROR).2 hm
    by_cases hs : sendContentType = "" <;> simp [hc, hm, hs]
  · have hc : wdrlib.StrListContains accept MT_ERROR = false := by
      rw [Bool.eq_false_iff]
      exact fun h => hm ((wdrlib.StrListContains_iff accept MT_ERROR).1 h)
    by_cases hs : sendContentType = "" <;> simp [hc, hm, hs]

/-- The bad-status test of `SendReq`. -/
theorem badStatus_iff (code : Int) :
    (!(decide (code ≥ 200) && decide (code ≤ 299))) = true ↔ ¬ (200 ≤ code ∧ code ≤ 299) := by
  simp only [ge_iff_le, Bool.not_and, Bool.or_eq_true, Bool.not_eq_true', decide_eq_false_iff_not,
    not_le, not_and]
  omega

/-- `SendReq` when the request is made and the client returns an error. -/
theorem SendReq_Do_error (env : Env) (c : AltoConn) (uri : String) (accept : List String)
    (req : Option AltoMsg) (r : http.Request) (err : Error)
    (method ct : String) (body : Option Body)
    (hm : method = match req with
      | none => http.MethodGet
      | some _ => http.MethodPost)
    (hct : ct = match req with
      | none => ""
      | some m => m.MediaType)
    (hbody : body = match req with
      | none => none
      | some m => some (WriteJson m))
    (hr : http.NewRequest env method uri body = .ok r)
    (hdo : env.Do (addHeaders r accept ct) = .error err) :
    (c.SendReq env uri accept req).2.OkResp = none ∧
    (c.SendReq env uri accept req).2.ErrorResp = none ∧
    (c.SendReq env uri accept req).2.Errors =
      [xerr "Error in http.client.Do()" method uri (some err)] := by
  subst hm hct hbody
  cases req with
  | none =>
    simp only at hr hdo
    simp [SendReq, hr, hdo, callErrHandler_eq]
  | some m =>
    simp only at hr hdo
    simp [SendReq, ToJsonBytes, Except.map, hr, hdo, callErrHandler_eq]

/-- `SendReq` when the request is made and the client returns a response: the
rest is `readResponse`. -/
theorem SendReq_Do_ok (env : Env) (c : AltoConn) (uri : String) (accept : List String)
    (req : Option AltoMsg) (r : http.Request) (resp : http.Response)
    (method ct : String) (body : Option Body)
    (hm : method = match req with
      | none => http.MethodGet
      | some _ => http.MethodPost)
    (hct : ct = match req with
      | none => ""
      | some m => m.MediaType)
    (hbody : body = match req with
      | none => none
      | some m => some (WriteJson m))
    (hr : http.NewRequest env method uri body = .ok r)
    (hdo : env.Do (addHeaders r accept ct) = .ok resp) :
    c.SendReq env uri accept req =
      c.setClient.readResponse env
        { OkResp := none, ErrorResp := none, Errors := [], URI := uri, Request := req,
          HaveResponse := false, ContentType := "", ContentLength := 0, Status := "",
          StatusCode := 0, RespTime := 0 } method uri resp := by
  subst hm hct hbody
  cases req with
  | none =>
    simp only at hr hdo
    simp [SendReq, hr, hdo]
  | some m =>
    simp only at hr hdo
    simp [SendReq, ToJsonBytes, Except.map, hr, hdo]

/-- The reply has a bad status and is not an ALTO error message: one error,
and the body is not read. -/
theorem readResponse_bad_status (env : Env) (c : AltoConn) (sr : ServerResp)
    (method uri : String) (resp : http.Response)
    (hs : ¬ (200 ≤ resp.StatusCode ∧ resp.StatusCode ≤ 299)) (hc : resp.ContentType ≠ MT_ERROR) :
    (c.readResponse env sr method uri resp).2.OkResp = sr.OkResp ∧
    (c.readResponse env sr method uri resp).2.ErrorResp = sr.ErrorResp ∧
    (c.readResponse env sr method uri resp).2.Errors = sr.Errors ++
      [xerr ("Server returned HTTP status code " ++ Itoa resp.StatusCode) method uri none] ∧
    ∀ b : Body, c.readResponse env sr method uri { resp with Body := b } =
      c.readResponse env sr method uri resp := by
  have hb := (badStatus_iff resp.StatusCode).2 hs
  unfold readResponse
  simp only [callErrHandler_eq, hb, hc, ne_eq, not_false_eq_true, and_self, if_true,
    List.length_nil, List.map_cons, List.map_nil]
  exact ⟨trivial, trivial, trivial, fun _ => trivial⟩

end AltoConn
end altomsgs

namespace altomsgs
namespace AltoConn

/-- `SendReq` when `http.NewRequest` fails. -/
theorem SendReq_NewRequest_error (env : Env) (c : AltoConn) (uri : String)
    (accept : List String) (req : Option AltoMsg) (err : Error)
    (hp : env.Parse uri = .error err) :
    (c.SendReq env uri accept req).2.OkResp = none ∧
    (c.SendReq env uri accept req).2.ErrorResp = none ∧
    (c.SendReq env uri accept req).2.Errors ≠ [] := by
  cases req with
  | none => simp [SendReq, http.NewRequest, hp, callErrHandler_eq]
  | some m => simp [SendReq, ToJsonBytes, Except.map, http.NewRequest, hp, callErrHandler_eq]

/-- The reply has no Content-Type. -/
theorem readResponse_no_content_type (env : Env) (c : AltoConn) (sr : ServerResp)
    (method uri : String) (resp : http.Response) (hc : resp.ContentType = "") :
    (c.readResponse env sr method uri resp).2.OkResp = sr.OkResp ∧
    (c.readResponse env sr method uri resp).2.ErrorResp = sr.ErrorResp ∧
    (c.readResponse env sr method uri resp).2.Errors ≠ [] := by
  have hne : ("" : String) ≠ MT_ERROR := by decide
  unfold readResponse
  simp only [callErrHandler_eq, hc, List.length_nil, if_true, List.map_cons, List.map_nil]
  by_cases hb : (!(decide (resp.StatusCode ≥ 200) && decide (resp.StatusCode ≤ 299))) = true
  · simp [hb, hne]
  · simp [hb]

/-- The reply is decoded: the status is good or the reply is an ALTO error
message, and there is a Content-Type. -/
theorem readResponse_decoded (env : Env) (c : AltoConn) (sr : ServerResp)
    (method uri : String) (resp : http.Response)
    (hgo : (200 ≤ resp.StatusCode ∧ resp.StatusCode ≤ 299) ∨ resp.ContentType = MT_ERROR)
    (hc : resp.ContentType ≠ "") :
    ((NewAltoMsg env.fmtG resp.ContentType ⟨resp.Body, 0⟩ (-1)).2.1 ≠ [] →
      (c.readResponse env sr method uri resp).2.OkResp = sr.OkResp ∧
      (c.readResponse env sr method uri resp).2.ErrorResp = sr.ErrorResp ∧
      (c.readResponse env sr method uri resp).2.Errors =
        sr.Errors ++ statusErrors method uri resp ++
          [xerr "Cannot decode server response" method uri none]) ∧
    ((NewAltoMsg env.fmtG resp.ContentType ⟨resp.Body, 0⟩ (-1)).2.1 = [] →
      (∀ vv, (NewAltoMsg env.fmtG resp.ContentType ⟨resp.Body, 0⟩ (-1)).1 =
          some (.errorResp vv) →
        (c.readResponse env sr method uri resp).2.OkResp = sr.OkResp ∧
        (c.readResponse env sr method uri resp).2.ErrorResp = some vv ∧
        (c.readResponse env sr method uri resp).2.Errors =
          sr.Errors ++ statusErrors method uri resp ++
            [xerr ("Server returned error response, code=" ++ vv.Code) method uri none]) ∧
      ((∀ vv, (NewAltoMsg env.fmtG resp.ContentType ⟨resp.Body, 0⟩ (-1)).1 ≠
          some (.errorResp vv)) →
        (c.readResponse env sr method uri resp).2.OkResp =
          (NewAltoMsg env.fmtG resp.ContentType ⟨resp.Body, 0⟩ (-1)).1 ∧
        (c.readResponse env sr method uri resp).2.ErrorResp = sr.ErrorResp ∧
        (c.readResponse env sr method uri resp).2.Errors =
          sr.Errors ++ statusErrors method uri resp)) := by
  have hifs : ¬ ((!(decide (resp.StatusCode ≥ 200) && decide (resp.StatusCode ≤ 299))) = true ∧
      resp.ContentType ≠ MT_ERROR) := by
    rintro ⟨hb, hne⟩
    rcases hgo with h | h
    · exact (badStatus_iff _).1 hb h
    · exact hne h
  have hst : (if (!(decide (resp.StatusCode ≥ 200) && decide (resp.StatusCode ≤ 299))) = true then
        sr.Errors ++
          [xerr ("Server returned HTTP status code " ++ Itoa resp.StatusCode) method uri none]
      else sr.Errors) = sr.Errors ++ statusErrors method uri resp := by
    unfold statusErrors
    by_cases h : 200 ≤ resp.StatusCode ∧ resp.StatusCode ≤ 299
    · have hb : ¬ (!(decide (resp.StatusCode ≥ 200) && decide (resp.StatusCode ≤ 299))) = true :=
        fun hb => (badStatus_iff _).1 hb h
      simp [hb, h]
    · have hb := (badStatus_iff _).2 h
      simp [hb, h]
  generalize hres : NewAltoMsg env.fmtG resp.ContentType ⟨resp.Body, 0⟩ (-1) = res
  have key : (c.readResponse env sr method uri resp).2 =
      (if res.2.1.length > 0 then
        { sr with
          RespTime := resp.RespTime, HaveResponse := true, Status := resp.Status,
          StatusCode := resp.StatusCode, ContentType := resp.ContentType,
          ContentLength := env.ParseInt resp.ContentLength,
          Errors := sr.Errors ++ statusErrors method uri resp ++
            [xerr "Cannot decode server response" method uri none] }
      else
        match res.1 with
        | some (.errorResp vv) =>
          { sr with
            RespTime := resp.RespTime, HaveResponse := true, Status := resp.Status,
            StatusCode := resp.StatusCode, ContentType := resp.ContentType,
            ContentLength := env.ParseInt resp.ContentLength,
            ErrorResp := some vv,
            Errors := sr.Errors ++ statusErrors method uri resp ++
              [xerr ("Server returned error response, code=" ++ vv.Code) method uri none] }
        | vv =>
          { sr with
            RespTime := resp.RespTime, HaveResponse := true, Status := resp.Status,
            StatusCode := resp.StatusCode, ContentType := resp.ContentType,
            ContentLength := env.ParseInt resp.ContentLength,
            OkResp := vv,
            Errors := sr.Errors ++ statusErrors method uri resp }) := by
    unfold readResponse
    simp only [callErrHandler_eq, List.length_nil, if_true, List.map_cons, List.map_nil]
    rw [if_neg hifs, if_neg hc]
    simp only [hres]
    have hst2 : ((if (!(decide (resp.StatusCode ≥ 200) && decide (resp.StatusCode ≤ 299))) = true
        then (c.offer
            [xerr ("Server returned HTTP status code " ++ Itoa resp.StatusCode) method uri none],
          sr.Errors ++
            [xerr ("Server returned HTTP status code " ++ Itoa resp.StatusCode) method uri none])
        else (c, sr.Errors)) : AltoConn × List Error).2 =
        sr.Errors ++ statusErrors method uri resp := by
      rw [← hst]
      split <;> rfl
    rw [hst2]
    by_cases hlen : res.2.1.length > 0
    · simp only [hlen, if_true]
    · simp only [hlen, if_false]
      cases h1 : res.1 with
      | none => rfl
      | some m => cases m <;> rfl
  rw [key]
  refine ⟨?_, ?_⟩
  · intro hne
    have hlen : res.2.1.length > 0 := List.length_pos.mpr hne
    simp only [hlen, if_true, and_self]
  · intro hnil
    have hlen : ¬ res.2.1.length > 0 := by rw [hnil]; simp
    simp only [hlen, if_false]
    refine ⟨?_, ?_⟩
    · intro vv hv
      simp only [hv, and_self]
    · intro hno
      cases h1 : res.1 with
      | none => simp only [and_self]
      | some m =>
        cases m with
        | errorResp vv => exact absurd h1 (hno vv)
        | _ => simp only [and_self]

end AltoConn
end altomsgs

namespace altomsgs
namespace AltoConn

/-- Whatever the reply, `readResponse` does not set both `OkResp` and
`ErrorResp` of a record that has neither. -/
theorem readResponse_not_both (env : Env) (c : AltoConn) (sr : ServerResp)
    (method uri : String) (resp : http.Response) (h1 : sr.OkResp = none)
    (h2 : sr.ErrorResp = none) :
    (c.readResponse env sr method uri resp).2.OkResp = none ∨
    (c.readResponse env sr method uri resp).2.ErrorResp = none := by
  by_cases hgo : (200 ≤ resp.StatusCode ∧ resp.StatusCode ≤ 299) ∨ resp.ContentType = MT_ERROR
  · by_cases hc : resp.ContentType = ""
    · exact .inl ((readResponse_no_content_type env c sr method uri resp hc).1.trans h1)
    · obtain ⟨hbad, hok⟩ := readResponse_decoded env c sr method uri resp hgo hc
      by_cases herr : (NewAltoMsg env.fmtG resp.ContentType ⟨resp.Body, 0⟩ (-1)).2.1 = []
      · by_cases hv : ∃ vv, (NewAltoMsg env.fmtG resp.ContentType ⟨resp.Body, 0⟩ (-1)).1 =
            some (.errorResp vv)
        · obtain ⟨vv, hvv⟩ := hv
          exact .inl (((hok herr).1 vv hvv).1.trans h1)
        · exact .inr (((hok herr).2 (fun vv hvv => hv ⟨vv, hvv⟩)).2.1.trans h2)
      · exact .inl ((hbad herr).1.trans h1)
  · have hs : ¬ (200 ≤ resp.StatusCode ∧ resp.StatusCode ≤ 299) := fun h => hgo (.inl h)
    have hc : resp.ContentType ≠ MT_ERROR := fun h => hgo (.inr h)
    exact .inl ((readResponse_bad_status env c sr method uri resp hs hc).1.trans h1)

end AltoConn

/-- C31: the Accept header of `SendReq`. For every accept list of the caller,
the Accept values added to a request are the caller's media types in order,
followed by `MT_ERROR` iff `MT_ERROR` does not occur among them: `MT_ERROR` is
always among the values, and as often as the caller listed it, once if not at
all. The request `http.NewRequest` makes has no Accept value, and the request
with the values so added is the one `SendReq` hands to the client, for a GET
and for a POST. -/
theorem C31_accept_header (env : Env) (c : AltoConn) (uri : String) (accept : List String)
    (httpReq : http.Request) (sendContentType : String) :
    (AltoConn.addHeaders httpReq accept sendContentType).Accept =
      httpReq.Accept ++ accept ++ (if MT_ERROR ∈ accept then [] else [MT_ERROR]) ∧
    MT_ERROR ∈ accept ++ (if MT_ERROR ∈ accept then [] else [MT_ERROR]) ∧
    (accept ++ (if MT_ERROR ∈ accept then [] else [MT_ERROR])).count MT_ERROR =
      max 1 (accept.count MT_ERROR) ∧
    (∀ method body r, http.NewRequest env method uri body = .ok r →
      r.Accept = [] ∧
      (AltoConn.addHeaders r accept sendContentType).Accept =
        accept ++ (if MT_ERROR ∈ accept then [] else [MT_ERROR])) ∧
    (∀ r resp, http.NewRequest env http.MethodGet uri none = .ok r →
      env.Do (AltoConn.addHeaders r accept "") = .ok resp →
      c.SendReq env uri accept none =
        c.setClient.readResponse env
          { OkResp := none, ErrorResp := none, Errors := [], URI := uri, Request := none,
            HaveResponse := false, ContentType := "", ContentLength := 0, Status := "",
            StatusCode := 0, RespTime := 0 } http.MethodGet uri resp) ∧
    (∀ m r resp, http.NewRequest env http.MethodPost uri (some (WriteJson m)) = .ok r →
      env.Do (AltoConn.addHeaders r accept m.MediaType) = .ok resp →
      c.SendReq env uri accept (some m) =
        c.setClient.readResponse env
          { OkResp := none, ErrorResp := none, Errors := [], URI := uri, Request := some m,
            HaveResponse := false, ContentType := "", ContentLength := 0, Status := "",
            StatusCode := 0, RespTime := 0 } http.MethodPost uri resp) := by
  refine ⟨AltoConn.addHeaders_Accept _ _ _, ?_, ?_, ?_, ?_, ?_⟩
  · by_cases hm : MT_ERROR ∈ accept <;> simp [hm]
  · by_cases hm : MT_ERROR ∈ accept
    · have hpos : 0 < accept.count MT_ERROR := List.count_pos_iff.mpr hm
      simp only [hm, if_true, List.append_nil]
      omega
    · have h0 : accept.count MT_ERROR = 0 := List.count_eq_zero.mpr hm
      simp [hm, h0]
  · intro method body r hr
    have hacc : r.Accept = [] := by
      unfold http.NewRequest at hr
      cases hp : env.Parse uri with
      | error e => rw [hp] at hr; cases hr
      | ok u =>
        rw [hp] at hr
        simp only [Except.ok.injEq] at hr
        rw [← hr]
    refine ⟨hacc, ?_⟩
    rw [AltoConn.addHeaders_Accept, hacc, List.nil_append]
  · intro r resp hr hdo
    exact AltoConn.SendReq_Do_ok env c uri accept none r resp _ _ _ rfl rfl rfl hr hdo
  · intro m r resp hr hdo
    exact AltoConn.SendReq_Do_ok env c uri accept (some m) r resp _ _ _ rfl rfl rfl hr hdo

/-- C32: the classification of the reply in `SendReq`. `OkResp` and
`ErrorResp` are never both set. When the request is made (`http.NewRequest`
succeeds): a transport error gives neither, and one error; a response with a
status outside 200-299 and a Content-Type other than `MT_ERROR` gives neither,
and the one error that names the status, whatever the body (it is not
decoded); otherwise, with a Content-Type, the body is decoded: a decode
failure gives neither, and an error; a decoded `ErrorResp` gives `ErrorResp`
set, `OkResp` nil and an error whose text contains the error code; any other
decoded message gives `OkResp` set and `ErrorResp` nil. -/
theorem C32_response_classification (env : Env) (c : AltoConn) (uri : String)
    (accept : List String) (req : Option AltoMsg) :
    ((c.SendReq env uri accept req).2.OkResp = none ∨
      (c.SendReq env uri accept req).2.ErrorResp = none) ∧
    (∀ r, http.NewRequest env (if req.isSome then http.MethodPost else http.MethodGet) uri
        (req.map WriteJson) = .ok r →
      (∀ err, env.Do (AltoConn.addHeaders r accept ((req.map AltoMsg.MediaType).getD "")) =
          .error err →
        (c.SendReq env uri accept req).2.OkResp = none ∧
        (c.SendReq env uri accept req).2.ErrorResp = none ∧
        (c.SendReq env uri accept req).2.Errors.length = 1) ∧
      (∀ resp, env.Do (AltoConn.addHeaders r accept ((req.map AltoMsg.MediaType).getD "")) =
          .ok resp →
        (¬ (200 ≤ resp.StatusCode ∧ resp.StatusCode ≤ 299) → resp.ContentType ≠ MT_ERROR →
          (c.SendReq env uri accept req).2.OkResp = none ∧
          (c.SendReq env uri accept req).2.ErrorResp = none ∧
          (c.SendReq env uri accept req).2.Errors =
            [AltoConn.xerr ("Server returned HTTP status code " ++ Itoa resp.StatusCode)
              (if req.isSome then http.MethodPost else http.MethodGet) uri none] ∧
          ∀ (c2 : AltoConn) (sr : ServerResp) (method : String) (b : Body),
            c2.readResponse env sr method uri { resp with Body := b } =
              c2.readResponse env sr method uri resp) ∧
        ((200 ≤ resp.StatusCode ∧ resp.StatusCode ≤ 299) ∨ resp.ContentType = MT_ERROR →
          resp.ContentType ≠ "" →
          ((NewAltoMsg env.fmtG resp.ContentType ⟨resp.Body, 0⟩ (-1)).2.1 ≠ [] →
            (c.SendReq env uri accept req).2.OkResp = none ∧
            (c.SendReq env uri accept req).2.ErrorResp = none ∧
            (c.SendReq env uri accept req).2.Errors ≠ []) ∧
          ((NewAltoMsg env.fmtG resp.ContentType ⟨resp.Body, 0⟩ (-1)).2.1 = [] →
            (∀ vv, (NewAltoMsg env.fmtG resp.ContentType ⟨resp.Body, 0⟩ (-1)).1 =
                some (.errorResp vv) →
              (c.SendReq env uri accept req).2.ErrorResp = some vv ∧
              (c.SendReq env uri accept req).2.OkResp = none ∧
              ∃ e ∈ (c.SendReq env uri accept req).2.Errors, ∃ pre post : String,
                e.Error = pre ++ vv.Code ++ post) ∧
            (∀ m, (NewAltoMsg env.fmtG resp.ContentType ⟨resp.Body, 0⟩ (-1)).1 = some m →
              (∀ vv, m ≠ .errorResp vv) →
              (c.SendReq env uri accept req).2.OkResp = some m ∧
              (c.SendReq env uri accept req).2.ErrorResp = none))))) := by
  have hE := fun r err => AltoConn.SendReq_Do_error env c uri accept req r err
    (if req.isSome then http.MethodPost else http.MethodGet)
    ((req.map AltoMsg.MediaType).getD "") (req.map WriteJson)
    (by cases req <;> rfl) (by cases req <;> rfl) (by cases req <;> rfl)
  have hO := fun r resp => AltoConn.SendReq_Do_ok env c uri accept req r resp
    (if req.isSome then http.MethodPost else http.MethodGet)
    ((req.map AltoMsg.MediaType).getD "") (req.map WriteJson)
    (by cases req <;> rfl) (by cases req <;> rfl) (by cases req <;> rfl)
  refine ⟨?_, ?_⟩
  · cases hp : http.NewRequest env (if req.isSome then http.MethodPost else http.MethodGet) uri
        (req.map WriteJson) with
    | error err =>
      have hpe : env.Parse uri = .error err := by
        unfold http.NewRequest at hp
        cases hq : env.Parse uri with
        | error e => rw [hq] at hp; simpa using hp
        | ok u => rw [hq] at hp; cases hp
      exact .inl (AltoConn.SendReq_NewRequest_error env c uri accept req err hpe).1
    | ok r =>
      cases hdo : env.Do (AltoConn.addHeaders r accept ((req.map AltoMsg.MediaType).getD "")) with
      | error err =>
        exact .inl (hE r err hp hdo).1
      | ok resp =>
        rw [hO r resp hp hdo]
        exact AltoConn.readResponse_not_both env _ _ _ _ resp rfl rfl
  · intro r hr
    refine ⟨?_, ?_⟩
    · intro err hdo
      obtain ⟨h1, h2, h3⟩ := hE r err hr hdo
      exact ⟨h1, h2, by rw [h3]; rfl⟩
    · intro resp hdo
      have hS := hO r resp hr hdo
      refine ⟨?_, ?_⟩
      · intro hs hc
        obtain ⟨h1, h2, h3, h4⟩ := AltoConn.readResponse_bad_status env c.setClient
          { OkResp := none, ErrorResp := none, Errors := [], URI := uri, Request := req,
            HaveResponse := false, ContentType := "", ContentLength := 0, Status := "",
            StatusCode := 0, RespTime := 0 }
          (if req.isSome then http.MethodPost else http.MethodGet) uri resp hs hc
        rw [hS]
        refine ⟨h1, h2, h3, ?_⟩
        intro c2 sr method b
        exact (AltoConn.readResponse_bad_status env c2 sr method uri resp hs hc).2.2.2 b
      · intro hgo hc
        obtain ⟨hbad, hok⟩ := AltoConn.readResponse_decoded env c.setClient
          { OkResp := none, ErrorResp := none, Errors := [], URI := uri, Request := req,
            HaveResponse := false, ContentType := "", ContentLength := 0, Status := "",
            StatusCode := 0, RespTime := 0 }
          (if req.isSome then http.MethodPost else http.MethodGet) uri resp hgo hc
        rw [hS]
        refine ⟨?_, ?_⟩
        · intro herr
          obtain ⟨h1, h2, h3⟩ := hbad herr
          refine ⟨h1, h2, ?_⟩
          rw [h3]
          simp
        · intro herr
          refine ⟨?_, ?_⟩
          · intro vv hvv
            obtain ⟨h1, h2, h3⟩ := (hok herr).1 vv hvv
            refine ⟨h2, h1, AltoConn.xerr ("Server returned error response, code=" ++ vv.Code)
              (if req.isSome then http.MethodPost else http.MethodGet) uri none, ?_,
              "Server returned error response, code=",
              ": method=" ++ (if req.isSome then http.MethodPost else http.MethodGet) ++
                " uri=\"" ++ uri ++ "\"", ?_⟩
            · rw [h3]
              exact List.mem_append_right _ (List.mem_singleton_self _)
            · simp only [AltoConn.xerr, Error.Error, String.append_assoc, String.append_empty]
          · intro m hmm hne
            obtain ⟨h1, h2, -⟩ := (hok herr).2 (fun vv hvv => hne vv (by
              rw [hmm] at hvv
              exact Option.some.inj hvv))
            exact ⟨h1.trans hmm, h2⟩

/-- C33: `Errors` is not empty when the server returns an ALTO error. For a
reply with status 400 that decodes to the error response E_SYNTAX, `SendReq`
returns `ErrorResp` set to it and two errors in `Errors`, one for the status
and one for the error response; with status 200, one error. The field comment
of `ServerResp` and the claim have `Errors` nil or of length 0. Whenever a
reply decodes to an ALTO error response, the last of `Errors` is the error
"Server returned error response, code=...". -/
theorem C33_Errors_with_error_response :
    (NewAltoConn.SendReq (exampleEnv errorServer) "http://alto.example.com/costmap"
      [MT_COST_MAP] none).2.ErrorResp = some (NewErrorResp "E_SYNTAX") ∧
    (NewAltoConn.SendReq (exampleEnv errorServer) "http://alto.example.com/costmap"
      [MT_COST_MAP] none).2.Errors =
      [.other ("Server returned HTTP status code 400: method=GET " ++
          "uri=\"http://alto.example.com/costmap\""),
       .other ("Server returned error response, code=E_SYNTAX: method=GET " ++
          "uri=\"http://alto.example.com/costmap\"")] ∧
    (NewAltoConn.SendReq (exampleEnv errorServer) "http://alto.example.com/costmap2"
      [MT_COST_MAP] none).2.ErrorResp = some (NewErrorResp "E_SYNTAX") ∧
    (NewAltoConn.SendReq (exampleEnv errorServer) "http://alto.example.com/costmap2"
      [MT_COST_MAP] none).2.Errors.length = 1 ∧
    (∀ (env : Env) (c : AltoConn) (sr : ServerResp) (method uri : String)
      (resp : http.Response) (vv : ErrorResp),
      ((200 ≤ resp.StatusCode ∧ resp.StatusCode ≤ 299) ∨ resp.ContentType = MT_ERROR) →
      resp.ContentType ≠ "" →
      (NewAltoMsg env.fmtG resp.ContentType ⟨resp.Body, 0⟩ (-1)).2.1 = [] →
      (NewAltoMsg env.fmtG resp.ContentType ⟨resp.Body, 0⟩ (-1)).1 = some (.errorResp vv) →
      (c.readResponse env sr method uri resp).2.ErrorResp = some vv ∧
      (c.readResponse env sr method uri resp).2.Errors.getLast? =
        some (AltoConn.xerr ("Server returned error response, code=" ++ vv.Code)
          method uri none)) := by
  refine ⟨by decide, by decide, by decide, by decide, ?_⟩
  intro env c sr method uri resp vv hgo hc herr hvv
  obtain ⟨h1, h2, h3⟩ := ((AltoConn.readResponse_decoded env c sr method uri resp hgo hc).2
    herr).1 vv hvv
  refine ⟨h2, ?_⟩
  rw [h3]
  simp

end altomsgs

/-! ## The normalized flag of an endpoint cost map -/

namespace altomsgs

/-- An address `CheckTypedAddr` returns is returned as it is. -/
theorem CheckTypedAddr_output_fixed (x y : String) (h : CheckTypedAddr x = (y, none)) :
    CheckTypedAddr y = (y, none) := by
  rcases CheckTypedAddr_cases x with ⟨h4, h6⟩ | ⟨p, r, hp, rfl⟩
  · rw [CheckTypedAddr_untyped x h4 h6] at h
    simp at h
  · rw [CheckTypedAddr_typed p r hp] at h
    cases hpi : net.ParseIP r with
    | none =>
      rw [hpi] at h
      simp at h
    | some ip =>
      rw [hpi] at h
      simp only [Prod.mk.injEq, and_true] at h
      subst h
      rw [CheckTypedAddr_typed p _ hp, net.ParseIP_String r ip hpi]

namespace EndpointCost

theorem normalizeDsts_keys (l : List (String × Cost)) : ∀ (acc : List (String × Cost))
    (errs : List Error), (∀ dst c, (dst, c) ∈ acc → CheckTypedAddr dst = (dst, none)) →
    ∀ dst c, (dst, c) ∈ (normalizeDsts l acc errs).1 → CheckTypedAddr dst = (dst, none) := by
  induction l with
  | nil => intro acc errs h; exact h
  | cons e rest ih =>
    intro acc errs h
    obtain ⟨d, cost⟩ := e
    cases hc : CheckTypedAddr d with
    | mk out err =>
      cases err with
      | some err =>
        simp only [normalizeDsts, hc]
        exact ih acc _ h
      | none =>
        simp only [normalizeDsts, hc]
        apply ih
        intro dst c hm
        rcases GoMap.mem_set _ _ _ _ hm with heq | hm
        · simp only [Prod.mk.injEq] at heq
          rw [heq.1]
          exact CheckTypedAddr_output_fixed d out hc
        · exact h dst c hm

theorem normalizeSrcs_keys (l : List (String × List (String × Cost))) :
    ∀ (acc : List (String × List (String × Cost))) (errs : List Error), KeysFixed acc →
    KeysFixed (normalizeSrcs l acc errs).1 := by
  induction l with
  | nil => intro acc errs h; exact h
  | cons e rest ih =>
    intro acc errs h
    obtain ⟨s, srccosts⟩ := e
    cases hc : CheckTypedAddr s with
    | mk out err =>
      cases err with
      | some err =>
        simp only [normalizeSrcs, hc]
        exact ih acc _ h
      | none =>
        simp only [normalizeSrcs, hc]
        apply ih
        intro src row hm
        rcases GoMap.mem_set _ _ _ _ hm with heq | hm
        · simp only [Prod.mk.injEq] at heq
          rw [heq.1, heq.2]
          refine ⟨CheckTypedAddr_output_fixed s out hc, ?_⟩
          exact normalizeDsts_keys srccosts [] errs (fun _ _ hx => absurd hx (List.not_mem_nil _))
        · exact h src row hm

theorem FlagInv_Normalize (e : EndpointCost) (h : FlagInv e) : FlagInv e.Normalize.1 := by
  unfold Normalize
  cases hn : e.normalized with
  | true =>
    simp only [Bool.true_eq_false, if_false]
    exact h
  | false =>
    simp only [if_true]
    intro _
    exact normalizeSrcs_keys e.costs [] [] (fun _ _ hx => absurd hx (List.not_mem_nil _))

theorem FlagInv_SetCost (e : EndpointCost) (s d : String) (c : Cost) :
    FlagInv (e.SetCost s d c) := by
  intro hn
  simp [SetCost] at hn

theorem FlagInv_foldl_SetCost (l : List (String × String × Cost)) : ∀ (e : EndpointCost),
    FlagInv e → FlagInv (l.foldl (fun acc p => acc.SetCost p.1 p.2.1 p.2.2) e) := by
  induction l with
  | nil => intro e h; exact h
  | cons p rest ih =>
    intro e _
    exact ih _ (FlagInv_SetCost e _ _ _)

theorem FlagInv_FromJsonMap (e : EndpointCost) (jm : JsonMap) (h : FlagInv e) :
    FlagInv (e.FromJsonMap jm).1 := by
  have h0 : FlagInv (e.SetCostType (JsonMap.GetCostType jm)) := h
  rw [EndpointCost_FromJsonMap_fold]
  cases hg : GoMap.get jm FN_ENDPOINT_COST_MAP with
  | none => exact h0
  | some v =>
    cases v with
    | map cm => exact FlagInv_foldl_SetCost _ _ h0
    | _ => exact h0

theorem FlagInv_apply (e : EndpointCost) (op : EndpointCostOp) (h : FlagInv e) :
    FlagInv (e.apply op) := by
  cases op with
  | setCostType ct => exact h
  | setCost s d c => exact FlagInv_SetCost e s d c
  | normalize => exact FlagInv_Normalize e h
  | fromJsonMap jm => exact FlagInv_FromJsonMap e jm h

theorem FlagInv_foldl (ops : List EndpointCostOp) : ∀ (e : EndpointCost), FlagInv e →
    FlagInv (ops.foldl apply e) := by
  induction ops with
  | nil => intro e h; exact h
  | cons op rest ih => intro e h; exact ih _ (FlagInv_apply e op h)

end EndpointCost

/-- C38: the normalized flag of `EndpointCost`. In every state that
`SetCost`, `SetCostType`, `Normalize` and `FromJsonMap` calls make of
`NewEndpointCost()`, `IsNormalized() == true` implies that every source key
and every destination key of the cost matrix is returned by `CheckTypedAddr`
as it is, with a nil error. In every state `IsNormalized()` is true after
`Normalize()` and false after `SetCost`, and `Normalize` leaves a state whose
flag is true as it is. -/
theorem C38_normalized_flag_invariant (ops : List EndpointCostOp) (e : EndpointCost)
    (s d : String) (c : Cost) :
    ((EndpointCost.build ops).IsNormalized = true →
      ∀ src row, (src, row) ∈ (EndpointCost.build ops).costs →
        CheckTypedAddr src = (src, none) ∧
        ∀ dst k, (dst, k) ∈ row → CheckTypedAddr dst = (dst, none)) ∧
    e.Normalize.1.IsNormalized = true ∧
    (e.SetCost s d c).IsNormalized = false ∧
    (e.IsNormalized = true → e.Normalize.1 = e) ∧
    (EndpointCost.build (ops ++ [.normalize])).IsNormalized = true ∧
    (EndpointCost.build (ops ++ [.setCost s d c])).IsNormalized = false := by
  have hn : ∀ x : EndpointCost, x.Normalize.1.IsNormalized = true := by
    intro x
    unfold EndpointCost.Normalize EndpointCost.IsNormalized
    cases h : x.normalized <;> simp [h]
  refine ⟨?_, hn e, rfl, ?_, ?_, ?_⟩
  · exact EndpointCost.FlagInv_foldl ops NewEndpointCost (fun h => by cases h)
  · intro h
    unfold EndpointCost.IsNormalized at h
    unfold EndpointCost.Normalize
    simp [h]
  · unfold EndpointCost.build
    rw [List.foldl_append]
    exact hn _
  · unfold EndpointCost.build
    rw [List.foldl_append]
    rfl

end altomsgs

/-! ## The list of mask lengths -/

namespace altomsgs
namespace NetworkMap

/-- A call of `AddCIDR` leaves the map as it is, or adds a new entry. -/
theorem AddCIDR_cases (m : NetworkMap) (pid t c : String) :
    (AddCIDR m pid t c).1 = m ∨
    ∃ n, net.ParseCIDR c = some n ∧ AddrTypeLen t = .ok n.IP.length ∧
      findAssigned ⟨pid, n, (net.IPMask.Size n.Mask).1⟩ (net.IPMask.Size n.Mask).1
        ((GoMap.get m.cidrsByLen (net.IPMask.Size n.Mask).1).getD []) = none := by
  cases hpc : net.ParseCIDR c with
  | none => rw [AddCIDR_parse_error m pid t c hpc]; exact .inl rfl
  | some n =>
    cases hat : AddrTypeLen t with
    | error e => rw [AddCIDR_type_error m pid t c n e hpc hat]; exact .inl rfl
    | ok l =>
      by_cases hl : l = n.IP.length
      swap
      · rw [AddCIDR_mismatch m pid t c n l hpc hat hl]; exact .inl rfl
      subst hl
      cases hf : findAssigned ⟨pid, n, (net.IPMask.Size n.Mask).1⟩ (net.IPMask.Size n.Mask).1
        ((GoMap.get m.cidrsByLen (net.IPMask.Size n.Mask).1).getD []) with
      | some x => rw [AddCIDR_found m pid t c n x hpc hat hf]; exact .inl rfl
      | none => exact .inr ⟨n, rfl, rfl, hf⟩

theorem LensInv_new : LensInv NewNetworkMap := by
  refine ⟨rfl, List.nodup_nil, ?_⟩
  intro e he
  exact absurd he (List.not_mem_nil _)

theorem LensInv_AddCIDR (m : NetworkMap) (h : LensInv m) (pid t c : String) :
    LensInv (AddCIDR m pid t c).1 := by
  rcases AddCIDR_cases m pid t c with heq | ⟨n, hpc, hat, hf⟩
  · rw [heq]; exact h
  · obtain ⟨-, -, hcb, hml, -, -⟩ := AddCIDR_new m pid t c n hpc hat hf
    obtain ⟨h1, h2, h3⟩ := h
    generalize (AddCIDR m pid t c).1 = m' at *
    generalize (net.IPMask.Size n.Mask).1 = k at *
    refine ⟨?_, ?_, ?_⟩
    · rw [hml]
      split
      · rfl
      · rename_i hsome
        have hk : k ∈ GoMap.keys m.cidrsByLen := by
          rw [GoMap.mem_keys_iff]
          cases hg : GoMap.get m.cidrsByLen k with
          | none => rw [hg] at hsome; exact absurd rfl hsome
          | some v => rfl
        rw [hcb, GoMap.keys_set, if_pos hk]
        exact h1
    · rw [hcb]
      exact GoMap.nodup_keys_set _ _ _ h2
    · intro e he
      rw [hcb] at he
      rcases GoMap.mem_set _ _ _ _ he with heq | hmem
      · rw [heq]
        refine ⟨by simp, ?_⟩
        intro ci hci
        rcases List.mem_append.mp hci with hold | hnew
        · cases hg : GoMap.get m.cidrsByLen k with
          | none =>
            rw [hg] at hold
            exact absurd hold (List.not_mem_nil _)
          | some arr =>
            rw [hg] at hold
            exact (h3 (k, arr) (GoMap.get_mem _ _ _ hg)).2 ci hold
        · rw [List.mem_singleton] at hnew
          rw [hnew]
      · exact h3 e hmem

theorem LensInv_addAll (ops : List (String × String × String)) : ∀ (m : NetworkMap),
    LensInv m → LensInv (addAll m ops) := by
  induction ops with
  | nil => intro m h; exact h
  | cons op rest ih =>
    intro m h
    exact ih _ (LensInv_AddCIDR m h _ _ _)

theorem LensInv_AddCIDRs (pid t : String) (cidrs : List String) : ∀ (m : NetworkMap),
    LensInv m → LensInv (AddCIDRs m pid t cidrs).1 := by
  induction cidrs with
  | nil => intro m h; exact h
  | cons c rest ih =>
    intro m h
    exact ih _ (LensInv_AddCIDR m h pid t c)

theorem LensInv_FromJsonMap (m : NetworkMap) (jm : JsonMap) (h : LensInv m) :
    LensInv (m.FromJsonMap jm).1 := by
  have h0 : LensInv (m.SetVTag (JsonMap.GetVTag jm)) := h
  rw [NetworkMap_FromJsonMap_fold]
  cases hg : GoMap.get jm FN_NETWORK_MAP with
  | none => exact h0
  | some v =>
    cases v with
    | map nm => exact LensInv_addAll _ _ h0
    | _ => exact h0

theorem LensInv_apply (m : NetworkMap) (op : NetworkMapOp) (h : LensInv m) :
    LensInv (m.apply op) := by
  cases op with
  | addCIDR pid t c => exact LensInv_AddCIDR m h pid t c
  | addCIDRs pid t cidrs => exact LensInv_AddCIDRs pid t cidrs m h
  | fromJsonMap jm => exact LensInv_FromJsonMap m jm h

theorem LensInv_foldl (ops : List NetworkMapOp) : ∀ (m : NetworkMap), LensInv m →
    LensInv (ops.foldl apply m) := by
  induction ops with
  | nil => intro m h; exact h
  | cons op rest ih => intro m h; exact ih _ (LensInv_apply m op h)

/-- The sorted list of distinct numbers is strictly descending. -/
theorem insertionSort_strict (l : List Nat) (h : l.Nodup) :
    (List.insertionSort (fun a b => a ≥ b) l).Pairwise (fun a b => a > b) := by
  have hs : (List.insertionSort (fun a b => a ≥ b) l).Pairwise (fun a b => a ≥ b) :=
    List.sorted_insertionSort _ _
  have hn : (List.insertionSort (fun a b => a ≥ b) l).Pairwise (fun a b => a ≠ b) :=
    (List.perm_insertionSort _ l).nodup_iff.mpr h
  refine (hs.and hn).imp ?_
  intro a b hab
  have h1 := hab.1
  have h2 := hab.2
  omega

end NetworkMap

/-- C36: the invariant of the list of mask lengths. In every state that
`AddCIDR`, `AddCIDRs` and `FromJsonMap` calls, failing ones included, make of
`NewNetworkMap()` (in the embedding also the zero value, whose nil maps
`makeFields` replaces by empty ones), `maskLengths` is strictly descending,
has no duplicates, and its elements are exactly the keys of `cidrsByLen`;
every bucket `cidrsByLen[k]` is non-empty and every entry of it has
`MaskLen == k`. -/
theorem C36_mask_length_invariant (ops : List NetworkMapOp) :
    (NetworkMap.run ops).maskLengths.Pairwise (fun a b => a > b) ∧
    (NetworkMap.run ops).maskLengths.Nodup ∧
    (∀ k, k ∈ (NetworkMap.run ops).maskLengths ↔
      (GoMap.get (NetworkMap.run ops).cidrsByLen k).isSome = true) ∧
    (NetworkMap.run ops).maskLengths.length = (NetworkMap.run ops).cidrsByLen.length ∧
    (GoMap.keys (NetworkMap.run ops).cidrsByLen).Nodup ∧
    (∀ k arr, GoMap.get (NetworkMap.run ops).cidrsByLen k = some arr →
      arr ≠ [] ∧ ∀ ci ∈ arr, ci.MaskLen = k) ∧
    (∀ k arr, (k, arr) ∈ (NetworkMap.run ops).cidrsByLen →
      arr ≠ [] ∧ ∀ ci ∈ arr, ci.MaskLen = k) := by
  obtain ⟨h1, h2, h3⟩ := NetworkMap.LensInv_foldl ops NewNetworkMap NetworkMap.LensInv_new
  unfold NetworkMap.run
  generalize ops.foldl NetworkMap.apply NewNetworkMap = m at *
  refine ⟨?_, ?_, ?_, ?_, h2, ?_, ?_⟩
  · rw [h1]
    exact NetworkMap.insertionSort_strict _ h2
  · rw [h1]
    exact (List.perm_insertionSort _ _).nodup_iff.mpr h2
  · intro k
    rw [h1, List.mem_insertionSort, GoMap.mem_keys_iff]
  · rw [h1, List.length_insertionSort]
    simp [GoMap.keys]
  · intro k arr hg
    exact h3 (k, arr) (GoMap.get_mem _ _ _ hg)
  · intro k arr hm
    exact h3 (k, arr) hm

end altomsgs

/-! ## Lookups after a call of `AddCIDR` -/

namespace altomsgs
namespace NetworkMap

theorem Inv_AddCIDRs (pid t : String) (cidrs : List String) : ∀ (m : NetworkMap),
    Inv m → Inv (AddCIDRs m pid t cidrs).1 := by
  induction cidrs with
  | nil => intro m h; exact h
  | cons c rest ih =>
    intro m h
    exact ih _ (Inv_AddCIDR m h pid t c)

theorem Inv_FromJsonMap (m : NetworkMap) (jm : JsonMap) (h : Inv m) :
    Inv (m.FromJsonMap jm).1 := by
  have h0 : Inv (m.SetVTag (JsonMap.GetVTag jm)) := ⟨h.lens, h.sorted, h.bucket, h.sync⟩
  rw [NetworkMap_FromJsonMap_fold]
  cases hg : GoMap.get jm FN_NETWORK_MAP with
  | none => exact h0
  | some v =>
    cases v with
    | map nm => exact Inv_addAll _ h0 _
    | _ => exact h0

theorem Inv_apply (m : NetworkMap) (op : NetworkMapOp) (h : Inv m) : Inv (m.apply op) := by
  cases op with
  | addCIDR pid t c => exact Inv_AddCIDR m h pid t c
  | addCIDRs pid t cidrs => exact Inv_AddCIDRs pid t cidrs m h
  | fromJsonMap jm => exact Inv_FromJsonMap m jm h

theorem Inv_foldl (ops : List NetworkMapOp) : ∀ (m : NetworkMap), Inv m →
    Inv (ops.foldl apply m) := by
  induction ops with
  | nil => intro m h; exact h
  | cons op rest ih => intro m h; exact ih _ (Inv_apply m op h)

theorem Inv_run (ops : List NetworkMapOp) : Inv (run ops) := Inv_foldl ops _ Inv_new

/-- The result of `IP2Pid` is the stored entry of greatest mask length that
contains the address. -/
theorem IP2Pid_of_max (m : NetworkMap) (hinv : Inv m) (a : net.IP) (ci : CIDRInfo)
    (hs : Stored m ci) (hc : ci.Ipnet.Contains a = true)
    (hmax : ∀ cj, Stored m cj → cj.Ipnet.Contains a = true → cj.MaskLen ≤ ci.MaskLen) :
    IP2Pid m a = (ci.Pid, ci.Ipnet, true) := by
  obtain ⟨h1, h2, -⟩ := IP2Pid_spec m hinv a
  obtain ⟨c0, hs0, hc0, heq, -, hmax0, huniq⟩ := h2 (h1.2 ⟨ci, hs, hc⟩)
  have hle1 := hmax c0 hs0 hc0
  have hle2 := hmax0 ci hs hc
  have : ci = c0 := huniq ci hs hc (by omega)
  rw [this]
  exact heq

/-- No stored entry contains the address: `IP2Pid` returns the zero values. -/
theorem IP2Pid_of_none (m : NetworkMap) (hinv : Inv m) (a : net.IP)
    (h : ∀ ci, Stored m ci → ci.Ipnet.Contains a = false) :
    IP2Pid m a = ("", ⟨[], []⟩, false) := by
  obtain ⟨h1, -, h3⟩ := IP2Pid_spec m hinv a
  apply h3
  cases hb : (IP2Pid m a).2.2 with
  | false => rfl
  | true =>
    obtain ⟨ci, hs, hc⟩ := h1.1 hb
    rw [h ci hs] at hc
    cases hc

/-- The entries stored after a call of `AddCIDR` that adds an entry. -/
theorem Stored_AddCIDR_new (m : NetworkMap) (pid t c : String) (n : net.IPNet)
    (h : net.ParseCIDR c = some n) (ht : AddrTypeLen t = .ok n.IP.length)
    (hf : findAssigned ⟨pid, n, (net.IPMask.Size n.Mask).1⟩ (net.IPMask.Size n.Mask).1
      ((GoMap.get m.cidrsByLen (net.IPMask.Size n.Mask).1).getD []) = none) (ci : CIDRInfo) :
    Stored (AddCIDR m pid t c).1 ci ↔
      (Stored m ci ∨ ci = ⟨pid, n, (net.IPMask.Size n.Mask).1⟩) := by
  obtain ⟨-, -, hcb, -, -, -⟩ := AddCIDR_new m pid t c n h ht hf
  generalize (AddCIDR m pid t c).1 = m' at *
  generalize (net.IPMask.Size n.Mask).1 = k at *
  have hget : ∀ k', GoMap.get m'.cidrsByLen k' =
      if k = k' then some ((GoMap.get m.cidrsByLen k).getD [] ++ [⟨pid, n, k⟩])
      else GoMap.get m.cidrsByLen k' := by
    intro k'
    rw [hcb]
    split
    · rename_i h; subst h; exact GoMap.get_set_self _ _ _
    · rename_i h; exact GoMap.get_set_ne _ _ _ _ h
  unfold Stored
  constructor
  · rintro ⟨k', arr, hg, hm⟩
    rw [hget k'] at hg
    by_cases hk : k = k'
    · rw [if_pos hk] at hg
      simp only [Option.some.injEq] at hg
      rw [← hg] at hm
      rcases List.mem_append.mp hm with hold | hnew
      · left
        cases hg0 : GoMap.get m.cidrsByLen k with
        | none =>
          rw [hg0] at hold
          exact absurd hold (List.not_mem_nil _)
        | some arr0 =>
          rw [hg0] at hold
          exact ⟨k, arr0, hg0, hold⟩
      · right
        exact List.mem_singleton.mp hnew
    · rw [if_neg hk] at hg
      exact .inl ⟨k', arr, hg, hm⟩
  · rintro (⟨k', arr, hg, hm⟩ | rfl)
    · by_cases hk : k = k'
      · subst hk
        refine ⟨k, _, (hget k).trans (if_pos rfl), ?_⟩
        rw [hg]
        exact List.mem_append_left _ hm
      · exact ⟨k', arr, (hget k').trans ((if_neg hk).trans hg), hm⟩
    · exact ⟨k, _, (hget k).trans (if_pos rfl), List.mem_append_right _ (List.mem_singleton_self _)⟩

/-- What a call of `AddCIDR` on a map with the invariant does to the result
of `IP2Pid` for one address. -/
theorem IP2Pid_AddCIDR (m : NetworkMap) (hinv : Inv m) (pid t c : String) (a : net.IP) :
    IP2Pid (AddCIDR m pid t c).1 a = IP2Pid m a ∨
    ∃ n, net.ParseCIDR c = some n ∧ n.Contains a = true ∧
      (AddCIDR m pid t c).2 = none ∧
      ¬ Stored m ⟨pid, n, (net.IPMask.Size n.Mask).1⟩ ∧
      Stored (AddCIDR m pid t c).1 ⟨pid, n, (net.IPMask.Size n.Mask).1⟩ ∧
      IP2Pid (AddCIDR m pid t c).1 a = (pid, n, true) ∧
      ((IP2Pid m a).2.2 = false ∨
        ((IP2Pid m a).2.2 = true ∧
          (net.IPMask.Size (IP2Pid m a).2.1.Mask).1 < (net.IPMask.Size n.Mask).1)) := by
  rcases AddCIDR_cases m pid t c with heq | ⟨n, hpc, hat, hf⟩
  · left; rw [heq]
  · have hinv' := Inv_AddCIDR m hinv pid t c
    have hst := Stored_AddCIDR_new m pid t c n hpc hat hf
    have herr := (AddCIDR_new m pid t c n hpc hat hf).1
    have hnot : ¬ Stored m ⟨pid, n, (net.IPMask.Size n.Mask).1⟩ := by
      intro hs
      rw [findAssigned_stored m hinv pid pid n hs] at hf
      cases hf
    generalize (AddCIDR m pid t c).1 = m' at *
    obtain ⟨h1, h2, h3⟩ := IP2Pid_spec m hinv a
    obtain ⟨h1', h2', h3'⟩ := IP2Pid_spec m' hinv' a
    by_cases hca : n.Contains a = true
    · have hnew : Stored m' ⟨pid, n, (net.IPMask.Size n.Mask).1⟩ := (hst _).2 (.inr rfl)
      obtain ⟨c1, hs1, hc1, heq1, -, hmax1, huniq1⟩ := h2' (h1'.2 ⟨_, hnew, hca⟩)
      rcases (hst c1).1 hs1 with hold | hisnew
      · left
        rw [heq1]
        exact (IP2Pid_of_max m hinv a c1 hold hc1
          (fun cj hsj hcj => hmax1 cj ((hst cj).2 (.inl hsj)) hcj)).symm
      · right
        refine ⟨n, hpc, hca, herr, hnot, hnew, ?_, ?_⟩
        · rw [heq1, hisnew]
        · cases hb : (IP2Pid m a).2.2 with
          | false => exact .inl rfl
          | true =>
            right
            refine ⟨rfl, ?_⟩
            obtain ⟨c0, hs0, hc0, heq0, hsz0, -, -⟩ := h2 hb
            have hle := hmax1 c0 ((hst c0).2 (.inl hs0)) hc0
            rw [heq0]
            show (net.IPMask.Size c0.Ipnet.Mask).1 < (net.IPMask.Size n.Mask).1
            rw [← hsz0]
            rw [hisnew] at hle
            have hne : c0.MaskLen ≠ (net.IPMask.Size n.Mask).1 := by
              intro he
              have := huniq1 c0 ((hst c0).2 (.inl hs0)) hc0 (by rw [hisnew]; exact he)
              rw [this, hisnew] at hs0
              exact hnot hs0
            simp only at hle
            omega
    · left
      have hfalse : n.Contains a = false := by
        cases hx : n.Contains a with
        | false => rfl
        | true => exact absurd hx hca
      cases hb : (IP2Pid m a).2.2 with
      | false =>
        rw [h3 hb]
        apply IP2Pid_of_none m' hinv'
        intro ci hs
        rcases (hst ci).1 hs with hold | hisnew
        · cases hx : ci.Ipnet.Contains a with
          | false => rfl
          | true =>
            have := h1.2 ⟨ci, hold, hx⟩
            rw [hb] at this
            cases this
        · rw [hisnew]
          exact hfalse
      | true =>
        obtain ⟨c0, hs0, hc0, heq0, -, hmax0, -⟩ := h2 hb
        rw [heq0]
        apply IP2Pid_of_max m' hinv' a c0 ((hst c0).2 (.inl hs0)) hc0
        intro cj hsj hcj
        rcases (hst cj).1 hsj with hold | hisnew
        · exact hmax0 cj hold hcj
        · rw [hisnew] at hcj
          rw [hfalse] at hcj
          cases hcj

end NetworkMap

/-- C39: `AddCIDR` does not disturb the lookups outside the network it is
given. For every map `m` that `AddCIDR`, `AddCIDRs` and `FromJsonMap` calls
make of `NewNetworkMap()`, every call `AddCIDR(pid, addrType, c)`, successful or
not, and every address `a`: when `c` is no CIDR, or `a` is not contained in
the network of `c`, `IP2Pid(a)` returns the same `(pid, cidr, ok)` after the
call as before; and when the result for `a` changes, the call succeeded, the
network of `c` contains `a`, it was not stored before and is stored now, the
new result is `(pid, network of c, true)`, and before the call either nothing
matched `a` or the match had a shorter mask. -/
theorem C39_AddCIDR_frame (ops : List NetworkMapOp) (pid addrType c : String) (a : net.IP) :
    ((∀ n, net.ParseCIDR c = some n → n.Contains a = false) →
      NetworkMap.IP2Pid ((NetworkMap.run ops).AddCIDR pid addrType c).1 a =
        NetworkMap.IP2Pid (NetworkMap.run ops) a) ∧
    (NetworkMap.IP2Pid ((NetworkMap.run ops).AddCIDR pid addrType c).1 a ≠
        NetworkMap.IP2Pid (NetworkMap.run ops) a →
      ∃ n, net.ParseCIDR c = some n ∧ n.Contains a = true ∧
        ((NetworkMap.run ops).AddCIDR pid addrType c).2 = none ∧
        ¬ NetworkMap.Stored (NetworkMap.run ops) ⟨pid, n, (net.IPMask.Size n.Mask).1⟩ ∧
        NetworkMap.Stored ((NetworkMap.run ops).AddCIDR pid addrType c).1
          ⟨pid, n, (net.IPMask.Size n.Mask).1⟩ ∧
        NetworkMap.IP2Pid ((NetworkMap.run ops).AddCIDR pid addrType c).1 a = (pid, n, true) ∧
        ((NetworkMap.IP2Pid (NetworkMap.run ops) a).2.2 = false ∨
          ((NetworkMap.IP2Pid (NetworkMap.run ops) a).2.2 = true ∧
            (net.IPMask.Size (NetworkMap.IP2Pid (NetworkMap.run ops) a).2.1.Mask).1 <
              (net.IPMask.Size n.Mask).1))) := by
  have h := NetworkMap.IP2Pid_AddCIDR (NetworkMap.run ops) (NetworkMap.Inv_run ops)
    pid addrType c a
  refine ⟨?_, ?_⟩
  · intro hout
    rcases h with h | ⟨n, hpc, hca, -⟩
    · exact h
    · rw [hout n hpc] at hca
      cases hca
  · intro hne
    rcases h with h | h
    · exact absurd h hne
    · exact h

end altomsgs

namespace altomsgs

/-- C37: the two indexes of a `NetworkMap` after an IPv4-mapped IPv6 CIDR.
Both calls `AddCIDR("P", "ipv4", "1.2.3.0/24")` and
`AddCIDR("P", "ipv6", "::ffff:1.2.3.0/120")` return nil. Afterwards `PidIter`
visits the pair ("P", "1.2.3.0/24") twice, under "ipv4" and under "ipv6", and
`CIDRIter` visits two entries whose pair is ("P", "1.2.3.0/24"): a pair is
visited twice, and the IPv4 text "1.2.3.0/24" is filed under "ipv6", where
`AddCIDR` itself refuses it. With the second call made for "Q", also with a
nil error, the text "1.2.3.0/24" is held by the two pids "P" and "Q". The
claim has no pair visited twice, each CIDR held by exactly one pid and each
text filed under the type of its family. -/
theorem C37_indexes_out_of_sync :
    (NewNetworkMap.AddCIDR "P" "ipv4" "1.2.3.0/24").2 = none ∧
    ((NewNetworkMap.AddCIDR "P" "ipv4" "1.2.3.0/24").1.AddCIDR "P" "ipv6"
      "::ffff:1.2.3.0/120").2 = none ∧
    (NetworkMap.PidIter
      (NetworkMap.addAll NewNetworkMap
        [("P", "ipv4", "1.2.3.0/24"), ("P", "ipv6", "::ffff:1.2.3.0/120")])
      (fun pid addrType cidr (st : List (String × String × String)) =>
        (true, st ++ [(pid, addrType, cidr)])) []).2 =
      [("P", "ipv4", "1.2.3.0/24"), ("P", "ipv6", "1.2.3.0/24")] ∧
    (NetworkMap.CIDRIter
      (NetworkMap.addAll NewNetworkMap
        [("P", "ipv4", "1.2.3.0/24"), ("P", "ipv6", "::ffff:1.2.3.0/120")])
      (fun ci (st : List (String × String × Nat)) =>
        (true, st ++ [(ci.Pid, net.IPNet.String ci.Ipnet, ci.MaskLen)])) []).2 =
      [("P", "1.2.3.0/24", 120), ("P", "1.2.3.0/24", 24)] ∧
    NetworkMap.pidPairs
      (NetworkMap.addAll NewNetworkMap
        [("P", "ipv4", "1.2.3.0/24"), ("P", "ipv6", "::ffff:1.2.3.0/120")]) =
      [("P", "1.2.3.0/24"), ("P", "1.2.3.0/24")] ∧
    NetworkMap.cidrPairs
      (NetworkMap.addAll NewNetworkMap
        [("P", "ipv4", "1.2.3.0/24"), ("P", "ipv6", "::ffff:1.2.3.0/120")]) =
      [("P", "1.2.3.0/24"), ("P", "1.2.3.0/24")] ∧
    (NewNetworkMap.AddCIDR "P" "ipv6" "1.2.3.0/24").2 =
      some (.CIDRError "1.2.3.0/24" "Not type ipv6") ∧
    ((NewNetworkMap.AddCIDR "P" "ipv4" "1.2.3.0/24").1.AddCIDR "Q" "ipv6"
      "::ffff:1.2.3.0/120").2 = none ∧
    NetworkMap.pidPairs
      (NetworkMap.addAll NewNetworkMap
        [("P", "ipv4", "1.2.3.0/24"), ("Q", "ipv6", "::ffff:1.2.3.0/120")]) =
      [("P", "1.2.3.0/24"), ("Q", "1.2.3.0/24")] ∧
    NetworkMap.cidrPairs
      (NetworkMap.addAll NewNetworkMap
        [("P", "ipv4", "1.2.3.0/24"), ("Q", "ipv6", "::ffff:1.2.3.0/120")]) =
      [("Q", "1.2.3.0/24"), ("P", "1.2.3.0/24")] := by
  refine ⟨by decide, by decide, by decide, by decide, by decide, by decide, by decide,
    by decide, by decide, by decide⟩

end altomsgs
